import Mathlib

/-!
# MBASIC 2025 string allocator and garbage collector

A shallow embedding of `runtime/strings/mb25_string.c` (with the declarations of
`mb25_string.h`) and theorems about it.

Modelling conventions

* Memory is one flat byte-addressed space `Nat → Nat`.  A C pointer is an address
  (a `Nat`); `NULL` is the address `0`.  The pool buffer handed to `mb25_init`, the
  string literals handed to `mb25_string_alloc_const` and the byte buffers handed to
  `mb25_string_assign` all live in this one memory, as they do in the C program.
* `uint16_t` and `uint32_t` counters wrap explicitly (`% 65536`, `% 4294967296`).
* `MB25_NUM_STRINGS`, a compile-time configuration macro, is the length of the
  descriptor array carried by the state.
* C loops are structural recursions; where a loop counter does not decrease
  structurally an explicit iteration budget is passed, large enough for the loop to
  reach its exit test (`shell_sort_perm` and `shell_sort_sorted` are about the
  functions as defined, budgets included).
-/

namespace MB25

/-! ## Types of `mb25_string.h` -/

/-- The constant `MB25_MAX_STRING_LEN`. -/
def MB25_MAX_STRING_LEN : Nat := 255

/-- The enumeration `mb25_error_t`. -/
inductive mb25_error_t where
  | MB25_SUCCESS
  | MB25_ERR_OUT_OF_MEMORY
  | MB25_ERR_STRING_TOO_LONG
  | MB25_ERR_INVALID_STR_ID
  | MB25_ERR_NULL_POINTER
  | MB25_ERR_POOL_CORRUPTED
  deriving DecidableEq, Repr

open mb25_error_t

/-- The descriptor `mb25_string_t`.  `data = 0` is the null pointer. -/
structure mb25_string_t where
  str_id : Nat
  is_const : Bool
  writeable : Bool
  len : Nat
  data : Nat
  deriving DecidableEq, Repr

/-- The record `mb25_globals_t`. -/
structure mb25_globals_t where
  pool_size : Nat
  allocator : Nat
  pool : Nat
  total_allocs : Nat
  total_gcs : Nat
  max_used : Nat
  deriving DecidableEq, Repr

/-- The whole machine state: the global record `mb25_global`, the descriptor array
`mb25_strings` and the byte memory. -/
structure State where
  mb25_global : mb25_globals_t
  mb25_strings : List mb25_string_t
  mem : Nat → Nat

/-- A zero-initialised descriptor (static storage before `mb25_init`). -/
def zero_string : mb25_string_t :=
  { str_id := 0, is_const := false, writeable := false, len := 0, data := 0 }

instance : Inhabited mb25_string_t := ⟨zero_string⟩

/-- The compile-time constant `MB25_NUM_STRINGS`: the size of the descriptor array. -/
def MB25_NUM_STRINGS (st : State) : Nat := st.mb25_strings.length

/-- The macro `MB25_VALID_ID(id)`. -/
def MB25_VALID_ID (st : State) (id : Nat) : Bool := decide (id < MB25_NUM_STRINGS st)

/-- The array access `mb25_strings[i]`. -/
def str_at (st : State) (i : Nat) : mb25_string_t := st.mb25_strings.getD i zero_string

/-- The array store `mb25_strings[i] = d`. -/
def set_str (st : State) (i : Nat) (d : mb25_string_t) : State :=
  { st with mb25_strings := st.mb25_strings.set i d }

/-! ## Memory primitives of the C library -/

/-- The library call `memmove(dst, src, n)`: every destination byte receives the source byte of
the memory as it was before the call. -/
def memmove (m : Nat → Nat) (dst src n : Nat) : Nat → Nat :=
  fun a => if dst ≤ a ∧ a < dst + n then m (src + (a - dst)) else m a

/-- The library call `memcpy(dst, src, n)`.  The C library defines it for a source and a
destination that do not overlap, and there it is the byte copy `memmove`.  The model copies as
`memmove` does in the overlapping case too, which C leaves undefined; a general statement
about the bytes a `memcpy` of the caller's input stores therefore assumes the two regions
apart. -/
def memcpy (m : Nat → Nat) (dst src n : Nat) : Nat → Nat := memmove m dst src n

/-- The search loop of `strlen`, scanning at most `budget` bytes from index `i`. -/
def strlen_from (m : Nat → Nat) (p : Nat) : Nat → Nat → Nat
  | 0, i => i
  | budget + 1, i => if m (p + i) = 0 then i else strlen_from m p budget (i + 1)

/-- The library call `strlen(p)`, cut off at 256: every caller only tests the result against
`MB25_MAX_STRING_LEN = 255` before using it, so a result of 256 stands for "longer than 255". -/
def strlen (m : Nat → Nat) (p : Nat) : Nat := strlen_from m p 256 0

/-- A byte-wise `memcmp(p, q, n)`: the difference of the first pair of bytes that differ,
`0` when there is none.  The C standard fixes only the sign of the result of `memcmp`, so
`mb25_string_compare` below takes the library function as a parameter; this one is the
textbook implementation, used to run it. -/
def memcmp_diff (m : Nat → Nat) (p q : Nat) : Nat → Int
  | 0 => 0
  | n + 1 => if m p ≠ m q then (m p : Int) - (m q : Int) else memcmp_diff m (p + 1) (q + 1) n

/-- The `n` bytes stored at address `p`. -/
def read_bytes (m : Nat → Nat) (p n : Nat) : List Nat := (List.range n).map (fun i => m (p + i))

/-- The bytes a descriptor denotes: `d.data[0 .. d.len)`. -/
def str_bytes (m : Nat → Nat) (d : mb25_string_t) : List Nat := read_bytes m d.data d.len

/-- The bytes read through descriptor slot `id` of a state. -/
def bytes_of (st : State) (id : Nat) : List Nat := str_bytes st.mem (str_at st id)

/-! ## Initialisation -/

/-- The descriptor loop of `mb25_init`: entry `i` gets `str_id = i` (a 14-bit field) and is
emptied. -/
def init_strings : Nat → Nat → List mb25_string_t
  | 0, _ => []
  | k + 1, i =>
    { str_id := i % 16384, is_const := false, writeable := false, len := 0, data := 0 }
      :: init_strings k (i + 1)

/-- The function `mb25_init(pool, pool_size)`. -/
def mb25_init (st : State) (pool pool_size : Nat) : mb25_error_t × State :=
  if pool = 0 ∨ pool_size < 256 then (MB25_ERR_OUT_OF_MEMORY, st)
  else
    (MB25_SUCCESS,
      { st with
        mb25_global :=
          { pool := pool, pool_size := pool_size, allocator := 0,
            total_allocs := 0, total_gcs := 0, max_used := 0 }
        mb25_strings := init_strings (MB25_NUM_STRINGS st) 0 })

/-- The function `mb25_reset()`. -/
def mb25_reset (st : State) : State :=
  { st with
    mb25_global := { st.mb25_global with allocator := 0 }
    mb25_strings := st.mb25_strings.map
      (fun d => { d with is_const := false, writeable := false, len := 0, data := 0 }) }

/-- The program state before `mb25_init`: `mb25_global = {0}`, a zero-initialised static
descriptor array of `n` entries, and the given memory contents. -/
def startup (n : Nat) (m : Nat → Nat) : State :=
  { mb25_global :=
      { pool_size := 0, allocator := 0, pool := 0, total_allocs := 0, total_gcs := 0,
        max_used := 0 }
    mb25_strings := List.replicate n zero_string
    mem := m }

/-! ## Garbage collection -/

/-- The comparator `data_ptr_less(a, b)`: true when `a` must come before `b`. -/
def data_ptr_less (a b : mb25_string_t) : Bool :=
  if a.data = 0 then false
  else if b.data = 0 then true
  else if a.is_const then false
  else if b.is_const then true
  else if a.data < b.data then true
  else if a.data > b.data then false
  else decide (a.len > b.len)

/-- The comparison `temp.str_id < mb25_strings[j - gap].str_id` of `sort_by_str_id`. -/
def str_id_less (a b : mb25_string_t) : Bool := decide (a.str_id < b.str_id)

/-- The innermost loop of the shell sort,
`for (j = i; j >= gap && less(temp, arr[j - gap]); j -= gap) arr[j] = arr[j - gap];`
returning the final `j` and the array. -/
def shift_loop (less : mb25_string_t → mb25_string_t → Bool) (gap : Nat) (temp : mb25_string_t) :
    Nat → Nat → List mb25_string_t → Nat × List mb25_string_t
  | 0, j, arr => (j, arr)
  | budget + 1, j, arr =>
    if gap ≤ j ∧ less temp (arr.getD (j - gap) zero_string) = true then
      shift_loop less gap temp budget (j - gap) (arr.set j (arr.getD (j - gap) zero_string))
    else (j, arr)

/-- One iteration of the middle loop: take `temp = arr[i]`, shift, store `temp` at `j`. -/
def insert_at (less : mb25_string_t → mb25_string_t → Bool) (gap i : Nat)
    (arr : List mb25_string_t) : List mb25_string_t :=
  let temp := arr.getD i zero_string
  let r := shift_loop less gap temp i i arr
  r.2.set r.1 temp

/-- The middle loop `for (i = gap; i < n; i++)`, as `count` iterations starting at `i`. -/
def gap_pass (less : mb25_string_t → mb25_string_t → Bool) (gap : Nat) :
    Nat → Nat → List mb25_string_t → List mb25_string_t
  | 0, _, arr => arr
  | count + 1, i, arr => gap_pass less gap count (i + 1) (insert_at less gap i arr)

/-- The outer loop `for (gap = n / 2; gap > 0; gap /= 2)`. -/
def gap_loop (less : mb25_string_t → mb25_string_t → Bool) (n : Nat) :
    Nat → Nat → List mb25_string_t → List mb25_string_t
  | 0, _, arr => arr
  | budget + 1, gap, arr =>
    if gap = 0 then arr
    else gap_loop less n budget (gap / 2) (gap_pass less gap (n - gap) gap arr)

/-- The shell sort shared by `sort_by_data_ptr` and `sort_by_str_id`; `n` is the `uint16_t`
copy of `MB25_NUM_STRINGS`. -/
def shell_sort (less : mb25_string_t → mb25_string_t → Bool) (arr : List mb25_string_t) :
    List mb25_string_t :=
  let n := arr.length % 65536
  gap_loop less n n (n / 2) arr

/-- The function `sort_by_data_ptr()`. -/
def sort_by_data_ptr (arr : List mb25_string_t) : List mb25_string_t :=
  shell_sort data_ptr_less arr

/-- The function `sort_by_str_id()`. -/
def sort_by_str_id (arr : List mb25_string_t) : List mb25_string_t :=
  shell_sort str_id_less arr

/-- The local variables of `compact_strings` together with the memory it moves bytes in. -/
structure compact_acc where
  new_allocator : Nat
  last_old_start : Nat
  last_old_end : Nat
  last_new_start : Nat
  mem : Nat → Nat

/-- The body of the loop of `compact_strings` for one descriptor. -/
def compact_step (pool pool_size : Nat) (acc : compact_acc) (str : mb25_string_t) :
    compact_acc × mb25_string_t :=
  if str.data = 0 ∨ str.is_const = true then (acc, str)
  else if pool ≤ str.data ∧ str.data < pool + pool_size then
    if acc.last_old_start ≠ 0 ∧ acc.last_old_end ≠ 0 ∧
        acc.last_old_start ≤ str.data ∧ str.data + str.len ≤ acc.last_old_end then
      let offset_in_parent := (str.data - acc.last_old_start) % 65536
      (acc, { str with data := acc.last_new_start + offset_in_parent })
    else
      let new_location := pool + acc.new_allocator
      ({ new_allocator := (acc.new_allocator + str.len) % 65536
         last_old_start := str.data
         last_old_end := str.data + str.len
         last_new_start := new_location
         mem := if str.data ≠ new_location then memmove acc.mem new_location str.data str.len
                else acc.mem },
       { str with data := new_location })
  else (acc, str)

/-- The loop of `compact_strings` over the descriptor array. -/
def compact_loop (pool pool_size : Nat) :
    compact_acc → List mb25_string_t → compact_acc × List mb25_string_t
  | acc, [] => (acc, [])
  | acc, str :: rest =>
    let r := compact_step pool pool_size acc str
    let r2 := compact_loop pool pool_size r.1 rest
    (r2.1, r.2 :: r2.2)

/-- The initial values of the local variables of `compact_strings`:
`new_allocator = 0`, `last_old_start = last_old_end = last_new_start = NULL`. -/
def compact_start (m : Nat → Nat) : compact_acc :=
  { new_allocator := 0, last_old_start := 0, last_old_end := 0, last_new_start := 0, mem := m }

/-- The function `compact_strings()`. -/
def compact_strings (st : State) : State :=
  let r := compact_loop st.mb25_global.pool st.mb25_global.pool_size (compact_start st.mem)
    st.mb25_strings
  { mb25_global := { st.mb25_global with allocator := r.1.new_allocator }
    mb25_strings := r.2
    mem := r.1.mem }

/-- The function `mb25_garbage_collect()`. -/
def mb25_garbage_collect (st : State) : State :=
  let st1 := { st with mb25_strings := sort_by_data_ptr st.mb25_strings }
  let st2 := compact_strings st1
  let st3 := { st2 with mb25_strings := sort_by_str_id st2.mb25_strings }
  { st3 with mb25_global :=
      { st3.mb25_global with total_gcs := (st3.mb25_global.total_gcs + 1) % 4294967296 } }

/-! ## Core allocation functions -/

/-- The function `mb25_string_clear(str_id)`. -/
def mb25_string_clear (st : State) (str_id : Nat) : State :=
  if MB25_VALID_ID st str_id then
    set_str st str_id
      { str_at st str_id with is_const := false, writeable := false, len := 0, data := 0 }
  else st

/-- The function `mb25_string_free(str_id)`. -/
def mb25_string_free (st : State) (str_id : Nat) : State :=
  if MB25_VALID_ID st str_id then
    set_str st str_id
      { str_at st str_id with is_const := false, writeable := false, len := 0, data := 0 }
  else st

/-- The function `mb25_string_alloc_const(str_id, cstr)`; `cstr` is the address of the
caller's NUL-terminated bytes. -/
def mb25_string_alloc_const (st : State) (str_id cstr : Nat) : mb25_error_t × State :=
  if ¬ MB25_VALID_ID st str_id then (MB25_ERR_INVALID_STR_ID, st)
  else if cstr = 0 then (MB25_ERR_NULL_POINTER, st)
  else
    let len := strlen st.mem cstr
    if len > MB25_MAX_STRING_LEN then (MB25_ERR_STRING_TOO_LONG, st)
    else
      (MB25_SUCCESS,
        set_str st str_id
          { str_at st str_id with is_const := true, writeable := false, len := len, data := cstr })

/-- The function `allocate_from_pool(str_id, size)`. -/
def allocate_from_pool (st : State) (str_id size : Nat) : mb25_error_t × State :=
  let g := st.mb25_global
  let available := (g.pool_size + 65536 - g.allocator) % 65536
  if available ≥ size then
    let allocator := (g.allocator + size) % 65536
    (MB25_SUCCESS,
      { st with
        mb25_strings :=
          st.mb25_strings.set str_id { str_at st str_id with data := g.pool + g.allocator }
        mb25_global :=
          { g with
            allocator := allocator
            total_allocs := (g.total_allocs + 1) % 4294967296
            max_used := if allocator > g.max_used then allocator else g.max_used } })
  else (MB25_ERR_OUT_OF_MEMORY, st)

/-- The tail of `mb25_string_alloc`: `str->is_const = 0; str->writeable = 1; str->len = 0`. -/
def alloc_setup (st : State) (str_id : Nat) : State :=
  set_str st str_id { str_at st str_id with is_const := false, writeable := true, len := 0 }

/-- The function `mb25_string_alloc(str_id, size)`. -/
def mb25_string_alloc (st : State) (str_id size : Nat) : mb25_error_t × State :=
  if ¬ MB25_VALID_ID st str_id then (MB25_ERR_INVALID_STR_ID, st)
  else if size > MB25_MAX_STRING_LEN then (MB25_ERR_STRING_TOO_LONG, st)
  else
    let r := allocate_from_pool st str_id size
    if r.1 ≠ MB25_SUCCESS then
      let st1 := mb25_garbage_collect st
      let r1 := allocate_from_pool st1 str_id size
      if r1.1 ≠ MB25_SUCCESS then (MB25_ERR_OUT_OF_MEMORY, r1.2)
      else (MB25_SUCCESS, alloc_setup r1.2 str_id)
    else (MB25_SUCCESS, alloc_setup r.2 str_id)

/-- The function `mb25_string_alloc_init(str_id, init_str)`. -/
def mb25_string_alloc_init (st : State) (str_id init_str : Nat) : mb25_error_t × State :=
  if init_str = 0 then (MB25_ERR_NULL_POINTER, st)
  else
    let len := strlen st.mem init_str
    if len > MB25_MAX_STRING_LEN then (MB25_ERR_STRING_TOO_LONG, st)
    else
      let r := mb25_string_alloc st str_id len
      if r.1 ≠ MB25_SUCCESS then r
      else
        let st1 := r.2
        let st2 := { st1 with mem := memcpy st1.mem (str_at st1 str_id).data init_str len }
        (MB25_SUCCESS, set_str st2 str_id { str_at st2 str_id with len := len })

/-- The function `mb25_from_c_string(str_id, c_str)`. -/
def mb25_from_c_string (st : State) (str_id c_str : Nat) : mb25_error_t × State :=
  if c_str = 0 then (MB25_SUCCESS, mb25_string_clear st str_id)
  else mb25_string_alloc_init st str_id c_str

/-! ## String operations -/

/-- The function `mark_immutable(str_id)`. -/
def mark_immutable (st : State) (str_id : Nat) : State :=
  if MB25_VALID_ID st str_id then
    set_str st str_id { str_at st str_id with writeable := false }
  else st

/-- The function `mb25_string_copy(dest_id, src_id)`. -/
def mb25_string_copy (st : State) (dest_id src_id : Nat) : mb25_error_t × State :=
  if ¬ MB25_VALID_ID st dest_id ∨ ¬ MB25_VALID_ID st src_id then (MB25_ERR_INVALID_STR_ID, st)
  else
    let dest := str_at st dest_id
    let src := str_at st src_id
    if src.data = 0 ∨ src.len = 0 then (MB25_SUCCESS, mb25_string_clear st dest_id)
    else if src.is_const then
      (MB25_SUCCESS,
        set_str st dest_id
          { dest with is_const := true, writeable := false, len := src.len, data := src.data })
    else if dest.writeable ∧ dest.data ≠ 0 then
      let st1 := { st with mem := memcpy st.mem dest.data src.data src.len }
      (MB25_SUCCESS, set_str st1 dest_id { str_at st1 dest_id with len := src.len })
    else
      let st1 := mark_immutable st src_id
      (MB25_SUCCESS,
        set_str st1 dest_id
          { str_at st1 dest_id with
            is_const := false, writeable := false,
            len := (str_at st1 src_id).len, data := (str_at st1 src_id).data })

/-- The function `mb25_string_assign(dest_id, data, len)`; `data` is the address of the
caller's bytes. -/
def mb25_string_assign (st : State) (dest_id data len : Nat) : mb25_error_t × State :=
  if ¬ MB25_VALID_ID st dest_id then (MB25_ERR_INVALID_STR_ID, st)
  else if data = 0 ∧ len > 0 then (MB25_ERR_NULL_POINTER, st)
  else
    let dest := str_at st dest_id
    if dest.writeable ∧ dest.data ≠ 0 then
      let st1 := { st with mem := memcpy st.mem dest.data data len }
      (MB25_SUCCESS, set_str st1 dest_id { str_at st1 dest_id with len := len })
    else
      let r := mb25_string_alloc st dest_id len
      if r.1 ≠ MB25_SUCCESS then r
      else
        let st1 := r.2
        let st2 := { st1 with mem := memcpy st1.mem (str_at st1 dest_id).data data len }
        (MB25_SUCCESS, set_str st2 dest_id { str_at st2 dest_id with len := len })

/-- The trimming loop of `mb25_string_set_from_buf`:
`while (len > 0 && buf[len - 1] == 0x20) len--;`. -/
def trim_len (m : Nat → Nat) (buf : Nat) : Nat → Nat
  | 0 => 0
  | len + 1 => if m (buf + len) = 32 then trim_len m buf len else len + 1

/-- The function `mb25_string_set_from_buf(dest_id, buf, width)`. -/
def mb25_string_set_from_buf (st : State) (dest_id buf width : Nat) : mb25_error_t × State :=
  if ¬ MB25_VALID_ID st dest_id then (MB25_ERR_INVALID_STR_ID, st)
  else if buf = 0 ∧ width > 0 then (MB25_ERR_NULL_POINTER, st)
  else mb25_string_assign st dest_id buf (trim_len st.mem buf width)

/-- The guarded copy `if (len > 0 && data != NULL) memcpy(dst, data, len);` of
`mb25_string_concat` and `mb25_string_dup`. -/
def guarded_memcpy (st : State) (dst src n : Nat) : State :=
  if n > 0 ∧ src ≠ 0 then { st with mem := memcpy st.mem dst src n } else st

/-- The function `mb25_string_concat(dest_id, str1_id, str2_id)`.  The descriptors `str1`,
`str2` and `dest` are pointers into the array, so their fields are read from the state current
at each use. -/
def mb25_string_concat (st : State) (dest_id str1_id str2_id : Nat) : mb25_error_t × State :=
  if ¬ MB25_VALID_ID st dest_id ∨ ¬ MB25_VALID_ID st str1_id ∨ ¬ MB25_VALID_ID st str2_id then
    (MB25_ERR_INVALID_STR_ID, st)
  else
    let total_len := ((str_at st str1_id).len + (str_at st str2_id).len) % 65536
    if total_len > MB25_MAX_STRING_LEN then (MB25_ERR_STRING_TOO_LONG, st)
    else
      let r := mb25_string_alloc st dest_id total_len
      if r.1 ≠ MB25_SUCCESS then r
      else
        let st1 := r.2
        let st2 := guarded_memcpy st1 (str_at st1 dest_id).data (str_at st1 str1_id).data
          (str_at st1 str1_id).len
        let st3 := guarded_memcpy st2 ((str_at st2 dest_id).data + (str_at st2 str1_id).len)
          (str_at st2 str2_id).data (str_at st2 str2_id).len
        (MB25_SUCCESS, set_str st3 dest_id { str_at st3 dest_id with len := total_len % 256 })

/-- The function `mb25_string_dup(dest_id, src_id)`. -/
def mb25_string_dup (st : State) (dest_id src_id : Nat) : mb25_error_t × State :=
  if ¬ MB25_VALID_ID st dest_id ∨ ¬ MB25_VALID_ID st src_id then (MB25_ERR_INVALID_STR_ID, st)
  else
    let r := mb25_string_alloc st dest_id (str_at st src_id).len
    if r.1 ≠ MB25_SUCCESS then r
    else
      let st1 := r.2
      let st2 := guarded_memcpy st1 (str_at st1 dest_id).data (str_at st1 src_id).data
        (str_at st1 src_id).len
      (MB25_SUCCESS, set_str st2 dest_id { str_at st2 dest_id with len := (str_at st2 src_id).len })

/-- The function `mb25_string_compare(str1_id, str2_id)`, over the library's `memcmp`. -/
def mb25_string_compare (memcmp : (Nat → Nat) → Nat → Nat → Nat → Int) (st : State)
    (str1_id str2_id : Nat) : Int :=
  if ¬ MB25_VALID_ID st str1_id ∨ ¬ MB25_VALID_ID st str2_id then 0
  else
    let str1 := str_at st str1_id
    let str2 := str_at st str2_id
    if str1.data = 0 ∨ str1.len = 0 then
      if str2.data = 0 ∨ str2.len = 0 then 0 else -1
    else if str2.data = 0 ∨ str2.len = 0 then 1
    else
      let min_len := if str1.len < str2.len then str1.len else str2.len
      let cmp := memcmp st.mem str1.data str2.data min_len
      if cmp ≠ 0 then cmp
      else if str1.len < str2.len then -1
      else if str1.len > str2.len then 1
      else 0

/-! ## Substring operations -/

/-- The function `mb25_string_left(dest_id, src_id, n)`.  The four stores through `dest` read
only fields of `src` that none of them changes, also when `dest` is `src`, and are made as one
store. -/
def mb25_string_left (st : State) (dest_id src_id n : Nat) : mb25_error_t × State :=
  if ¬ MB25_VALID_ID st dest_id ∨ ¬ MB25_VALID_ID st src_id then (MB25_ERR_INVALID_STR_ID, st)
  else
    let src := str_at st src_id
    if src.data = 0 ∨ src.len = 0 ∨ n = 0 then (MB25_SUCCESS, mb25_string_clear st dest_id)
    else
      let n := if n > src.len then src.len else n
      let st1 := mark_immutable st src_id
      (MB25_SUCCESS,
        set_str st1 dest_id
          { str_at st1 dest_id with
            is_const := (str_at st1 src_id).is_const, writeable := false, len := n,
            data := (str_at st1 src_id).data })

/-- The function `mb25_string_right(dest_id, src_id, n)`.  The store `dest->len = n` comes
before `dest->data = src->data + (src->len - n)`, which reads `src` from the array as it then
is. -/
def mb25_string_right (st : State) (dest_id src_id n : Nat) : mb25_error_t × State :=
  if ¬ MB25_VALID_ID st dest_id ∨ ¬ MB25_VALID_ID st src_id then (MB25_ERR_INVALID_STR_ID, st)
  else
    let src := str_at st src_id
    if src.data = 0 ∨ src.len = 0 ∨ n = 0 then (MB25_SUCCESS, mb25_string_clear st dest_id)
    else
      let n := if n > src.len then src.len else n
      let st1 := mark_immutable st src_id
      let st2 := set_str st1 dest_id
        { str_at st1 dest_id with
          is_const := (str_at st1 src_id).is_const, writeable := false, len := n }
      (MB25_SUCCESS,
        set_str st2 dest_id
          { str_at st2 dest_id with
            data := (str_at st2 src_id).data + ((str_at st2 src_id).len - n) })

/-- The function `mb25_string_mid(dest_id, src_id, start, length)`.  As in `mb25_string_left`
the stores through `dest` are made as one store. -/
def mb25_string_mid (st : State) (dest_id src_id start length : Nat) : mb25_error_t × State :=
  if ¬ MB25_VALID_ID st dest_id ∨ ¬ MB25_VALID_ID st src_id then (MB25_ERR_INVALID_STR_ID, st)
  else
    let src := str_at st src_id
    let start := if start > 0 then start - 1 else start
    if src.data = 0 ∨ src.len = 0 ∨ length = 0 ∨ start ≥ src.len then
      (MB25_SUCCESS, mb25_string_clear st dest_id)
    else
      let length := if start + length > src.len then src.len - start else length
      let st1 := mark_immutable st src_id
      (MB25_SUCCESS,
        set_str st1 dest_id
          { str_at st1 dest_id with
            is_const := (str_at st1 src_id).is_const, writeable := false, len := length,
            data := (str_at st1 src_id).data + start })

/-- The function `mb25_string_mid_assign(dest_id, start, data, len)`; `data` is the address
of the caller's bytes. -/
def mb25_string_mid_assign (st : State) (dest_id start data len : Nat) : mb25_error_t × State :=
  if ¬ MB25_VALID_ID st dest_id then (MB25_ERR_INVALID_STR_ID, st)
  else if data = 0 ∧ len > 0 then (MB25_ERR_NULL_POINTER, st)
  else
    let dest := str_at st dest_id
    let start := if start > 0 then start - 1 else start
    if start ≥ dest.len then (MB25_SUCCESS, st)
    else
      let replace_len := if start + len > dest.len then dest.len - start else len
      if ¬ dest.writeable then
        let orig_data := dest.data
        let orig_len := dest.len
        let r := mb25_string_alloc st dest_id orig_len
        if r.1 ≠ MB25_SUCCESS then r
        else
          let st1 := r.2
          let st2 := { st1 with mem := memcpy st1.mem (str_at st1 dest_id).data orig_data orig_len }
          let st3 := set_str st2 dest_id { str_at st2 dest_id with len := orig_len }
          (MB25_SUCCESS,
            { st3 with mem := memcpy st3.mem ((str_at st3 dest_id).data + start) data replace_len })
      else
        (MB25_SUCCESS,
          { st with mem := memcpy st.mem (dest.data + start) data replace_len })

/-! ## Access functions -/

/-- The function `mb25_get_data(str_id)`. -/
def mb25_get_data (st : State) (str_id : Nat) : Nat :=
  if MB25_VALID_ID st str_id then (str_at st str_id).data else 0

/-- The function `mb25_get_length(str_id)`. -/
def mb25_get_length (st : State) (str_id : Nat) : Nat :=
  if MB25_VALID_ID st str_id then (str_at st str_id).len else 0

/-- The function `mb25_is_empty(str_id)`. -/
def mb25_is_empty (st : State) (str_id : Nat) : Bool :=
  if MB25_VALID_ID st str_id then
    decide ((str_at st str_id).data = 0 ∨ (str_at st str_id).len = 0)
  else true

/-- The function `mb25_is_const(str_id)`. -/
def mb25_is_const (st : State) (str_id : Nat) : Bool :=
  if MB25_VALID_ID st str_id then (str_at st str_id).is_const else false

/-- The function `mb25_is_writeable(str_id)`. -/
def mb25_is_writeable (st : State) (str_id : Nat) : Bool :=
  if MB25_VALID_ID st str_id then (str_at st str_id).writeable else false

/-- The function `mb25_get_free_space()`. -/
def mb25_get_free_space (st : State) : Nat :=
  (st.mb25_global.pool_size + 65536 - st.mb25_global.allocator) % 65536

/-- The loop of `mb25_get_fragmentation` that adds up, in the `uint32_t` variable
`actual_used`, the lengths of the non-null, non-constant descriptors whose data pointer lies
in the pool buffer. -/
def actual_used (pool pool_size : Nat) : List mb25_string_t → Nat → Nat
  | [], acc => acc
  | str :: rest, acc =>
    if str.data ≠ 0 ∧ str.is_const = false ∧ str.data ≥ pool ∧ str.data < pool + pool_size then
      actual_used pool pool_size rest ((acc + str.len) % 4294967296)
    else actual_used pool pool_size rest acc

/-- The function `mb25_get_fragmentation()`: `fragmented` and the product are `uint32_t`
values, the result is cast to `uint8_t`. -/
def mb25_get_fragmentation (st : State) : Nat :=
  if st.mb25_global.pool_size = 0 then 0
  else
    let used := actual_used st.mb25_global.pool st.mb25_global.pool_size st.mb25_strings 0
    if st.mb25_global.allocator = 0 then 0
    else
      let fragmented := (st.mb25_global.allocator + 4294967296 - used) % 4294967296
      ((fragmented * 100) % 4294967296 / st.mb25_global.allocator) % 256

/-- The function `mb25_gc_needed()`. -/
def mb25_gc_needed (st : State) : Bool := decide (mb25_get_fragmentation st > 50)

/-- The function `mb25_get_c_string_temp(src_id, temp_id)`, returning the pointer and the new
state.  The result code of `mb25_string_alloc` is ignored, as in the source. -/
def mb25_get_c_string_temp (st : State) (src_id temp_id : Nat) : Nat × State :=
  if ¬ MB25_VALID_ID st src_id ∨ ¬ MB25_VALID_ID st temp_id then (0, st)
  else if (str_at st src_id).data = 0 ∨ (str_at st src_id).len = 0 then
    let st1 := (mb25_string_alloc st temp_id 1).2
    let data := mb25_get_data st1 temp_id
    if data ≠ 0 then (data, { st1 with mem := fun a => if a = data then 0 else st1.mem a })
    else (data, st1)
  else
    let st1 := (mb25_string_alloc st temp_id (((str_at st src_id).len + 1) % 65536)).2
    let data := mb25_get_data st1 temp_id
    if data ≠ 0 then
      let m1 := memcpy st1.mem data (str_at st1 src_id).data (str_at st1 src_id).len
      (data, { st1 with mem := fun a => if a = data + (str_at st1 src_id).len then 0 else m1 a })
    else (data, st1)

/-! ## Notions used to state the properties -/

/-- A list is in sorted order for `less` when no element is `less` than an earlier one. -/
def sorted_by (less : mb25_string_t → mb25_string_t → Bool) (l : List mb25_string_t) : Prop :=
  l.Pairwise (fun a b => less b a = false)

/-- The two properties of a comparator that insertion needs. -/
structure weak_order (less : mb25_string_t → mb25_string_t → Bool) : Prop where
  asymm : ∀ a b, less a b = true → less b a = false
  ntrans : ∀ a b c, less a b = false → less b c = false → less a c = false

/-- The test of `compact_strings` for a string it relocates: non-null, not constant and with its
data pointer inside the pool buffer. -/
def in_pool (pool pool_size : Nat) (d : mb25_string_t) : Bool :=
  decide (d.data ≠ 0) && !d.is_const && decide (pool ≤ d.data) &&
    decide (d.data < pool + pool_size)

/-- Address `b` lies in the window `[data, data + len)` of some pool string of `W`. -/
def live (pool pool_size : Nat) (W : List mb25_string_t) (b : Nat) : Bool :=
  W.any (fun d => in_pool pool pool_size d && decide (d.data ≤ b) && decide (b < d.data + d.len))

/-- The number of live addresses below `a`. -/
def live_below (pool pool_size : Nat) (W : List mb25_string_t) : Nat → Nat
  | 0 => 0
  | a + 1 => live_below pool pool_size W a + (if live pool pool_size W a then 1 else 0)

/-- The descriptor `compact_strings` turns `d` into when run on a supported array `W`: a pool
string slides down to the pool base plus the number of live bytes below it. -/
def relocate (pool pool_size : Nat) (W : List mb25_string_t) (d : mb25_string_t) :
    mb25_string_t :=
  if in_pool pool pool_size d then { d with data := pool + live_below pool pool_size W d.data }
  else d

/-- The topology of pool windows that `compact_strings` supports: any two pool strings are
either apart or both lie inside the window of one pool string of the array. -/
def gc_safe (pool pool_size : Nat) (W : List mb25_string_t) : Prop :=
  ∀ d ∈ W, ∀ e ∈ W, in_pool pool pool_size d = true → in_pool pool pool_size e = true →
    (d.data + d.len ≤ e.data ∨ e.data + e.len ≤ d.data) ∨
    ∃ r ∈ W, in_pool pool pool_size r = true ∧
      r.data ≤ d.data ∧ d.data + d.len ≤ r.data + r.len ∧
      r.data ≤ e.data ∧ e.data + e.len ≤ r.data + r.len

instance (pool pool_size : Nat) (W : List mb25_string_t) : Decidable (gc_safe pool pool_size W) := by
  unfold gc_safe; infer_instance

/-- The loop invariant of `compact_strings` after the descriptors `P` of the sorted array `S`
have been handled, `m0` being the memory before the loop. -/
structure compact_inv (pool pool_size : Nat) (S : List mb25_string_t) (m0 : Nat → Nat)
    (acc : compact_acc) (P : List mb25_string_t) : Prop where
  ends : ∀ q ∈ P, in_pool pool pool_size q = true → q.data + q.len ≤ acc.last_old_end
  alloc : acc.new_allocator = live_below pool pool_size S acc.last_old_end
  parent : acc.last_old_start ≠ 0 → ∃ p ∈ P, in_pool pool pool_size p = true ∧
    p.data = acc.last_old_start ∧ p.data + p.len = acc.last_old_end ∧
    acc.last_new_start = pool + live_below pool pool_size S acc.last_old_start
  none : acc.last_old_start = 0 → acc.last_old_end = 0
  moved : ∀ b, live pool pool_size S b = true → b < acc.last_old_end →
    acc.mem (pool + live_below pool pool_size S b) = m0 b
  above : ∀ a, pool + live_below pool pool_size S acc.last_old_end ≤ a → acc.mem a = m0 a
  below : ∀ a, a < pool → acc.mem a = m0 a

/-- A state the collector supports: the table and pool sizes fit their `uint16_t` fields,
the pool pointer is not null, the cursor is within the pool, every pool string lies inside the
allocated part of the pool, the pool windows have the supported topology, and the descriptors
are stored in increasing `str_id` order. -/
def supported (st : State) : Prop :=
  st.mb25_strings.length < 65536 ∧
  st.mb25_global.pool_size < 65536 ∧
  st.mb25_global.pool ≠ 0 ∧
  st.mb25_global.allocator ≤ st.mb25_global.pool_size ∧
  (∀ d ∈ st.mb25_strings, in_pool st.mb25_global.pool st.mb25_global.pool_size d = true →
      d.data + d.len ≤ st.mb25_global.pool + st.mb25_global.allocator) ∧
  gc_safe st.mb25_global.pool st.mb25_global.pool_size st.mb25_strings ∧
  st.mb25_strings.Pairwise (fun a b => a.str_id < b.str_id)

instance (st : State) : Decidable (supported st) := by
  unfold supported; infer_instance

/-- Every descriptor that is not a pool string (empty, constant, or pointing outside the pool
buffer) keeps its window outside the allocated part of the pool. -/
def apart_from_pool (st : State) : Prop :=
  ∀ d ∈ st.mb25_strings, in_pool st.mb25_global.pool st.mb25_global.pool_size d = false →
    d.data + d.len ≤ st.mb25_global.pool ∨
      st.mb25_global.pool + st.mb25_global.allocator ≤ d.data

instance (st : State) : Decidable (apart_from_pool st) := by
  unfold apart_from_pool; infer_instance

/-- The 0-based start position of `mb25_string_mid_assign`. -/
def start0 (start : Nat) : Nat := if start > 0 then start - 1 else start

/-- The number of bytes `mb25_string_mid_assign` replaces in a string of length `n`. -/
def replace_len (n start len : Nat) : Nat :=
  if start0 start + len > n then n - start0 start else len

/-- The state `st1` holds in slot `d` a view of what slot `s` held in `st`: nothing was
reserved or written (memory and the global record, cursor included, are unchanged), the window
of `d` lies inside the window `s` had, neither `s` nor `d` is writable, and `d` has the
constness of `s`. -/
def view_of (st st1 : State) (d s : Nat) : Prop :=
  st1.mem = st.mem ∧ st1.mb25_global = st.mb25_global ∧
  (str_at st s).data ≤ (str_at st1 d).data ∧
  (str_at st1 d).data + (str_at st1 d).len ≤ (str_at st s).data + (str_at st s).len ∧
  (str_at st1 s).writeable = false ∧ (str_at st1 d).writeable = false ∧
  (str_at st1 d).is_const = (str_at st s).is_const

/-- What `compact_strings` may change of a descriptor: only the data pointer, and only that
of a pool string. -/
def same_slot (pool pool_size : Nat) (a b : mb25_string_t) : Prop :=
  b.str_id = a.str_id ∧ b.len = a.len ∧ b.is_const = a.is_const ∧
    b.writeable = a.writeable ∧ (in_pool pool pool_size a = false → b.data = a.data)

/-- The strict lexicographic order on byte strings: the first differing byte decides, and a
proper prefix (the empty string in particular) precedes every longer string. -/
def lex_less : List Nat → List Nat → Bool
  | [], [] => false
  | [], _ :: _ => true
  | _ :: _, [] => false
  | a :: as, b :: bs => if a < b then true else if b < a then false else lex_less as bs

/-- What the C standard says of `memcmp`: the result is negative, zero or positive as the
first `n` bytes at `p` precede, equal or follow the first `n` bytes at `q`. -/
def memcmp_conforms (memcmp : (Nat → Nat) → Nat → Nat → Nat → Int) : Prop :=
  ∀ m p q n,
    (memcmp m p q n < 0 ↔ lex_less (read_bytes m p n) (read_bytes m q n) = true) ∧
    (memcmp m p q n = 0 ↔ read_bytes m p n = read_bytes m q n)

/-- Invariant 3 of the data model on a descriptor array: a constant descriptor is not
writable. -/
def flags_ok (W : List mb25_string_t) : Prop :=
  ∀ d ∈ W, d.is_const = true → d.writeable = false

/-- The result codes of argument validation: `MB25_ERR_INVALID_STR_ID`,
`MB25_ERR_NULL_POINTER` and `MB25_ERR_STRING_TOO_LONG`. -/
def validation_error (e : mb25_error_t) : Prop :=
  e = MB25_ERR_INVALID_STR_ID ∨ e = MB25_ERR_NULL_POINTER ∨ e = MB25_ERR_STRING_TOO_LONG

instance (e : mb25_error_t) : Decidable (validation_error e) := by
  unfold validation_error; infer_instance

/-- The windows `[data, data + len)` of two descriptors do not meet. -/
def windows_apart (d e : mb25_string_t) : Prop :=
  d.data + d.len ≤ e.data ∨ e.data + e.len ≤ d.data

instance (d e : mb25_string_t) : Decidable (windows_apart d e) := by
  unfold windows_apart; infer_instance

/-- The window of `c` lies inside the window of `p`. -/
def window_inside (c p : mb25_string_t) : Prop :=
  p.data ≤ c.data ∧ c.data + c.len ≤ p.data + p.len

instance (c p : mb25_string_t) : Decidable (window_inside c p) := by
  unfold window_inside; infer_instance

/-- Nested sharing: any two non-empty pool strings of the array are apart or one window
contains the other. -/
def nested_windows (pool pool_size : Nat) (W : List mb25_string_t) : Prop :=
  ∀ d ∈ W, ∀ e ∈ W, in_pool pool pool_size d = true → in_pool pool pool_size e = true →
    0 < d.len → 0 < e.len → windows_apart d e ∨ window_inside d e ∨ window_inside e d

instance (pool pool_size : Nat) (W : List mb25_string_t) :
    Decidable (nested_windows pool pool_size W) := by
  unfold nested_windows; infer_instance

/-- Nothing is shared: the windows of any two non-empty, non-null, non-constant descriptors
at different places of the array are apart. -/
def disjoint_windows (W : List mb25_string_t) : Prop :=
  W.Pairwise (fun d e => d.data ≠ 0 → d.is_const = false → 0 < d.len →
    e.data ≠ 0 → e.is_const = false → 0 < e.len → windows_apart d e)

instance (W : List mb25_string_t) : Decidable (disjoint_windows W) := by
  unfold disjoint_windows; infer_instance

/-- The sum of the lengths of the non-null, non-constant descriptors whose data pointer is
below `a`. -/
def pool_bytes_below (W : List mb25_string_t) (a : Nat) : Nat :=
  (W.map (fun d => if d.data ≠ 0 ∧ d.is_const = false ∧ d.data < a then d.len else 0)).sum

/-- The sum of the lengths of the non-null, non-constant descriptors. -/
def pool_bytes (W : List mb25_string_t) : Nat :=
  (W.map (fun d => if d.data ≠ 0 ∧ d.is_const = false then d.len else 0)).sum

/-- A descriptor with a null data pointer is empty and has both flags clear. -/
def null_ok (W : List mb25_string_t) : Prop :=
  ∀ d ∈ W, d.data = 0 → d.len = 0 ∧ d.is_const = false ∧ d.writeable = false

instance (W : List mb25_string_t) : Decidable (null_ok W) := by
  unfold null_ok; infer_instance

/-- The regions `[a, a + n)` and `[b, b + m)` do not meet: what the C library asks of the
source and the destination of `memcpy`. -/
def regions_apart (a n b m : Nat) : Prop := a + n ≤ b ∨ b + m ≤ a

instance (a n b m : Nat) : Decidable (regions_apart a n b m) := by
  unfold regions_apart; infer_instance

/-- The caller's bytes `[src, src + n)` stay where they are while `mb25_string_alloc` reserves
`n` bytes, and are apart from the region it reserves: either the request fits the free space
(no collection runs) and the bytes are apart from the `n` bytes at the cursor, or the pool
windows have the supported topology and the bytes lie outside the pool buffer. -/
def stable_source (st : State) (src n : Nat) : Prop :=
  (n ≤ mb25_get_free_space st ∧
    regions_apart src n (st.mb25_global.pool + st.mb25_global.allocator) n) ∨
  (gc_safe st.mb25_global.pool st.mb25_global.pool_size st.mb25_strings ∧
    (src + n ≤ st.mb25_global.pool ∨ st.mb25_global.pool + st.mb25_global.pool_size ≤ src))

instance (st : State) (src n : Nat) : Decidable (stable_source st src n) := by
  unfold stable_source; infer_instance

/-! ## Public operations and reachable states -/

/-- A call of one public state-changing operation of the engine, with its arguments. -/
inductive op where
  | init (pool pool_size : Nat)
  | reset
  | alloc_const (str_id cstr : Nat)
  | alloc (str_id size : Nat)
  | alloc_init (str_id init_str : Nat)
  | free (str_id : Nat)
  | clear (str_id : Nat)
  | from_c_string (str_id c_str : Nat)
  | copy (dest_id src_id : Nat)
  | assign (dest_id data len : Nat)
  | set_from_buf (dest_id buf width : Nat)
  | concat (dest_id str1_id str2_id : Nat)
  | dup (dest_id src_id : Nat)
  | left (dest_id src_id n : Nat)
  | right (dest_id src_id n : Nat)
  | mid (dest_id src_id start length : Nat)
  | mid_assign (dest_id start data len : Nat)
  | garbage_collect
  | get_c_string_temp (src_id temp_id : Nat)

/-- The state after a call. -/
def run_op (st : State) : op → State
  | .init pool pool_size => (mb25_init st pool pool_size).2
  | .reset => mb25_reset st
  | .alloc_const str_id cstr => (mb25_string_alloc_const st str_id cstr).2
  | .alloc str_id size => (mb25_string_alloc st str_id size).2
  | .alloc_init str_id init_str => (mb25_string_alloc_init st str_id init_str).2
  | .free str_id => mb25_string_free st str_id
  | .clear str_id => mb25_string_clear st str_id
  | .from_c_string str_id c_str => (mb25_from_c_string st str_id c_str).2
  | .copy dest_id src_id => (mb25_string_copy st dest_id src_id).2
  | .assign dest_id data len => (mb25_string_assign st dest_id data len).2
  | .set_from_buf dest_id buf width => (mb25_string_set_from_buf st dest_id buf width).2
  | .concat dest_id str1_id str2_id => (mb25_string_concat st dest_id str1_id str2_id).2
  | .dup dest_id src_id => (mb25_string_dup st dest_id src_id).2
  | .left dest_id src_id n => (mb25_string_left st dest_id src_id n).2
  | .right dest_id src_id n => (mb25_string_right st dest_id src_id n).2
  | .mid dest_id src_id start length => (mb25_string_mid st dest_id src_id start length).2
  | .mid_assign dest_id start data len => (mb25_string_mid_assign st dest_id start data len).2
  | .garbage_collect => mb25_garbage_collect st
  | .get_c_string_temp src_id temp_id => (mb25_get_c_string_temp st src_id temp_id).2

/-- The states reachable from a successful `mb25_init` by any sequence of public operations,
with any arguments. -/
inductive reachable : State → Prop where
  | start (st0 : State) (pool pool_size : Nat) :
      (mb25_init st0 pool pool_size).1 = MB25_SUCCESS →
      reachable (mb25_init st0 pool pool_size).2
  | step (st : State) (o : op) : reachable st → reachable (run_op st o)

/-- An allocation of `size` bytes does not fit the free space: `mb25_string_alloc` called with
a valid id and this size runs the collector. -/
def needs_gc (st : State) (size : Nat) : Prop := mb25_get_free_space st < size

instance (st : State) (size : Nat) : Decidable (needs_gc st size) := by
  unfold needs_gc; infer_instance

/-- The test `dest->writeable && dest->data` of `mb25_string_assign` and `mb25_string_copy`
for the branch that overwrites the buffer of slot `id` in place. -/
def in_place (st : State) (id : Nat) : Prop :=
  (str_at st id).writeable = true ∧ (str_at st id).data ≠ 0

instance (st : State) (id : Nat) : Decidable (in_place st id) := by
  unfold in_place; infer_instance

/-- Writing `n` bytes at the data pointer of slot `id` stays within the storage of that slot:
the new string is not longer than the one it replaces, or the bytes written end at or before
the cursor and meet the window of no other non-empty descriptor. -/
def fits_in_place (st : State) (id n : Nat) : Prop :=
  n ≤ (str_at st id).len ∨
    ((str_at st id).data + n ≤ st.mb25_global.pool + st.mb25_global.allocator ∧
      ∀ e ∈ st.mb25_strings, e.str_id ≠ (str_at st id).str_id → 0 < e.len →
        e.data + e.len ≤ (str_at st id).data ∨ (str_at st id).data + n ≤ e.data)

instance (st : State) (id n : Nat) : Decidable (fits_in_place st id n) := by
  unfold fits_in_place; infer_instance

/-- The pool windows of the state have the topology `compact_strings` supports. -/
def safe_topology (st : State) : Prop :=
  gc_safe st.mb25_global.pool st.mb25_global.pool_size st.mb25_strings

instance (st : State) : Decidable (safe_topology st) := by
  unfold safe_topology; infer_instance

/-- The caller-side conditions under which a call is within the supported use of the engine:
a call that runs the collector (`garbage_collect`, or an operation whose allocation does not
fit the free space) is made with the pool windows in the supported topology; an overwrite in
place (`assign`, `set_from_buf`, `copy` on a writable destination with a buffer) stays within
the storage of its slot; a literal handed to `alloc_const` lies outside the pool buffer; and
`init` gets a `uint16_t` size.  The other calls carry no condition. -/
def op_guard (st : State) (o : op) : Prop :=
  match o with
  | .init _ pool_size => pool_size < 65536
  | .alloc_const _ cstr =>
      cstr + strlen st.mem cstr ≤ st.mb25_global.pool ∨
        st.mb25_global.pool + st.mb25_global.pool_size ≤ cstr
  | .alloc _ size => needs_gc st size → safe_topology st
  | .alloc_init _ init_str => needs_gc st (strlen st.mem init_str) → safe_topology st
  | .from_c_string _ c_str => needs_gc st (strlen st.mem c_str) → safe_topology st
  | .assign dest_id _ len =>
      (in_place st dest_id → fits_in_place st dest_id len) ∧
        (¬ in_place st dest_id → needs_gc st len → safe_topology st)
  | .set_from_buf dest_id buf width =>
      (in_place st dest_id → fits_in_place st dest_id (trim_len st.mem buf width)) ∧
        (¬ in_place st dest_id → needs_gc st (trim_len st.mem buf width) → safe_topology st)
  | .copy dest_id src_id =>
      in_place st dest_id → fits_in_place st dest_id (str_at st src_id).len
  | .concat _ str1_id str2_id =>
      needs_gc st (((str_at st str1_id).len + (str_at st str2_id).len) % 65536) →
        safe_topology st
  | .dup _ src_id => needs_gc st (str_at st src_id).len → safe_topology st
  | .mid_assign dest_id _ _ _ =>
      (str_at st dest_id).writeable = false → needs_gc st (str_at st dest_id).len →
        safe_topology st
  | .garbage_collect => safe_topology st
  | .get_c_string_temp src_id _ =>
      needs_gc st (((str_at st src_id).len + 1) % 65536) → safe_topology st
  | _ => True

instance (st : State) (o : op) : Decidable (op_guard st o) := by
  unfold op_guard
  cases o <;> infer_instance

/-- The states reachable from a successful `mb25_init` (with a table and a pool size that fit
their `uint16_t` counters) by public operations called within `op_guard`, with any
arguments otherwise. -/
inductive reach : State → Prop where
  | start (st0 : State) (pool pool_size : Nat) :
      st0.mb25_strings.length ≤ 16384 → pool_size < 65536 →
      (mb25_init st0 pool pool_size).1 = MB25_SUCCESS →
      reach (mb25_init st0 pool pool_size).2
  | step (st : State) (o : op) : reach st → op_guard st o → reach (run_op st o)

/-- A well-formed descriptor: a null descriptor is empty; a writable one is a non-null pool
string; a constant one has its window outside the pool buffer; a non-null non-constant one
starts at or after the pool base, ends at or before the cursor when it starts inside the pool
buffer, and is empty when it starts at the end of the buffer. -/
def ok_string (g : mb25_globals_t) (d : mb25_string_t) : Prop :=
  (d.data = 0 → d.len = 0) ∧
  (d.writeable = true → d.is_const = false ∧ d.data ≠ 0) ∧
  (d.is_const = true → d.data + d.len ≤ g.pool ∨ g.pool + g.pool_size ≤ d.data) ∧
  (d.is_const = false → d.data ≠ 0 →
    g.pool ≤ d.data ∧
      (d.data < g.pool + g.pool_size → d.data + d.len ≤ g.pool + g.allocator) ∧
      (g.pool + g.pool_size ≤ d.data → d.len = 0))

/-- The pointer-level invariant of the engine: the table fits the 14-bit `str_id` field and
the pool size its `uint16_t` field, the cursor is within
the pool, descriptors are in increasing `str_id` order and well formed, and the window of a
non-empty writable descriptor is apart from the window of every other non-empty descriptor. -/
structure well_formed (g : mb25_globals_t) (W : List mb25_string_t) : Prop where
  table : W.length ≤ 16384
  size : g.pool_size < 65536
  pool : g.pool ≠ 0
  cursor : g.allocator ≤ g.pool_size
  ids : W.Pairwise (fun a b => a.str_id < b.str_id)
  each : ∀ d ∈ W, ok_string g d
  excl : ∀ d ∈ W, ∀ e ∈ W, d.str_id ≠ e.str_id → d.writeable = true → 0 < d.len →
    0 < e.len → d.data + d.len ≤ e.data ∨ e.data + e.len ≤ d.data

/-- The invariant as a property of a state. -/
def wf (st : State) : Prop := well_formed st.mb25_global st.mb25_strings

/-- Slot `id` holds a freshly allocated region of `size` bytes: writable, empty, ending at the
cursor, with every other non-empty pool string ending at or before its start. -/
def fresh (st : State) (id size : Nat) : Prop :=
  id < st.mb25_strings.length ∧
  (str_at st id).writeable = true ∧ (str_at st id).is_const = false ∧
  (str_at st id).len = 0 ∧
  (str_at st id).data + size = st.mb25_global.pool + st.mb25_global.allocator ∧
  st.mb25_global.pool ≤ (str_at st id).data ∧
  ∀ e ∈ st.mb25_strings, e.str_id ≠ (str_at st id).str_id → 0 < e.len → e.is_const = false →
    e.data + e.len ≤ (str_at st id).data


/-- The descriptor `mb25_string_alloc` leaves in its slot: the old `str_id`, a new data
pointer, `is_const = 0`, `writeable = 1`, `len = 0`. -/
def fresh_string (d : mb25_string_t) (p : Nat) : mb25_string_t :=
  { str_id := d.str_id, is_const := false, writeable := true, len := 0, data := p }


/-! ## Concrete programs

A memory image holding NUL-terminated literals at low addresses and a pool buffer of 256 bytes
at address 1000, and the states a few short programs reach from `mb25_init` with a table of ten
descriptors (the table size of the repository's test programs). -/

/-- The literal bytes at addresses `0 .. 68`: `"AB"` at 1, `"CD"` at 4, `"XY"` at 7, `"A"` at 10,
`"B"` at 12, `"Z"` at 14, `"ABCDEFGH"` at 16, `"12345678"` at 25, `"WXYZ"` at 34, `""` at 39,
`"ABCDEFGHIJKLMNOP"` at 40, `"XYZ"` at 57, `"111"` at 61, `"222"` at 65. -/
def demo_literals : List Nat :=
  [0, 65, 66, 0, 67, 68, 0, 88, 89, 0, 65, 0, 66, 0, 90, 0,
   65, 66, 67, 68, 69, 70, 71, 72, 0, 49, 50, 51, 52, 53, 54, 55, 56, 0,
   87, 88, 89, 90, 0, 0,
   65, 66, 67, 68, 69, 70, 71, 72, 73, 74, 75, 76, 77, 78, 79, 80, 0,
   88, 89, 90, 0, 49, 49, 49, 0, 50, 50, 50, 0]

/-- The memory image: the literals, then at `100 .. 354` a literal of 255 bytes `x` (NUL at
355), zero elsewhere (in particular in the pool buffer `1000 .. 1255`). -/
def demo_mem : Nat → Nat :=
  fun a => if a < 100 then demo_literals.getD a 0 else if a < 355 then 120 else 0

/-- The state after `mb25_init(pool = 1000, pool_size = 256)` with ten descriptors. -/
def demo_init : State := (mb25_init (startup 10 demo_mem) 1000 256).2

/-- After `alloc_init(0, "AB"); alloc_init(1, "CD")`. -/
def two_strings : State :=
  (mb25_string_alloc_init (mb25_string_alloc_init demo_init 0 1).2 1 4).2

/-- After `alloc_init(0, "ABCDEFGH")`. -/
def one_string : State := (mb25_string_alloc_init demo_init 0 16).2

/-- After `alloc(0, 2); free(0); alloc_init(1, "ABCDEFGH"); alloc_init(4, "12345678");
alloc(5, 238); free(5); left(2, 1, 8)`: the pool is full, slot 2 is a view of slot 1. -/
def full_pool_view : State :=
  let s1 := (mb25_string_alloc demo_init 0 2).2
  let s2 := mb25_string_free s1 0
  let s3 := (mb25_string_alloc_init s2 1 16).2
  let s4 := (mb25_string_alloc_init s3 4 25).2
  let s5 := (mb25_string_alloc s4 5 238).2
  let s6 := mb25_string_free s5 5
  (mb25_string_left s6 2 1 8).2

/-- After `alloc_init(0, "A"); alloc_init(1, "B")`. -/
def two_letters : State :=
  (mb25_string_alloc_init (mb25_string_alloc_init demo_init 0 10).2 1 12).2

/-- After `alloc_init(0, "ABCDEFGH"); left(1, 0, 6); right(2, 0, 6); alloc_init(3, "WXYZ");
free(0)`: two views that overlap without nesting, their parent gone. -/
def overlap_state : State :=
  let s1 := (mb25_string_alloc_init demo_init 0 16).2
  let s2 := (mb25_string_left s1 1 0 6).2
  let s3 := (mb25_string_right s2 2 0 6).2
  let s4 := (mb25_string_alloc_init s3 3 34).2
  mb25_string_free s4 0

/-- After `alloc_init(0, "ABCDEFGHIJKLMNOP"); left(1, 0, 4); mid(2, 0, 5, 4); right(3, 0, 4);
alloc_init(4, "XYZ"); alloc_init(5, "111"); alloc_init(6, "222"); free(5)`, the program of
`test_sharing_gc.c`. -/
def sharing_state : State :=
  let s1 := (mb25_string_alloc_init demo_init 0 40).2
  let s2 := (mb25_string_left s1 1 0 4).2
  let s3 := (mb25_string_mid s2 2 0 5 4).2
  let s4 := (mb25_string_right s3 3 0 4).2
  let s5 := (mb25_string_alloc_init s4 4 57).2
  let s6 := (mb25_string_alloc_init s5 5 61).2
  let s7 := (mb25_string_alloc_init s6 6 65).2
  mb25_string_free s7 5

/-- After `alloc_init(0, x^255); left(1, 0, 253); mid(2, 0, 2, 253); right(3, 0, 253);
free(0)`: three views of 253 bytes at offsets 0, 1 and 2. -/
def three_views : State :=
  let s1 := (mb25_string_alloc_init demo_init 0 100).2
  let s2 := (mb25_string_left s1 1 0 253).2
  let s3 := (mb25_string_mid s2 2 0 2 253).2
  let s4 := (mb25_string_right s3 3 0 253).2
  mb25_string_free s4 0

/-- After `overlap_state`, `alloc(5, 244); free(5)`: the two overlapping views and `WXYZ` as
before, with the cursor at the end of the pool. -/
def overlap_full : State :=
  mb25_string_free (mb25_string_alloc overlap_state 5 244).2 5

/-- After `overlap_full`, `alloc_const(4, "AB")`. -/
def overlap_full_const : State :=
  (mb25_string_alloc_const overlap_full 4 1).2

/-- After `alloc_init(0, "ABCDEFGH"); left(1, 0, 8)`, the start of Test 2 of
`test_mid_assign.c`. -/
def shared_view : State :=
  (mb25_string_left one_string 1 0 8).2

/-- After `alloc_init(0, "AB"); alloc_init(1, ""); free(0)`: slot 1 is empty (`len = 0`) with
the pool address `pool + 2` as data pointer, and the two bytes below it are garbage. -/
def empty_in_pool : State :=
  mb25_string_free (mb25_string_alloc_init (mb25_string_alloc_init demo_init 0 1).2 1 39).2 0

/-- After `alloc_init(0, "A"); alloc_init(1, "ABCDEFGH")`: a writable one-byte string directly
below a pool string of eight bytes. -/
def letter_then_word : State :=
  (mb25_string_alloc_init (mb25_string_alloc_init demo_init 0 10).2 1 16).2

/-- The state `demo_init` with the five-byte field `"A B  "` (an interior space and two trailing
spaces) stored at address 70, as a caller's fixed-width buffer. -/
def padded_field : State :=
  { demo_init with
    mem := fun a => if 70 ≤ a ∧ a < 75 then [65, 32, 66, 32, 32].getD (a - 70) 0
      else demo_init.mem a }

/-- After `alloc_init(0, x^255); alloc_const(1, "AB")`: a pool string of the maximal length
and a literal in the slot later used as the temporary. -/
def long_and_literal : State :=
  (mb25_string_alloc_const (mb25_string_alloc_init demo_init 0 100).2 1 1).2

/-- After `alloc(0, 100)`: a region of 100 bytes is reserved for slot 0, which is writable and
still empty. -/
def reserved_region : State := (mb25_string_alloc demo_init 0 100).2

/-- After `alloc_init(0, "ABCDEFGH"); get_c_string_temp(0, 1); alloc_init(2, x^239); free(0)`:
the temporary of slot 1 holds `ABCDEFGH` and its NUL at `pool + 8 .. pool + 16`, below the long
string, and the pool is full. -/
def temp_then_long : State :=
  let s1 := (mb25_string_alloc_init demo_init 0 16).2
  let s2 := (mb25_get_c_string_temp s1 0 1).2
  let s3 := (mb25_string_alloc_init s2 2 116).2
  mb25_string_free s3 0

/-- After `alloc(4, 8); free(4); alloc_init(0, "ABCDEFGH"); alloc_init(2, x^240)`: eight bytes
of garbage, then `ABCDEFGH` at `pool + 8`, then the long string; the pool is full. -/
def word_then_long : State :=
  let s1 := (mb25_string_alloc demo_init 4 8).2
  let s2 := mb25_string_free s1 4
  let s3 := (mb25_string_alloc_init s2 0 16).2
  (mb25_string_alloc_init s3 2 115).2

/-- After `alloc_init(0, "A"); assign(0, "ABCDEFGH", 8)`: the overwrite in place of the
one-byte string ends seven bytes after the cursor, inside the pool buffer. -/
def grown_past_cursor : State :=
  (mb25_string_assign (mb25_string_alloc_init demo_init 0 10).2 0 16 8).2

theorem getD_set_self (l : List mb25_string_t) (i : Nat) (a d : mb25_string_t)
    (h : i < l.length) : (l.set i a).getD i d = a := by
  simp [List.getD_eq_getElem?_getD, List.getElem?_set, h]

theorem getD_set_ne (l : List mb25_string_t) (i j : Nat) (a d : mb25_string_t)
    (h : i ≠ j) : (l.set i a).getD j d = l.getD j d := by
  simp [List.getD_eq_getElem?_getD, List.getElem?_set, h]

theorem ite_getD_le_count (l : List mb25_string_t) (i : Nat) (b d : mb25_string_t)
    (h : i < l.length) : (if (l.getD i d == b) = true then 1 else 0) ≤ l.count b := by
  rw [List.getD_eq_getElem _ _ h]
  split
  · rename_i hb
    have : l[i] = b := by simpa using hb
    have hm : b ∈ l := this ▸ List.getElem_mem h
    exact List.count_pos_iff.mpr hm
  · exact Nat.zero_le _

theorem count_set_getD (l : List mb25_string_t) (i : Nat) (a b d : mb25_string_t)
    (h : i < l.length) :
    (l.set i a).count b + (if (l.getD i d == b) = true then 1 else 0)
      = l.count b + (if (a == b) = true then 1 else 0) := by
  have h1 := List.count_set a b l i h
  have h2 := ite_getD_le_count l i b d h
  rw [List.getD_eq_getElem _ _ h] at h2 ⊢
  omega

/-- Moving the hole of an insertion one step: a permutation. -/
theorem shift_step_perm (l : List mb25_string_t) (j k : Nat) (t d : mb25_string_t)
    (hj : j < l.length) (hk : k < l.length) :
    ((l.set j (l.getD k d)).set k t).Perm (l.set j t) := by
  by_cases hjk : j = k
  · subst hjk
    rw [List.set_set]
  · rw [List.perm_iff_count]
    intro b
    have e1 := count_set_getD (l.set j (l.getD k d)) k t b d (by simpa using hk)
    rw [getD_set_ne l j k _ d hjk] at e1
    have e2 := count_set_getD l j (l.getD k d) b d hj
    have e3 := count_set_getD l j t b d hj
    omega

/-! ## The shell sort: lengths and permutation -/

theorem shift_loop_length (less : mb25_string_t → mb25_string_t → Bool) (gap : Nat)
    (temp : mb25_string_t) (budget j : Nat) (arr : List mb25_string_t) :
    (shift_loop less gap temp budget j arr).2.length = arr.length := by
  induction budget generalizing j arr with
  | zero => rfl
  | succ b ih =>
    unfold shift_loop
    split
    · rw [ih]; simp
    · rfl

theorem shift_loop_le (less : mb25_string_t → mb25_string_t → Bool) (gap : Nat)
    (temp : mb25_string_t) (budget j : Nat) (arr : List mb25_string_t) :
    (shift_loop less gap temp budget j arr).1 ≤ j := by
  induction budget generalizing j arr with
  | zero => exact Nat.le_refl _
  | succ b ih =>
    unfold shift_loop
    split
    · exact Nat.le_trans (ih _ _) (Nat.sub_le _ _)
    · exact Nat.le_refl _

theorem shift_loop_perm (less : mb25_string_t → mb25_string_t → Bool) (gap : Nat)
    (temp : mb25_string_t) (budget j : Nat) (arr : List mb25_string_t) (hj : j < arr.length) :
    ((shift_loop less gap temp budget j arr).2.set (shift_loop less gap temp budget j arr).1
      temp).Perm (arr.set j temp) := by
  induction budget generalizing j arr with
  | zero => exact List.Perm.refl _
  | succ b ih =>
    unfold shift_loop
    split
    · have hk : j - gap < arr.length := Nat.lt_of_le_of_lt (Nat.sub_le _ _) hj
      refine (ih (j - gap) _ (by simpa using hk)).trans ?_
      exact shift_step_perm arr j (j - gap) temp zero_string hj hk
    · exact List.Perm.refl _

theorem set_getD_self (l : List mb25_string_t) (i : Nat) (d : mb25_string_t) :
    l.set i (l.getD i d) = l := by
  induction l generalizing i with
  | nil => rfl
  | cons a t ih =>
    cases i with
    | zero => rfl
    | succ k =>
      have := ih k
      simp only [List.getD_eq_getElem?_getD, List.getElem?_cons_succ, List.set_cons_succ] at this ⊢
      rw [this]

theorem insert_at_perm (less : mb25_string_t → mb25_string_t → Bool) (gap i : Nat)
    (arr : List mb25_string_t) (hi : i < arr.length) : (insert_at less gap i arr).Perm arr := by
  unfold insert_at
  have h := shift_loop_perm less gap (arr.getD i zero_string) i i arr hi
  rw [set_getD_self] at h
  exact h

theorem insert_at_length (less : mb25_string_t → mb25_string_t → Bool) (gap i : Nat)
    (arr : List mb25_string_t) : (insert_at less gap i arr).length = arr.length := by
  unfold insert_at
  simp [shift_loop_length]

theorem gap_pass_perm (less : mb25_string_t → mb25_string_t → Bool) (gap count i : Nat)
    (arr : List mb25_string_t) (h : i + count ≤ arr.length) :
    (gap_pass less gap count i arr).Perm arr := by
  induction count generalizing i arr with
  | zero => exact List.Perm.refl _
  | succ c ih =>
    unfold gap_pass
    have hi : i < arr.length := by omega
    refine (ih (i + 1) _ ?_).trans (insert_at_perm less gap i arr hi)
    rw [insert_at_length]; omega

theorem gap_loop_perm (less : mb25_string_t → mb25_string_t → Bool) (n budget gap : Nat)
    (arr : List mb25_string_t) (h : n ≤ arr.length) :
    (gap_loop less n budget gap arr).Perm arr := by
  induction budget generalizing gap arr with
  | zero => exact List.Perm.refl _
  | succ b ih =>
    unfold gap_loop
    split
    · exact List.Perm.refl _
    · by_cases hg : gap ≤ n
      · have hp := gap_pass_perm less gap (n - gap) gap arr (by omega)
        exact (ih _ _ (by rw [hp.length_eq]; exact h)).trans hp
      · have hz : n - gap = 0 := by omega
        rw [hz]
        exact ih _ _ h

theorem shell_sort_perm (less : mb25_string_t → mb25_string_t → Bool)
    (arr : List mb25_string_t) : (shell_sort less arr).Perm arr := by
  unfold shell_sort
  exact gap_loop_perm less _ _ _ arr (Nat.mod_le _ _)



theorem getD_append_cons (L T : List mb25_string_t) (x d : mb25_string_t) :
    (L ++ x :: T).getD L.length d = x := by
  induction L with
  | nil => rfl
  | cons a t ih => simpa using ih

theorem set_append_cons (L T : List mb25_string_t) (x y : mb25_string_t) :
    (L ++ x :: T).set L.length y = L ++ y :: T := by
  induction L with
  | nil => rfl
  | cons a t ih => simpa using ih

theorem shift_loop_one (less : mb25_string_t → mb25_string_t → Bool) (temp : mb25_string_t)
    (budget : Nat) (L : List mb25_string_t) (h : mb25_string_t) (R : List mb25_string_t)
    (hb : L.length ≤ budget) :
    ∃ L1 L2, L = L1 ++ L2 ∧
      (shift_loop less 1 temp budget L.length (L ++ h :: R)).2.set
        (shift_loop less 1 temp budget L.length (L ++ h :: R)).1 temp = L1 ++ temp :: L2 ++ R ∧
      (∀ x ∈ L2, less temp x = true) ∧ (∀ x, L1.getLast? = some x → less temp x = false) := by
  induction budget generalizing L h R with
  | zero =>
    have hL : L = [] := List.length_eq_zero.mp (Nat.le_zero.mp hb)
    subst hL
    exact ⟨[], [], rfl, rfl, by simp, by simp⟩
  | succ b ih =>
    rcases List.eq_nil_or_concat L with rfl | ⟨L', x, rfl⟩
    · refine ⟨[], [], rfl, ?_, by simp, by simp⟩
      simp [shift_loop]
    · have hlen : (L'.concat x).length = L'.length + 1 := by simp
      have hget : (L'.concat x ++ h :: R).getD (L'.length + 1 - 1) zero_string = x := by
        have := getD_append_cons L' (h :: R) x zero_string
        simpa using this
      by_cases hx : less temp x = true
      · have hb' : L'.length ≤ b := by simp at hb; omega
        obtain ⟨L1, L2, e, hr, h2, h1⟩ := ih L' x (x :: R) hb'
        refine ⟨L1, L2 ++ [x], by simp [e], ?_, ?_, h1⟩
        · rw [hlen]
          unfold shift_loop
          rw [hget]
          have hset : (L'.concat x ++ h :: R).set (L'.length + 1) x = L' ++ x :: x :: R := by
            have := set_append_cons (L' ++ [x]) R h x
            simpa using this
          simp only [hx, and_true, Nat.le_add_left, if_true, hset, Nat.add_sub_cancel]
          rw [hr]; simp
        · intro y hy
          rcases List.mem_append.mp hy with hy | hy
          · exact h2 y hy
          · simp at hy; subst hy; exact hx
      · refine ⟨L'.concat x, [], by simp, ?_, by simp, ?_⟩
        · rw [hlen]
          unfold shift_loop
          rw [hget]
          have := set_append_cons (L' ++ [x]) R h temp
          simpa [hx] using this
        · intro y hy
          simp at hy; subst hy
          simpa using hx



theorem insert_sorted (less : mb25_string_t → mb25_string_t → Bool) (hw : weak_order less)
    (temp : mb25_string_t) (L1 L2 : List mb25_string_t) (hs : sorted_by less (L1 ++ L2))
    (h2 : ∀ x ∈ L2, less temp x = true) (h1 : ∀ x, L1.getLast? = some x → less temp x = false) :
    sorted_by less (L1 ++ temp :: L2) := by
  unfold sorted_by at hs ⊢
  rw [List.pairwise_append] at hs ⊢
  obtain ⟨s1, s2, s12⟩ := hs
  have hall : ∀ a ∈ L1, less temp a = false := by
    intro a ha
    rcases List.eq_nil_or_concat L1 with e | ⟨L', x, e⟩
    · subst e; simp at ha
    · subst e
      have hx : less temp x = false := h1 x (by simp)
      simp only [List.concat_eq_append, List.mem_append, List.mem_singleton] at ha
      rcases ha with ha | ha
      · have : less x a = false := by
          simp only [List.concat_eq_append] at s1
          rw [List.pairwise_append] at s1
          exact s1.2.2 a ha x (by simp)
        exact hw.ntrans temp x a hx this
      · subst ha; exact hx
  refine ⟨s1, ?_, ?_⟩
  · rw [List.pairwise_cons]
    exact ⟨fun b hb => hw.asymm temp b (h2 b hb), s2⟩
  · intro a ha b hb
    rcases List.mem_cons.mp hb with hb | hb
    · subst hb; exact hall a ha
    · exact s12 a ha b hb

theorem insert_at_one (less : mb25_string_t → mb25_string_t → Bool) (hw : weak_order less)
    (L : List mb25_string_t) (t : mb25_string_t) (R : List mb25_string_t)
    (hs : sorted_by less L) :
    ∃ L', L'.length = L.length + 1 ∧ sorted_by less L' ∧
      insert_at less 1 L.length (L ++ t :: R) = L' ++ R := by
  unfold insert_at
  rw [getD_append_cons]
  obtain ⟨L1, L2, e, hr, h2, h1⟩ := shift_loop_one less t L.length L t R (Nat.le_refl _)
  refine ⟨L1 ++ t :: L2, by simp [e]; omega, ?_, ?_⟩
  · exact insert_sorted less hw t L1 L2 (e ▸ hs) h2 h1
  · simp only []
    rw [hr]

theorem gap_pass_one_sorted (less : mb25_string_t → mb25_string_t → Bool) (hw : weak_order less)
    (count : Nat) (L R : List mb25_string_t) (hc : R.length = count) (hs : sorted_by less L) :
    sorted_by less (gap_pass less 1 count L.length (L ++ R)) := by
  induction count generalizing L R with
  | zero =>
    have : R = [] := List.length_eq_zero.mp hc
    subst this
    simpa [gap_pass] using hs
  | succ c ih =>
    match R, hc with
    | t :: R', hc =>
      unfold gap_pass
      obtain ⟨L', hl, hs', e⟩ := insert_at_one less hw L t R' hs
      rw [e, ← hl]
      exact ih L' R' (by simpa using hc) hs'

theorem gap_pass_length (less : mb25_string_t → mb25_string_t → Bool) (gap count i : Nat)
    (arr : List mb25_string_t) : (gap_pass less gap count i arr).length = arr.length := by
  induction count generalizing i arr with
  | zero => rfl
  | succ c ih => unfold gap_pass; rw [ih, insert_at_length]

theorem gap_loop_sorted (less : mb25_string_t → mb25_string_t → Bool) (hw : weak_order less)
    (n budget gap : Nat) (arr : List mb25_string_t) (hn : arr.length = n) (hg : 0 < gap)
    (hgn : gap < n) (hb : gap ≤ budget) : sorted_by less (gap_loop less n budget gap arr) := by
  induction budget generalizing gap arr with
  | zero => omega
  | succ b ih =>
    unfold gap_loop
    rw [if_neg (by omega)]
    by_cases h1 : gap = 1
    · subst h1
      have hstep : sorted_by less (gap_pass less 1 (n - 1) 1 arr) := by
        match arr, hn with
        | [], hn => simp at hn; omega
        | a :: rest, hn =>
          have := gap_pass_one_sorted less hw (n - 1) [a] rest (by simp at hn; omega)
            (by simp [sorted_by])
          simpa using this
      have hz : (1 : Nat) / 2 = 0 := by decide
      rw [hz]
      cases b with
      | zero => exact hstep
      | succ b' => unfold gap_loop; simpa using hstep
    · exact ih (gap / 2) _ (by rw [gap_pass_length]; exact hn) (by omega) (by omega) (by omega)

theorem shell_sort_sorted (less : mb25_string_t → mb25_string_t → Bool) (hw : weak_order less)
    (arr : List mb25_string_t) (hlen : arr.length < 65536) :
    sorted_by less (shell_sort less arr) := by
  show sorted_by less (gap_loop less (arr.length % 65536) (arr.length % 65536)
    (arr.length % 65536 / 2) arr)
  rw [Nat.mod_eq_of_lt hlen]
  by_cases h2 : arr.length < 2
  · have hz : arr.length / 2 = 0 := by omega
    rw [hz]
    have he : gap_loop less arr.length arr.length 0 arr = arr := by
      cases arr.length <;> simp [gap_loop]
    rw [he]
    match arr, h2 with
    | [], _ => simp [sorted_by]
    | [a], _ => simp [sorted_by]
  · exact gap_loop_sorted less hw _ _ _ arr rfl (by omega) (by omega) (by omega)

theorem data_ptr_less_weak_order : weak_order data_ptr_less := by
  constructor
  · intro a b h
    unfold data_ptr_less at h ⊢
    split_ifs at h ⊢ <;> simp_all <;> omega
  · intro a b c h1 h2
    unfold data_ptr_less at h1 h2 ⊢
    split_ifs at h1 h2 ⊢ <;> simp_all <;> omega

theorem str_id_less_weak_order : weak_order str_id_less := by
  constructor
  · intro a b h
    unfold str_id_less at h ⊢
    simp at h ⊢; omega
  · intro a b c h1 h2
    unfold str_id_less at h1 h2 ⊢
    simp at h1 h2 ⊢; omega

/-! ## Counting live bytes -/

theorem in_pool_iff (pool pool_size : Nat) (d : mb25_string_t) :
    in_pool pool pool_size d = true ↔
      d.data ≠ 0 ∧ d.is_const = false ∧ pool ≤ d.data ∧ d.data < pool + pool_size := by
  simp [in_pool, and_assoc]

theorem live_iff (pool pool_size : Nat) (W : List mb25_string_t) (b : Nat) :
    live pool pool_size W b = true ↔
      ∃ d ∈ W, in_pool pool pool_size d = true ∧ d.data ≤ b ∧ b < d.data + d.len := by
  simp [live, List.any_eq_true, and_assoc]

theorem live_perm (pool pool_size : Nat) (W W' : List mb25_string_t) (h : W.Perm W') (b : Nat) :
    live pool pool_size W b = live pool pool_size W' b := by
  rw [Bool.eq_iff_iff, live_iff, live_iff]
  constructor
  · rintro ⟨d, hd, r⟩; exact ⟨d, h.mem_iff.mp hd, r⟩
  · rintro ⟨d, hd, r⟩; exact ⟨d, h.mem_iff.mpr hd, r⟩

theorem live_below_perm (pool pool_size : Nat) (W W' : List mb25_string_t) (h : W.Perm W')
    (a : Nat) : live_below pool pool_size W a = live_below pool pool_size W' a := by
  induction a with
  | zero => rfl
  | succ n ih => simp only [live_below, ih, live_perm pool pool_size W W' h]

theorem live_ge_pool (pool pool_size : Nat) (W : List mb25_string_t) (b : Nat)
    (h : live pool pool_size W b = true) : pool ≤ b := by
  obtain ⟨d, _, hd, h1, _⟩ := (live_iff _ _ _ _).mp h
  have := (in_pool_iff _ _ _).mp hd
  omega

theorem live_below_mono (pool pool_size : Nat) (W : List mb25_string_t) (a b : Nat)
    (h : a ≤ b) : live_below pool pool_size W a ≤ live_below pool pool_size W b := by
  induction b with
  | zero => have : a = 0 := by omega
            subst this; exact Nat.le_refl _
  | succ n ih =>
    by_cases e : a = n + 1
    · subst e; exact Nat.le_refl _
    · have := ih (by omega)
      simp only [live_below]; omega

theorem live_below_add (pool pool_size : Nat) (W : List mb25_string_t) (a n : Nat)
    (h : ∀ b, a ≤ b → b < a + n → live pool pool_size W b = true) :
    live_below pool pool_size W (a + n) = live_below pool pool_size W a + n := by
  induction n with
  | zero => rfl
  | succ k ih =>
    have h1 := ih (fun b h1 h2 => h b h1 (by omega))
    have h2 := h (a + k) (by omega) (by omega)
    show live_below pool pool_size W (a + k + 1) = _
    simp only [live_below, h1, h2, if_true]; omega

theorem live_below_dead (pool pool_size : Nat) (W : List mb25_string_t) (a c : Nat)
    (hac : a ≤ c) (h : ∀ b, a ≤ b → b < c → live pool pool_size W b = false) :
    live_below pool pool_size W c = live_below pool pool_size W a := by
  obtain ⟨n, rfl⟩ := Nat.exists_eq_add_of_le hac
  clear hac
  induction n with
  | zero => rfl
  | succ k ih =>
    have h1 := ih (fun b h1 h2 => h b h1 (by omega))
    have h2 := h (a + k) (by omega) (by omega)
    show live_below pool pool_size W (a + k + 1) = _
    simp only [live_below, h1, h2]; simp

theorem live_below_le (pool pool_size : Nat) (W : List mb25_string_t) (a : Nat) :
    pool + live_below pool pool_size W a ≤ max a pool := by
  induction a with
  | zero => simp [live_below]
  | succ n ih =>
    simp only [live_below]
    by_cases hl : live pool pool_size W n = true
    · have := live_ge_pool _ _ _ _ hl
      simp only [hl, if_true]
      have h1 : max n pool = n := by omega
      have h2 : max (n + 1) pool = n + 1 := by omega
      omega
    · simp only [hl]
      have : max n pool ≤ max (n + 1) pool := by omega
      simp; omega

theorem live_below_lt (pool pool_size : Nat) (W : List mb25_string_t) (b c : Nat)
    (hb : live pool pool_size W b = true) (hbc : b < c) :
    live_below pool pool_size W b < live_below pool pool_size W c := by
  have h1 : live_below pool pool_size W (b + 1) = live_below pool pool_size W b + 1 := by
    simp [live_below, hb]
  have h2 := live_below_mono pool pool_size W (b + 1) c hbc
  omega

/-! ## The compaction loop -/

theorem memmove_self (m : Nat → Nat) (a n : Nat) : memmove m a a n = m := by
  funext x
  unfold memmove
  split
  · rename_i h; congr 1; omega
  · rfl

theorem compact_step_skip (pool pool_size : Nat) (acc : compact_acc) (d : mb25_string_t)
    (h : in_pool pool pool_size d = false) : compact_step pool pool_size acc d = (acc, d) := by
  have h' : ¬ (d.data ≠ 0 ∧ d.is_const = false ∧ pool ≤ d.data ∧ d.data < pool + pool_size) := by
    rw [← in_pool_iff]; simp [h]
  unfold compact_step
  by_cases h1 : d.data = 0 ∨ d.is_const = true
  · rw [if_pos h1]
  · rw [if_neg h1]
    have h2 : ¬ (pool ≤ d.data ∧ d.data < pool + pool_size) := by
      intro h2
      apply h'
      refine ⟨fun e => h1 (Or.inl e), ?_, h2.1, h2.2⟩
      cases hc : d.is_const
      · rfl
      · exact absurd (Or.inr hc) h1
    rw [if_neg h2]

theorem compact_step_child (pool pool_size : Nat) (acc : compact_acc) (d : mb25_string_t)
    (h : in_pool pool pool_size d = true)
    (hc : acc.last_old_start ≠ 0 ∧ acc.last_old_end ≠ 0 ∧
        acc.last_old_start ≤ d.data ∧ d.data + d.len ≤ acc.last_old_end) :
    compact_step pool pool_size acc d =
      (acc, { d with data := acc.last_new_start + (d.data - acc.last_old_start) % 65536 }) := by
  obtain ⟨h1, h2, h3, h4⟩ := (in_pool_iff _ _ _).mp h
  unfold compact_step
  rw [if_neg (by simp [h1, h2]), if_pos ⟨h3, h4⟩, if_pos hc]

theorem compact_step_parent (pool pool_size : Nat) (acc : compact_acc) (d : mb25_string_t)
    (h : in_pool pool pool_size d = true)
    (hc : ¬ (acc.last_old_start ≠ 0 ∧ acc.last_old_end ≠ 0 ∧
        acc.last_old_start ≤ d.data ∧ d.data + d.len ≤ acc.last_old_end)) :
    compact_step pool pool_size acc d =
      ({ new_allocator := (acc.new_allocator + d.len) % 65536
         last_old_start := d.data
         last_old_end := d.data + d.len
         last_new_start := pool + acc.new_allocator
         mem := memmove acc.mem (pool + acc.new_allocator) d.data d.len },
       { d with data := pool + acc.new_allocator }) := by
  obtain ⟨h1, h2, h3, h4⟩ := (in_pool_iff _ _ _).mp h
  unfold compact_step
  rw [if_neg (by simp [h1, h2]), if_pos ⟨h3, h4⟩, if_neg hc]
  by_cases e : d.data = pool + acc.new_allocator
  · simp only [e, ne_eq, not_true_eq_false, if_false, memmove_self]
  · simp only [ne_eq, e, not_false_eq_true, if_true]

theorem less_false_in_pool (pool pool_size : Nat) (a b : mb25_string_t)
    (ha : in_pool pool pool_size a = true) (hb : in_pool pool pool_size b = true)
    (h : data_ptr_less b a = false) : a.data ≤ b.data ∧ (b.data = a.data → b.len ≤ a.len) := by
  obtain ⟨a1, a2, _, _⟩ := (in_pool_iff _ _ _).mp ha
  obtain ⟨b1, b2, _, _⟩ := (in_pool_iff _ _ _).mp hb
  unfold data_ptr_less at h
  simp only [a1, b1, a2, b2, if_false, Bool.false_eq_true] at h
  split_ifs at h with h1 h2
  · omega
  · simp at h; omega



theorem compact_step_inv (pool pool_size : Nat) (S P R : List mb25_string_t) (d : mb25_string_t)
    (m0 : Nat → Nat) (acc : compact_acc)
    (hS : S = P ++ d :: R) (hsorted : sorted_by data_ptr_less S)
    (hsafe : gc_safe pool pool_size S)
    (hbound : ∀ q ∈ S, in_pool pool pool_size q = true → q.data + q.len < pool + 65536)
    (hinv : compact_inv pool pool_size S m0 acc P) :
    (compact_step pool pool_size acc d).2 = relocate pool pool_size S d ∧
      compact_inv pool pool_size S m0 (compact_step pool pool_size acc d).1 (P ++ [d]) := by
  have hdS : d ∈ S := by rw [hS]; simp
  have hPS : ∀ q ∈ P, q ∈ S := fun q hq => by rw [hS]; simp [hq]
  have hsort := hsorted
  unfold sorted_by at hsort
  rw [hS, List.pairwise_append] at hsort
  obtain ⟨_, hdR, hPdR⟩ := hsort
  rw [List.pairwise_cons] at hdR
  have hPd : ∀ p ∈ P, data_ptr_less d p = false := fun p hp => hPdR p hp d (by simp)
  have hdRl : ∀ w ∈ R, data_ptr_less w d = false := hdR.1
  have hPR : ∀ p ∈ P, ∀ w ∈ R, data_ptr_less w p = false :=
    fun p hp w hw => hPdR p hp w (by simp [hw])
  by_cases hin : in_pool pool pool_size d = true
  · obtain ⟨d1, d2, d3, d4⟩ := (in_pool_iff _ _ _).mp hin
    have hdb := hbound d hdS hin
    have hlive_d : ∀ b, d.data ≤ b → b < d.data + d.len → live pool pool_size S b = true :=
      fun b h1 h2 => (live_iff _ _ _ _).mpr ⟨d, hdS, hin, h1, h2⟩
    by_cases hc : acc.last_old_start ≠ 0 ∧ acc.last_old_end ≠ 0 ∧
        acc.last_old_start ≤ d.data ∧ d.data + d.len ≤ acc.last_old_end
    · rw [compact_step_child pool pool_size acc d hin hc]
      obtain ⟨p, hp, hpin, hps, hpe, hns⟩ := hinv.parent hc.1
      obtain ⟨p1, p2, p3, p4⟩ := (in_pool_iff _ _ _).mp hpin
      have hadd := live_below_add pool pool_size S acc.last_old_start
        (d.data - acc.last_old_start)
        (fun b h1 h2 => (live_iff _ _ _ _).mpr ⟨p, hPS p hp, hpin, by omega, by omega⟩)
      have he : acc.last_old_start + (d.data - acc.last_old_start) = d.data := by omega
      rw [he] at hadd
      have hlt : d.data - acc.last_old_start < 65536 := by omega
      constructor
      · unfold relocate
        rw [if_pos hin]
        simp only [Nat.mod_eq_of_lt hlt, hns, hadd]
        congr 1
        omega
      · exact
          { ends := by
              intro q hq hqin
              rcases List.mem_append.mp hq with hq | hq
              · exact hinv.ends q hq hqin
              · simp only [List.mem_singleton] at hq
                subst hq; exact hc.2.2.2
            alloc := hinv.alloc
            parent := by
              intro h0
              obtain ⟨p', hp', r⟩ := hinv.parent h0
              exact ⟨p', List.mem_append_left _ hp', r⟩
            none := hinv.none
            moved := hinv.moved
            above := hinv.above
            below := hinv.below }
    · rw [compact_step_parent pool pool_size acc d hin hc]
      -- the new parent starts at or after the end of the previous one
      have hEs : acc.last_old_end ≤ d.data := by
        by_cases hz : acc.last_old_start = 0
        · rw [hinv.none hz]; exact Nat.zero_le _
        · obtain ⟨p, hp, hpin, hps, hpe, _⟩ := hinv.parent hz
          obtain ⟨p1, _, _, _⟩ := (in_pool_iff _ _ _).mp hpin
          have o1 := less_false_in_pool pool pool_size p d hpin hin (hPd p hp)
          have hgt : ¬ (d.data + d.len ≤ acc.last_old_end) := by
            intro h; apply hc; exact ⟨hz, by omega, by omega, h⟩
          rcases hsafe p (hPS p hp) d hdS hpin hin with (h | h) | ⟨r, hr, hrin, r1, r2, r3, r4⟩
          · omega
          · omega
          · rw [hS] at hr
            rcases List.mem_append.mp hr with hr | hr
            · have := hinv.ends r hr hrin; omega
            · rcases List.mem_cons.mp hr with hr | hr
              · subst hr; omega
              · have o2 := less_false_in_pool pool pool_size d r hin hrin (hdRl r hr)
                have o3 := less_false_in_pool pool pool_size p r hpin hrin (hPR p hp r hr)
                omega
      have hdead : ∀ b, acc.last_old_end ≤ b → b < d.data →
          live pool pool_size S b = false := by
        intro b h1 h2
        cases hl : live pool pool_size S b
        · rfl
        · exfalso
          obtain ⟨w, hw, hwin, w1, w2⟩ := (live_iff _ _ _ _).mp hl
          rw [hS] at hw
          rcases List.mem_append.mp hw with hw | hw
          · have := hinv.ends w hw hwin; omega
          · rcases List.mem_cons.mp hw with hw | hw
            · subst hw; omega
            · have := less_false_in_pool pool pool_size d w hin hwin (hdRl w hw); omega
      have hcnt : live_below pool pool_size S d.data =
          live_below pool pool_size S acc.last_old_end :=
        live_below_dead pool pool_size S _ _ hEs hdead
      have hcnt2 := live_below_add pool pool_size S d.data d.len hlive_d
      have hle := live_below_le pool pool_size S (d.data + d.len)
      have hle1 := live_below_le pool pool_size S d.data
      have hna : acc.new_allocator = live_below pool pool_size S d.data := by
        rw [hcnt]; exact hinv.alloc
      have hmax : max d.data pool = d.data := by omega
      have hmax2 : max (d.data + d.len) pool = d.data + d.len := by omega
      rw [hmax] at hle1
      rw [hmax2] at hle
      constructor
      · unfold relocate
        rw [if_pos hin, hna]
      · exact
          { ends := by
              intro q hq hqin
              rcases List.mem_append.mp hq with hq | hq
              · have := hinv.ends q hq hqin
                show q.data + q.len ≤ d.data + d.len
                omega
              · simp only [List.mem_singleton] at hq
                subst hq; exact Nat.le_refl _
            alloc := by
              show (acc.new_allocator + d.len) % 65536 =
                live_below pool pool_size S (d.data + d.len)
              rw [hna, hcnt2]
              apply Nat.mod_eq_of_lt
              omega
            parent := by
              intro _
              exact ⟨d, by simp, hin, rfl, rfl, by show pool + acc.new_allocator = _; rw [hna]⟩
            none := by
              intro h0
              exact absurd h0 d1
            moved := by
              intro b hb hlt
              have hlt2 : b < d.data + d.len := hlt
              clear hlt
              show memmove acc.mem (pool + acc.new_allocator) d.data d.len
                (pool + live_below pool pool_size S b) = m0 b
              unfold memmove
              by_cases hbs : b < d.data
              · have hbE : b < acc.last_old_end := by
                  by_contra hcon
                  have := hdead b (by omega) hbs
                  rw [hb] at this; exact Bool.noConfusion this
                have := live_below_lt pool pool_size S b acc.last_old_end hb hbE
                rw [if_neg (by omega)]
                exact hinv.moved b hb hbE
              · have hadd := live_below_add pool pool_size S d.data (b - d.data)
                  (fun x h1 h2 => hlive_d x h1 (by omega))
                have he : d.data + (b - d.data) = b := by omega
                rw [he] at hadd
                rw [if_pos (by omega)]
                have he2 : d.data + (pool + live_below pool pool_size S b -
                    (pool + acc.new_allocator)) = b := by omega
                rw [he2]
                exact hinv.above b (by omega)
            above := by
              intro a ha
              have ha' : pool + live_below pool pool_size S (d.data + d.len) ≤ a := ha
              show memmove acc.mem (pool + acc.new_allocator) d.data d.len a = m0 a
              unfold memmove
              rw [if_neg (by omega)]
              exact hinv.above a (by omega)
            below := by
              intro a ha
              show memmove acc.mem (pool + acc.new_allocator) d.data d.len a = m0 a
              unfold memmove
              rw [if_neg (by omega)]
              exact hinv.below a ha }
  · have hin' : in_pool pool pool_size d = false := by
      cases h : in_pool pool pool_size d
      · rfl
      · exact absurd h hin
    rw [compact_step_skip pool pool_size acc d hin']
    constructor
    · unfold relocate; rw [hin']; rfl
    · exact
        { ends := by
            intro q hq hqin
            rcases List.mem_append.mp hq with hq | hq
            · exact hinv.ends q hq hqin
            · simp only [List.mem_singleton] at hq
              subst hq; rw [hin'] at hqin; exact Bool.noConfusion hqin
          alloc := hinv.alloc
          parent := by
            intro h0
            obtain ⟨p', hp', r⟩ := hinv.parent h0
            exact ⟨p', List.mem_append_left _ hp', r⟩
          none := hinv.none
          moved := hinv.moved
          above := hinv.above
          below := hinv.below }

theorem compact_loop_inv (pool pool_size : Nat) (S : List mb25_string_t) (m0 : Nat → Nat)
    (hsorted : sorted_by data_ptr_less S) (hsafe : gc_safe pool pool_size S)
    (hbound : ∀ q ∈ S, in_pool pool pool_size q = true → q.data + q.len < pool + 65536)
    (R P : List mb25_string_t) (acc : compact_acc) (hS : S = P ++ R)
    (hinv : compact_inv pool pool_size S m0 acc P) :
    (compact_loop pool pool_size acc R).2 = R.map (relocate pool pool_size S) ∧
      compact_inv pool pool_size S m0 (compact_loop pool pool_size acc R).1 S := by
  induction R generalizing P acc with
  | nil =>
    have : P = S := by simp [hS]
    subst this
    exact ⟨rfl, hinv⟩
  | cons d R ih =>
    obtain ⟨h1, h2⟩ := compact_step_inv pool pool_size S P R d m0 acc hS hsorted hsafe hbound hinv
    obtain ⟨h3, h4⟩ := ih (P ++ [d]) (compact_step pool pool_size acc d).1 (by simp [hS]) h2
    constructor
    · show (compact_step pool pool_size acc d).2 ::
        (compact_loop pool pool_size (compact_step pool pool_size acc d).1 R).2 = _
      rw [h1, h3]; rfl
    · exact h4

theorem compact_inv_init (pool pool_size : Nat) (S : List mb25_string_t) (m0 : Nat → Nat) :
    compact_inv pool pool_size S m0 (compact_start m0) [] :=
  { ends := by intro q hq; simp at hq
    alloc := rfl
    parent := by intro h; exact absurd rfl h
    none := fun _ => rfl
    moved := by intro b _ hb; exact absurd hb (Nat.not_lt_zero _)
    above := fun _ _ => rfl
    below := fun _ _ => rfl }

/-- What the compaction loop computes on a sorted array of supported topology. -/
theorem compact_loop_sorted (pool pool_size : Nat) (S : List mb25_string_t) (m0 : Nat → Nat)
    (top : Nat) (hsorted : sorted_by data_ptr_less S) (hsafe : gc_safe pool pool_size S)
    (htop : ∀ q ∈ S, in_pool pool pool_size q = true → q.data + q.len ≤ top)
    (hlt : top < pool + 65536) :
    (compact_loop pool pool_size (compact_start m0) S).2 = S.map (relocate pool pool_size S) ∧
      (compact_loop pool pool_size (compact_start m0) S).1.new_allocator =
        live_below pool pool_size S top ∧
      (∀ b, live pool pool_size S b = true →
        (compact_loop pool pool_size (compact_start m0) S).1.mem
          (pool + live_below pool pool_size S b) = m0 b) ∧
      (∀ a, pool + live_below pool pool_size S top ≤ a →
        (compact_loop pool pool_size (compact_start m0) S).1.mem a = m0 a) ∧
      (∀ a, a < pool → (compact_loop pool pool_size (compact_start m0) S).1.mem a = m0 a) := by
  generalize hr : compact_loop pool pool_size (compact_start m0) S = r
  have hbound : ∀ q ∈ S, in_pool pool pool_size q = true → q.data + q.len < pool + 65536 :=
    fun q hq hin => Nat.lt_of_le_of_lt (htop q hq hin) hlt
  obtain ⟨h1, h2⟩ := compact_loop_inv pool pool_size S m0 hsorted hsafe hbound S [] _ rfl
    (compact_inv_init pool pool_size S m0)
  rw [hr] at h1 h2
  have hE : ∀ b, live pool pool_size S b = true → b < r.1.last_old_end := by
    intro b hb
    obtain ⟨w, hw, hwin, _, w2⟩ := (live_iff _ _ _ _).mp hb
    have := h2.ends w hw hwin
    omega
  have hEtop : r.1.last_old_end ≤ top := by
    by_cases hz : r.1.last_old_start = 0
    · rw [h2.none hz]; exact Nat.zero_le _
    · obtain ⟨p, hp, hpin, _, hpe, _⟩ := h2.parent hz
      have := htop p hp hpin
      omega
  have hcnt : live_below pool pool_size S top = live_below pool pool_size S r.1.last_old_end := by
    apply live_below_dead pool pool_size S _ _ hEtop
    intro b hb1 _
    cases hl : live pool pool_size S b
    · rfl
    · have := hE b hl; omega
  refine ⟨h1, ?_, ?_, ?_, h2.below⟩
  · rw [hcnt]; exact h2.alloc
  · intro b hb; exact h2.moved b hb (hE b hb)
  · intro a ha; rw [hcnt] at ha; exact h2.above a ha

/-! ## The collector on supported states -/

theorem gc_safe_perm (pool pool_size : Nat) (W W' : List mb25_string_t) (h : W.Perm W')
    (hs : gc_safe pool pool_size W) : gc_safe pool pool_size W' := by
  intro d hd e he hdin hein
  rcases hs d (h.mem_iff.mpr hd) e (h.mem_iff.mpr he) hdin hein with h1 | ⟨r, hr, rest⟩
  · exact Or.inl h1
  · exact Or.inr ⟨r, h.mem_iff.mp hr, rest⟩

theorem relocate_perm (pool pool_size : Nat) (W W' : List mb25_string_t) (h : W.Perm W') :
    relocate pool pool_size W = relocate pool pool_size W' := by
  funext d
  unfold relocate
  rw [live_below_perm pool pool_size W W' h]

theorem relocate_str_id (pool pool_size : Nat) (W : List mb25_string_t) (d : mb25_string_t) :
    (relocate pool pool_size W d).str_id = d.str_id := by
  unfold relocate; split <;> rfl

theorem relocate_len (pool pool_size : Nat) (W : List mb25_string_t) (d : mb25_string_t) :
    (relocate pool pool_size W d).len = d.len := by
  unfold relocate; split <;> rfl

theorem relocate_is_const (pool pool_size : Nat) (W : List mb25_string_t) (d : mb25_string_t) :
    (relocate pool pool_size W d).is_const = d.is_const := by
  unfold relocate; split <;> rfl

theorem relocate_writeable (pool pool_size : Nat) (W : List mb25_string_t) (d : mb25_string_t) :
    (relocate pool pool_size W d).writeable = d.writeable := by
  unfold relocate; split <;> rfl

/-- Sorting by `str_id` restores the one arrangement in increasing `str_id` order. -/
theorem sort_by_str_id_restore (L W : List mb25_string_t) (hp : L.Perm W)
    (hid : W.Pairwise (fun a b => a.str_id < b.str_id)) (hlen : W.length < 65536) :
    sort_by_str_id L = W := by
  have hp' : (sort_by_str_id L).Perm W := (shell_sort_perm str_id_less L).trans hp
  have hs : sorted_by str_id_less (sort_by_str_id L) :=
    shell_sort_sorted str_id_less str_id_less_weak_order L (by rw [hp.length_eq]; exact hlen)
  have hne : W.Pairwise (fun a b => a.str_id ≠ b.str_id) :=
    hid.imp (fun h => Nat.ne_of_lt h)
  have hne' : (sort_by_str_id L).Pairwise (fun a b => a.str_id ≠ b.str_id) :=
    hp'.symm.pairwise hne (fun h => Ne.symm h)
  have hlt : (sort_by_str_id L).Pairwise (fun a b => a.str_id < b.str_id) := by
    unfold sorted_by at hs
    refine (hs.and hne').imp ?_
    intro a b h
    have h1 : ¬ (b.str_id < a.str_id) := by
      have := h.1
      unfold str_id_less at this
      simpa using this
    have h2 := h.2
    omega
  haveI : IsAntisymm mb25_string_t (fun a b => a.str_id < b.str_id) :=
    ⟨fun a b h1 h2 => absurd h1 (Nat.lt_asymm h2)⟩
  exact List.eq_of_perm_of_sorted hp' hlt hid



/-- What `mb25_garbage_collect` does to a supported state: the descriptor array is mapped by
`relocate`, the cursor becomes the number of live bytes, and every live byte is found at its
relocated address. -/
theorem gc_supported (st : State) (h : supported st) :
    (mb25_garbage_collect st).mb25_strings =
        st.mb25_strings.map
          (relocate st.mb25_global.pool st.mb25_global.pool_size st.mb25_strings) ∧
      (mb25_garbage_collect st).mb25_global =
        { st.mb25_global with
          allocator := live_below st.mb25_global.pool st.mb25_global.pool_size st.mb25_strings
            (st.mb25_global.pool + st.mb25_global.allocator)
          total_gcs := (st.mb25_global.total_gcs + 1) % 4294967296 } ∧
      (∀ b, live st.mb25_global.pool st.mb25_global.pool_size st.mb25_strings b = true →
        (mb25_garbage_collect st).mem (st.mb25_global.pool +
          live_below st.mb25_global.pool st.mb25_global.pool_size st.mb25_strings b) =
            st.mem b) ∧
      (∀ a, st.mb25_global.pool +
          live_below st.mb25_global.pool st.mb25_global.pool_size st.mb25_strings
            (st.mb25_global.pool + st.mb25_global.allocator) ≤ a →
        (mb25_garbage_collect st).mem a = st.mem a) ∧
      (∀ a, a < st.mb25_global.pool → (mb25_garbage_collect st).mem a = st.mem a) := by
  obtain ⟨hlen, hsize, _, hcur, hcont, hsafe, hids⟩ := h
  have hperm : (sort_by_data_ptr st.mb25_strings).Perm st.mb25_strings :=
    shell_sort_perm data_ptr_less st.mb25_strings
  have hsorted : sorted_by data_ptr_less (sort_by_data_ptr st.mb25_strings) :=
    shell_sort_sorted data_ptr_less data_ptr_less_weak_order st.mb25_strings hlen
  have hsafe' := gc_safe_perm _ _ _ _ hperm.symm hsafe
  have htop : ∀ q ∈ sort_by_data_ptr st.mb25_strings,
      in_pool st.mb25_global.pool st.mb25_global.pool_size q = true →
      q.data + q.len ≤ st.mb25_global.pool + st.mb25_global.allocator := by
    intro q hq hin
    exact hcont q (hperm.mem_iff.mp hq) hin
  obtain ⟨c1, c2, c3, c4, c5⟩ := compact_loop_sorted st.mb25_global.pool
    st.mb25_global.pool_size (sort_by_data_ptr st.mb25_strings) st.mem
    (st.mb25_global.pool + st.mb25_global.allocator) hsorted hsafe' htop (by omega)
  rw [relocate_perm _ _ _ _ hperm] at c1
  rw [live_below_perm _ _ _ _ hperm] at c2 c4
  have hstr : (mb25_garbage_collect st).mb25_strings =
      sort_by_str_id (compact_loop st.mb25_global.pool st.mb25_global.pool_size
        (compact_start st.mem) (sort_by_data_ptr st.mb25_strings)).2 := rfl
  have hmem : (mb25_garbage_collect st).mem =
      (compact_loop st.mb25_global.pool st.mb25_global.pool_size
        (compact_start st.mem) (sort_by_data_ptr st.mb25_strings)).1.mem := rfl
  have hglob : (mb25_garbage_collect st).mb25_global =
      { st.mb25_global with
        allocator := (compact_loop st.mb25_global.pool st.mb25_global.pool_size
          (compact_start st.mem) (sort_by_data_ptr st.mb25_strings)).1.new_allocator
        total_gcs := (st.mb25_global.total_gcs + 1) % 4294967296 } := rfl
  refine ⟨?_, ?_, ?_, ?_, ?_⟩
  · rw [hstr, c1]
    apply sort_by_str_id_restore
    · exact hperm.map _
    · exact hids.map _ (fun a b hab => by rw [relocate_str_id, relocate_str_id]; exact hab)
    · simpa using hlen
  · rw [hglob, c2]
  · intro b hb
    rw [hmem]
    have := c3 b (by rw [live_perm _ _ _ _ hperm]; exact hb)
    rw [live_below_perm _ _ _ _ hperm] at this
    exact this
  · intro a ha
    rw [hmem]; exact c4 a ha
  · intro a ha
    rw [hmem]; exact c5 a ha

theorem read_bytes_congr (m m' : Nat → Nat) (p p' n : Nat)
    (h : ∀ i, i < n → m (p + i) = m' (p' + i)) : read_bytes m p n = read_bytes m' p' n := by
  unfold read_bytes
  apply List.map_congr_left
  intro i hi
  exact h i (List.mem_range.mp hi)

theorem relocate_zero (pool pool_size : Nat) (W : List mb25_string_t) :
    relocate pool pool_size W zero_string = zero_string := by
  unfold relocate in_pool zero_string; simp

theorem getD_map_relocate (pool pool_size : Nat) (W L : List mb25_string_t) (i : Nat) :
    (L.map (relocate pool pool_size W)).getD i zero_string =
      relocate pool pool_size W (L.getD i zero_string) := by
  by_cases h : i < L.length
  · rw [List.getD_eq_getElem _ _ h, List.getD_eq_getElem _ _ (by simpa using h)]
    simp
  · rw [List.getD_eq_default _ _ (by simpa using h), List.getD_eq_default _ _ (by omega),
      relocate_zero]

theorem str_at_gc (st : State) (h : supported st) (id : Nat) :
    str_at (mb25_garbage_collect st) id =
      relocate st.mb25_global.pool st.mb25_global.pool_size st.mb25_strings (str_at st id) := by
  unfold str_at
  rw [(gc_supported st h).1, getD_map_relocate]

theorem str_at_mem (st : State) (id : Nat) (h : id < st.mb25_strings.length) :
    str_at st id ∈ st.mb25_strings := by
  unfold str_at
  rw [List.getD_eq_getElem _ _ h]
  exact List.getElem_mem h

theorem in_pool_str_at (st : State) (pool pool_size id : Nat)
    (h : in_pool pool pool_size (str_at st id) = true) : str_at st id ∈ st.mb25_strings := by
  by_cases hi : id < st.mb25_strings.length
  · exact str_at_mem st id hi
  · unfold str_at at h
    rw [List.getD_eq_default _ _ (by omega)] at h
    unfold in_pool zero_string at h
    simp at h

/-- P4 on supported states. -/
theorem gc_bytes_supported (st : State) (h : supported st) (hout : apart_from_pool st)
    (id : Nat) : bytes_of (mb25_garbage_collect st) id = bytes_of st id := by
  obtain ⟨_, g2, g3, g4, g5⟩ := gc_supported st h
  unfold bytes_of str_bytes
  rw [str_at_gc st h]
  cases hin : in_pool st.mb25_global.pool st.mb25_global.pool_size (str_at st id)
  · unfold relocate
    rw [hin]
    simp only [Bool.false_eq_true, if_false]
    apply read_bytes_congr
    intro i hi
    by_cases hid : id < st.mb25_strings.length
    · have hle := live_below_le st.mb25_global.pool st.mb25_global.pool_size st.mb25_strings
        (st.mb25_global.pool + st.mb25_global.allocator)
      rcases hout (str_at st id) (str_at_mem st id hid) hin with ho | ho
      · exact g5 _ (by omega)
      · exact g4 _ (by omega)
    · exfalso
      unfold str_at at hi
      rw [List.getD_eq_default _ _ (by omega)] at hi
      exact Nat.not_lt_zero _ hi
  · have hmem := in_pool_str_at st _ _ id hin
    unfold relocate
    rw [hin]
    simp only [if_true]
    apply read_bytes_congr
    intro i hi
    have hl : ∀ b, (str_at st id).data ≤ b → b < (str_at st id).data + (str_at st id).len →
        live st.mb25_global.pool st.mb25_global.pool_size st.mb25_strings b = true :=
      fun b h1 h2 => (live_iff _ _ _ _).mpr ⟨_, hmem, hin, h1, h2⟩
    have hadd := live_below_add st.mb25_global.pool st.mb25_global.pool_size st.mb25_strings
      (str_at st id).data i (fun b h1 h2 => hl b h1 (by omega))
    rw [Nat.add_assoc, ← hadd]
    exact g3 _ (hl _ (by omega) (by omega))

/-- P3 on supported states. -/
theorem gc_offset_supported (st : State) (h : supported st) (parent child : Nat)
    (hp : in_pool st.mb25_global.pool st.mb25_global.pool_size (str_at st parent) = true)
    (hc : in_pool st.mb25_global.pool st.mb25_global.pool_size (str_at st child) = true)
    (h1 : (str_at st parent).data ≤ (str_at st child).data)
    (h2 : (str_at st child).data ≤ (str_at st parent).data + (str_at st parent).len) :
    (str_at (mb25_garbage_collect st) parent).data ≤
        (str_at (mb25_garbage_collect st) child).data ∧
      (str_at (mb25_garbage_collect st) child).data -
          (str_at (mb25_garbage_collect st) parent).data =
        (str_at st child).data - (str_at st parent).data ∧
      (str_at (mb25_garbage_collect st) child).len = (str_at st child).len := by
  rw [str_at_gc st h, str_at_gc st h, relocate_len]
  have hmem := in_pool_str_at st _ _ parent hp
  unfold relocate
  rw [hp, hc]
  simp only [if_true]
  have hadd := live_below_add st.mb25_global.pool st.mb25_global.pool_size st.mb25_strings
    (str_at st parent).data ((str_at st child).data - (str_at st parent).data)
    (fun b b1 b2 => (live_iff _ _ _ _).mpr ⟨_, hmem, hp, b1, by omega⟩)
  have he : (str_at st parent).data + ((str_at st child).data - (str_at st parent).data) =
      (str_at st child).data := by omega
  rw [he] at hadd
  exact ⟨by omega, by omega, trivial⟩

theorem in_pool_relocate (pool pool_size : Nat) (W : List mb25_string_t) (d : mb25_string_t)
    (hpool : pool ≠ 0) :
    in_pool pool pool_size (relocate pool pool_size W d) = in_pool pool pool_size d := by
  unfold relocate
  cases hin : in_pool pool pool_size d
  · simp [hin]
  · simp only [if_true]
    obtain ⟨d1, d2, d3, d4⟩ := (in_pool_iff _ _ _).mp hin
    rw [in_pool_iff]
    have := live_below_le pool pool_size W d.data
    have hm : max d.data pool = d.data := by omega
    rw [hm] at this
    exact ⟨by show pool + _ ≠ 0; omega, d2, by show pool ≤ pool + _; omega,
      by show pool + _ < _; omega⟩

theorem live_below_onto (pool pool_size : Nat) (W : List mb25_string_t) (a k : Nat)
    (h : k < live_below pool pool_size W a) :
    ∃ b, b < a ∧ live pool pool_size W b = true ∧ live_below pool pool_size W b = k := by
  induction a with
  | zero => exact absurd h (Nat.not_lt_zero _)
  | succ n ih =>
    simp only [live_below] at h
    by_cases hk : k < live_below pool pool_size W n
    · obtain ⟨b, hb, r⟩ := ih hk
      exact ⟨b, by omega, r⟩
    · cases hl : live pool pool_size W n
      · rw [hl] at h; simp at h; omega
      · rw [hl] at h; simp at h
        exact ⟨n, by omega, hl, by omega⟩

theorem live_relocated (st : State) (h : supported st) (b' : Nat) :
    live st.mb25_global.pool st.mb25_global.pool_size
        (st.mb25_strings.map
          (relocate st.mb25_global.pool st.mb25_global.pool_size st.mb25_strings)) b' = true ↔
      st.mb25_global.pool ≤ b' ∧
        b' < st.mb25_global.pool +
          live_below st.mb25_global.pool st.mb25_global.pool_size st.mb25_strings
            (st.mb25_global.pool + st.mb25_global.allocator) := by
  obtain ⟨_, _, hpool, _, hcont, _, _⟩ := h
  rw [live_iff]
  constructor
  · rintro ⟨d', hd', hin', l1, l2⟩
    obtain ⟨d, hd, rfl⟩ := List.mem_map.mp hd'
    rw [in_pool_relocate _ _ _ _ hpool] at hin'
    unfold relocate at l1 l2
    rw [hin'] at l1 l2
    simp only [if_true] at l1 l2
    have hc := hcont d hd hin'
    have hadd := live_below_add st.mb25_global.pool st.mb25_global.pool_size st.mb25_strings
      d.data d.len (fun b h1 h2 => (live_iff _ _ _ _).mpr ⟨d, hd, hin', h1, h2⟩)
    have hmono := live_below_mono st.mb25_global.pool st.mb25_global.pool_size st.mb25_strings
      (d.data + d.len) (st.mb25_global.pool + st.mb25_global.allocator) hc
    omega
  · rintro ⟨l1, l2⟩
    obtain ⟨b, hb, hlive, hk⟩ := live_below_onto st.mb25_global.pool st.mb25_global.pool_size
      st.mb25_strings (st.mb25_global.pool + st.mb25_global.allocator)
      (b' - st.mb25_global.pool) (by omega)
    obtain ⟨d, hd, hin, d1, d2⟩ := (live_iff _ _ _ _).mp hlive
    refine ⟨_, List.mem_map.mpr ⟨d, hd, rfl⟩, ?_, ?_, ?_⟩
    · rw [in_pool_relocate _ _ _ _ hpool]; exact hin
    · unfold relocate; rw [hin]; simp only [if_true]
      have := live_below_mono st.mb25_global.pool st.mb25_global.pool_size st.mb25_strings
        d.data b d1
      omega
    · unfold relocate; rw [hin]; simp only [if_true]
      have hadd := live_below_add st.mb25_global.pool st.mb25_global.pool_size st.mb25_strings
        d.data (b - d.data)
        (fun x h1 h2 => (live_iff _ _ _ _).mpr ⟨d, hd, hin, h1, by omega⟩)
      have he : d.data + (b - d.data) = b := by omega
      rw [he] at hadd
      omega

theorem live_below_relocated (st : State) (h : supported st) (k : Nat)
    (hk : k ≤ live_below st.mb25_global.pool st.mb25_global.pool_size st.mb25_strings
      (st.mb25_global.pool + st.mb25_global.allocator)) :
    live_below st.mb25_global.pool st.mb25_global.pool_size
        (st.mb25_strings.map
          (relocate st.mb25_global.pool st.mb25_global.pool_size st.mb25_strings))
        (st.mb25_global.pool + k) = k := by
  have h0 := live_below_dead st.mb25_global.pool st.mb25_global.pool_size
    (st.mb25_strings.map
      (relocate st.mb25_global.pool st.mb25_global.pool_size st.mb25_strings))
    0 st.mb25_global.pool (Nat.zero_le _) (by
      intro b _ hb
      cases hl : live st.mb25_global.pool st.mb25_global.pool_size
        (st.mb25_strings.map
          (relocate st.mb25_global.pool st.mb25_global.pool_size st.mb25_strings)) b
      · rfl
      · have := ((live_relocated st h b).mp hl).1; omega)
  have h1 := live_below_add st.mb25_global.pool st.mb25_global.pool_size
    (st.mb25_strings.map
      (relocate st.mb25_global.pool st.mb25_global.pool_size st.mb25_strings))
    st.mb25_global.pool k (fun b b1 b2 => (live_relocated st h b).mpr ⟨b1, by omega⟩)
  rw [h1, h0]
  simp [live_below]



theorem live_below_end (pool pool_size : Nat) (W : List mb25_string_t) (d : mb25_string_t)
    (hd : d ∈ W) (hin : in_pool pool pool_size d = true) :
    live_below pool pool_size W (d.data + d.len) = live_below pool pool_size W d.data + d.len :=
  live_below_add pool pool_size W d.data d.len
    (fun _ h1 h2 => (live_iff _ _ _ _).mpr ⟨d, hd, hin, h1, h2⟩)

theorem relocate_of_in_pool (pool pool_size : Nat) (W : List mb25_string_t) (d : mb25_string_t)
    (h : in_pool pool pool_size d = true) :
    relocate pool pool_size W d = { d with data := pool + live_below pool pool_size W d.data } := by
  unfold relocate; rw [if_pos h]

theorem relocate_of_not_in_pool (pool pool_size : Nat) (W : List mb25_string_t)
    (d : mb25_string_t) (h : in_pool pool pool_size d = false) :
    relocate pool pool_size W d = d := by
  unfold relocate; rw [h]; rfl

theorem gc_pool (st : State) :
    (mb25_garbage_collect st).mb25_global.pool = st.mb25_global.pool := rfl

theorem gc_pool_size (st : State) :
    (mb25_garbage_collect st).mb25_global.pool_size = st.mb25_global.pool_size := rfl

theorem gc_strings (st : State) (h : supported st) :
    (mb25_garbage_collect st).mb25_strings =
      st.mb25_strings.map
        (relocate st.mb25_global.pool st.mb25_global.pool_size st.mb25_strings) :=
  (gc_supported st h).1

theorem gc_allocator (st : State) (h : supported st) :
    (mb25_garbage_collect st).mb25_global.allocator =
      live_below st.mb25_global.pool st.mb25_global.pool_size st.mb25_strings
        (st.mb25_global.pool + st.mb25_global.allocator) := by
  rw [(gc_supported st h).2.1]

/-- A collection leaves a supported state supported. -/
theorem gc_keeps_supported (st : State) (h : supported st) :
    supported (mb25_garbage_collect st) := by
  have g1 := gc_strings st h
  have g2 := gc_allocator st h
  have hs := h
  obtain ⟨hlen, hsize, hpool, hcur, hcont, hsafe, hids⟩ := hs
  have hle := live_below_le st.mb25_global.pool st.mb25_global.pool_size st.mb25_strings
    (st.mb25_global.pool + st.mb25_global.allocator)
  have hmax : max (st.mb25_global.pool + st.mb25_global.allocator) st.mb25_global.pool =
      st.mb25_global.pool + st.mb25_global.allocator := by omega
  rw [hmax] at hle
  unfold supported
  rw [g1, g2, gc_pool, gc_pool_size]
  refine ⟨by simpa using hlen, hsize, hpool, by omega, ?_, ?_, ?_⟩
  · intro d' hd' hin'
    obtain ⟨d, hd, rfl⟩ := List.mem_map.mp hd'
    rw [in_pool_relocate _ _ _ _ hpool] at hin'
    have hc := hcont d hd hin'
    have hm := live_below_mono st.mb25_global.pool st.mb25_global.pool_size st.mb25_strings
      _ _ hc
    rw [live_below_end _ _ _ d hd hin'] at hm
    rw [relocate_of_in_pool _ _ _ d hin']
    show st.mb25_global.pool + _ + d.len ≤ st.mb25_global.pool + _
    omega
  · intro d' hd' e' he' hdin' hein'
    obtain ⟨d, hd, rfl⟩ := List.mem_map.mp hd'
    obtain ⟨e, he, rfl⟩ := List.mem_map.mp he'
    show (_ ∨ _) ∨ ∃ r ∈ List.map (relocate st.mb25_global.pool st.mb25_global.pool_size
      st.mb25_strings) st.mb25_strings, in_pool st.mb25_global.pool st.mb25_global.pool_size r
        = true ∧ _
    rw [in_pool_relocate _ _ _ _ hpool] at hdin' hein'
    have ed := live_below_end _ _ _ d hd hdin'
    have ee := live_below_end _ _ _ e he hein'
    have rd : (relocate st.mb25_global.pool st.mb25_global.pool_size st.mb25_strings d).data =
        st.mb25_global.pool +
          live_below st.mb25_global.pool st.mb25_global.pool_size st.mb25_strings d.data := by
      rw [relocate_of_in_pool _ _ _ _ hdin']
    have re : (relocate st.mb25_global.pool st.mb25_global.pool_size st.mb25_strings e).data =
        st.mb25_global.pool +
          live_below st.mb25_global.pool st.mb25_global.pool_size st.mb25_strings e.data := by
      rw [relocate_of_in_pool _ _ _ _ hein']
    rw [rd, re, relocate_len, relocate_len]
    rcases hsafe d hd e he hdin' hein' with (s | s) | ⟨r, hr, hrin, r1, r2, r3, r4⟩
    · have := live_below_mono st.mb25_global.pool st.mb25_global.pool_size st.mb25_strings _ _ s
      left; left; omega
    · have := live_below_mono st.mb25_global.pool st.mb25_global.pool_size st.mb25_strings _ _ s
      left; right; omega
    · right
      refine ⟨_, List.mem_map.mpr ⟨r, hr, rfl⟩, ?_, ?_⟩
      · rw [in_pool_relocate _ _ _ _ hpool]; exact hrin
      · have er := live_below_end _ _ _ r hr hrin
        have rr : (relocate st.mb25_global.pool st.mb25_global.pool_size st.mb25_strings
            r).data = st.mb25_global.pool +
              live_below st.mb25_global.pool st.mb25_global.pool_size st.mb25_strings r.data := by
          rw [relocate_of_in_pool _ _ _ _ hrin]
        rw [rr, relocate_len]
        have m1 := live_below_mono st.mb25_global.pool st.mb25_global.pool_size
          st.mb25_strings _ _ r1
        have m2 := live_below_mono st.mb25_global.pool st.mb25_global.pool_size
          st.mb25_strings _ _ r2
        have m3 := live_below_mono st.mb25_global.pool st.mb25_global.pool_size
          st.mb25_strings _ _ r3
        have m4 := live_below_mono st.mb25_global.pool st.mb25_global.pool_size
          st.mb25_strings _ _ r4
        omega
  · exact hids.map _ (fun a b hab => by rw [relocate_str_id, relocate_str_id]; exact hab)

/-- L5 on supported states: a second collection changes neither the descriptors nor the
cursor. -/
theorem gc_twice_supported (st : State) (h : supported st) :
    (mb25_garbage_collect (mb25_garbage_collect st)).mb25_strings =
        (mb25_garbage_collect st).mb25_strings ∧
      (mb25_garbage_collect (mb25_garbage_collect st)).mb25_global.allocator =
        (mb25_garbage_collect st).mb25_global.allocator := by
  have h' := gc_keeps_supported st h
  have g1 := gc_strings st h
  have g2 := gc_allocator st h
  have k1 := gc_strings _ h'
  have k2 := gc_allocator _ h'
  rw [gc_pool, gc_pool_size, g1] at k1 k2
  rw [g2] at k2
  have hs := h
  obtain ⟨hlen, hsize, hpool, hcur, hcont, hsafe, hids⟩ := hs
  constructor
  · rw [k1, g1]
    rw [List.map_map]
    apply List.map_congr_left
    intro d hd
    show relocate _ _ _ (relocate _ _ _ d) = relocate _ _ _ d
    cases hin : in_pool st.mb25_global.pool st.mb25_global.pool_size d
    · rw [relocate_of_not_in_pool _ _ _ d hin, relocate_of_not_in_pool _ _ _ d hin]
    · have hc := hcont d hd hin
      have hm := live_below_mono st.mb25_global.pool st.mb25_global.pool_size st.mb25_strings
        d.data (st.mb25_global.pool + st.mb25_global.allocator) (by omega)
      have hk := live_below_relocated st h _ hm
      have hin2 := in_pool_relocate st.mb25_global.pool st.mb25_global.pool_size
        st.mb25_strings d hpool
      rw [hin] at hin2
      rw [relocate_of_in_pool _ _ _ d hin] at hin2 ⊢
      rw [relocate_of_in_pool _ _ _ _ hin2]
      show { d with data := _ } = _
      simp only [hk]
  · rw [k2, g2]
    exact live_below_relocated st h _ (Nat.le_refl _)

/-! ## The pointer-level invariant is kept by every operation -/

theorem mem_set_ids (W : List mb25_string_t)
    (hids : W.Pairwise (fun a b => a.str_id < b.str_id)) (i : Nat) (hi : i < W.length)
    (y d : mb25_string_t) (hd : d ∈ W.set i y) :
    d = y ∨ (d ∈ W ∧ d.str_id ≠ (W.getD i zero_string).str_id) := by
  obtain ⟨j, hj, rfl⟩ := List.getElem_of_mem hd
  have hj' : j < W.length := by simpa using hj
  by_cases e : i = j
  · subst e; left; simp
  · right
    rw [List.getElem_set_ne e]
    refine ⟨List.getElem_mem _, ?_⟩
    rw [List.getD_eq_getElem _ _ hi]
    rw [List.pairwise_iff_getElem] at hids
    rcases Nat.lt_or_gt_of_ne e with h | h
    · exact Nat.ne_of_gt (hids i j hi hj' h)
    · exact Nat.ne_of_lt (hids j i hj' hi h)

theorem map_set_same (W : List mb25_string_t) (i : Nat) (y : mb25_string_t)
    (hid : y.str_id = (W.getD i zero_string).str_id) :
    (W.set i y).map (fun d => d.str_id) = W.map (fun d => d.str_id) := by
  induction W generalizing i with
  | nil => rfl
  | cons a t ih =>
    cases i with
    | zero => simp at hid; simp [hid]
    | succ k =>
      have := ih k (by simpa using hid)
      simp only [List.set_cons_succ, List.map_cons, this]

theorem ids_set (W : List mb25_string_t)
    (hids : W.Pairwise (fun a b => a.str_id < b.str_id)) (i : Nat) (y : mb25_string_t)
    (hid : y.str_id = (W.getD i zero_string).str_id) :
    (W.set i y).Pairwise (fun a b => a.str_id < b.str_id) := by
  have h1 : (W.map (fun d => d.str_id)).Pairwise (· < ·) := by
    rw [List.pairwise_map]; exact hids
  rw [← map_set_same W i y hid, List.pairwise_map] at h1
  exact h1

/-- Storing a well-formed descriptor that keeps the invariant towards all the others keeps
the invariant. -/
theorem wf_set (g : mb25_globals_t) (W : List mb25_string_t) (h : well_formed g W) (i : Nat)
    (hi : i < W.length) (y : mb25_string_t)
    (hid : y.str_id = (W.getD i zero_string).str_id) (hy : ok_string g y)
    (hex : ∀ e ∈ W, e.str_id ≠ y.str_id → 0 < e.len → 0 < y.len →
      (y.writeable = true ∨ e.writeable = true) →
        y.data + y.len ≤ e.data ∨ e.data + e.len ≤ y.data) :
    well_formed g (W.set i y) :=
  { table := by simpa using h.table
    size := h.size
    pool := h.pool
    cursor := h.cursor
    ids := ids_set W h.ids i y hid
    each := by
      intro d hd
      rcases mem_set_ids W h.ids i hi y d hd with hdy | ⟨hd, _⟩
      · rw [hdy]; exact hy
      · exact h.each d hd
    excl := by
      intro d hd e he hne hw hdl hel
      rcases mem_set_ids W h.ids i hi y d hd with hdy | ⟨hd, hdi⟩
      · rcases mem_set_ids W h.ids i hi y e he with hey | ⟨he, hei⟩
        · rw [hdy, hey] at hne; exact absurd rfl hne
        · rw [hdy] at hne hw hdl ⊢
          exact hex e he (Ne.symm hne) hel hdl (Or.inl hw)
      · rcases mem_set_ids W h.ids i hi y e he with hey | ⟨he, hei⟩
        · rw [hey] at hne hel ⊢
          have := hex d hd hne hdl hel (Or.inr hw)
          omega
        · exact h.excl d hd e he hne hw hdl hel }

theorem valid_iff (st : State) (id : Nat) :
    MB25_VALID_ID st id = true ↔ id < st.mb25_strings.length := by
  simp [MB25_VALID_ID, MB25_NUM_STRINGS]

theorem wf_set_str (st : State) (h : wf st) (id : Nat) (hi : id < st.mb25_strings.length)
    (y : mb25_string_t) (hid : y.str_id = (str_at st id).str_id)
    (hy : ok_string st.mb25_global y)
    (hex : ∀ e ∈ st.mb25_strings, e.str_id ≠ y.str_id → 0 < e.len → 0 < y.len →
      (y.writeable = true ∨ e.writeable = true) →
        y.data + y.len ≤ e.data ∨ e.data + e.len ≤ y.data) :
    wf (set_str st id y) :=
  wf_set st.mb25_global st.mb25_strings h id hi y hid hy hex

theorem wf_clear (st : State) (h : wf st) (id : Nat) : wf (mb25_string_clear st id) := by
  unfold mb25_string_clear
  split_ifs with hv
  · refine wf_set_str st h id ((valid_iff st id).mp hv) _ rfl ?_ ?_
    · unfold ok_string; simp
    · intro e _ _ _ hy; simp at hy
  · exact h

theorem wf_free (st : State) (h : wf st) (id : Nat) : wf (mb25_string_free st id) :=
  wf_clear st h id

theorem ok_of_mem (st : State) (h : wf st) (id : Nat) (hi : id < st.mb25_strings.length) :
    ok_string st.mb25_global (str_at st id) :=
  h.each _ (str_at_mem st id hi)

theorem wf_alloc_const (st : State) (h : wf st) (id cstr : Nat)
    (hg : cstr + strlen st.mem cstr ≤ st.mb25_global.pool ∨
      st.mb25_global.pool + st.mb25_global.pool_size ≤ cstr) :
    wf (mb25_string_alloc_const st id cstr).2 := by
  unfold mb25_string_alloc_const
  dsimp only
  split_ifs with hv hc hl <;> try exact h
  · have hv' : id < st.mb25_strings.length := (valid_iff st id).mp hv
    refine wf_set_str st h id hv' _ rfl ?_ ?_
    · unfold ok_string
      refine ⟨fun e => absurd e hc, by simp, fun _ => hg, by simp⟩
    · intro e he _ hel hyl hw
      simp only [Bool.false_eq_true, false_or] at hw
      have oe := h.each e he
      have hed : e.data ≠ 0 := (oe.2.1 hw).2
      have := oe.2.2.2 (oe.2.1 hw).1 hed
      show cstr + strlen st.mem cstr ≤ e.data ∨ e.data + e.len ≤ cstr
      have hsz := h.cursor
      omega

theorem in_pool_of_ok (g : mb25_globals_t) (d : mb25_string_t) (h : ok_string g d)
    (hc : d.is_const = false) (hl : 0 < d.len) :
    in_pool g.pool g.pool_size d = true ∧ d.data + d.len ≤ g.pool + g.allocator := by
  obtain ⟨h1, _, _, h4⟩ := h
  have hd : d.data ≠ 0 := fun e => by have := h1 e; omega
  obtain ⟨c1, c2, c3⟩ := h4 hc hd
  have : d.data < g.pool + g.pool_size := by
    by_contra hcon
    have := c3 (by omega); omega
  exact ⟨(in_pool_iff _ _ _).mpr ⟨hd, hc, c1, this⟩, c2 this⟩

theorem supported_of_wf (st : State) (h : wf st)
    (hs : gc_safe st.mb25_global.pool st.mb25_global.pool_size st.mb25_strings) :
    supported st := by
  refine ⟨Nat.lt_of_le_of_lt h.table (by decide), h.size, h.pool, h.cursor, ?_, hs, h.ids⟩
  intro d hd hin
  obtain ⟨d1, d2, d3, d4⟩ := (in_pool_iff _ _ _).mp hin
  exact ((h.each d hd).2.2.2 d2 d1).2.1 d4

theorem wf_gc (st : State) (h : wf st)
    (hs : gc_safe st.mb25_global.pool st.mb25_global.pool_size st.mb25_strings) :
    wf (mb25_garbage_collect st) := by
  have hsup := supported_of_wf st h hs
  have hsup' := gc_keeps_supported st hsup
  have g1 := gc_strings st hsup
  have g2 := gc_allocator st hsup
  obtain ⟨k1, k2, k3, k4, k5, _, k7⟩ := hsup'
  simp only [gc_pool, gc_pool_size] at k2 k3 k4 k5
  have hpool := h.pool
  have hrel : ∀ d, (relocate st.mb25_global.pool st.mb25_global.pool_size st.mb25_strings
      d).data ≠ 0 ∨ relocate st.mb25_global.pool st.mb25_global.pool_size st.mb25_strings d
        = d := by
    intro d
    cases hin : in_pool st.mb25_global.pool st.mb25_global.pool_size d
    · right; exact relocate_of_not_in_pool _ _ _ d hin
    · left; rw [relocate_of_in_pool _ _ _ d hin]; show st.mb25_global.pool + _ ≠ 0; omega
  exact
    { table := by rw [g1]; simpa using h.table
      size := by rw [gc_pool_size]; exact h.size
      pool := by rw [gc_pool]; exact h.pool
      cursor := by rw [gc_pool_size]; exact k4
      ids := k7
      each := by
        intro d' hd'
        rw [g1] at hd'
        obtain ⟨d, hd, rfl⟩ := List.mem_map.mp hd'
        have od := h.each d hd
        cases hin : in_pool st.mb25_global.pool st.mb25_global.pool_size d
        · rw [relocate_of_not_in_pool _ _ _ d hin]
          obtain ⟨o1, o2, o3, o4⟩ := od
          refine ⟨o1, o2, ?_, ?_⟩
          · rw [gc_pool, gc_pool_size]; exact o3
          · rw [gc_pool, gc_pool_size]
            intro hc hd0
            obtain ⟨c1, c2, c3⟩ := o4 hc hd0
            have hnot : ¬ d.data < st.mb25_global.pool + st.mb25_global.pool_size := by
              intro hlt
              have := (in_pool_iff _ _ _).mpr ⟨hd0, hc, c1, hlt⟩
              rw [hin] at this; exact Bool.noConfusion this
            exact ⟨c1, fun hlt => absurd hlt hnot, c3⟩
        · have hin' := in_pool_relocate st.mb25_global.pool st.mb25_global.pool_size
            st.mb25_strings d hpool
          rw [hin] at hin'
          have hc := k5 _ (by rw [g1]; exact List.mem_map.mpr ⟨d, hd, rfl⟩) hin'
          obtain ⟨r1, r2, r3, r4⟩ := (in_pool_iff _ _ _).mp hin'
          obtain ⟨o1, o2, o3, o4⟩ := od
          obtain ⟨d1, d2, _, _⟩ := (in_pool_iff _ _ _).mp hin
          refine ⟨fun e => absurd e r1, ?_, ?_, ?_⟩
          · intro hw
            rw [relocate_writeable] at hw
            exact ⟨r2, r1⟩
          · intro hcst; rw [r2] at hcst; exact Bool.noConfusion hcst
          · rw [gc_pool, gc_pool_size]
            intro _ _
            exact ⟨r3, fun _ => hc, fun hge => by omega⟩
      excl := by
        intro d' hd' e' he' hne hw hdl hel
        rw [g1] at hd' he'
        obtain ⟨d, hd, rfl⟩ := List.mem_map.mp hd'
        obtain ⟨e, he, rfl⟩ := List.mem_map.mp he'
        rw [relocate_str_id, relocate_str_id] at hne
        rw [relocate_writeable] at hw
        rw [relocate_len] at hdl hel ⊢
        rw [relocate_len]
        have od := h.each d hd
        have oe := h.each e he
        obtain ⟨hdin, hdc⟩ := in_pool_of_ok _ d od (od.2.1 hw).1 hdl
        have hsep := h.excl d hd e he hne hw hdl hel
        have ed := live_below_end _ _ _ d hd hdin
        rw [relocate_of_in_pool _ _ _ d hdin]
        show st.mb25_global.pool + _ + d.len ≤ _ ∨ _ ≤ st.mb25_global.pool + _
        have hled := live_below_le st.mb25_global.pool st.mb25_global.pool_size
          st.mb25_strings (d.data + d.len)
        obtain ⟨dd1, dd2, dd3, dd4⟩ := (in_pool_iff _ _ _).mp hdin
        cases hec : e.is_const
        · obtain ⟨hein, _⟩ := in_pool_of_ok _ e oe hec hel
          have ee := live_below_end _ _ _ e he hein
          rw [relocate_of_in_pool _ _ _ e hein]
          show _ ≤ st.mb25_global.pool + _ ∨ st.mb25_global.pool + _ + e.len ≤ _
          rcases hsep with s | s
          · have := live_below_mono st.mb25_global.pool st.mb25_global.pool_size
              st.mb25_strings _ _ s
            left; omega
          · have := live_below_mono st.mb25_global.pool st.mb25_global.pool_size
              st.mb25_strings _ _ s
            right; omega
        · have hnin : in_pool st.mb25_global.pool st.mb25_global.pool_size e = false := by
            unfold in_pool; simp [hec]
          rw [relocate_of_not_in_pool _ _ _ e hnin]
          rcases oe.2.2.1 hec with a | a
          · right; omega
          · left
            have hmax : max (d.data + d.len) st.mb25_global.pool = d.data + d.len := by omega
            rw [hmax] at hled
            have := h.cursor
            omega }

theorem str_at_set_str (st : State) (id : Nat) (y : mb25_string_t)
    (h : id < st.mb25_strings.length) : str_at (set_str st id y) id = y :=
  getD_set_self st.mb25_strings id y zero_string h

theorem str_at_set_str_ne (st : State) (id j : Nat) (y : mb25_string_t) (h : id ≠ j) :
    str_at (set_str st id y) j = str_at st j :=
  getD_set_ne st.mb25_strings id j y zero_string h

theorem ok_string_mono (g g' : mb25_globals_t) (d : mb25_string_t) (h : ok_string g d)
    (hp : g'.pool = g.pool) (hs : g'.pool_size = g.pool_size)
    (ha : g.allocator ≤ g'.allocator) : ok_string g' d := by
  obtain ⟨o1, o2, o3, o4⟩ := h
  refine ⟨o1, o2, ?_, ?_⟩
  · rw [hp, hs]; exact o3
  · rw [hp, hs]
    intro hc hd
    obtain ⟨c1, c2, c3⟩ := o4 hc hd
    exact ⟨c1, fun hlt => by have := c2 hlt; omega, c3⟩

theorem well_formed_mono (g g' : mb25_globals_t) (W : List mb25_string_t)
    (h : well_formed g W) (hp : g'.pool = g.pool) (hs : g'.pool_size = g.pool_size)
    (ha : g.allocator ≤ g'.allocator) (hc : g'.allocator ≤ g'.pool_size) :
    well_formed g' W :=
  { table := h.table
    size := by rw [hs]; exact h.size
    pool := by rw [hp]; exact h.pool
    cursor := hc
    ids := h.ids
    each := fun d hd => ok_string_mono g g' d (h.each d hd) hp hs ha
    excl := h.excl }

theorem allocate_fits (st : State) (id size : Nat)
    (hfit : (st.mb25_global.pool_size + 65536 - st.mb25_global.allocator) % 65536 ≥ size) :
    (allocate_from_pool st id size).1 = MB25_SUCCESS ∧
    (alloc_setup (allocate_from_pool st id size).2 id).mb25_global.pool = st.mb25_global.pool ∧
    (alloc_setup (allocate_from_pool st id size).2 id).mb25_global.pool_size =
      st.mb25_global.pool_size ∧
    (alloc_setup (allocate_from_pool st id size).2 id).mb25_global.allocator =
      (st.mb25_global.allocator + size) % 65536 ∧
    (alloc_setup (allocate_from_pool st id size).2 id).mem = st.mem ∧
    (id < st.mb25_strings.length →
      (alloc_setup (allocate_from_pool st id size).2 id).mb25_strings =
        st.mb25_strings.set id
          (fresh_string (str_at st id) (st.mb25_global.pool + st.mb25_global.allocator))) := by
  unfold allocate_from_pool
  dsimp only
  rw [if_pos hfit]
  refine ⟨rfl, rfl, rfl, rfl, rfl, ?_⟩
  intro hi
  unfold alloc_setup set_str str_at fresh_string
  dsimp only
  rw [getD_set_self _ _ _ _ hi, List.set_set]

theorem allocate_fail (st : State) (id size : Nat)
    (hfit : ¬ (st.mb25_global.pool_size + 65536 - st.mb25_global.allocator) % 65536 ≥ size) :
    allocate_from_pool st id size = (MB25_ERR_OUT_OF_MEMORY, st) := by
  unfold allocate_from_pool
  dsimp only
  rw [if_neg hfit]


theorem wf_of_shape (st s' : State) (h : wf st) (hp : s'.mb25_global.pool = st.mb25_global.pool)
    (hs : s'.mb25_global.pool_size = st.mb25_global.pool_size)
    (ha : st.mb25_global.allocator ≤ s'.mb25_global.allocator)
    (hc : s'.mb25_global.allocator ≤ s'.mb25_global.pool_size) :
    well_formed s'.mb25_global st.mb25_strings :=
  well_formed_mono _ _ _ h hp hs ha hc

/-- A successful `allocate_from_pool` followed by the descriptor set-up of
`mb25_string_alloc`. -/
theorem allocate_ok (st : State) (h : wf st) (id size : Nat)
    (hi : id < st.mb25_strings.length)
    (hfit : (st.mb25_global.pool_size + 65536 - st.mb25_global.allocator) % 65536 ≥ size) :
    wf (alloc_setup (allocate_from_pool st id size).2 id) ∧
      fresh (alloc_setup (allocate_from_pool st id size).2 id) id size := by
  obtain ⟨_, e1, e2, e3, _, e5⟩ := allocate_fits st id size hfit
  have e5 := e5 hi
  have hcur := h.cursor
  have hsz := h.size
  have hpool := h.pool
  have hmod : (st.mb25_global.allocator + size) % 65536 = st.mb25_global.allocator + size := by
    omega
  rw [hmod] at e3
  have hw0 := wf_of_shape st _ h e1 e2 (by rw [e3]; omega) (by rw [e3, e2]; omega)
  have hstr : str_at (alloc_setup (allocate_from_pool st id size).2 id) id =
      fresh_string (str_at st id) (st.mb25_global.pool + st.mb25_global.allocator) := by
    unfold str_at; rw [e5]; exact getD_set_self _ _ _ _ hi
  constructor
  · unfold wf
    rw [e5]
    refine wf_set _ _ hw0 id hi _ rfl ?_ ?_
    · unfold ok_string fresh_string
      rw [e1, e2, e3]
      refine ⟨fun _ => rfl, fun _ => ⟨rfl, by show st.mb25_global.pool + _ ≠ 0; omega⟩,
        fun hc => Bool.noConfusion hc, fun _ _ => ⟨by show _ ≤ st.mb25_global.pool + _; omega,
          fun _ => by show st.mb25_global.pool + _ + 0 ≤ _; omega, fun _ => rfl⟩⟩
    · intro e _ _ _ hyl _
      exact absurd hyl (Nat.lt_irrefl 0)
  · unfold fresh
    rw [hstr, e5, e1, e3]
    refine ⟨by simpa using hi, rfl, rfl, rfl, ?_, ?_, ?_⟩
    · show st.mb25_global.pool + st.mb25_global.allocator + size = _; omega
    · show st.mb25_global.pool ≤ st.mb25_global.pool + st.mb25_global.allocator; omega
    · intro e he hne hel hec
      show e.data + e.len ≤ st.mb25_global.pool + st.mb25_global.allocator
      rcases mem_set_ids st.mb25_strings h.ids id hi _ e he with hey | ⟨he', _⟩
      · rw [hey] at hne; exact absurd rfl hne
      · exact (in_pool_of_ok _ e (h.each e he') hec hel).2

/-- The invariant after `mb25_string_alloc`, and freshness of the slot on success; the
topology is needed only when the request does not fit the free space. -/
theorem wf_alloc_c (st : State) (h : wf st) (id size : Nat)
    (hs : needs_gc st size → safe_topology st) :
    wf (mb25_string_alloc st id size).2 ∧
      ((mb25_string_alloc st id size).1 = MB25_SUCCESS →
        fresh (mb25_string_alloc st id size).2 id size) := by
  unfold mb25_string_alloc
  by_cases hv : MB25_VALID_ID st id = true
  · have hi := (valid_iff st id).mp hv
    rw [if_neg (by simp [hv])]
    by_cases hl : size > MB25_MAX_STRING_LEN
    · rw [if_pos hl]; exact ⟨h, fun e => by cases e⟩
    · rw [if_neg hl]
      dsimp only
      by_cases hfit : (st.mb25_global.pool_size + 65536 - st.mb25_global.allocator) % 65536
          ≥ size
      · have hok := (allocate_fits st id size hfit).1
        rw [if_neg (by rw [hok]; simp)]
        have := allocate_ok st h id size hi hfit
        exact ⟨this.1, fun _ => this.2⟩
      · have hfail := allocate_fail st id size hfit
        rw [if_pos (by rw [hfail]; simp)]
        have hs : gc_safe st.mb25_global.pool st.mb25_global.pool_size st.mb25_strings :=
          hs (by unfold needs_gc mb25_get_free_space; omega)
        have hg := wf_gc st h hs
        have hlen : id < (mb25_garbage_collect st).mb25_strings.length := by
          rw [gc_strings st (supported_of_wf st h hs)]; simpa using hi
        by_cases hfit2 : ((mb25_garbage_collect st).mb25_global.pool_size + 65536 -
            (mb25_garbage_collect st).mb25_global.allocator) % 65536 ≥ size
        · have hok := (allocate_fits (mb25_garbage_collect st) id size hfit2).1
          rw [if_neg (by rw [hok]; simp)]
          have := allocate_ok _ hg id size hlen hfit2
          exact ⟨this.1, fun _ => this.2⟩
        · have hfail2 := allocate_fail (mb25_garbage_collect st) id size hfit2
          rw [if_pos (by rw [hfail2]; simp)]
          rw [hfail2]
          exact ⟨hg, fun e => by cases e⟩
  · rw [if_pos (by simp [hv])]
    exact ⟨h, fun e => by cases e⟩

/-- The invariant after `mb25_string_alloc`, and freshness of the slot on success. -/
theorem wf_alloc (st : State) (h : wf st)
    (hs : gc_safe st.mb25_global.pool st.mb25_global.pool_size st.mb25_strings)
    (id size : Nat) :
    wf (mb25_string_alloc st id size).2 ∧
      ((mb25_string_alloc st id size).1 = MB25_SUCCESS →
        fresh (mb25_string_alloc st id size).2 id size) :=
  wf_alloc_c st h id size (fun _ => hs)

/-- Giving a fresh slot a length within its region keeps the invariant. -/
theorem wf_set_len_fresh (st : State) (h : wf st) (id size n : Nat) (hf : fresh st id size)
    (hn : n ≤ size) (m : Nat → Nat) :
    wf (set_str { st with mem := m } id { str_at { st with mem := m } id with len := n }) := by
  obtain ⟨hi, f1, f2, f3, f4, f5, f6⟩ := hf
  have hcur := h.cursor
  refine wf_set st.mb25_global st.mb25_strings h id hi _ rfl ?_ ?_
  · have hd : str_at { st with mem := m } id = str_at st id := rfl
    rw [hd]
    refine ⟨?_, ?_, ?_, ?_⟩
    · intro e
      have : (str_at st id).data = 0 := e
      have := h.pool
      omega
    · intro _
      exact ⟨f2, fun e => by
        have : (str_at st id).data = 0 := e
        have := h.pool
        omega⟩
    · intro hc
      have : (str_at st id).is_const = true := hc
      rw [f2] at this; exact Bool.noConfusion this
    · intro _ _
      refine ⟨f5, fun _ => ?_, fun hge => ?_⟩
      · show (str_at st id).data + n ≤ _; omega
      · show n = 0
        have : st.mb25_global.pool + st.mb25_global.pool_size ≤ (str_at st id).data := hge
        omega
  · intro e he hne hel hyl _
    have hd : str_at { st with mem := m } id = str_at st id := rfl
    rw [hd] at hne ⊢
    have hne' : e.str_id ≠ (str_at st id).str_id := hne
    show (str_at st id).data + n ≤ e.data ∨ e.data + e.len ≤ (str_at st id).data
    cases hec : e.is_const
    · right; exact f6 e he hne' hel hec
    · rcases (h.each e he).2.2.1 hec with a | a
      · right; omega
      · left; omega

theorem wf_alloc_init (st : State) (h : wf st) (id init_str : Nat)
    (hs : needs_gc st (strlen st.mem init_str) → safe_topology st) :
    wf (mb25_string_alloc_init st id init_str).2 := by
  unfold mb25_string_alloc_init
  dsimp only
  obtain ⟨ha, hf⟩ := wf_alloc_c st h id (strlen st.mem init_str) hs
  split_ifs with h1 h2 h3 <;> try exact h
  · exact ha
  · have h3' : (mb25_string_alloc st id (strlen st.mem init_str)).1 = MB25_SUCCESS := by
      simpa using h3
    exact wf_set_len_fresh _ ha id _ _ (hf h3') (Nat.le_refl _) _

theorem wf_from_c_string (st : State) (h : wf st) (id c_str : Nat)
    (hs : needs_gc st (strlen st.mem c_str) → safe_topology st) :
    wf (mb25_from_c_string st id c_str).2 := by
  unfold mb25_from_c_string
  split_ifs
  · exact wf_clear st h id
  · exact wf_alloc_init st h id c_str hs

theorem wf_congr (st st' : State) (hg : st'.mb25_global = st.mb25_global)
    (hW : st'.mb25_strings = st.mb25_strings) (h : wf st) : wf st' := by
  unfold wf; rw [hg, hW]; exact h

theorem set_len_congr (st st' : State) (hg : st'.mb25_global = st.mb25_global)
    (hW : st'.mb25_strings = st.mb25_strings) (id n : Nat) :
    wf (set_str st' id { str_at st' id with len := n }) ↔
      wf (set_str st id { str_at st id with len := n }) := by
  unfold wf set_str str_at
  simp only [hg, hW]

theorem wf_set_len_fresh_of (st st' : State) (hg : st'.mb25_global = st.mb25_global)
    (hW : st'.mb25_strings = st.mb25_strings) (h : wf st) (id size n : Nat)
    (hf : fresh st id size) (hn : n ≤ size) :
    wf (set_str st' id { str_at st' id with len := n }) :=
  (set_len_congr st st' hg hW id n).mpr (wf_set_len_fresh st h id size n hf hn st.mem)

/-- Shortening a string in place keeps the invariant. -/
theorem wf_shrink (st st' : State) (hg : st'.mb25_global = st.mb25_global)
    (hW : st'.mb25_strings = st.mb25_strings) (h : wf st) (id n : Nat)
    (hi : id < st.mb25_strings.length) (hn : n ≤ (str_at st id).len) :
    wf (set_str st' id { str_at st' id with len := n }) := by
  rw [set_len_congr st st' hg hW]
  have hm := str_at_mem st id hi
  obtain ⟨o1, o2, o3, o4⟩ := h.each _ hm
  refine wf_set st.mb25_global st.mb25_strings h id hi _ rfl ⟨?_, o2, ?_, ?_⟩ ?_
  · intro e
    have := o1 e
    show n = 0
    omega
  · intro hc
    have := o3 hc
    show (str_at st id).data + n ≤ st.mb25_global.pool ∨
      st.mb25_global.pool + st.mb25_global.pool_size ≤ (str_at st id).data
    omega
  · intro hc hd
    obtain ⟨c1, c2, c3⟩ := o4 hc hd
    refine ⟨c1, fun hlt => ?_, fun hge => ?_⟩
    · have := c2 hlt
      show (str_at st id).data + n ≤ _
      omega
    · have := c3 hge
      show n = 0
      omega
  · intro e he hne hel hyl hw
    have hyl' : 0 < n := hyl
    show (str_at st id).data + n ≤ e.data ∨ e.data + e.len ≤ (str_at st id).data
    rcases hw with hw | hw
    · have := h.excl _ hm e he (Ne.symm hne) hw (by omega) hel
      omega
    · have := h.excl e he _ hm hne hw hel (by omega)
      omega

/-- Overwriting a writable string in place, within the allocated part of the pool and apart
from every other non-empty window, keeps the invariant. -/
theorem wf_grow (st st' : State) (hg : st'.mb25_global = st.mb25_global)
    (hW : st'.mb25_strings = st.mb25_strings) (h : wf st) (id n : Nat)
    (hi : id < st.mb25_strings.length) (hip : in_place st id)
    (hin : (str_at st id).data + n ≤ st.mb25_global.pool + st.mb25_global.allocator)
    (hap : ∀ e ∈ st.mb25_strings, e.str_id ≠ (str_at st id).str_id → 0 < e.len →
      e.data + e.len ≤ (str_at st id).data ∨ (str_at st id).data + n ≤ e.data) :
    wf (set_str st' id { str_at st' id with len := n }) := by
  rw [set_len_congr st st' hg hW]
  have hm := str_at_mem st id hi
  obtain ⟨o1, o2, o3, o4⟩ := h.each _ hm
  obtain ⟨hw, hnz⟩ := hip
  have hc := (o2 hw).1
  have hcur := h.cursor
  refine wf_set st.mb25_global st.mb25_strings h id hi _ rfl ⟨?_, o2, ?_, ?_⟩ ?_
  · intro e
    exact absurd e hnz
  · intro hc'
    have hc2 : (str_at st id).is_const = true := hc'
    rw [hc] at hc2
    exact Bool.noConfusion hc2
  · intro _ _
    obtain ⟨c1, _, _⟩ := o4 hc hnz
    refine ⟨c1, fun _ => hin, fun hge => ?_⟩
    have hge' : st.mb25_global.pool + st.mb25_global.pool_size ≤ (str_at st id).data := hge
    show n = 0
    omega
  · intro e he hne hel _ _
    show (str_at st id).data + n ≤ e.data ∨ e.data + e.len ≤ (str_at st id).data
    have := hap e he hne hel
    omega

/-- An overwrite in place that `fits_in_place` keeps the invariant. -/
theorem wf_overwrite (st st' : State) (hg : st'.mb25_global = st.mb25_global)
    (hW : st'.mb25_strings = st.mb25_strings) (h : wf st) (id n : Nat)
    (hi : id < st.mb25_strings.length) (hip : in_place st id) (hf : fits_in_place st id n) :
    wf (set_str st' id { str_at st' id with len := n }) := by
  rcases hf with hle | ⟨hin, hap⟩
  · exact wf_shrink st st' hg hW h id n hi hle
  · exact wf_grow st st' hg hW h id n hi hip hin hap

theorem wf_assign (st : State) (h : wf st) (id data len : Nat)
    (hg : in_place st id → fits_in_place st id len)
    (hs : ¬ in_place st id → needs_gc st len → safe_topology st) :
    wf (mb25_string_assign st id data len).2 := by
  unfold mb25_string_assign
  dsimp only
  split_ifs with h1 h2 h3 h4 <;> try exact h
  · have hi := (valid_iff st id).mp h1
    exact wf_overwrite st _ rfl rfl h id len hi h3 (hg h3)
  · exact (wf_alloc_c st h id len (hs h3)).1
  · obtain ⟨ha, hf⟩ := wf_alloc_c st h id len (hs h3)
    have h4' : (mb25_string_alloc st id len).1 = MB25_SUCCESS := by simpa using h4
    exact wf_set_len_fresh _ ha id _ _ (hf h4') (Nat.le_refl _) _

theorem wf_set_from_buf (st : State) (h : wf st) (id buf width : Nat)
    (hg : in_place st id → fits_in_place st id (trim_len st.mem buf width))
    (hs : ¬ in_place st id → needs_gc st (trim_len st.mem buf width) → safe_topology st) :
    wf (mb25_string_set_from_buf st id buf width).2 := by
  unfold mb25_string_set_from_buf
  split_ifs <;> try exact h
  exact wf_assign st h id buf _ hg hs

theorem guarded_memcpy_strings (st : State) (dst src n : Nat) :
    (guarded_memcpy st dst src n).mb25_strings = st.mb25_strings := by
  unfold guarded_memcpy; split_ifs <;> rfl

theorem guarded_memcpy_global (st : State) (dst src n : Nat) :
    (guarded_memcpy st dst src n).mb25_global = st.mb25_global := by
  unfold guarded_memcpy; split_ifs <;> rfl

theorem str_at_guarded_memcpy (st : State) (dst src n i : Nat) :
    str_at (guarded_memcpy st dst src n) i = str_at st i := by
  unfold str_at; rw [guarded_memcpy_strings]

theorem wf_concat (st : State) (h : wf st) (dest_id str1_id str2_id : Nat)
    (hs : needs_gc st (((str_at st str1_id).len + (str_at st str2_id).len) % 65536) →
      safe_topology st) :
    wf (mb25_string_concat st dest_id str1_id str2_id).2 := by
  unfold mb25_string_concat
  dsimp only
  obtain ⟨ha, hf⟩ := wf_alloc_c st h dest_id
    (((str_at st str1_id).len + (str_at st str2_id).len) % 65536) hs
  split_ifs with h1 h2 h3 <;> try exact h
  all_goals first
    | exact ha
    | (have h3' : (mb25_string_alloc st dest_id
          (((str_at st str1_id).len + (str_at st str2_id).len) % 65536)).1 = MB25_SUCCESS :=
        not_not.mp (by assumption)
       have hlt : ((str_at st str1_id).len + (str_at st str2_id).len) % 65536 ≤ 255 := by
        unfold MB25_MAX_STRING_LEN at h2; omega
       refine wf_set_len_fresh_of _ _ ?_ ?_ ha dest_id _ _ (hf h3') ?_
       · rw [guarded_memcpy_global, guarded_memcpy_global]
       · rw [guarded_memcpy_strings, guarded_memcpy_strings]
       · omega)

theorem alloc_len_ne (st : State) (h : wf st) (id size : Nat)
    (hs : needs_gc st size → safe_topology st) (j : Nat) (hne : id ≠ j) :
    (str_at (mb25_string_alloc st id size).2 j).len = (str_at st j).len := by
  unfold mb25_string_alloc
  by_cases hv : MB25_VALID_ID st id = true
  · have hi := (valid_iff st id).mp hv
    rw [if_neg (by simp [hv])]
    by_cases hl : size > MB25_MAX_STRING_LEN
    · rw [if_pos hl]
    · rw [if_neg hl]
      dsimp only
      by_cases hfit : (st.mb25_global.pool_size + 65536 - st.mb25_global.allocator) % 65536
          ≥ size
      · obtain ⟨hok, _, _, _, _, e5⟩ := allocate_fits st id size hfit
        rw [if_neg (by rw [hok]; simp)]
        unfold str_at
        rw [e5 hi, getD_set_ne _ _ _ _ _ hne]
      · have hfail := allocate_fail st id size hfit
        rw [if_pos (by rw [hfail]; simp)]
        have hsup := supported_of_wf st h
          (hs (by unfold needs_gc mb25_get_free_space; omega))
        have hlen : id < (mb25_garbage_collect st).mb25_strings.length := by
          rw [gc_strings st hsup]; simpa using hi
        have hgc : (str_at (mb25_garbage_collect st) j).len = (str_at st j).len := by
          rw [str_at_gc st hsup, relocate_len]
        by_cases hfit2 : ((mb25_garbage_collect st).mb25_global.pool_size + 65536 -
            (mb25_garbage_collect st).mb25_global.allocator) % 65536 ≥ size
        · obtain ⟨hok, _, _, _, _, e5⟩ := allocate_fits (mb25_garbage_collect st) id size hfit2
          rw [if_neg (by rw [hok]; simp)]
          rw [← hgc]
          unfold str_at
          rw [e5 hlen, getD_set_ne _ _ _ _ _ hne]
        · have hfail2 := allocate_fail (mb25_garbage_collect st) id size hfit2
          rw [if_pos (by rw [hfail2]; simp)]
          rw [hfail2]
          exact hgc
  · rw [if_pos (by simp [hv])]

theorem wf_dup (st : State) (h : wf st) (dest_id src_id : Nat)
    (hs : needs_gc st (str_at st src_id).len → safe_topology st) :
    wf (mb25_string_dup st dest_id src_id).2 := by
  unfold mb25_string_dup
  dsimp only
  obtain ⟨ha, hf⟩ := wf_alloc_c st h dest_id (str_at st src_id).len hs
  have hlen : (mb25_string_alloc st dest_id (str_at st src_id).len).1 = MB25_SUCCESS →
      (str_at (mb25_string_alloc st dest_id (str_at st src_id).len).2 src_id).len ≤
        (str_at st src_id).len := by
    intro hok
    by_cases e : dest_id = src_id
    · subst e
      rw [(hf hok).2.2.2.1]; exact Nat.zero_le _
    · rw [alloc_len_ne st h dest_id _ hs src_id e]
  split_ifs with h1 h2 <;> try exact h
  all_goals first
    | exact ha
    | (have h2' : (mb25_string_alloc st dest_id (str_at st src_id).len).1 = MB25_SUCCESS :=
        not_not.mp (by assumption)
       rw [str_at_guarded_memcpy _ _ _ _ src_id]
       refine wf_set_len_fresh_of _ _ ?_ ?_ ha dest_id _ _ (hf h2') (hlen h2')
       · rw [guarded_memcpy_global]
       · rw [guarded_memcpy_strings])

theorem wf_mid_assign (st : State) (h : wf st) (dest_id start data len : Nat)
    (hs : (str_at st dest_id).writeable = false → needs_gc st (str_at st dest_id).len →
      safe_topology st) :
    wf (mb25_string_mid_assign st dest_id start data len).2 := by
  unfold mb25_string_mid_assign
  dsimp only
  by_cases hw : (str_at st dest_id).writeable = true
  · split_ifs <;> exact h
  · have hw' : (str_at st dest_id).writeable = false := by
      cases hh : (str_at st dest_id).writeable
      · rfl
      · exact absurd hh hw
    obtain ⟨ha, hf⟩ := wf_alloc_c st h dest_id (str_at st dest_id).len (hs hw')
    split_ifs with h1 h2 h3 h4 h5 h6 <;> try exact h
    all_goals first
      | exact ha
      | (have h5' : (mb25_string_alloc st dest_id (str_at st dest_id).len).1 = MB25_SUCCESS :=
          not_not.mp (by assumption)
         exact wf_congr _ _ rfl rfl
          (wf_set_len_fresh _ ha dest_id _ _ (hf h5') (Nat.le_refl _) _))

theorem wf_get_c_string_temp (st : State) (h : wf st) (src_id temp_id : Nat)
    (hs : needs_gc st (((str_at st src_id).len + 1) % 65536) → safe_topology st) :
    wf (mb25_get_c_string_temp st src_id temp_id).2 := by
  unfold mb25_get_c_string_temp
  dsimp only
  have ha2 := (wf_alloc_c st h temp_id (((str_at st src_id).len + 1) % 65536) hs).1
  by_cases hv : ¬ MB25_VALID_ID st src_id = true ∨ ¬ MB25_VALID_ID st temp_id = true
  · rw [if_pos hv]; exact h
  rw [if_neg hv]
  have hsv : src_id < st.mb25_strings.length :=
    (valid_iff st src_id).mp (not_not.mp (fun e => hv (Or.inl e)))
  by_cases he : (str_at st src_id).data = 0 ∨ (str_at st src_id).len = 0
  · rw [if_pos he]
    have hl : (str_at st src_id).len = 0 := by
      rcases he with e | e
      · exact (h.each _ (str_at_mem st src_id hsv)).1 e
      · exact e
    rw [hl] at ha2
    split_ifs <;> exact ha2
  · rw [if_neg he]
    split_ifs <;> exact ha2

theorem eq_of_str_id (W : List mb25_string_t)
    (hids : W.Pairwise (fun a b => a.str_id < b.str_id)) (a b : mb25_string_t)
    (ha : a ∈ W) (hb : b ∈ W) (h : a.str_id = b.str_id) : a = b := by
  obtain ⟨i, hi, rfl⟩ := List.getElem_of_mem ha
  obtain ⟨j, hj, rfl⟩ := List.getElem_of_mem hb
  rw [List.pairwise_iff_getElem] at hids
  rcases Nat.lt_trichotomy i j with hlt | heq | hgt
  · have := hids i j hi hj hlt; omega
  · subst heq; rfl
  · have := hids j i hj hi hgt; omega

theorem wf_mark_immutable (st : State) (h : wf st) (id : Nat) :
    wf (mark_immutable st id) := by
  unfold mark_immutable
  split_ifs with hv
  · have hi := (valid_iff st id).mp hv
    have hm := str_at_mem st id hi
    obtain ⟨o1, o2, o3, o4⟩ := h.each _ hm
    refine wf_set_str st h id hi _ rfl ⟨o1, ?_, o3, o4⟩ ?_
    · intro hw; exact Bool.noConfusion hw
    · intro e he hne hel hyl hw
      rcases hw with hw | hw
      · exact Bool.noConfusion hw
      · have := h.excl e he _ hm hne hw hel hyl
        show (str_at st id).data + (str_at st id).len ≤ e.data ∨
          e.data + e.len ≤ (str_at st id).data
        omega
  · exact h

theorem str_at_mark_immutable (st : State) (id : Nat) (hi : id < st.mb25_strings.length) :
    str_at (mark_immutable st id) id = { str_at st id with writeable := false } := by
  unfold mark_immutable
  rw [if_pos ((valid_iff st id).mpr hi)]
  exact str_at_set_str st id _ hi

theorem length_mark_immutable (st : State) (id : Nat) :
    (mark_immutable st id).mb25_strings.length = st.mb25_strings.length := by
  unfold mark_immutable
  split_ifs
  · simp [set_str]
  · rfl

theorem global_mark_immutable (st : State) (id : Nat) :
    (mark_immutable st id).mb25_global = st.mb25_global := by
  unfold mark_immutable
  split_ifs <;> rfl

/-- Storing in slot `dst` a non-writable descriptor whose window lies inside the window of the
non-writable, non-null descriptor in slot `src`, with the same constness, keeps the
invariant. -/
theorem wf_view (st : State) (h : wf st) (dst src : Nat) (hd : dst < st.mb25_strings.length)
    (hsrc : src < st.mb25_strings.length) (y : mb25_string_t)
    (hid : y.str_id = (str_at st dst).str_id) (hw : y.writeable = false)
    (hc : y.is_const = (str_at st src).is_const) (hsw : (str_at st src).writeable = false)
    (h0 : (str_at st src).data ≠ 0) (h1 : (str_at st src).data ≤ y.data)
    (h2 : y.data + y.len ≤ (str_at st src).data + (str_at st src).len) :
    wf (set_str st dst y) := by
  have hm := str_at_mem st src hsrc
  obtain ⟨o1, o2, o3, o4⟩ := h.each _ hm
  have hcur := h.cursor
  refine wf_set_str st h dst hd y hid ⟨?_, ?_, ?_, ?_⟩ ?_
  · intro e; omega
  · intro hw'; rw [hw] at hw'; exact Bool.noConfusion hw'
  · intro hyc
    rw [hc] at hyc
    have := o3 hyc
    omega
  · intro hyc _
    rw [hc] at hyc
    obtain ⟨c1, c2, c3⟩ := o4 hyc h0
    refine ⟨by omega, fun hlt => ?_, fun hge => ?_⟩
    · have := c2 (by omega); omega
    · by_cases hlt : (str_at st src).data < st.mb25_global.pool + st.mb25_global.pool_size
      · have := c2 hlt; omega
      · have := c3 (by omega); omega
  · intro e he hne hel hyl hwr
    rcases hwr with hwr | hwr
    · rw [hw] at hwr; exact Bool.noConfusion hwr
    · have hne' : e.str_id ≠ (str_at st src).str_id := by
        intro heq
        have := eq_of_str_id _ h.ids e _ he hm heq
        rw [this, hsw] at hwr
        exact Bool.noConfusion hwr
      have := h.excl e he _ hm hne' hwr hel (by omega)
      omega

theorem str_at_mark_immutable_ne (st : State) (id j : Nat) (h : id ≠ j) :
    str_at (mark_immutable st id) j = str_at st j := by
  unfold mark_immutable
  split_ifs
  · exact str_at_set_str_ne st id j _ h
  · rfl

/-- The source descriptor as every store of a view operation sees it after
`mark_immutable`. -/
theorem src_after_mark (st : State) (src : Nat) (hs : src < st.mb25_strings.length) :
    (str_at (mark_immutable st src) src).writeable = false ∧
      (str_at (mark_immutable st src) src).is_const = (str_at st src).is_const ∧
      (str_at (mark_immutable st src) src).data = (str_at st src).data ∧
      (str_at (mark_immutable st src) src).len = (str_at st src).len := by
  rw [str_at_mark_immutable st src hs]
  exact ⟨rfl, rfl, rfl, rfl⟩

theorem wf_left (st : State) (h : wf st) (dest_id src_id n : Nat) :
    wf (mb25_string_left st dest_id src_id n).2 := by
  unfold mb25_string_left
  dsimp only
  split_ifs with h1 h2 h3 <;> try exact h
  · exact wf_clear st h dest_id
  all_goals
    have hv : MB25_VALID_ID st dest_id = true ∧ MB25_VALID_ID st src_id = true := by
      simpa [not_or] using h1
    have hd := (valid_iff st dest_id).mp hv.1
    have hs := (valid_iff st src_id).mp hv.2
    obtain ⟨m1, m2, m3, m4⟩ := src_after_mark st src_id hs
    have hnz : (str_at st src_id).data ≠ 0 := fun e => h2 (Or.inl e)
    refine wf_view _ (wf_mark_immutable st h src_id) dest_id src_id
      (by rw [length_mark_immutable]; exact hd) (by rw [length_mark_immutable]; exact hs)
      _ rfl rfl rfl m1 (by rw [m3]; exact hnz) (Nat.le_refl _) ?_
    dsimp only
    simp only [m3, m4]
    omega

theorem wf_mid (st : State) (h : wf st) (dest_id src_id start length : Nat) :
    wf (mb25_string_mid st dest_id src_id start length).2 := by
  unfold mb25_string_mid
  dsimp only
  split_ifs with h1 h2 h3 h4 <;> try exact h
  all_goals first
    | exact wf_clear st h dest_id
    | (have hv : MB25_VALID_ID st dest_id = true ∧ MB25_VALID_ID st src_id = true := by
        simpa [not_or] using h1
       have hd := (valid_iff st dest_id).mp hv.1
       have hs := (valid_iff st src_id).mp hv.2
       obtain ⟨m1, m2, m3, m4⟩ := src_after_mark st src_id hs
       refine wf_view _ (wf_mark_immutable st h src_id) dest_id src_id
        (by rw [length_mark_immutable]; exact hd) (by rw [length_mark_immutable]; exact hs)
        _ rfl rfl rfl m1 ?_ ?_ ?_
       · rw [m3]; omega
       · dsimp only; omega
       · dsimp only
         simp only [m3, m4]
         omega)

theorem set_str_twice (st : State) (id : Nat) (y z : mb25_string_t) :
    set_str (set_str st id y) id z = set_str st id z := by
  unfold set_str
  simp only [List.set_set]

theorem wf_right (st : State) (h : wf st) (dest_id src_id n : Nat) :
    wf (mb25_string_right st dest_id src_id n).2 := by
  unfold mb25_string_right
  dsimp only
  split_ifs with h1 h2 h3 <;> try exact h
  · exact wf_clear st h dest_id
  all_goals
    have hv : MB25_VALID_ID st dest_id = true ∧ MB25_VALID_ID st src_id = true := by
      simpa [not_or] using h1
    have hd := (valid_iff st dest_id).mp hv.1
    have hs := (valid_iff st src_id).mp hv.2
    have hd1 : dest_id < (mark_immutable st src_id).mb25_strings.length := by
      rw [length_mark_immutable]; exact hd
    obtain ⟨m1, m2, m3, m4⟩ := src_after_mark st src_id hs
    have hnz : (str_at st src_id).data ≠ 0 := fun e => h2 (Or.inl e)
    rw [set_str_twice, str_at_set_str _ _ _ hd1]
    refine wf_view _ (wf_mark_immutable st h src_id) dest_id src_id hd1
      (by rw [length_mark_immutable]; exact hs) _ rfl rfl rfl m1 (by rw [m3]; exact hnz) ?_ ?_
    all_goals
      dsimp only
      by_cases e : dest_id = src_id
      · subst e
        rw [str_at_set_str _ _ _ hd1]
        dsimp only
        simp only [m3, m4]
        omega
      · rw [str_at_set_str_ne _ _ _ _ e]
        simp only [m3, m4]
        omega

theorem wf_copy (st : State) (h : wf st) (dest_id src_id : Nat)
    (hg : in_place st dest_id → fits_in_place st dest_id (str_at st src_id).len) :
    wf (mb25_string_copy st dest_id src_id).2 := by
  unfold mb25_string_copy
  dsimp only
  split_ifs with h1 h2 h3 h4 <;> try exact h
  · exact wf_clear st h dest_id
  all_goals
    have hv : MB25_VALID_ID st dest_id = true ∧ MB25_VALID_ID st src_id = true := by
      simpa [not_or] using h1
    have hd := (valid_iff st dest_id).mp hv.1
    have hs := (valid_iff st src_id).mp hv.2
    have hnz : (str_at st src_id).data ≠ 0 := fun e => h2 (Or.inl e)
  · -- constant source: a constant alias
    have hsw : (str_at st src_id).writeable = false := by
      cases hw : (str_at st src_id).writeable
      · rfl
      · have := ((h.each _ (str_at_mem st src_id hs)).2.1 hw).1
        rw [h3] at this; exact Bool.noConfusion this
    exact wf_view st h dest_id src_id hd hs _ rfl rfl h3.symm hsw hnz (Nat.le_refl _)
      (Nat.le_refl _)
  · -- writable destination: overwrite in place
    exact wf_overwrite st _ rfl rfl h dest_id _ hd h4 (hg h4)
  · -- share
    have hd1 : dest_id < (mark_immutable st src_id).mb25_strings.length := by
      rw [length_mark_immutable]; exact hd
    obtain ⟨m1, m2, m3, m4⟩ := src_after_mark st src_id hs
    have hc : (str_at st src_id).is_const = false := by simpa using h3
    refine wf_view _ (wf_mark_immutable st h src_id) dest_id src_id hd1
      (by rw [length_mark_immutable]; exact hs) _ rfl rfl (by rw [m2, hc]) m1
      (by rw [m3]; exact hnz) (Nat.le_refl _) (Nat.le_refl _)

theorem wf_reset (st : State) (h : wf st) : wf (mb25_reset st) :=
  { table := by simpa [mb25_reset] using h.table
    size := h.size
    pool := h.pool
    cursor := Nat.zero_le _
    ids := by
      show List.Pairwise _ (List.map _ st.mb25_strings)
      exact h.ids.map _ (fun a b hab => hab)
    each := by
      intro d hd
      obtain ⟨d0, _, rfl⟩ := List.mem_map.mp hd
      unfold ok_string; simp
    excl := by
      intro d hd e _ _ _ hdl _
      obtain ⟨d0, _, rfl⟩ := List.mem_map.mp hd
      exact absurd hdl (Nat.lt_irrefl 0) }

theorem init_strings_spec (k i : Nat) (d : mb25_string_t) (hd : d ∈ init_strings k i)
    (hk : i + k ≤ 16384) :
    i ≤ d.str_id ∧ d.str_id < i + k ∧ d.is_const = false ∧ d.writeable = false ∧ d.len = 0 ∧
      d.data = 0 := by
  induction k generalizing i with
  | zero => simp [init_strings] at hd
  | succ n ih =>
    simp only [init_strings, List.mem_cons] at hd
    rcases hd with rfl | hd
    · have : i % 16384 = i := Nat.mod_eq_of_lt (by omega)
      refine ⟨?_, ?_, rfl, rfl, rfl, rfl⟩
      · show i ≤ i % 16384; omega
      · show i % 16384 < i + (n + 1); omega
    · have := ih (i + 1) hd (by omega)
      exact ⟨by omega, by omega, this.2.2⟩

theorem init_strings_length (k i : Nat) : (init_strings k i).length = k := by
  induction k generalizing i with
  | zero => rfl
  | succ n ih => simp [init_strings, ih]

theorem init_strings_ids (k i : Nat) (hk : i + k ≤ 16384) :
    (init_strings k i).Pairwise (fun a b => a.str_id < b.str_id) := by
  induction k generalizing i with
  | zero => simp [init_strings]
  | succ n ih =>
    simp only [init_strings, List.pairwise_cons]
    refine ⟨?_, ih (i + 1) (by omega)⟩
    intro b hb
    have := init_strings_spec n (i + 1) b hb (by omega)
    have hi : i % 16384 = i := Nat.mod_eq_of_lt (by omega)
    show i % 16384 < b.str_id
    omega

theorem wf_init (st : State) (pool pool_size : Nat) (hn : st.mb25_strings.length ≤ 16384)
    (hsz : pool_size < 65536) (hok : (mb25_init st pool pool_size).1 = MB25_SUCCESS) :
    wf (mb25_init st pool pool_size).2 := by
  unfold mb25_init at hok ⊢
  by_cases hc : pool = 0 ∨ pool_size < 256
  · rw [if_pos hc] at hok; cases hok
  · rw [if_neg hc]
    have hp : pool ≠ 0 := fun e => hc (Or.inl e)
    exact
      { table := by
          show (init_strings _ 0).length ≤ 16384
          rw [init_strings_length]; exact hn
        size := hsz
        pool := hp
        cursor := Nat.zero_le _
        ids := init_strings_ids _ 0 (by show 0 + st.mb25_strings.length ≤ _; omega)
        each := by
          intro d hd
          obtain ⟨_, _, c1, c2, c3, c4⟩ := init_strings_spec _ 0 d hd
            (by show 0 + st.mb25_strings.length ≤ _; omega)
          unfold ok_string
          simp [c1, c2, c3, c4]
        excl := by
          intro d hd e _ _ _ hdl _
          obtain ⟨_, _, _, _, c3, _⟩ := init_strings_spec _ 0 d hd
            (by show 0 + st.mb25_strings.length ≤ _; omega)
          omega }

/-- Every operation called within `op_guard` keeps the invariant. -/
theorem wf_run_op (st : State) (h : wf st) (o : op) (hg : op_guard st o) :
    wf (run_op st o) := by
  cases o with
  | init pool pool_size =>
    show wf (mb25_init st pool pool_size).2
    by_cases hok : (mb25_init st pool pool_size).1 = MB25_SUCCESS
    · exact wf_init st pool pool_size h.table hg hok
    · have : (mb25_init st pool pool_size).2 = st := by
        unfold mb25_init at hok ⊢
        split_ifs at hok ⊢ with hc
        · rfl
        · exact absurd rfl hok
      rw [this]; exact h
  | reset => exact wf_reset st h
  | alloc_const str_id cstr => exact wf_alloc_const st h str_id cstr hg
  | alloc str_id size => exact (wf_alloc_c st h str_id size hg).1
  | alloc_init str_id init_str => exact wf_alloc_init st h str_id init_str hg
  | free str_id => exact wf_free st h str_id
  | clear str_id => exact wf_clear st h str_id
  | from_c_string str_id c_str => exact wf_from_c_string st h str_id c_str hg
  | copy dest_id src_id => exact wf_copy st h dest_id src_id hg
  | assign dest_id data len => exact wf_assign st h dest_id data len hg.1 hg.2
  | set_from_buf dest_id buf width => exact wf_set_from_buf st h dest_id buf width hg.1 hg.2
  | concat dest_id str1_id str2_id => exact wf_concat st h dest_id str1_id str2_id hg
  | dup dest_id src_id => exact wf_dup st h dest_id src_id hg
  | left dest_id src_id n => exact wf_left st h dest_id src_id n
  | right dest_id src_id n => exact wf_right st h dest_id src_id n
  | mid dest_id src_id start length => exact wf_mid st h dest_id src_id start length
  | mid_assign dest_id start data len => exact wf_mid_assign st h dest_id start data len hg
  | garbage_collect => exact wf_gc st h hg
  | get_c_string_temp src_id temp_id => exact wf_get_c_string_temp st h src_id temp_id hg

/-- Every reachable state satisfies the invariant. -/
theorem reach_wf (st : State) (h : reach st) : wf st := by
  induction h with
  | start st0 pool pool_size hn hsz hok => exact wf_init st0 pool pool_size hn hsz hok
  | step st o _ hg ih => exact wf_run_op st ih o hg

theorem str_at_default (st : State) (i : Nat) (h : ¬ i < st.mb25_strings.length) :
    str_at st i = zero_string := by
  unfold str_at
  exact List.getD_eq_default _ _ (by omega)

theorem read_bytes_memcpy_apart (m : Nat → Nat) (dst src n p k : Nat)
    (h : p + k ≤ dst ∨ dst + n ≤ p ∨ k = 0) :
    read_bytes (memcpy m dst src n) p k = read_bytes m p k := by
  apply read_bytes_congr
  intro i hi
  unfold memcpy memmove
  rw [if_neg (by omega)]

theorem read_bytes_memcpy_dst (m : Nat → Nat) (dst src n : Nat) :
    read_bytes (memcpy m dst src n) dst n = read_bytes m src n := by
  apply read_bytes_congr
  intro i hi
  unfold memcpy memmove
  rw [if_pos (by omega)]
  congr 1
  omega

theorem read_bytes_add (m : Nat → Nat) (p a b : Nat) :
    read_bytes m p (a + b) = read_bytes m p a ++ read_bytes m (p + a) b := by
  unfold read_bytes
  rw [List.range_add, List.map_append, List.map_map]
  congr 1
  apply List.map_congr_left
  intro i _
  simp [Nat.add_assoc]

theorem read_bytes_length (m : Nat → Nat) (p n : Nat) : (read_bytes m p n).length = n := by
  simp [read_bytes]

theorem read_bytes_zero (m : Nat → Nat) (p : Nat) : read_bytes m p 0 = [] := rfl

theorem read_bytes_take (m : Nat → Nat) (p n k : Nat) (h : k ≤ n) :
    (read_bytes m p n).take k = read_bytes m p k := by
  obtain ⟨r, rfl⟩ := Nat.exists_eq_add_of_le h
  rw [read_bytes_add, List.take_append_of_le_length (by rw [read_bytes_length]),
    List.take_of_length_le (by rw [read_bytes_length])]

theorem read_bytes_drop (m : Nat → Nat) (p n k : Nat) (h : k ≤ n) :
    (read_bytes m p n).drop k = read_bytes m (p + k) (n - k) := by
  obtain ⟨r, rfl⟩ := Nat.exists_eq_add_of_le h
  rw [read_bytes_add, List.drop_append_of_le_length (by rw [read_bytes_length]),
    List.drop_of_length_le (by rw [read_bytes_length])]
  simp

theorem apart_of_wf (st : State) (h : wf st) : apart_from_pool st := by
  intro d hd hin
  obtain ⟨o1, o2, o3, o4⟩ := h.each d hd
  have hcur := h.cursor
  by_cases h0 : d.data = 0
  · have := o1 h0; left; omega
  · cases hc : d.is_const
    · obtain ⟨c1, c2, c3⟩ := o4 hc h0
      have hge : ¬ d.data < st.mb25_global.pool + st.mb25_global.pool_size := by
        intro hlt
        have := (in_pool_iff _ _ _).mpr ⟨h0, hc, c1, hlt⟩
        rw [hin] at this; exact Bool.noConfusion this
      right; omega
    · rcases o3 hc with a | a
      · left; exact a
      · right; omega

/-- What a successful `mb25_string_alloc` leaves of the other slots: flags and length are
kept, and so are the bytes read. -/
theorem alloc_other (st : State) (h : wf st)
    (hs : gc_safe st.mb25_global.pool st.mb25_global.pool_size st.mb25_strings)
    (id size j : Nat) (hne : id ≠ j) :
    bytes_of (mb25_string_alloc st id size).2 j = bytes_of st j ∧
      (str_at (mb25_string_alloc st id size).2 j).len = (str_at st j).len ∧
      (str_at (mb25_string_alloc st id size).2 j).is_const = (str_at st j).is_const ∧
      (str_at (mb25_string_alloc st id size).2 j).writeable = (str_at st j).writeable := by
  unfold mb25_string_alloc
  by_cases hv : MB25_VALID_ID st id = true
  · have hi := (valid_iff st id).mp hv
    rw [if_neg (by simp [hv])]
    by_cases hl : size > MB25_MAX_STRING_LEN
    · rw [if_pos hl]; exact ⟨rfl, rfl, rfl, rfl⟩
    · rw [if_neg hl]
      dsimp only
      by_cases hfit : (st.mb25_global.pool_size + 65536 - st.mb25_global.allocator) % 65536
          ≥ size
      · obtain ⟨hok, _, _, _, e4, e5⟩ := allocate_fits st id size hfit
        rw [if_neg (by rw [hok]; simp)]
        have hstr : str_at (alloc_setup (allocate_from_pool st id size).2 id) j = str_at st j := by
          unfold str_at; rw [e5 hi, getD_set_ne _ _ _ _ _ hne]
        unfold bytes_of
        rw [hstr, e4]
        exact ⟨rfl, rfl, rfl, rfl⟩
      · have hfail := allocate_fail st id size hfit
        rw [if_pos (by rw [hfail]; simp)]
        have hsup := supported_of_wf st h hs
        have hlen : id < (mb25_garbage_collect st).mb25_strings.length := by
          rw [gc_strings st hsup]; simpa using hi
        have hb := gc_bytes_supported st hsup (apart_of_wf st h) j
        have hgc := str_at_gc st hsup j
        have hfacts : (str_at (mb25_garbage_collect st) j).len = (str_at st j).len ∧
            (str_at (mb25_garbage_collect st) j).is_const = (str_at st j).is_const ∧
            (str_at (mb25_garbage_collect st) j).writeable = (str_at st j).writeable := by
          rw [hgc, relocate_len, relocate_is_const, relocate_writeable]
          exact ⟨rfl, rfl, rfl⟩
        by_cases hfit2 : ((mb25_garbage_collect st).mb25_global.pool_size + 65536 -
            (mb25_garbage_collect st).mb25_global.allocator) % 65536 ≥ size
        · obtain ⟨hok, _, _, _, e4, e5⟩ :=
            allocate_fits (mb25_garbage_collect st) id size hfit2
          rw [if_neg (by rw [hok]; simp)]
          have hstr : str_at (alloc_setup (allocate_from_pool (mb25_garbage_collect st) id
              size).2 id) j = str_at (mb25_garbage_collect st) j := by
            unfold str_at; rw [e5 hlen, getD_set_ne _ _ _ _ _ hne]
          refine ⟨?_, ?_⟩
          · rw [← hb]
            unfold bytes_of
            rw [hstr, e4]
          · rw [hstr]; exact hfacts
        · have hfail2 := allocate_fail (mb25_garbage_collect st) id size hfit2
          rw [if_pos (by rw [hfail2]; simp)]
          rw [hfail2]
          exact ⟨hb, hfacts⟩
  · rw [if_pos (by simp [hv])]
    exact ⟨rfl, rfl, rfl, rfl⟩

theorem memcpy_zero (m : Nat → Nat) (dst src : Nat) : memcpy m dst src 0 = m := by
  funext a
  unfold memcpy memmove
  rw [if_neg (by omega)]

/-- The window of another non-empty descriptor is apart from a fresh region. -/
theorem fresh_apart (st : State) (h : wf st) (id size j : Nat) (hf : fresh st id size)
    (hne : id ≠ j) (hl : 0 < (str_at st j).len) :
    (str_at st j).data + (str_at st j).len ≤ (str_at st id).data ∨
      (str_at st id).data + size ≤ (str_at st j).data := by
  obtain ⟨hi, f1, f2, f3, f4, f5, f6⟩ := hf
  have hj : j < st.mb25_strings.length := by
    by_contra hc
    rw [str_at_default st j hc] at hl
    exact Nat.lt_irrefl 0 hl
  have hmj := str_at_mem st j hj
  have hids := h.ids
  rw [List.pairwise_iff_getElem] at hids
  have hid : (str_at st j).str_id ≠ (str_at st id).str_id := by
    unfold str_at
    rw [List.getD_eq_getElem _ _ hi, List.getD_eq_getElem _ _ hj]
    rcases Nat.lt_or_gt_of_ne hne with hlt | hgt
    · exact Nat.ne_of_gt (hids id j hi hj hlt)
    · exact Nat.ne_of_lt (hids j id hj hi hgt)
  have hcur := h.cursor
  cases hc : (str_at st j).is_const
  · left; exact f6 _ hmj hid hl hc
  · rcases (h.each _ hmj).2.2.1 hc with a | a
    · left; omega
    · right; omega

theorem guarded_memcpy_mem (st : State) (dst src n : Nat) (h : src = 0 → n = 0) :
    (guarded_memcpy st dst src n).mem = memcpy st.mem dst src n := by
  unfold guarded_memcpy
  split_ifs with c
  · rfl
  · have hn : n = 0 := by
      by_cases e : src = 0
      · exact h e
      · by_contra hn
        exact c ⟨Nat.pos_of_ne_zero hn, e⟩
    rw [hn, memcpy_zero]

/-- Two consecutive copies into a region apart from the second source. -/
theorem read_bytes_two_copies (m : Nat → Nat) (D pa la pb lb : Nat)
    (hb : pb + lb ≤ D ∨ D + la ≤ pb ∨ lb = 0) :
    read_bytes (memcpy (memcpy m D pa la) (D + la) pb lb) D (la + lb) =
      read_bytes m pa la ++ read_bytes m pb lb := by
  rw [read_bytes_add, read_bytes_memcpy_apart _ (D + la) pb lb D la (Or.inl (Nat.le_refl _)),
    read_bytes_memcpy_dst, read_bytes_memcpy_dst, read_bytes_memcpy_apart _ D pa la pb lb hb]

theorem null_len_zero (st : State) (h : wf st) (j : Nat) :
    (str_at st j).data = 0 → (str_at st j).len = 0 := by
  intro e
  by_cases hj : j < st.mb25_strings.length
  · exact (h.each _ (str_at_mem st j hj)).1 e
  · rw [str_at_default st j hj]; rfl

/-- Concatenation into a destination distinct from both operands. -/
theorem concat_distinct (st : State) (h : wf st)
    (hs : gc_safe st.mb25_global.pool st.mb25_global.pool_size st.mb25_strings)
    (dst a b : Nat) (hda : dst ≠ a) (hdb : dst ≠ b)
    (hsum : (str_at st a).len + (str_at st b).len ≤ 255)
    (hok : (mb25_string_concat st dst a b).1 = MB25_SUCCESS) :
    bytes_of (mb25_string_concat st dst a b).2 dst = bytes_of st a ++ bytes_of st b ∧
      (str_at (mb25_string_concat st dst a b).2 dst).len =
        (str_at st a).len + (str_at st b).len ∧
      (str_at (mb25_string_concat st dst a b).2 dst).writeable = true ∧
      (str_at (mb25_string_concat st dst a b).2 dst).is_const = false := by
  have htot : ((str_at st a).len + (str_at st b).len) % 65536 =
      (str_at st a).len + (str_at st b).len := by omega
  have htot' : ((str_at st a).len + (str_at st b).len) % 256 =
      (str_at st a).len + (str_at st b).len := by omega
  obtain ⟨hw1, hf⟩ := wf_alloc st h hs dst ((str_at st a).len + (str_at st b).len)
  obtain ⟨ab, al, _, _⟩ := alloc_other st h hs dst ((str_at st a).len + (str_at st b).len) a hda
  obtain ⟨bb, bl, _, _⟩ := alloc_other st h hs dst ((str_at st a).len + (str_at st b).len) b hdb
  unfold mb25_string_concat at hok ⊢
  dsimp only at hok ⊢
  rw [htot] at hok ⊢
  by_cases h1 : ¬MB25_VALID_ID st dst = true ∨ ¬MB25_VALID_ID st a = true ∨
      ¬MB25_VALID_ID st b = true
  · rw [if_pos h1] at hok; cases hok
  rw [if_neg h1] at hok ⊢
  by_cases h2 : (str_at st a).len + (str_at st b).len > MB25_MAX_STRING_LEN
  · rw [if_pos h2] at hok; cases hok
  rw [if_neg h2] at hok ⊢
  by_cases h3 : (mb25_string_alloc st dst ((str_at st a).len + (str_at st b).len)).1 ≠
      MB25_SUCCESS
  · rw [if_pos h3] at hok; exact absurd hok h3
  rw [if_neg h3]
  clear hok
  have hfr := hf (not_not.mp h3)
  clear hf h3
  rw [← ab, ← bb]
  clear ab bb
  generalize (str_at st a).len = la at *
  generalize (str_at st b).len = lb at *
  generalize mb25_string_alloc st dst (la + lb) = r at *
  have hi : dst < r.2.mb25_strings.length := hfr.1
  have hnA := null_len_zero r.2 hw1 a
  have hnB := null_len_zero r.2 hw1 b
  have hapB : 0 < (str_at r.2 b).len → _ := fresh_apart r.2 hw1 dst _ b hfr hdb
  simp only [str_at_guarded_memcpy, htot']
  have hi3 : dst < (guarded_memcpy (guarded_memcpy r.2 (str_at r.2 dst).data (str_at r.2 a).data
      (str_at r.2 a).len) ((str_at r.2 dst).data + (str_at r.2 a).len) (str_at r.2 b).data
      (str_at r.2 b).len).mb25_strings.length := by
    rw [guarded_memcpy_strings, guarded_memcpy_strings]; exact hi
  refine ⟨?_, ?_, ?_, ?_⟩
  · unfold bytes_of str_bytes
    rw [str_at_set_str _ _ _ hi3]
    show read_bytes (guarded_memcpy (guarded_memcpy r.2 (str_at r.2 dst).data (str_at r.2 a).data
      (str_at r.2 a).len) ((str_at r.2 dst).data + (str_at r.2 a).len) (str_at r.2 b).data
      (str_at r.2 b).len).mem (str_at r.2 dst).data (la + lb) = _
    rw [guarded_memcpy_mem _ _ _ _ hnB, guarded_memcpy_mem _ _ _ _ hnA, al, bl]
    apply read_bytes_two_copies
    by_cases hl : 0 < (str_at r.2 b).len
    · rcases hapB hl with x | x
      · left; omega
      · right; left; omega
    · right; right; omega
  · rw [str_at_set_str _ _ _ hi3]
  · rw [str_at_set_str _ _ _ hi3]; exact hfr.2.1
  · rw [str_at_set_str _ _ _ hi3]; exact hfr.2.2.1

/-- An allocation that fits the free space does not collect. -/
theorem alloc_fits (st : State) (id size : Nat) (hi : id < st.mb25_strings.length)
    (hl : size ≤ 255)
    (hfit : size ≤ mb25_get_free_space st) :
    mb25_string_alloc st id size =
      (MB25_SUCCESS, alloc_setup (allocate_from_pool st id size).2 id) := by
  unfold mb25_get_free_space at hfit
  unfold mb25_string_alloc
  rw [if_neg (by rw [not_not]; exact (valid_iff st id).mpr hi),
    if_neg (by unfold MB25_MAX_STRING_LEN; omega)]
  dsimp only
  rw [if_neg (by rw [(allocate_fits st id size hfit).1]; simp)]

theorem read_bytes_patch (m : Nat → Nat) (D orig L s r data : Nat) (hsr : s + r ≤ L)
    (hd : data + r ≤ D ∨ D + L ≤ data ∨ r = 0) :
    read_bytes (memcpy (memcpy m D orig L) (D + s) data r) D L =
      (read_bytes m orig L).take s ++ read_bytes m data r ++
        (read_bytes m orig L).drop (s + r) := by
  obtain ⟨t, rfl⟩ := Nat.exists_eq_add_of_le hsr
  rw [read_bytes_drop m orig (s + r + t) (s + r) (by omega),
    read_bytes_take m orig (s + r + t) s (by omega)]
  rw [read_bytes_add _ D (s + r) t, read_bytes_add _ D s r]
  rw [read_bytes_memcpy_dst, read_bytes_memcpy_apart _ (D + s) data r D s (Or.inl (Nat.le_refl _)),
    read_bytes_memcpy_apart _ (D + s) data r (D + (s + r)) t (Or.inr (Or.inl (by omega)))]
  rw [read_bytes_memcpy_apart _ D orig (s + r + t) data r (by omega)]
  have e1 : read_bytes (memcpy m D orig (s + r + t)) D s = read_bytes m orig s := by
    rw [← read_bytes_take _ D (s + r + t) s (by omega), read_bytes_memcpy_dst,
      read_bytes_take _ _ _ _ (by omega)]
  have e2 : read_bytes (memcpy m D orig (s + r + t)) (D + (s + r)) t =
      read_bytes m (orig + (s + r)) t := by
    have := read_bytes_drop (memcpy m D orig (s + r + t)) D (s + r + t) (s + r) (by omega)
    rw [read_bytes_memcpy_dst, read_bytes_drop _ _ _ _ (by omega)] at this
    have e : s + r + t - (s + r) = t := by omega
    rw [e] at this
    exact this.symm
  rw [e1, e2]
  have e : s + r + t - (s + r) = t := by omega
  rw [e]


theorem str_at_with_mem (S : State) (g : mb25_globals_t) (m : Nat → Nat) (i : Nat) :
    str_at { mb25_global := g, mb25_strings := S.mb25_strings, mem := m } i = str_at S i := rfl

theorem str_at_set_mem (A : State) (m : Nat → Nat) (d : Nat) (y : mb25_string_t)
    (h : d < A.mb25_strings.length) :
    str_at (set_str { mb25_global := A.mb25_global, mb25_strings := A.mb25_strings, mem := m }
      d y) d = y :=
  getD_set_self _ _ _ _ h

theorem str_at_set_mem_ne (A : State) (m : Nat → Nat) (d j : Nat) (y : mb25_string_t)
    (h : d ≠ j) :
    str_at (set_str { mb25_global := A.mb25_global, mb25_strings := A.mb25_strings, mem := m }
      d y) j = str_at A j :=
  getD_set_ne _ _ _ _ _ h

/-- Copy-on-write in `mb25_string_mid_assign` when the copy fits the free space. -/
theorem mid_assign_fits (st : State) (h : wf st) (d start data len : Nat)
    (hd : d < st.mb25_strings.length)
    (hnw : (str_at st d).writeable = false)
    (hL : (str_at st d).len ≤ 255)
    (hs : start0 start < (str_at st d).len)
    (hin : ¬ (data = 0 ∧ len > 0))
    (hfit : (str_at st d).len ≤ mb25_get_free_space st)
    (hbuf : data + len ≤ st.mb25_global.pool + st.mb25_global.allocator ∨
      st.mb25_global.pool + st.mb25_global.pool_size ≤ data) :
    (mb25_string_mid_assign st d start data len).1 = MB25_SUCCESS ∧
      (str_at (mb25_string_mid_assign st d start data len).2 d).writeable = true ∧
      (str_at (mb25_string_mid_assign st d start data len).2 d).is_const = false ∧
      (str_at (mb25_string_mid_assign st d start data len).2 d).len = (str_at st d).len ∧
      (str_at (mb25_string_mid_assign st d start data len).2 d).data ≠ (str_at st d).data ∧
      bytes_of (mb25_string_mid_assign st d start data len).2 d =
        (bytes_of st d).take (start0 start) ++
          read_bytes st.mem data (replace_len (str_at st d).len start len) ++
          (bytes_of st d).drop (start0 start + replace_len (str_at st d).len start len) ∧
      ∀ j, j ≠ d → str_at (mb25_string_mid_assign st d start data len).2 j = str_at st j ∧
        bytes_of (mb25_string_mid_assign st d start data len).2 j = bytes_of st j := by
  have hfit' : (st.mb25_global.pool_size + 65536 - st.mb25_global.allocator) % 65536 ≥
      (str_at st d).len := hfit
  obtain ⟨_, e1, e2, e3, e4, e5⟩ := allocate_fits st d (str_at st d).len hfit'
  have e5 := e5 hd
  obtain ⟨hwA, hfr⟩ := allocate_ok st h d (str_at st d).len hd hfit'
  have hal := alloc_fits st d (str_at st d).len hd hL hfit
  unfold mb25_string_mid_assign
  dsimp only
  rw [if_neg (by rw [not_not]; exact (valid_iff st d).mpr hd), if_neg hin]
  rw [if_neg (by unfold start0 at hs; omega)]
  rw [if_pos (by rw [hnw]; simp)]
  rw [hal]
  dsimp only
  rw [if_neg (by simp)]
  have hcur := h.cursor
  have hsz := h.size
  have hmod : (st.mb25_global.allocator + (str_at st d).len) % 65536 =
      st.mb25_global.allocator + (str_at st d).len := by omega
  have hAd : (alloc_setup (allocate_from_pool st d (str_at st d).len).2 d).mb25_strings.getD d
      zero_string =
      fresh_string (str_at st d) (st.mb25_global.pool + st.mb25_global.allocator) := by
    rw [e5]; exact getD_set_self _ _ _ _ hd
  have hdA : d < (alloc_setup (allocate_from_pool st d (str_at st d).len).2
      d).mb25_strings.length := hfr.1
  have hap := fun j (hj : d ≠ j) => fresh_apart _ hwA d (str_at st d).len j hfr hj
  have hAj : ∀ j, j ≠ d →
      str_at (alloc_setup (allocate_from_pool st d (str_at st d).len).2 d) j = str_at st j := by
    intro j hj
    show (alloc_setup (allocate_from_pool st d (str_at st d).len).2 d).mb25_strings.getD j
      zero_string = _
    rw [e5]; exact getD_set_ne _ _ _ _ _ (Ne.symm hj)
  have hold := h.each _ (str_at_mem st d hd)
  generalize alloc_setup (allocate_from_pool st d (str_at st d).len).2 d = A at *
  have hAd' : str_at A d =
      fresh_string (str_at st d) (st.mb25_global.pool + st.mb25_global.allocator) := hAd
  simp only [hAd'] at hap
  simp only [bytes_of, str_bytes, str_at_with_mem, str_at_set_mem _ _ _ _ hdA]
  have hfree : mb25_get_free_space st =
      (st.mb25_global.pool_size + 65536 - st.mb25_global.allocator) % 65536 := rfl
  have hrl : replace_len (str_at st d).len start len ≤ len ∧
      start0 start + replace_len (str_at st d).len start len ≤ (str_at st d).len := by
    unfold replace_len; split_ifs <;> omega
  have hD : (fresh_string (str_at st d) (st.mb25_global.pool + st.mb25_global.allocator)).data =
    st.mb25_global.pool + st.mb25_global.allocator := rfl
  have hs0 : (if start > 0 then start - 1 else start) = start0 start := rfl
  have hrl0 : (if start0 start + len > (str_at st d).len then (str_at st d).len - start0 start
    else len) = replace_len (str_at st d).len start len := rfl
  simp only [hAd', hD, e4, hs0, hrl0]
  refine ⟨trivial, rfl, rfl, trivial, ?_, ?_, ?_⟩
  · obtain ⟨o1, o2, o3, o4⟩ := hold
    cases hc : (str_at st d).is_const
    · have hne : (str_at st d).data ≠ 0 := fun e => by have := o1 e; omega
      obtain ⟨c1, c2, c3⟩ := o4 hc hne
      intro e
      by_cases hlt : (str_at st d).data < st.mb25_global.pool + st.mb25_global.pool_size
      · have := c2 hlt; omega
      · have := c3 (by omega); omega
    · rcases o3 hc with x | x <;> omega
  · apply read_bytes_patch _ _ _ _ _ _ _ hrl.2
    rcases hbuf with x | x
    · left; omega
    · right; left; omega
  · intro j hj
    rw [str_at_set_mem_ne _ _ _ _ _ (Ne.symm hj), hAj j hj]
    refine ⟨rfl, ?_⟩
    have hapj := hap j (Ne.symm hj)
    rw [hAj j hj] at hapj
    rw [hD] at hapj
    have hfar : (str_at st j).data + (str_at st j).len ≤
          st.mb25_global.pool + st.mb25_global.allocator ∨
        st.mb25_global.pool + st.mb25_global.allocator + (str_at st d).len ≤ (str_at st j).data ∨
        (str_at st j).len = 0 := by
      by_cases hl : 0 < (str_at st j).len
      · rcases hapj hl with x | x
        · left; exact x
        · right; left; exact x
      · right; right; omega
    rw [read_bytes_memcpy_apart _ _ _ _ _ _ (by omega)]
    exact read_bytes_memcpy_apart _ _ _ _ _ _ hfar

theorem compact_step_same (pool pool_size : Nat) (acc : compact_acc) (d : mb25_string_t) :
    same_slot pool pool_size d (compact_step pool pool_size acc d).2 := by
  cases hin : in_pool pool pool_size d
  · rw [compact_step_skip pool pool_size acc d hin]
    exact ⟨rfl, rfl, rfl, rfl, fun _ => rfl⟩
  · by_cases hc : acc.last_old_start ≠ 0 ∧ acc.last_old_end ≠ 0 ∧
        acc.last_old_start ≤ d.data ∧ d.data + d.len ≤ acc.last_old_end
    · rw [compact_step_child pool pool_size acc d hin hc]
      exact ⟨rfl, rfl, rfl, rfl, fun e => by rw [hin] at e; exact Bool.noConfusion e⟩
    · rw [compact_step_parent pool pool_size acc d hin hc]
      exact ⟨rfl, rfl, rfl, rfl, fun e => by rw [hin] at e; exact Bool.noConfusion e⟩

theorem compact_loop_ids (pool pool_size : Nat) (S : List mb25_string_t) :
    ∀ acc, ((compact_loop pool pool_size acc S).2).map (fun d => d.str_id) =
      S.map (fun d => d.str_id) := by
  induction S with
  | nil => intro acc; rfl
  | cons d R ih =>
    intro acc
    simp only [compact_loop, List.map_cons]
    rw [ih, (compact_step_same pool pool_size acc d).1]

theorem compact_loop_same (pool pool_size : Nat) (S : List mb25_string_t) :
    ∀ acc, ∀ b ∈ (compact_loop pool pool_size acc S).2, ∃ a ∈ S, same_slot pool pool_size a b := by
  induction S with
  | nil => intro acc b hb; simp [compact_loop] at hb
  | cons d R ih =>
    intro acc b hb
    simp only [compact_loop, List.mem_cons] at hb
    rcases hb with rfl | hb
    · exact ⟨d, List.mem_cons_self _ _, compact_step_same pool pool_size acc d⟩
    · obtain ⟨a, ha, hs⟩ := ih _ b hb
      exact ⟨a, List.mem_cons_of_mem _ ha, hs⟩

/-- The descriptor array after `mb25_garbage_collect`. -/
theorem gc_strings_eq (st : State) :
    (mb25_garbage_collect st).mb25_strings =
      sort_by_str_id (compact_loop st.mb25_global.pool st.mb25_global.pool_size
        (compact_start st.mem) (sort_by_data_ptr st.mb25_strings)).2 := rfl

theorem ids_range (W : List mb25_string_t)
    (hid : ∀ i, i < W.length → (W.getD i zero_string).str_id = i) :
    W.map (fun d => d.str_id) = List.range W.length := by
  apply List.ext_getElem
  · simp
  · intro i h1 h2
    have hi : i < W.length := by simpa using h1
    have := hid i hi
    rw [List.getD_eq_getElem _ _ hi] at this
    simp [this]

/-- Descriptor identity across a collection: with the descriptors stored in `str_id` order
(slot `i` has id `i`) the collected array has the same length, slot `i` again has id `i`, and
the descriptor of every slot is the old one up to the data pointer of a pool string. -/
theorem gc_same_slots (st : State) (hlen : st.mb25_strings.length ≤ 16384)
    (hid : ∀ i, i < st.mb25_strings.length → (str_at st i).str_id = i) :
    (mb25_garbage_collect st).mb25_strings.length = st.mb25_strings.length ∧
      ∀ i, i < st.mb25_strings.length →
        (str_at (mb25_garbage_collect st) i).str_id = i ∧
        same_slot st.mb25_global.pool st.mb25_global.pool_size (str_at st i)
          (str_at (mb25_garbage_collect st) i) := by
  have hW := ids_range st.mb25_strings hid
  have hp1 : (sort_by_data_ptr st.mb25_strings).Perm st.mb25_strings :=
    shell_sort_perm data_ptr_less st.mb25_strings
  generalize hC : (compact_loop st.mb25_global.pool st.mb25_global.pool_size
    (compact_start st.mem) (sort_by_data_ptr st.mb25_strings)).2 = C
  have hCids : C.map (fun d => d.str_id) =
      (sort_by_data_ptr st.mb25_strings).map (fun d => d.str_id) := by
    rw [← hC]; exact compact_loop_ids _ _ _ _
  have hCsame : ∀ b ∈ C, ∃ a ∈ st.mb25_strings,
      same_slot st.mb25_global.pool st.mb25_global.pool_size a b := by
    intro b hb
    rw [← hC] at hb
    obtain ⟨a, ha, hs⟩ := compact_loop_same _ _ _ _ b hb
    exact ⟨a, hp1.mem_iff.mp ha, hs⟩
  have hClen : C.length = st.mb25_strings.length := by
    have := congrArg List.length hCids
    simp only [List.length_map] at this
    rw [this, hp1.length_eq]
  have hF : (mb25_garbage_collect st).mb25_strings = sort_by_str_id C := by
    rw [gc_strings_eq, hC]
  have hp2 : (sort_by_str_id C).Perm C := shell_sort_perm str_id_less C
  have hsorted : sorted_by str_id_less (sort_by_str_id C) :=
    shell_sort_sorted str_id_less str_id_less_weak_order C (by omega)
  have hperm : ((sort_by_str_id C).map (fun d => d.str_id)).Perm
      (List.range st.mb25_strings.length) := by
    rw [← hW]
    exact ((hp2.map _).trans (by rw [hCids])).trans (hp1.map _)
  have hnodup : ((sort_by_str_id C).map (fun d => d.str_id)).Nodup :=
    hperm.nodup_iff.mpr (List.nodup_range _)
  have hle : ((sort_by_str_id C).map (fun d => d.str_id)).Pairwise (fun a b => a ≤ b) := by
    rw [List.pairwise_map]
    unfold sorted_by at hsorted
    refine hsorted.imp ?_
    intro a b h
    unfold str_id_less at h
    simpa using h
  have hlt : ((sort_by_str_id C).map (fun d => d.str_id)).Pairwise (fun a b => a < b) := by
    refine (hle.and hnodup).imp ?_
    intro a b h
    exact Nat.lt_of_le_of_ne h.1 h.2
  have hFids : (sort_by_str_id C).map (fun d => d.str_id) =
      List.range st.mb25_strings.length :=
    List.eq_of_perm_of_sorted hperm hlt (List.pairwise_lt_range _)
  have hFlen : (sort_by_str_id C).length = st.mb25_strings.length := by
    have := congrArg List.length hFids
    simpa using this
  refine ⟨by rw [hF, hFlen], ?_⟩
  intro i hi
  have hi' : i < (sort_by_str_id C).length := by rw [hFlen]; exact hi
  have hget : str_at (mb25_garbage_collect st) i = (sort_by_str_id C)[i] := by
    unfold str_at
    rw [hF, List.getD_eq_getElem _ _ hi']
  have hidF : ((sort_by_str_id C)[i]).str_id = i := by
    have b1 : i < ((sort_by_str_id C).map (fun d => d.str_id)).length := by simpa using hi'
    have b2 : i < (List.range st.mb25_strings.length).length := by simpa using hi
    have h1 : ((sort_by_str_id C).map (fun d => d.str_id))[i] =
        (List.range st.mb25_strings.length)[i] := by
      simp only [hFids]
    simpa using h1
  rw [hget]
  refine ⟨hidF, ?_⟩
  obtain ⟨a, ha, hs⟩ := hCsame _ (hp2.mem_iff.mp (List.getElem_mem hi'))
  obtain ⟨j, hj, rfl⟩ := List.getElem_of_mem ha
  have hj' := hid j hj
  unfold str_at at hj'
  rw [List.getD_eq_getElem _ _ hj] at hj'
  have hji : j = i := by
    have := hs.1
    rw [hidF, hj'] at this
    exact this.symm
  subst hji
  unfold str_at
  rw [List.getD_eq_getElem _ _ hj]
  exact hs

/-! ## The operations one by one -/

theorem mem_set_str (st : State) (i : Nat) (y : mb25_string_t) :
    (set_str st i y).mem = st.mem := rfl

theorem global_set_str (st : State) (i : Nat) (y : mb25_string_t) :
    (set_str st i y).mb25_global = st.mb25_global := rfl

theorem mem_mark_immutable (st : State) (id : Nat) : (mark_immutable st id).mem = st.mem := by
  unfold mark_immutable
  split_ifs <;> rfl

theorem mem_clear (st : State) (id : Nat) : (mb25_string_clear st id).mem = st.mem := by
  unfold mb25_string_clear
  split_ifs <;> rfl

theorem global_clear (st : State) (id : Nat) :
    (mb25_string_clear st id).mb25_global = st.mb25_global := by
  unfold mb25_string_clear
  split_ifs <;> rfl

theorem str_at_clear (st : State) (id : Nat) (hi : id < st.mb25_strings.length) :
    str_at (mb25_string_clear st id) id =
      { str_at st id with is_const := false, writeable := false, len := 0, data := 0 } := by
  unfold mb25_string_clear
  rw [if_pos ((valid_iff st id).mpr hi)]
  exact str_at_set_str st id _ hi

theorem str_at_clear_ne (st : State) (id j : Nat) (h : id ≠ j) :
    str_at (mb25_string_clear st id) j = str_at st j := by
  unfold mb25_string_clear
  split_ifs
  · exact str_at_set_str_ne st id j _ h
  · rfl

theorem bytes_of_clear (st : State) (id : Nat) (hi : id < st.mb25_strings.length) :
    bytes_of (mb25_string_clear st id) id = [] := by
  unfold bytes_of str_bytes
  rw [str_at_clear st id hi]
  rfl

/-- The state `mb25_string_left` returns when it makes a view. -/
theorem left_view (st : State) (d s n : Nat) (hd : d < st.mb25_strings.length)
    (hs : s < st.mb25_strings.length)
    (hne : ¬ ((str_at st s).data = 0 ∨ (str_at st s).len = 0 ∨ n = 0)) :
    mb25_string_left st d s n =
      (MB25_SUCCESS,
        set_str (mark_immutable st s) d
          { str_at (mark_immutable st s) d with
            is_const := (str_at st s).is_const, writeable := false,
            len := if n > (str_at st s).len then (str_at st s).len else n,
            data := (str_at st s).data }) := by
  unfold mb25_string_left
  rw [if_neg (by simp [(valid_iff st d).mpr hd, (valid_iff st s).mpr hs])]
  dsimp only
  rw [if_neg hne]
  obtain ⟨_, e2, e3, _⟩ := src_after_mark st s hs
  rw [e2, e3]

/-- The state `mb25_string_left` returns when the source is empty or `n = 0`. -/
theorem left_clear (st : State) (d s n : Nat) (hd : d < st.mb25_strings.length)
    (hs : s < st.mb25_strings.length)
    (he : (str_at st s).data = 0 ∨ (str_at st s).len = 0 ∨ n = 0) :
    mb25_string_left st d s n = (MB25_SUCCESS, mb25_string_clear st d) := by
  unfold mb25_string_left
  rw [if_neg (by simp [(valid_iff st d).mpr hd, (valid_iff st s).mpr hs])]
  dsimp only
  rw [if_pos he]

theorem str_at_view (st : State) (d s : Nat) (y : mb25_string_t)
    (hd : d < st.mb25_strings.length) :
    str_at (set_str (mark_immutable st s) d y) d = y :=
  str_at_set_str _ d y (by rw [length_mark_immutable]; exact hd)

theorem mem_view (st : State) (d s : Nat) (y : mb25_string_t) :
    (set_str (mark_immutable st s) d y).mem = st.mem := mem_mark_immutable st s

theorem left_reads (st : State) (r s n : Nat) (hr : r < st.mb25_strings.length)
    (hs : s < st.mb25_strings.length) :
    (mb25_string_left st r s n).1 = MB25_SUCCESS ∧
      (((str_at st s).data = 0 ∨ (str_at st s).len = 0 ∨ n = 0) →
        bytes_of (mb25_string_left st r s n).2 r = [] ∧
        (str_at (mb25_string_left st r s n).2 r).len = 0 ∧
        (str_at (mb25_string_left st r s n).2 r).data = 0) ∧
      (¬ ((str_at st s).data = 0 ∨ (str_at st s).len = 0 ∨ n = 0) →
        bytes_of (mb25_string_left st r s n).2 r = (bytes_of st s).take n ∧
        (str_at (mb25_string_left st r s n).2 r).len = min n (str_at st s).len) := by
  by_cases he : (str_at st s).data = 0 ∨ (str_at st s).len = 0 ∨ n = 0
  · rw [left_clear st r s n hr hs he]
    refine ⟨rfl, fun _ => ⟨bytes_of_clear st r hr, ?_, ?_⟩, fun h => absurd he h⟩
    · show (str_at (mb25_string_clear st r) r).len = 0
      rw [str_at_clear st r hr]
    · show (str_at (mb25_string_clear st r) r).data = 0
      rw [str_at_clear st r hr]
  · rw [left_view st r s n hr hs he]
    refine ⟨rfl, fun h => absurd h he, fun _ => ⟨?_, ?_⟩⟩
    · unfold bytes_of str_bytes
      dsimp only
      rw [str_at_view st r s _ hr, mem_view]
      dsimp only
      split_ifs with hn
      · rw [List.take_of_length_le (by rw [read_bytes_length]; omega)]
      · rw [read_bytes_take _ _ _ _ (by omega)]
    · dsimp only
      rw [str_at_view st r s _ hr]
      dsimp only
      split_ifs with hn <;> omega


/-- The state `mb25_string_mid` returns when it makes a view. -/
theorem mid_view (st : State) (d s start length : Nat) (hd : d < st.mb25_strings.length)
    (hs : s < st.mb25_strings.length)
    (hne : ¬ ((str_at st s).data = 0 ∨ (str_at st s).len = 0 ∨ length = 0 ∨
      start0 start ≥ (str_at st s).len)) :
    mb25_string_mid st d s start length =
      (MB25_SUCCESS,
        set_str (mark_immutable st s) d
          { str_at (mark_immutable st s) d with
            is_const := (str_at st s).is_const, writeable := false,
            len := if start0 start + length > (str_at st s).len
              then (str_at st s).len - start0 start else length,
            data := (str_at st s).data + start0 start }) := by
  unfold mb25_string_mid
  rw [if_neg (by simp [(valid_iff st d).mpr hd, (valid_iff st s).mpr hs])]
  dsimp only
  have hs0 : (if start > 0 then start - 1 else start) = start0 start := rfl
  rw [hs0, if_neg hne]
  obtain ⟨_, e2, e3, _⟩ := src_after_mark st s hs
  rw [e2, e3]

/-- The state `mb25_string_mid` returns when it clears the destination. -/
theorem mid_clear (st : State) (d s start length : Nat) (hd : d < st.mb25_strings.length)
    (hs : s < st.mb25_strings.length)
    (he : (str_at st s).data = 0 ∨ (str_at st s).len = 0 ∨ length = 0 ∨
      start0 start ≥ (str_at st s).len) :
    mb25_string_mid st d s start length = (MB25_SUCCESS, mb25_string_clear st d) := by
  unfold mb25_string_mid
  rw [if_neg (by simp [(valid_iff st d).mpr hd, (valid_iff st s).mpr hs])]
  dsimp only
  have hs0 : (if start > 0 then start - 1 else start) = start0 start := rfl
  rw [hs0, if_pos he]

theorem read_bytes_slice (m : Nat → Nat) (p n a k : Nat) (h : a + k ≤ n) :
    ((read_bytes m p n).drop a).take k = read_bytes m (p + a) k := by
  rw [read_bytes_drop m p n a (by omega), read_bytes_take _ _ _ _ (by omega)]

theorem mid_reads (st : State) (d s start length : Nat) (hd : d < st.mb25_strings.length)
    (hs : s < st.mb25_strings.length) :
    (mb25_string_mid st d s start length).1 = MB25_SUCCESS ∧
      (((str_at st s).data = 0 ∨ (str_at st s).len = 0 ∨ length = 0 ∨
          start0 start ≥ (str_at st s).len) →
        bytes_of (mb25_string_mid st d s start length).2 d = [] ∧
        (str_at (mb25_string_mid st d s start length).2 d).len = 0 ∧
        (str_at (mb25_string_mid st d s start length).2 d).data = 0) ∧
      (¬ ((str_at st s).data = 0 ∨ (str_at st s).len = 0 ∨ length = 0 ∨
          start0 start ≥ (str_at st s).len) →
        bytes_of (mb25_string_mid st d s start length).2 d =
          ((bytes_of st s).drop (start0 start)).take
            (min length ((str_at st s).len - start0 start)) ∧
        (str_at (mb25_string_mid st d s start length).2 d).len =
          min length ((str_at st s).len - start0 start)) := by
  by_cases he : (str_at st s).data = 0 ∨ (str_at st s).len = 0 ∨ length = 0 ∨
      start0 start ≥ (str_at st s).len
  · rw [mid_clear st d s start length hd hs he]
    refine ⟨rfl, fun _ => ⟨bytes_of_clear st d hd, ?_, ?_⟩, fun h => absurd he h⟩
    · show (str_at (mb25_string_clear st d) d).len = 0
      rw [str_at_clear st d hd]
    · show (str_at (mb25_string_clear st d) d).data = 0
      rw [str_at_clear st d hd]
  · rw [mid_view st d s start length hd hs he]
    have hlt : start0 start < (str_at st s).len := by
      by_contra hc
      exact he (Or.inr (Or.inr (Or.inr (by omega))))
    have hmin : (if start0 start + length > (str_at st s).len
        then (str_at st s).len - start0 start else length) =
        min length ((str_at st s).len - start0 start) := by
      split_ifs with hc <;> omega
    refine ⟨rfl, fun h => absurd h he, fun _ => ⟨?_, ?_⟩⟩
    · unfold bytes_of str_bytes
      dsimp only
      rw [str_at_view st d s _ hd, mem_view]
      dsimp only
      rw [hmin, read_bytes_slice _ _ _ _ _ (by omega)]
    · dsimp only
      rw [str_at_view st d s _ hd]
      dsimp only
      exact hmin


theorem str_at_view_src (st : State) (d s : Nat) (y : mb25_string_t)
    (hd : d < st.mb25_strings.length) (hs : s < st.mb25_strings.length)
    (hy : y.writeable = false) :
    (str_at (set_str (mark_immutable st s) d y) s).writeable = false := by
  by_cases e : d = s
  · subst e
    rw [str_at_view st d d y hd]; exact hy
  · rw [str_at_set_str_ne _ d s y e]
    exact (src_after_mark st s hs).1

theorem left_is_view (st : State) (d s n : Nat) (hd : d < st.mb25_strings.length)
    (hs : s < st.mb25_strings.length)
    (hpos : 0 < (str_at (mb25_string_left st d s n).2 d).len) :
    view_of st (mb25_string_left st d s n).2 d s := by
  by_cases he : (str_at st s).data = 0 ∨ (str_at st s).len = 0 ∨ n = 0
  · rw [left_clear st d s n hd hs he] at hpos
    have : (str_at (mb25_string_clear st d) d).len = 0 := by rw [str_at_clear st d hd]
    have hpos' : 0 < (str_at (mb25_string_clear st d) d).len := hpos
    omega
  · rw [left_view st d s n hd hs he]
    dsimp only
    refine ⟨mem_view st d s _, global_mark_immutable st s, ?_, ?_, ?_, ?_, ?_⟩
    · rw [str_at_view st d s _ hd]
    · rw [str_at_view st d s _ hd]
      dsimp only
      split_ifs <;> omega
    · exact str_at_view_src st d s _ hd hs rfl
    · rw [str_at_view st d s _ hd]
    · rw [str_at_view st d s _ hd]

theorem mid_is_view (st : State) (d s start length : Nat) (hd : d < st.mb25_strings.length)
    (hs : s < st.mb25_strings.length)
    (hpos : 0 < (str_at (mb25_string_mid st d s start length).2 d).len) :
    view_of st (mb25_string_mid st d s start length).2 d s := by
  by_cases he : (str_at st s).data = 0 ∨ (str_at st s).len = 0 ∨ length = 0 ∨
      start0 start ≥ (str_at st s).len
  · rw [mid_clear st d s start length hd hs he] at hpos
    have : (str_at (mb25_string_clear st d) d).len = 0 := by rw [str_at_clear st d hd]
    have hpos' : 0 < (str_at (mb25_string_clear st d) d).len := hpos
    omega
  · rw [mid_view st d s start length hd hs he]
    have hlt : start0 start < (str_at st s).len := by
      by_contra hc
      exact he (Or.inr (Or.inr (Or.inr (by omega))))
    dsimp only
    refine ⟨mem_view st d s _, global_mark_immutable st s, ?_, ?_, ?_, ?_, ?_⟩
    · rw [str_at_view st d s _ hd]
      dsimp only
      omega
    · rw [str_at_view st d s _ hd]
      dsimp only
      split_ifs <;> omega
    · exact str_at_view_src st d s _ hd hs rfl
    · rw [str_at_view st d s _ hd]
    · rw [str_at_view st d s _ hd]

theorem right_clear (st : State) (d s n : Nat) (hd : d < st.mb25_strings.length)
    (hs : s < st.mb25_strings.length)
    (he : (str_at st s).data = 0 ∨ (str_at st s).len = 0 ∨ n = 0) :
    mb25_string_right st d s n = (MB25_SUCCESS, mb25_string_clear st d) := by
  unfold mb25_string_right
  rw [if_neg (by simp [(valid_iff st d).mpr hd, (valid_iff st s).mpr hs])]
  dsimp only
  rw [if_pos he]

/-- The descriptor `mb25_string_right` leaves in the destination slot, and the rest of the
state, when it makes a view: for a destination other than the source the window is the last
`n` bytes, for the source itself it is the first `n` bytes. -/
theorem right_view (st : State) (d s n : Nat) (hd : d < st.mb25_strings.length)
    (hs : s < st.mb25_strings.length)
    (hne : ¬ ((str_at st s).data = 0 ∨ (str_at st s).len = 0 ∨ n = 0)) :
    (mb25_string_right st d s n).1 = MB25_SUCCESS ∧
      (mb25_string_right st d s n).2.mem = st.mem ∧
      (mb25_string_right st d s n).2.mb25_global = st.mb25_global ∧
      (str_at (mb25_string_right st d s n).2 d).len = min n (str_at st s).len ∧
      (str_at (mb25_string_right st d s n).2 d).writeable = false ∧
      (str_at (mb25_string_right st d s n).2 d).is_const = (str_at st s).is_const ∧
      (str_at (mb25_string_right st d s n).2 s).writeable = false ∧
      (d ≠ s → (str_at (mb25_string_right st d s n).2 d).data =
        (str_at st s).data + ((str_at st s).len - min n (str_at st s).len)) ∧
      (d = s → (str_at (mb25_string_right st d s n).2 d).data = (str_at st s).data) := by
  unfold mb25_string_right
  rw [if_neg (by simp [(valid_iff st d).mpr hd, (valid_iff st s).mpr hs])]
  dsimp only
  rw [if_neg hne]
  obtain ⟨_, e2, e3, e4⟩ := src_after_mark st s hs
  have hmin : (if n > (str_at st s).len then (str_at st s).len else n) =
      min n (str_at st s).len := by
    split_ifs <;> omega
  rw [hmin, e2]
  have hl1 : d < (mark_immutable st s).mb25_strings.length := by
    rw [length_mark_immutable]; exact hd
  have hl2 : ∀ y, d < (set_str (mark_immutable st s) d y).mb25_strings.length := by
    intro y; simp [set_str]; exact hl1
  dsimp only
  refine ⟨rfl, mem_mark_immutable st s, global_mark_immutable st s, ?_, ?_, ?_, ?_, ?_, ?_⟩
  · rw [str_at_set_str _ d _ (hl2 _)]
    dsimp only
    rw [str_at_set_str _ d _ hl1]
  · rw [str_at_set_str _ d _ (hl2 _)]
    dsimp only
    rw [str_at_set_str _ d _ hl1]
  · rw [str_at_set_str _ d _ (hl2 _)]
    dsimp only
    rw [str_at_set_str _ d _ hl1]
  · by_cases e : d = s
    · subst e
      rw [str_at_set_str _ d _ (hl2 _)]
      dsimp only
      rw [str_at_set_str _ d _ hl1]
    · rw [str_at_set_str_ne _ d s _ e, str_at_set_str_ne _ d s _ e]
      exact (src_after_mark st s hs).1
  · intro e
    rw [str_at_set_str _ d _ (hl2 _)]
    dsimp only
    rw [str_at_set_str_ne _ d s _ e, e3, e4]
  · intro e
    subst e
    rw [str_at_set_str _ d _ (hl2 _)]
    dsimp only
    rw [str_at_set_str _ d _ hl1]
    dsimp only
    rw [e3]
    omega

theorem right_is_view (st : State) (d s n : Nat) (hd : d < st.mb25_strings.length)
    (hs : s < st.mb25_strings.length)
    (hpos : 0 < (str_at (mb25_string_right st d s n).2 d).len) :
    view_of st (mb25_string_right st d s n).2 d s := by
  by_cases he : (str_at st s).data = 0 ∨ (str_at st s).len = 0 ∨ n = 0
  · rw [right_clear st d s n hd hs he] at hpos
    have : (str_at (mb25_string_clear st d) d).len = 0 := by rw [str_at_clear st d hd]
    have hpos' : 0 < (str_at (mb25_string_clear st d) d).len := hpos
    omega
  · obtain ⟨_, r1, r2, r3, r4, r5, r6, r7, r8⟩ := right_view st d s n hd hs he
    refine ⟨r1, r2, ?_, ?_, r6, r4, r5⟩
    · by_cases e : d = s
      · rw [r8 e]
      · rw [r7 e]; omega
    · rw [r3]
      by_cases e : d = s
      · rw [r8 e]; omega
      · rw [r7 e]; omega

theorem read_bytes_overwrite (m : Nat → Nat) (D L s r data : Nat) (hsr : s + r ≤ L) :
    read_bytes (memcpy m (D + s) data r) D L =
      (read_bytes m D L).take s ++ read_bytes m data r ++ (read_bytes m D L).drop (s + r) := by
  obtain ⟨t, rfl⟩ := Nat.exists_eq_add_of_le hsr
  rw [read_bytes_drop m D (s + r + t) (s + r) (by omega),
    read_bytes_take m D (s + r + t) s (by omega)]
  rw [read_bytes_add _ D (s + r) t, read_bytes_add _ D s r]
  rw [read_bytes_memcpy_dst, read_bytes_memcpy_apart _ (D + s) data r D s (Or.inl (Nat.le_refl _)),
    read_bytes_memcpy_apart _ (D + s) data r (D + (s + r)) t (Or.inr (Or.inl (by omega)))]
  have e : s + r + t - (s + r) = t := by omega
  rw [e]

/-- The call `mb25_string_mid_assign` on a writable descriptor, start inside the string. -/
theorem mid_assign_in_place (st : State) (d start data len : Nat)
    (hd : d < st.mb25_strings.length) (hw : (str_at st d).writeable = true)
    (hin : ¬ (data = 0 ∧ len > 0)) (hs : start0 start < (str_at st d).len) :
    (mb25_string_mid_assign st d start data len).1 = MB25_SUCCESS ∧
      (mb25_string_mid_assign st d start data len).2.mb25_strings = st.mb25_strings ∧
      (mb25_string_mid_assign st d start data len).2.mb25_global = st.mb25_global ∧
      bytes_of (mb25_string_mid_assign st d start data len).2 d =
        (bytes_of st d).take (start0 start) ++
          read_bytes st.mem data (replace_len (str_at st d).len start len) ++
          (bytes_of st d).drop (start0 start + replace_len (str_at st d).len start len) := by
  unfold mb25_string_mid_assign
  dsimp only
  rw [if_neg (by rw [not_not]; exact (valid_iff st d).mpr hd), if_neg hin]
  rw [if_neg (by unfold start0 at hs; omega)]
  rw [if_neg (by rw [hw]; simp)]
  have hrl : start0 start + replace_len (str_at st d).len start len ≤ (str_at st d).len := by
    unfold replace_len; split_ifs <;> omega
  refine ⟨rfl, rfl, rfl, ?_⟩
  exact read_bytes_overwrite st.mem (str_at st d).data (str_at st d).len (start0 start)
    (replace_len (str_at st d).len start len) data hrl

/-- The call `mb25_string_mid_assign` with a start at or after the end of the string. -/
theorem mid_assign_past_end (st : State) (d start data len : Nat)
    (hd : d < st.mb25_strings.length) (hin : ¬ (data = 0 ∧ len > 0))
    (hs : (str_at st d).len ≤ start0 start) :
    mb25_string_mid_assign st d start data len = (MB25_SUCCESS, st) := by
  unfold mb25_string_mid_assign
  dsimp only
  rw [if_neg (by rw [not_not]; exact (valid_iff st d).mpr hd), if_neg hin]
  rw [if_pos (by unfold start0 at hs; omega)]

/-- An allocation, collecting or not, leaves every byte outside the allocated part of the
pool as it was. -/
theorem alloc_mem_outside (st : State) (h : wf st)
    (hs : gc_safe st.mb25_global.pool st.mb25_global.pool_size st.mb25_strings)
    (id size a : Nat)
    (ha : a < st.mb25_global.pool ∨ st.mb25_global.pool + st.mb25_global.allocator ≤ a) :
    (mb25_string_alloc st id size).2.mem a = st.mem a := by
  unfold mb25_string_alloc
  by_cases hv : MB25_VALID_ID st id = true
  · rw [if_neg (by simp [hv])]
    by_cases hl : size > MB25_MAX_STRING_LEN
    · rw [if_pos hl]
    · rw [if_neg hl]
      dsimp only
      by_cases hfit : (st.mb25_global.pool_size + 65536 - st.mb25_global.allocator) % 65536
          ≥ size
      · obtain ⟨hok, _, _, _, e4, _⟩ := allocate_fits st id size hfit
        rw [if_neg (by rw [hok]; simp)]
        show (alloc_setup (allocate_from_pool st id size).2 id).mem a = st.mem a
        rw [e4]
      · have hfail := allocate_fail st id size hfit
        rw [if_pos (by rw [hfail]; simp)]
        have hsup := supported_of_wf st h hs
        obtain ⟨_, _, _, g4, g5⟩ := gc_supported st hsup
        have hle := live_below_le st.mb25_global.pool st.mb25_global.pool_size st.mb25_strings
          (st.mb25_global.pool + st.mb25_global.allocator)
        have hgc : (mb25_garbage_collect st).mem a = st.mem a := by
          rcases ha with x | x
          · exact g5 a x
          · exact g4 a (by omega)
        by_cases hfit2 : ((mb25_garbage_collect st).mb25_global.pool_size + 65536 -
            (mb25_garbage_collect st).mb25_global.allocator) % 65536 ≥ size
        · obtain ⟨hok, _, _, _, e4, _⟩ :=
            allocate_fits (mb25_garbage_collect st) id size hfit2
          rw [if_neg (by rw [hok]; simp)]
          show (alloc_setup (allocate_from_pool (mb25_garbage_collect st) id size).2 id).mem a =
            st.mem a
          rw [e4, hgc]
        · have hfail2 := allocate_fail (mb25_garbage_collect st) id size hfit2
          rw [if_pos (by rw [hfail2]; simp)]
          rw [hfail2]
          exact hgc
  · rw [if_pos (by simp [hv])]

/-- A successful allocation followed by a copy of `size` bytes from a buffer outside the pool:
the new region reads the bytes the buffer held before the call. -/
theorem alloc_copy_reads (st : State) (h : wf st)
    (hs : gc_safe st.mb25_global.pool st.mb25_global.pool_size st.mb25_strings)
    (id size src : Nat)
    (hout : src + size ≤ st.mb25_global.pool ∨
      st.mb25_global.pool + st.mb25_global.pool_size ≤ src) :
    read_bytes
        (memcpy (mb25_string_alloc st id size).2.mem
          (str_at (mb25_string_alloc st id size).2 id).data src size)
        (str_at (mb25_string_alloc st id size).2 id).data size =
      read_bytes st.mem src size := by
  rw [read_bytes_memcpy_dst]
  apply read_bytes_congr
  intro i hi
  apply alloc_mem_outside st h hs
  have := h.cursor
  omega

/-- An allocation that fits the free space leaves the memory as it was. -/
theorem alloc_mem_fits (st : State) (id size : Nat) (hfit : size ≤ mb25_get_free_space st) :
    (mb25_string_alloc st id size).2.mem = st.mem := by
  unfold mb25_get_free_space at hfit
  unfold mb25_string_alloc
  by_cases hv : MB25_VALID_ID st id = true
  · rw [if_neg (by simp [hv])]
    by_cases hl : size > MB25_MAX_STRING_LEN
    · rw [if_pos hl]
    · rw [if_neg hl]
      dsimp only
      obtain ⟨hok, _, _, _, e4, _⟩ := allocate_fits st id size hfit
      rw [if_neg (by rw [hok]; simp)]
      exact e4
  · rw [if_pos (by simp [hv])]

/-- The topology that `stable_source` asks for when the request does not fit. -/
theorem stable_topology (st : State) (src n : Nat) (h : stable_source st src n) :
    needs_gc st n → safe_topology st := by
  intro hn
  rcases h with ⟨hfit, _⟩ | ⟨hs, _⟩
  · unfold needs_gc at hn; omega
  · exact hs

/-- A successful allocation followed by a copy of `size` bytes from a `stable_source`: the
new region reads the bytes the source held before the call. -/
theorem alloc_copy_stable (st : State) (h : wf st) (id size src : Nat)
    (hsrc : stable_source st src size) :
    read_bytes
        (memcpy (mb25_string_alloc st id size).2.mem
          (str_at (mb25_string_alloc st id size).2 id).data src size)
        (str_at (mb25_string_alloc st id size).2 id).data size =
      read_bytes st.mem src size := by
  rcases hsrc with ⟨hfit, _⟩ | ⟨hs, hout⟩
  · rw [read_bytes_memcpy_dst, alloc_mem_fits st id size hfit]
  · exact alloc_copy_reads st h hs id size src hout

theorem strlen_from_spec (m : Nat → Nat) (p n : Nat) (hz : m (p + n) = 0) :
    ∀ budget i, i ≤ n → n < i + budget → (∀ k, i ≤ k → k < n → m (p + k) ≠ 0) →
      strlen_from m p budget i = n := by
  intro budget
  induction budget with
  | zero => intro i h1 h2 _; omega
  | succ b ih =>
    intro i h1 h2 h3
    unfold strlen_from
    by_cases e : i = n
    · subst e
      rw [if_pos hz]
    · rw [if_neg (h3 i (Nat.le_refl _) (by omega))]
      exact ih (i + 1) (by omega) (by omega) (fun k hk1 hk2 => h3 k (by omega) hk2)

theorem mem_read_bytes (m : Nat → Nat) (p n k : Nat) (hk : k < n) :
    m (p + k) ∈ read_bytes m p n := by
  unfold read_bytes
  exact List.mem_map.mpr ⟨k, List.mem_range.mpr hk, rfl⟩

/-- `strlen` of a NUL-terminated string without NUL of at most 255 bytes. -/
theorem strlen_spec (m : Nat → Nat) (p : Nat) (s : List Nat) (hlen : s.length ≤ 255)
    (hnz : ∀ b ∈ s, b ≠ 0) (hs : read_bytes m p s.length = s) (hz : m (p + s.length) = 0) :
    strlen m p = s.length := by
  unfold strlen
  apply strlen_from_spec m p s.length hz 256 0 (Nat.zero_le _) (by omega)
  intro k _ hk
  apply hnz
  have hmem := mem_read_bytes m p s.length k hk
  rw [hs] at hmem
  exact hmem


/-- Round trip of `mb25_string_alloc_init` in a well-formed state, for a NUL-terminated string
that is a `stable_source`. -/
theorem alloc_init_reads (st : State) (h : wf st)
    (id p : Nat) (s : List Nat) (hlen : s.length ≤ 255) (hnz : ∀ b ∈ s, b ≠ 0)
    (hs1 : read_bytes st.mem p s.length = s) (hs2 : st.mem (p + s.length) = 0)
    (hsrc : stable_source st p s.length)
    (hok : (mb25_string_alloc_init st id p).1 = MB25_SUCCESS) :
    bytes_of (mb25_string_alloc_init st id p).2 id = s ∧
      (str_at (mb25_string_alloc_init st id p).2 id).len = s.length ∧
      (str_at (mb25_string_alloc_init st id p).2 id).writeable = true ∧
      (str_at (mb25_string_alloc_init st id p).2 id).is_const = false := by
  have hstr := strlen_spec st.mem p s hlen hnz hs1 hs2
  obtain ⟨hw1, hf⟩ := wf_alloc_c st h id s.length (stable_topology st p s.length hsrc)
  have hcopy := alloc_copy_stable st h id s.length p hsrc
  unfold mb25_string_alloc_init at hok ⊢
  by_cases hp : p = 0
  · rw [if_pos hp] at hok; cases hok
  rw [if_neg hp] at hok ⊢
  dsimp only at hok ⊢
  rw [hstr] at hok ⊢
  rw [if_neg (by unfold MB25_MAX_STRING_LEN; omega)] at hok ⊢
  by_cases h3 : (mb25_string_alloc st id s.length).1 ≠ MB25_SUCCESS
  · rw [if_pos h3] at hok; exact absurd hok h3
  rw [if_neg h3]
  clear hok
  obtain ⟨hi, f1, f2, _⟩ := hf (not_not.mp h3)
  generalize mb25_string_alloc st id s.length = r at *
  simp only [bytes_of, str_bytes, str_at_with_mem, str_at_set_mem _ _ _ _ hi]
  exact ⟨hcopy.trans hs1, trivial, f1, f2⟩


/-- The call `mb25_string_assign` in a well-formed state, for input bytes that are a
`stable_source` when the call allocates. -/
theorem assign_reads (st : State) (h : wf st) (dst data len : Nat)
    (hsrc : ¬ in_place st dst → stable_source st data len)
    (hok : (mb25_string_assign st dst data len).1 = MB25_SUCCESS) :
    bytes_of (mb25_string_assign st dst data len).2 dst = read_bytes st.mem data len ∧
      (str_at (mb25_string_assign st dst data len).2 dst).len = len ∧
      (str_at (mb25_string_assign st dst data len).2 dst).writeable = true ∧
      (str_at (mb25_string_assign st dst data len).2 dst).is_const = false ∧
      ((str_at st dst).writeable = true ∧ (str_at st dst).data ≠ 0 →
        (str_at (mb25_string_assign st dst data len).2 dst).data = (str_at st dst).data ∧
        (mb25_string_assign st dst data len).2.mb25_global = st.mb25_global) ∧
      (¬ ((str_at st dst).writeable = true ∧ (str_at st dst).data ≠ 0) →
        (str_at (mb25_string_assign st dst data len).2 dst).data + len =
          (mb25_string_assign st dst data len).2.mb25_global.pool +
            (mb25_string_assign st dst data len).2.mb25_global.allocator ∧
        (mb25_string_assign st dst data len).2.mb25_global.pool ≤
          (str_at (mb25_string_assign st dst data len).2 dst).data ∧
        (mb25_string_assign st dst data len).2.mb25_global.allocator ≤
          (mb25_string_assign st dst data len).2.mb25_global.pool_size ∧
        ∀ j, j ≠ dst → 0 < (str_at (mb25_string_assign st dst data len).2 j).len →
          (str_at (mb25_string_assign st dst data len).2 j).data +
              (str_at (mb25_string_assign st dst data len).2 j).len ≤
            (str_at (mb25_string_assign st dst data len).2 dst).data ∨
          (str_at (mb25_string_assign st dst data len).2 dst).data + len ≤
            (str_at (mb25_string_assign st dst data len).2 j).data) := by
  unfold mb25_string_assign at hok ⊢
  by_cases hv : MB25_VALID_ID st dst = true
  swap
  · rw [if_pos (by simp [hv])] at hok; cases hok
  have hd := (valid_iff st dst).mp hv
  rw [if_neg (by simp [hv])] at hok ⊢
  by_cases hin : data = 0 ∧ len > 0
  · rw [if_pos hin] at hok; cases hok
  rw [if_neg hin] at hok ⊢
  dsimp only at hok ⊢
  by_cases hip : (str_at st dst).writeable = true ∧ (str_at st dst).data ≠ 0
  · rw [if_pos hip]
    simp only [bytes_of, str_bytes, str_at_with_mem, str_at_set_mem _ _ _ _ hd]
    have ho := h.each _ (str_at_mem st dst hd)
    refine ⟨read_bytes_memcpy_dst _ _ _ _, trivial, hip.1, (ho.2.1 hip.1).1,
      fun _ => ⟨trivial, rfl⟩, fun hn => absurd hip hn⟩
  · rw [if_neg hip] at hok ⊢
    obtain ⟨hw1, hf⟩ := wf_alloc_c st h dst len (stable_topology st data len (hsrc hip))
    have hcopy := alloc_copy_stable st h dst len data (hsrc hip)
    by_cases h3 : (mb25_string_alloc st dst len).1 ≠ MB25_SUCCESS
    · rw [if_pos h3] at hok; exact absurd hok h3
    rw [if_neg h3]
    clear hok
    have hfr := hf (not_not.mp h3)
    have hap := fun j (hj : dst ≠ j) => fresh_apart _ hw1 dst len j hfr hj
    have hcur := hw1.cursor
    obtain ⟨hi, f1, f2, f3, f4, f5, f6⟩ := hfr
    generalize mb25_string_alloc st dst len = r at *
    simp only [bytes_of, str_bytes, str_at_with_mem, str_at_set_mem _ _ _ _ hi]
    refine ⟨hcopy, trivial, f1, f2, fun hp => absurd hp hip, fun _ => ⟨f4, f5, hcur, ?_⟩⟩
    intro j hj
    rw [str_at_set_mem_ne _ _ _ _ _ (Ne.symm hj)]
    exact hap j (Ne.symm hj)

/-- The sharing branches of `mb25_string_copy`: a constant source, or a destination that is
not writable or has no buffer. -/
theorem copy_shares (st : State) (dst src : Nat) (hd : dst < st.mb25_strings.length)
    (hs : src < st.mb25_strings.length)
    (hne : (str_at st src).data ≠ 0 ∧ (str_at st src).len ≠ 0)
    (hc : (str_at st src).is_const = true ∨
      ¬ ((str_at st dst).writeable = true ∧ (str_at st dst).data ≠ 0))
    (hinv : (str_at st src).is_const = true → (str_at st src).writeable = false) :
    (mb25_string_copy st dst src).1 = MB25_SUCCESS ∧
      (str_at (mb25_string_copy st dst src).2 dst).data = (str_at st src).data ∧
      (str_at (mb25_string_copy st dst src).2 dst).len = (str_at st src).len ∧
      (str_at (mb25_string_copy st dst src).2 dst).writeable = false ∧
      (str_at (mb25_string_copy st dst src).2 src).writeable = false ∧
      (str_at (mb25_string_copy st dst src).2 dst).is_const = (str_at st src).is_const ∧
      (mb25_string_copy st dst src).2.mem = st.mem ∧
      (mb25_string_copy st dst src).2.mb25_global = st.mb25_global := by
  unfold mb25_string_copy
  rw [if_neg (by simp [(valid_iff st dst).mpr hd, (valid_iff st src).mpr hs])]
  dsimp only
  rw [if_neg (by intro e; rcases e with e | e; exact hne.1 e; exact hne.2 e)]
  by_cases hcst : (str_at st src).is_const = true
  · rw [if_pos hcst]
    dsimp only
    rw [str_at_set_str st dst _ hd]
    refine ⟨rfl, rfl, rfl, rfl, ?_, hcst.symm, rfl, rfl⟩
    by_cases e : dst = src
    · subst e
      rw [str_at_set_str st dst _ hd]
    · rw [str_at_set_str_ne st dst src _ e]
      exact hinv hcst
  · rw [if_neg hcst]
    have hnip : ¬ ((str_at st dst).writeable = true ∧ (str_at st dst).data ≠ 0) := by
      rcases hc with x | x
      · exact absurd x hcst
      · exact x
    rw [if_neg hnip]
    dsimp only
    obtain ⟨_, e2, e3, e4⟩ := src_after_mark st src hs
    rw [str_at_view st dst src _ hd]
    have hcf : (str_at st src).is_const = false := by
      cases hh : (str_at st src).is_const
      · rfl
      · exact absurd hh hcst
    refine ⟨rfl, e3, e4, rfl, str_at_view_src st dst src _ hd hs rfl, hcf.symm,
      mem_view st dst src _, global_mark_immutable st src⟩

/-- An allocation that fits the free space: the state it returns. -/
theorem alloc_fits_state (st : State) (id size : Nat) (hi : id < st.mb25_strings.length)
    (hl : size ≤ 255) (hsz : st.mb25_global.pool_size < 65536)
    (hfit : st.mb25_global.allocator + size ≤ st.mb25_global.pool_size) :
    (mb25_string_alloc st id size).1 = MB25_SUCCESS ∧
      (mb25_string_alloc st id size).2.mem = st.mem ∧
      (mb25_string_alloc st id size).2.mb25_global =
        { st.mb25_global with
          allocator := st.mb25_global.allocator + size
          total_allocs := (st.mb25_global.total_allocs + 1) % 4294967296
          max_used := if st.mb25_global.allocator + size > st.mb25_global.max_used
            then st.mb25_global.allocator + size else st.mb25_global.max_used } ∧
      str_at (mb25_string_alloc st id size).2 id =
        { str_at st id with
          is_const := false, writeable := true, len := 0,
          data := st.mb25_global.pool + st.mb25_global.allocator } ∧
      ∀ j, j ≠ id → str_at (mb25_string_alloc st id size).2 j = str_at st j := by
  have hfit' : (st.mb25_global.pool_size + 65536 - st.mb25_global.allocator) % 65536 ≥ size := by
    omega
  have hmod : (st.mb25_global.allocator + size) % 65536 = st.mb25_global.allocator + size := by
    omega
  rw [alloc_fits st id size hi hl hfit']
  obtain ⟨_, _, _, _, e4, e5⟩ := allocate_fits st id size hfit'
  have e5 := e5 hi
  refine ⟨rfl, e4, ?_, ?_, ?_⟩
  · show (alloc_setup (allocate_from_pool st id size).2 id).mb25_global = _
    unfold allocate_from_pool alloc_setup set_str
    dsimp only
    rw [if_pos hfit']
    dsimp only
    rw [hmod]
  · show str_at (alloc_setup (allocate_from_pool st id size).2 id) id = _
    unfold str_at
    rw [e5]
    exact getD_set_self _ _ _ _ hi
  · intro j hj
    show str_at (alloc_setup (allocate_from_pool st id size).2 id) j = _
    unfold str_at
    rw [e5]
    exact getD_set_ne _ _ _ _ _ (Ne.symm hj)

/-! ## Const descriptors are never writable -/

theorem flags_set (W : List mb25_string_t) (i : Nat) (y : mb25_string_t) (h : flags_ok W)
    (hy : y.is_const = true → y.writeable = false) : flags_ok (W.set i y) := by
  intro d hd
  rcases List.mem_or_eq_of_mem_set hd with hm | rfl
  · exact h d hm
  · exact hy

theorem flags_getD (W : List mb25_string_t) (i : Nat) (h : flags_ok W) :
    (W.getD i zero_string).is_const = true → (W.getD i zero_string).writeable = false := by
  by_cases hi : i < W.length
  · rw [List.getD_eq_getElem _ _ hi]
    exact h _ (List.getElem_mem hi)
  · rw [List.getD_eq_default _ _ (by omega)]
    intro _; rfl

/-- Storing a descriptor that is not writable, or not constant, or has the flags of the
descriptor it replaces, keeps invariant 3. -/
theorem flags_set_str (st : State) (i : Nat) (y : mb25_string_t)
    (h : flags_ok st.mb25_strings)
    (hy : y.writeable = false ∨ y.is_const = false ∨
      (y.is_const = (str_at st i).is_const ∧ y.writeable = (str_at st i).writeable)) :
    flags_ok (set_str st i y).mb25_strings := by
  apply flags_set _ _ _ h
  intro hc
  rcases hy with x | x | ⟨x1, x2⟩
  · exact x
  · rw [x] at hc; exact Bool.noConfusion hc
  · rw [x2]
    apply flags_getD _ _ h
    show (str_at st i).is_const = true
    rw [← x1]; exact hc

theorem flags_clear (st : State) (id : Nat) (h : flags_ok st.mb25_strings) :
    flags_ok (mb25_string_clear st id).mb25_strings := by
  unfold mb25_string_clear
  split_ifs
  all_goals first
    | exact h
    | exact flags_set_str st id _ h (Or.inl rfl)

theorem flags_free (st : State) (id : Nat) (h : flags_ok st.mb25_strings) :
    flags_ok (mb25_string_free st id).mb25_strings := by
  unfold mb25_string_free
  split_ifs
  all_goals first
    | exact h
    | exact flags_set_str st id _ h (Or.inl rfl)

theorem flags_mark_immutable (st : State) (id : Nat) (h : flags_ok st.mb25_strings) :
    flags_ok (mark_immutable st id).mb25_strings := by
  unfold mark_immutable
  split_ifs
  all_goals first
    | exact h
    | exact flags_set_str st id _ h (Or.inl rfl)

/-- Every descriptor of the collected array is a descriptor of the old array up to the data
pointer. -/
theorem gc_from (st : State) :
    ∀ b ∈ (mb25_garbage_collect st).mb25_strings, ∃ a ∈ st.mb25_strings,
      same_slot st.mb25_global.pool st.mb25_global.pool_size a b := by
  intro b hb
  rw [gc_strings_eq] at hb
  have hb' := (shell_sort_perm str_id_less _).mem_iff.mp hb
  obtain ⟨a, ha, hs⟩ := compact_loop_same _ _ _ _ b hb'
  exact ⟨a, (shell_sort_perm data_ptr_less st.mb25_strings).mem_iff.mp ha, hs⟩

theorem flags_gc (st : State) (h : flags_ok st.mb25_strings) :
    flags_ok (mb25_garbage_collect st).mb25_strings := by
  intro b hb hc
  obtain ⟨a, ha, _, _, k3, k4, _⟩ := gc_from st b hb
  rw [k4]
  apply h a ha
  rw [← k3]; exact hc

theorem flags_allocate (st : State) (id size : Nat) (h : flags_ok st.mb25_strings) :
    flags_ok (allocate_from_pool st id size).2.mb25_strings := by
  unfold allocate_from_pool
  dsimp only
  split_ifs
  all_goals first
    | exact h
    | exact flags_set_str st id _ h (Or.inr (Or.inr ⟨rfl, rfl⟩))

theorem flags_alloc_setup (st : State) (id : Nat) (h : flags_ok st.mb25_strings) :
    flags_ok (alloc_setup st id).mb25_strings :=
  flags_set_str st id _ h (Or.inr (Or.inl rfl))

theorem flags_alloc (st : State) (id size : Nat) (h : flags_ok st.mb25_strings) :
    flags_ok (mb25_string_alloc st id size).2.mb25_strings := by
  unfold mb25_string_alloc
  dsimp only
  have h1 := flags_allocate st id size h
  have h2 := flags_allocate (mb25_garbage_collect st) id size (flags_gc st h)
  split_ifs
  all_goals first
    | exact h
    | exact h2
    | exact h1
    | exact flags_alloc_setup _ id h2
    | exact flags_alloc_setup _ id h1

/-- Changing only the length of a slot (and memory) keeps invariant 3. -/
theorem flags_set_len (st : State) (m : Nat → Nat) (i n : Nat) (h : flags_ok st.mb25_strings) :
    flags_ok (set_str { st with mem := m } i
      { str_at { st with mem := m } i with len := n }).mb25_strings :=
  flags_set_str { st with mem := m } i _ h (Or.inr (Or.inr ⟨rfl, rfl⟩))

theorem flags_alloc_const (st : State) (id p : Nat) (h : flags_ok st.mb25_strings) :
    flags_ok (mb25_string_alloc_const st id p).2.mb25_strings := by
  unfold mb25_string_alloc_const
  dsimp only
  split_ifs
  all_goals first
    | exact h
    | exact flags_set_str st id _ h (Or.inl rfl)

theorem flags_alloc_init (st : State) (id p : Nat) (h : flags_ok st.mb25_strings) :
    flags_ok (mb25_string_alloc_init st id p).2.mb25_strings := by
  unfold mb25_string_alloc_init
  dsimp only
  have ha := flags_alloc st id (strlen st.mem p) h
  split_ifs
  all_goals first
    | exact h
    | exact ha
    | exact flags_set_len _ _ id _ ha

theorem flags_from_c_string (st : State) (id p : Nat) (h : flags_ok st.mb25_strings) :
    flags_ok (mb25_from_c_string st id p).2.mb25_strings := by
  unfold mb25_from_c_string
  split_ifs
  all_goals first
    | exact flags_clear st id h
    | exact flags_alloc_init st id p h

theorem flags_copy (st : State) (d s : Nat) (h : flags_ok st.mb25_strings) :
    flags_ok (mb25_string_copy st d s).2.mb25_strings := by
  unfold mb25_string_copy
  dsimp only
  split_ifs
  all_goals first
    | exact h
    | exact flags_clear st d h
    | exact flags_set_str st d _ h (Or.inl rfl)
    | exact flags_set_len st _ d _ h
    | exact flags_set_str _ d _ (flags_mark_immutable st s h) (Or.inl rfl)

theorem flags_assign (st : State) (d p n : Nat) (h : flags_ok st.mb25_strings) :
    flags_ok (mb25_string_assign st d p n).2.mb25_strings := by
  unfold mb25_string_assign
  dsimp only
  have ha := flags_alloc st d n h
  split_ifs
  all_goals first
    | exact h
    | exact ha
    | exact flags_set_len st _ d _ h
    | exact flags_set_len _ _ d _ ha

theorem flags_set_from_buf (st : State) (d p w : Nat) (h : flags_ok st.mb25_strings) :
    flags_ok (mb25_string_set_from_buf st d p w).2.mb25_strings := by
  unfold mb25_string_set_from_buf
  split_ifs
  all_goals first
    | exact h
    | exact flags_assign st d p _ h

theorem flags_guarded_memcpy (st : State) (d s n : Nat) (h : flags_ok st.mb25_strings) :
    flags_ok (guarded_memcpy st d s n).mb25_strings := by
  rw [guarded_memcpy_strings]; exact h

theorem flags_concat (st : State) (d a b : Nat) (h : flags_ok st.mb25_strings) :
    flags_ok (mb25_string_concat st d a b).2.mb25_strings := by
  unfold mb25_string_concat
  dsimp only
  have ha := flags_alloc st d (((str_at st a).len + (str_at st b).len) % 65536) h
  split_ifs
  all_goals first
    | exact h
    | exact ha
    | exact flags_set_str _ d _ (flags_guarded_memcpy _ _ _ _ (flags_guarded_memcpy _ _ _ _ ha))
        (Or.inr (Or.inr ⟨rfl, rfl⟩))

theorem flags_dup (st : State) (d s : Nat) (h : flags_ok st.mb25_strings) :
    flags_ok (mb25_string_dup st d s).2.mb25_strings := by
  unfold mb25_string_dup
  dsimp only
  have ha := flags_alloc st d (str_at st s).len h
  split_ifs
  all_goals first
    | exact h
    | exact ha
    | exact flags_set_str _ d _ (flags_guarded_memcpy _ _ _ _ ha) (Or.inr (Or.inr ⟨rfl, rfl⟩))

theorem flags_left (st : State) (d s n : Nat) (h : flags_ok st.mb25_strings) :
    flags_ok (mb25_string_left st d s n).2.mb25_strings := by
  unfold mb25_string_left
  dsimp only
  split_ifs
  all_goals first
    | exact h
    | exact flags_clear st d h
    | exact flags_set_str _ d _ (flags_mark_immutable st s h) (Or.inl rfl)

theorem flags_right (st : State) (d s n : Nat) (h : flags_ok st.mb25_strings) :
    flags_ok (mb25_string_right st d s n).2.mb25_strings := by
  unfold mb25_string_right
  dsimp only
  split_ifs
  all_goals first
    | exact h
    | exact flags_clear st d h
    | exact flags_set_str _ d _
        (flags_set_str _ d _ (flags_mark_immutable st s h) (Or.inl rfl))
        (Or.inr (Or.inr ⟨rfl, rfl⟩))

theorem flags_mid (st : State) (d s a n : Nat) (h : flags_ok st.mb25_strings) :
    flags_ok (mb25_string_mid st d s a n).2.mb25_strings := by
  unfold mb25_string_mid
  dsimp only
  split_ifs
  all_goals first
    | exact h
    | exact flags_clear st d h
    | exact flags_set_str _ d _ (flags_mark_immutable st s h) (Or.inl rfl)

theorem flags_mid_assign (st : State) (d a p n : Nat) (h : flags_ok st.mb25_strings) :
    flags_ok (mb25_string_mid_assign st d a p n).2.mb25_strings := by
  unfold mb25_string_mid_assign
  dsimp only
  have ha := flags_alloc st d (str_at st d).len h
  split_ifs
  all_goals first
    | exact h
    | exact ha
    | exact flags_set_len _ _ d _ ha

theorem flags_get_c_string_temp (st : State) (s t : Nat) (h : flags_ok st.mb25_strings) :
    flags_ok (mb25_get_c_string_temp st s t).2.mb25_strings := by
  unfold mb25_get_c_string_temp
  dsimp only
  have h1 := flags_alloc st t 1 h
  have h2 := flags_alloc st t (((str_at st s).len + 1) % 65536) h
  split_ifs
  all_goals first
    | exact h
    | exact h1
    | exact h2

theorem init_strings_flags (k i : Nat) : flags_ok (init_strings k i) := by
  induction k generalizing i with
  | zero => intro d hd; simp [init_strings] at hd
  | succ n ih =>
    intro d hd
    simp only [init_strings, List.mem_cons] at hd
    rcases hd with rfl | hd
    · intro _; rfl
    · exact ih (i + 1) d hd

theorem flags_init (st : State) (pool pool_size : Nat) (h : flags_ok st.mb25_strings) :
    flags_ok (mb25_init st pool pool_size).2.mb25_strings := by
  unfold mb25_init
  split_ifs
  all_goals first
    | exact h
    | exact init_strings_flags _ _

theorem flags_reset (st : State) : flags_ok (mb25_reset st).mb25_strings := by
  intro d hd _
  unfold mb25_reset at hd
  simp only [List.mem_map] at hd
  obtain ⟨a, _, rfl⟩ := hd
  rfl

theorem flags_run_op (st : State) (o : op) (h : flags_ok st.mb25_strings) :
    flags_ok (run_op st o).mb25_strings := by
  cases o with
  | init pool pool_size => exact flags_init st pool pool_size h
  | reset => exact flags_reset st
  | alloc_const i p => exact flags_alloc_const st i p h
  | alloc i n => exact flags_alloc st i n h
  | alloc_init i p => exact flags_alloc_init st i p h
  | free i => exact flags_free st i h
  | clear i => exact flags_clear st i h
  | from_c_string i p => exact flags_from_c_string st i p h
  | copy d s => exact flags_copy st d s h
  | assign d p n => exact flags_assign st d p n h
  | set_from_buf d p w => exact flags_set_from_buf st d p w h
  | concat d a b => exact flags_concat st d a b h
  | dup d s => exact flags_dup st d s h
  | left d s n => exact flags_left st d s n h
  | right d s n => exact flags_right st d s n h
  | mid d s a n => exact flags_mid st d s a n h
  | mid_assign d a p n => exact flags_mid_assign st d a p n h
  | garbage_collect => exact flags_gc st h
  | get_c_string_temp s t => exact flags_get_c_string_temp st s t h

/-- Invariant 3 holds in every state reachable by public operations. -/
theorem reachable_flags (st : State) (h : reachable st) : flags_ok st.mb25_strings := by
  induction h with
  | start st0 pool pool_size hok =>
    unfold mb25_init at hok ⊢
    by_cases hc : pool = 0 ∨ pool_size < 256
    · rw [if_pos hc] at hok; cases hok
    · rw [if_neg hc]; exact init_strings_flags _ _
  | step st o _ ih => exact flags_run_op st o ih

/-! ## Comparison and the lexicographic order -/

theorem lex_irrefl (a : List Nat) : lex_less a a = false := by
  induction a with
  | nil => rfl
  | cons x xs ih => simp [lex_less, ih]

theorem lex_asymm : ∀ a b : List Nat, lex_less a b = true → lex_less b a = false
  | [], [], h => by simp [lex_less] at h
  | [], _ :: _, _ => by simp [lex_less]
  | _ :: _, [], h => by simp [lex_less] at h
  | x :: xs, y :: ys, h => by
    simp only [lex_less] at h ⊢
    by_cases h1 : x < y
    · rw [if_neg (by omega), if_pos h1]
    · rw [if_neg h1] at h
      by_cases h2 : y < x
      · rw [if_pos h2] at h; exact absurd h (by simp)
      · rw [if_neg h2] at h
        rw [if_neg h2, if_neg h1]
        exact lex_asymm xs ys h

theorem lex_total : ∀ a b : List Nat, lex_less a b = false → lex_less b a = false → a = b
  | [], [], _, _ => rfl
  | [], _ :: _, h, _ => by simp [lex_less] at h
  | _ :: _, [], _, h => by simp [lex_less] at h
  | x :: xs, y :: ys, h1, h2 => by
    simp only [lex_less] at h1 h2
    by_cases c1 : x < y
    · rw [if_pos c1] at h1; exact Bool.noConfusion h1
    · rw [if_neg c1] at h1 h2
      by_cases c2 : y < x
      · rw [if_pos c2] at h2; exact Bool.noConfusion h2
      · rw [if_neg c2] at h1 h2
        have e : x = y := by omega
        rw [e, lex_total xs ys h1 h2]

theorem lex_ne (a b : List Nat) (h : lex_less a b = true) : a ≠ b := by
  intro e
  subst e
  rw [lex_irrefl] at h
  exact Bool.noConfusion h

/-- The strict lexicographic order of Mathlib on lists of numbers. -/
theorem lex_less_iff : ∀ a b : List Nat, lex_less a b = true ↔ List.Lex (fun x y => x < y) a b
  | [], [] => by
    simp only [lex_less]
    constructor
    · intro h; exact Bool.noConfusion h
    · intro h; cases h
  | [], y :: ys => by
    simp only [lex_less, true_iff]
    exact List.Lex.nil
  | x :: xs, [] => by
    simp only [lex_less]
    constructor
    · intro h; exact Bool.noConfusion h
    · intro h; cases h
  | x :: xs, y :: ys => by
    simp only [lex_less]
    by_cases h1 : x < y
    · rw [if_pos h1]
      simp only [true_iff]
      exact List.Lex.rel h1
    · rw [if_neg h1]
      by_cases h2 : y < x
      · rw [if_pos h2]
        constructor
        · intro h; exact Bool.noConfusion h
        · intro h
          cases h with
          | cons h' => omega
          | rel h' => exact absurd h' h1
      · rw [if_neg h2]
        have e : x = y := by omega
        subst e
        rw [lex_less_iff xs ys]
        constructor
        · intro h; exact List.Lex.cons h
        · intro h
          cases h with
          | cons h' => exact h'
          | rel h' => exact absurd h' h1

theorem lex_take : ∀ (k : Nat) (a b : List Nat),
    lex_less (a.take k) (b.take k) = true → lex_less a b = true
  | 0, a, b, h => by simp [lex_less] at h
  | k + 1, [], [], h => by simp [lex_less] at h
  | k + 1, [], _ :: _, _ => by simp [lex_less]
  | k + 1, _ :: _, [], h => by simp [lex_less] at h
  | k + 1, x :: xs, y :: ys, h => by
    simp only [List.take_succ_cons, lex_less] at h ⊢
    by_cases h1 : x < y
    · rw [if_pos h1]
    · rw [if_neg h1] at h ⊢
      by_cases h2 : y < x
      · rw [if_pos h2] at h; exact absurd h (by simp)
      · rw [if_neg h2] at h ⊢
        exact lex_take k xs ys h

theorem lex_of_take_eq : ∀ (a b : List Nat),
    a.take (min a.length b.length) = b.take (min a.length b.length) →
    ((lex_less a b = true ↔ a.length < b.length) ∧ (a = b ↔ a.length = b.length))
  | [], [], _ => by simp [lex_less]
  | [], _ :: _, _ => by simp [lex_less]
  | _ :: _, [], _ => by simp [lex_less]
  | x :: xs, y :: ys, h => by
    have hmin : min (x :: xs).length (y :: ys).length = min xs.length ys.length + 1 := by
      simp only [List.length_cons]; omega
    rw [hmin, List.take_succ_cons, List.take_succ_cons] at h
    injection h with e1 e2
    subst e1
    obtain ⟨k1, k2⟩ := lex_of_take_eq xs ys e2
    simp only [lex_less, Nat.lt_irrefl, if_false, List.length_cons, List.cons.injEq, true_and]
    exact ⟨by rw [k1]; omega, by rw [k2]; omega⟩

theorem read_bytes_succ (m : Nat → Nat) (p n : Nat) :
    read_bytes m p (n + 1) = m p :: read_bytes m (p + 1) n := by
  have h := read_bytes_add m p 1 n
  rw [Nat.add_comm 1 n] at h
  rw [h]
  rfl

/-- The byte-wise `memcmp` conforms to the C standard. -/
theorem memcmp_diff_conforms : memcmp_conforms memcmp_diff := by
  intro m p q n
  induction n generalizing p q with
  | zero => simp [memcmp_diff, read_bytes, lex_less]
  | succ k ih =>
    obtain ⟨i1, i2⟩ := ih (p + 1) (q + 1)
    simp only [memcmp_diff, read_bytes_succ, lex_less]
    by_cases e : m p = m q
    · rw [if_neg (by simpa using e)]
      simp only [e, Nat.lt_irrefl, if_false, List.cons.injEq, true_and]
      exact ⟨i1, i2⟩
    · rw [if_pos e]
      by_cases h1 : m p < m q
      · rw [if_pos h1]
        simp only [List.cons.injEq]
        constructor <;> constructor <;> intro h <;> first | trivial | omega
      · rw [if_neg h1, if_pos (by omega)]
        simp only [List.cons.injEq]
        constructor <;> constructor <;> intro h <;> first | trivial | omega


theorem read_bytes_ne_nil (m : Nat → Nat) (p n : Nat) (h : n ≠ 0) : read_bytes m p n ≠ [] := by
  intro e
  have := congrArg List.length e
  rw [read_bytes_length] at this
  exact h this

/-- The three outcomes of `mb25_string_compare` on valid ids whose null descriptors are
empty: a negative result comes with bytes that precede, zero with equal bytes, a positive
result with bytes that follow. -/
theorem compare_cases (memcmp : (Nat → Nat) → Nat → Nat → Nat → Int)
    (hc : memcmp_conforms memcmp) (st : State) (a b : Nat)
    (ha : a < st.mb25_strings.length) (hb : b < st.mb25_strings.length)
    (na : (str_at st a).data = 0 → (str_at st a).len = 0)
    (nb : (str_at st b).data = 0 → (str_at st b).len = 0) :
    (mb25_string_compare memcmp st a b < 0 ∧ lex_less (bytes_of st a) (bytes_of st b) = true) ∨
      (mb25_string_compare memcmp st a b = 0 ∧ bytes_of st a = bytes_of st b) ∨
      (0 < mb25_string_compare memcmp st a b ∧
        lex_less (bytes_of st b) (bytes_of st a) = true) := by
  unfold mb25_string_compare
  rw [if_neg (by simp [(valid_iff st a).mpr ha, (valid_iff st b).mpr hb])]
  dsimp only
  unfold bytes_of str_bytes
  generalize str_at st a = A at *
  generalize str_at st b = B at *
  have hnil : ∀ p, read_bytes st.mem p 0 = [] := fun p => rfl
  by_cases ea : A.data = 0 ∨ A.len = 0
  · have la : A.len = 0 := by rcases ea with x | x; exact na x; exact x
    rw [if_pos ea]
    by_cases eb : B.data = 0 ∨ B.len = 0
    · have lb : B.len = 0 := by rcases eb with x | x; exact nb x; exact x
      rw [if_pos eb, la, lb]
      right; left
      exact ⟨rfl, rfl⟩
    · rw [if_neg eb, la]
      left
      refine ⟨by decide, ?_⟩
      have hlb : B.len ≠ 0 := fun e => eb (Or.inr e)
      obtain ⟨n, hn⟩ := Nat.exists_eq_succ_of_ne_zero hlb
      rw [hn, read_bytes_succ, hnil]
      rfl
  · rw [if_neg ea]
    have hla : A.len ≠ 0 := fun e => ea (Or.inr e)
    by_cases eb : B.data = 0 ∨ B.len = 0
    · have lb : B.len = 0 := by rcases eb with x | x; exact nb x; exact x
      rw [if_pos eb, lb]
      right; right
      refine ⟨by decide, ?_⟩
      obtain ⟨n, hn⟩ := Nat.exists_eq_succ_of_ne_zero hla
      rw [hn, read_bytes_succ, hnil]
      rfl
    · rw [if_neg eb]
      have hmin : (if A.len < B.len then A.len else B.len) = min A.len B.len := by
        split_ifs <;> omega
      rw [hmin]
      obtain ⟨c1, c2⟩ := hc st.mem A.data B.data (min A.len B.len)
      have ta : (read_bytes st.mem A.data A.len).take (min A.len B.len) =
          read_bytes st.mem A.data (min A.len B.len) :=
        read_bytes_take _ _ _ _ (by omega)
      have tb : (read_bytes st.mem B.data B.len).take (min A.len B.len) =
          read_bytes st.mem B.data (min A.len B.len) :=
        read_bytes_take _ _ _ _ (by omega)
      by_cases hz : memcmp st.mem A.data B.data (min A.len B.len) = 0
      · rw [if_neg (by simp [hz])]
        have heq := c2.mp hz
        rw [← ta, ← tb] at heq
        have hk := lex_of_take_eq (read_bytes st.mem A.data A.len)
          (read_bytes st.mem B.data B.len) (by rw [read_bytes_length, read_bytes_length]; exact heq)
        have hk' := lex_of_take_eq (read_bytes st.mem B.data B.len)
          (read_bytes st.mem A.data A.len)
          (by rw [read_bytes_length, read_bytes_length, Nat.min_comm]; exact heq.symm)
        rw [read_bytes_length, read_bytes_length] at hk hk'
        by_cases l1 : A.len < B.len
        · rw [if_pos l1]
          left
          exact ⟨by decide, hk.1.mpr l1⟩
        · rw [if_neg l1]
          by_cases l2 : A.len > B.len
          · rw [if_pos l2]
            right; right
            exact ⟨by decide, hk'.1.mpr l2⟩
          · rw [if_neg l2]
            right; left
            exact ⟨rfl, hk.2.mpr (by omega)⟩
      · rw [if_pos hz]
        by_cases hneg : memcmp st.mem A.data B.data (min A.len B.len) < 0
        · left
          refine ⟨hneg, ?_⟩
          apply lex_take (min A.len B.len)
          rw [ta, tb]
          exact c1.mp hneg
        · right; right
          refine ⟨by omega, ?_⟩
          apply lex_take (min A.len B.len)
          rw [ta, tb]
          obtain ⟨d1, d2⟩ := hc st.mem B.data A.data (min A.len B.len)
          have hne : read_bytes st.mem B.data (min A.len B.len) ≠
              read_bytes st.mem A.data (min A.len B.len) :=
            fun e => hz (c2.mpr e.symm)
          have hnl : lex_less (read_bytes st.mem A.data (min A.len B.len))
              (read_bytes st.mem B.data (min A.len B.len)) = false := by
            cases hl : lex_less (read_bytes st.mem A.data (min A.len B.len))
              (read_bytes st.mem B.data (min A.len B.len))
            · rfl
            · exact absurd (c1.mpr hl) hneg
          by_contra hcon
          have hfalse : lex_less (read_bytes st.mem B.data (min A.len B.len))
              (read_bytes st.mem A.data (min A.len B.len)) = false := by
            cases hl : lex_less (read_bytes st.mem B.data (min A.len B.len))
              (read_bytes st.mem A.data (min A.len B.len))
            · rfl
            · exact absurd hl hcon
          exact hne (lex_total _ _ hfalse hnl)

theorem lex_append : ∀ x y : List Nat, y ≠ [] → lex_less x (x ++ y) = true
  | [], [], h => absurd rfl h
  | [], _ :: _, _ => rfl
  | a :: as, y, h => by
    show (if a < a then true else if a < a then false else lex_less as (as ++ y)) = true
    rw [if_neg (Nat.lt_irrefl a), if_neg (Nat.lt_irrefl a)]
    exact lex_append as y h

/-! ## Result codes and state effects -/

/-- When `mb25_string_alloc` reports `MB25_ERR_OUT_OF_MEMORY`, for a valid id and a size of at
most 255: exactly when the free space, as `mb25_get_free_space` computes it, is below `size`
both in the initial state and after one collection; otherwise the call succeeds. -/
theorem alloc_result (st : State) (id size : Nat) (hi : id < st.mb25_strings.length)
    (hl : size ≤ 255) :
    ((mb25_string_alloc st id size).1 = MB25_ERR_OUT_OF_MEMORY ↔
        mb25_get_free_space st < size ∧
          mb25_get_free_space (mb25_garbage_collect st) < size) ∧
      ((mb25_string_alloc st id size).1 = MB25_SUCCESS ↔
        ¬ (mb25_get_free_space st < size ∧
          mb25_get_free_space (mb25_garbage_collect st) < size)) := by
  unfold mb25_string_alloc
  rw [if_neg (by rw [not_not]; exact (valid_iff st id).mpr hi),
    if_neg (by unfold MB25_MAX_STRING_LEN; omega)]
  dsimp only
  by_cases hfit : (st.mb25_global.pool_size + 65536 - st.mb25_global.allocator) % 65536 ≥ size
  · have hok := (allocate_fits st id size hfit).1
    rw [if_neg (by rw [hok]; simp)]
    have hf : ¬ mb25_get_free_space st < size := by unfold mb25_get_free_space; omega
    constructor
    · constructor
      · intro h; cases h
      · intro h; exact absurd h.1 hf
    · constructor
      · intro _ h; exact hf h.1
      · intro _; rfl
  · have hfail := allocate_fail st id size hfit
    rw [if_pos (by rw [hfail]; simp)]
    have hf : mb25_get_free_space st < size := by unfold mb25_get_free_space; omega
    by_cases hfit2 : ((mb25_garbage_collect st).mb25_global.pool_size + 65536 -
        (mb25_garbage_collect st).mb25_global.allocator) % 65536 ≥ size
    · have hok := (allocate_fits (mb25_garbage_collect st) id size hfit2).1
      rw [if_neg (by rw [hok]; simp)]
      have hf2 : ¬ mb25_get_free_space (mb25_garbage_collect st) < size := by
        unfold mb25_get_free_space; omega
      constructor
      · constructor
        · intro h; cases h
        · intro h; exact absurd h.2 hf2
      · constructor
        · intro _ h; exact hf2 h.2
        · intro _; rfl
    · have hfail2 := allocate_fail (mb25_garbage_collect st) id size hfit2
      rw [if_pos (by rw [hfail2]; simp)]
      have hf2 : mb25_get_free_space (mb25_garbage_collect st) < size := by
        unfold mb25_get_free_space; omega
      constructor
      · constructor
        · intro _; exact ⟨hf, hf2⟩
        · intro _; rfl
      · constructor
        · intro h; cases h
        · intro h; exact absurd ⟨hf, hf2⟩ h

/-- On a supported state the free space before and after a collection is the capacity minus
the cursor, and the collection does not raise the cursor above the capacity. -/
theorem free_space_supported (st : State) (h : supported st) :
    mb25_get_free_space st = st.mb25_global.pool_size - st.mb25_global.allocator ∧
      (mb25_garbage_collect st).mb25_global.allocator ≤ st.mb25_global.pool_size ∧
      (mb25_garbage_collect st).mb25_global.pool_size = st.mb25_global.pool_size ∧
      mb25_get_free_space (mb25_garbage_collect st) =
        st.mb25_global.pool_size - (mb25_garbage_collect st).mb25_global.allocator := by
  have h2 := gc_keeps_supported st h
  obtain ⟨_, a2, _, a4, _⟩ := h
  obtain ⟨_, b2, _, b4, _⟩ := h2
  have e := gc_pool_size st
  rw [e] at b2 b4
  unfold mb25_get_free_space
  rw [e]
  refine ⟨by omega, b4, rfl, by omega⟩

theorem alloc_codes (st : State) (id size : Nat) (hl : size ≤ 255) :
    (mb25_string_alloc st id size).1 ≠ MB25_ERR_STRING_TOO_LONG := by
  unfold mb25_string_alloc
  dsimp only
  split_ifs with h1 h2 <;> intro h <;>
    first | (unfold MB25_MAX_STRING_LEN at h2; omega) | cases h

/-- When `mb25_string_concat` reports `MB25_ERR_STRING_TOO_LONG`. -/
theorem concat_too_long (st : State) (dst a b : Nat) (hd : dst < st.mb25_strings.length)
    (ha : a < st.mb25_strings.length) (hb : b < st.mb25_strings.length)
    (la : (str_at st a).len ≤ 255) (lb : (str_at st b).len ≤ 255) :
    (mb25_string_concat st dst a b).1 = MB25_ERR_STRING_TOO_LONG ↔
      (str_at st a).len + (str_at st b).len > 255 := by
  unfold mb25_string_concat
  rw [if_neg (by simp [(valid_iff st dst).mpr hd, (valid_iff st a).mpr ha,
    (valid_iff st b).mpr hb])]
  dsimp only
  have hmod : ((str_at st a).len + (str_at st b).len) % 65536 =
      (str_at st a).len + (str_at st b).len := by omega
  rw [hmod]
  by_cases hs : (str_at st a).len + (str_at st b).len > MB25_MAX_STRING_LEN
  · rw [if_pos hs]
    unfold MB25_MAX_STRING_LEN at hs
    exact ⟨fun _ => hs, fun _ => rfl⟩
  · rw [if_neg hs]
    unfold MB25_MAX_STRING_LEN at hs
    have hne := alloc_codes st dst ((str_at st a).len + (str_at st b).len) (by omega)
    constructor
    · intro h
      exfalso
      split_ifs at h with h3
      exact hne h
    · intro h; omega


theorem invalid_iff (st : State) (id : Nat) (h : ¬ id < st.mb25_strings.length) :
    ¬ (MB25_VALID_ID st id = true) := by
  rw [valid_iff]; exact h

theorem alloc_invalid (st : State) (id size : Nat) (h : ¬ id < st.mb25_strings.length) :
    mb25_string_alloc st id size = (MB25_ERR_INVALID_STR_ID, st) := by
  unfold mb25_string_alloc
  rw [if_pos (invalid_iff st id h)]

theorem alloc_const_invalid (st : State) (id p : Nat) (h : ¬ id < st.mb25_strings.length) :
    mb25_string_alloc_const st id p = (MB25_ERR_INVALID_STR_ID, st) := by
  unfold mb25_string_alloc_const
  rw [if_pos (invalid_iff st id h)]

/-- `mb25_string_alloc_init` with an invalid id: the pointer and the length are tested before
the id. -/
theorem alloc_init_invalid (st : State) (id p : Nat) (h : ¬ id < st.mb25_strings.length) :
    mb25_string_alloc_init st id p =
      (if p = 0 then MB25_ERR_NULL_POINTER
        else if strlen st.mem p > 255 then MB25_ERR_STRING_TOO_LONG
        else MB25_ERR_INVALID_STR_ID, st) := by
  unfold mb25_string_alloc_init
  dsimp only
  rw [alloc_invalid st id _ h]
  unfold MB25_MAX_STRING_LEN
  by_cases h1 : p = 0
  · rw [if_pos h1, if_pos h1]
  · rw [if_neg h1, if_neg h1]
    by_cases h2 : strlen st.mem p > 255
    · rw [if_pos h2, if_pos h2]
    · rw [if_neg h2, if_neg h2, if_pos (by intro e; cases e)]

theorem copy_invalid (st : State) (d s : Nat)
    (h : ¬ d < st.mb25_strings.length ∨ ¬ s < st.mb25_strings.length) :
    mb25_string_copy st d s = (MB25_ERR_INVALID_STR_ID, st) := by
  unfold mb25_string_copy
  rw [if_pos (by rw [valid_iff, valid_iff]; exact h)]

theorem assign_invalid (st : State) (d p n : Nat) (h : ¬ d < st.mb25_strings.length) :
    mb25_string_assign st d p n = (MB25_ERR_INVALID_STR_ID, st) := by
  unfold mb25_string_assign
  rw [if_pos (invalid_iff st d h)]

theorem set_from_buf_invalid (st : State) (d p w : Nat) (h : ¬ d < st.mb25_strings.length) :
    mb25_string_set_from_buf st d p w = (MB25_ERR_INVALID_STR_ID, st) := by
  unfold mb25_string_set_from_buf
  rw [if_pos (invalid_iff st d h)]

theorem concat_invalid (st : State) (d a b : Nat)
    (h : ¬ d < st.mb25_strings.length ∨ ¬ a < st.mb25_strings.length ∨
      ¬ b < st.mb25_strings.length) :
    mb25_string_concat st d a b = (MB25_ERR_INVALID_STR_ID, st) := by
  unfold mb25_string_concat
  rw [if_pos (by rw [valid_iff, valid_iff, valid_iff]; exact h)]

theorem left_invalid (st : State) (d s n : Nat)
    (h : ¬ d < st.mb25_strings.length ∨ ¬ s < st.mb25_strings.length) :
    mb25_string_left st d s n = (MB25_ERR_INVALID_STR_ID, st) := by
  unfold mb25_string_left
  rw [if_pos (by rw [valid_iff, valid_iff]; exact h)]

theorem right_invalid (st : State) (d s n : Nat)
    (h : ¬ d < st.mb25_strings.length ∨ ¬ s < st.mb25_strings.length) :
    mb25_string_right st d s n = (MB25_ERR_INVALID_STR_ID, st) := by
  unfold mb25_string_right
  rw [if_pos (by rw [valid_iff, valid_iff]; exact h)]

theorem mid_invalid (st : State) (d s a n : Nat)
    (h : ¬ d < st.mb25_strings.length ∨ ¬ s < st.mb25_strings.length) :
    mb25_string_mid st d s a n = (MB25_ERR_INVALID_STR_ID, st) := by
  unfold mb25_string_mid
  rw [if_pos (by rw [valid_iff, valid_iff]; exact h)]

theorem mid_assign_invalid (st : State) (d a p n : Nat) (h : ¬ d < st.mb25_strings.length) :
    mb25_string_mid_assign st d a p n = (MB25_ERR_INVALID_STR_ID, st) := by
  unfold mb25_string_mid_assign
  rw [if_pos (invalid_iff st d h)]

theorem strlen_from_long (m : Nat → Nat) (p : Nat) :
    ∀ budget i, (∀ k, i ≤ k → k < i + budget → m (p + k) ≠ 0) →
      strlen_from m p budget i = i + budget := by
  intro budget
  induction budget with
  | zero => intro i _; rfl
  | succ b ih =>
    intro i h
    unfold strlen_from
    rw [if_neg (h i (Nat.le_refl _) (by omega))]
    rw [ih (i + 1) (fun k h1 h2 => h k (by omega) (by omega))]
    omega

/-- `strlen`, cut off at 256, of a string of more than 255 bytes without NUL. -/
theorem strlen_long (m : Nat → Nat) (p : Nat) (s : List Nat) (hlen : 255 < s.length)
    (hnz : ∀ b ∈ s, b ≠ 0) (hs : read_bytes m p s.length = s) : strlen m p = 256 := by
  unfold strlen
  rw [strlen_from_long m p 256 0]
  intro k _ hk
  apply hnz
  have hmem := mem_read_bytes m p s.length k (by omega)
  rw [hs] at hmem
  exact hmem

/-- The function `mb25_string_alloc_const` on a valid id and a non-null string `s` without
NUL stored at `p` (NUL-terminated when it has at most 255 bytes). -/
theorem alloc_const_spec (st : State) (id p : Nat) (s : List Nat)
    (hi : id < st.mb25_strings.length) (hp : p ≠ 0) (hnz : ∀ b ∈ s, b ≠ 0)
    (hs1 : read_bytes st.mem p s.length = s)
    (hs2 : s.length ≤ 255 → st.mem (p + s.length) = 0) :
    ((mb25_string_alloc_const st id p).1 = MB25_ERR_STRING_TOO_LONG ↔ s.length > 255) ∧
      (s.length > 255 → (mb25_string_alloc_const st id p).2 = st) ∧
      (s.length ≤ 255 →
        (mb25_string_alloc_const st id p).1 = MB25_SUCCESS ∧
        str_at (mb25_string_alloc_const st id p).2 id =
          { str_at st id with is_const := true, writeable := false, len := s.length, data := p } ∧
        (∀ j, j ≠ id → str_at (mb25_string_alloc_const st id p).2 j = str_at st j) ∧
        (mb25_string_alloc_const st id p).2.mem = st.mem ∧
        (mb25_string_alloc_const st id p).2.mb25_global = st.mb25_global) := by
  unfold mb25_string_alloc_const
  rw [if_neg (by rw [not_not]; exact (valid_iff st id).mpr hi), if_neg hp]
  dsimp only
  unfold MB25_MAX_STRING_LEN
  by_cases hl : s.length ≤ 255
  · rw [strlen_spec st.mem p s hl hnz hs1 (hs2 hl), if_neg (by omega)]
    refine ⟨⟨fun h => (by cases h), fun h => (by omega)⟩, fun h => (by omega), fun _ => ?_⟩
    refine ⟨rfl, str_at_set_str st id _ hi, fun j hj => str_at_set_str_ne st id j _ (Ne.symm hj),
      rfl, rfl⟩
  · rw [strlen_long st.mem p s (by omega) hnz hs1, if_pos (by omega)]
    exact ⟨⟨fun _ => by omega, fun _ => rfl⟩, fun _ => rfl, fun h => absurd h hl⟩

/-- The functions `mb25_string_free` and `mb25_string_clear` on a valid id. -/
theorem free_spec (st : State) (id : Nat) (hi : id < st.mb25_strings.length) :
    str_at (mb25_string_free st id) id =
        { str_at st id with is_const := false, writeable := false, len := 0, data := 0 } ∧
      (∀ j, j ≠ id → str_at (mb25_string_free st id) j = str_at st j) ∧
      (mb25_string_free st id).mb25_strings.length = st.mb25_strings.length ∧
      (mb25_string_free st id).mem = st.mem ∧
      (mb25_string_free st id).mb25_global = st.mb25_global := by
  unfold mb25_string_free
  rw [if_pos ((valid_iff st id).mpr hi)]
  refine ⟨str_at_set_str st id _ hi, fun j hj => str_at_set_str_ne st id j _ (Ne.symm hj),
    ?_, rfl, rfl⟩
  simp [set_str]

theorem clear_spec (st : State) (id : Nat) (hi : id < st.mb25_strings.length) :
    str_at (mb25_string_clear st id) id =
        { str_at st id with is_const := false, writeable := false, len := 0, data := 0 } ∧
      (∀ j, j ≠ id → str_at (mb25_string_clear st id) j = str_at st j) ∧
      (mb25_string_clear st id).mb25_strings.length = st.mb25_strings.length ∧
      (mb25_string_clear st id).mem = st.mem ∧
      (mb25_string_clear st id).mb25_global = st.mb25_global := by
  unfold mb25_string_clear
  rw [if_pos ((valid_iff st id).mpr hi)]
  refine ⟨str_at_set_str st id _ hi, fun j hj => str_at_set_str_ne st id j _ (Ne.symm hj),
    ?_, rfl, rfl⟩
  simp [set_str]

theorem free_invalid (st : State) (id : Nat) (h : ¬ id < st.mb25_strings.length) :
    mb25_string_free st id = st ∧ mb25_string_clear st id = st := by
  unfold mb25_string_free mb25_string_clear
  rw [if_neg (invalid_iff st id h)]
  exact ⟨rfl, rfl⟩

theorem init_strings_getD (k i j : Nat) (hj : j < k) :
    (init_strings k i).getD j zero_string =
      { str_id := (i + j) % 16384, is_const := false, writeable := false, len := 0, data := 0 } := by
  induction k generalizing i j with
  | zero => omega
  | succ n ih =>
    cases j with
    | zero => rfl
    | succ j' =>
      simp only [init_strings, List.getD_cons_succ]
      rw [ih (i + 1) j' (by omega)]
      have : i + 1 + j' = i + (j' + 1) := by omega
      rw [this]

/-- The function `mb25_init`. -/
theorem init_spec (st : State) (pool pool_size : Nat) :
    ((mb25_init st pool pool_size).1 = MB25_ERR_OUT_OF_MEMORY ↔ pool = 0 ∨ pool_size < 256) ∧
      (pool = 0 ∨ pool_size < 256 → (mb25_init st pool pool_size).2 = st) ∧
      (¬ (pool = 0 ∨ pool_size < 256) →
        (mb25_init st pool pool_size).1 = MB25_SUCCESS ∧
        (mb25_init st pool pool_size).2.mb25_global =
          { pool := pool, pool_size := pool_size, allocator := 0, total_allocs := 0,
            total_gcs := 0, max_used := 0 } ∧
        (mb25_init st pool pool_size).2.mem = st.mem ∧
        (mb25_init st pool pool_size).2.mb25_strings.length = st.mb25_strings.length ∧
        (st.mb25_strings.length ≤ 16384 → ∀ i, i < st.mb25_strings.length →
          str_at (mb25_init st pool pool_size).2 i =
            { str_id := i, is_const := false, writeable := false, len := 0, data := 0 })) := by
  unfold mb25_init
  by_cases h : pool = 0 ∨ pool_size < 256
  · rw [if_pos h]
    exact ⟨⟨fun _ => h, fun _ => rfl⟩, fun _ => rfl, fun hn => absurd h hn⟩
  · rw [if_neg h]
    refine ⟨⟨fun e => (by cases e), fun e => absurd e h⟩, fun e => absurd e h, fun _ => ?_⟩
    refine ⟨rfl, rfl, rfl, init_strings_length _ _, ?_⟩
    intro hN i hi
    show (init_strings (MB25_NUM_STRINGS st) 0).getD i zero_string = _
    rw [init_strings_getD _ 0 i (by unfold MB25_NUM_STRINGS; exact hi)]
    have : (0 + i) % 16384 = i := by
      rw [Nat.zero_add]; exact Nat.mod_eq_of_lt (by omega)
    rw [this]

theorem trim_len_spec (m : Nat → Nat) (buf : Nat) :
    ∀ width, trim_len m buf width ≤ width ∧
      (trim_len m buf width = 0 ∨ m (buf + (trim_len m buf width - 1)) ≠ 32) ∧
      ∀ j, trim_len m buf width ≤ j → j < width → m (buf + j) = 32 := by
  intro width
  induction width with
  | zero => exact ⟨Nat.le_refl _, Or.inl rfl, fun j _ h => by omega⟩
  | succ n ih =>
    obtain ⟨i1, i2, i3⟩ := ih
    unfold trim_len
    by_cases e : m (buf + n) = 32
    · rw [if_pos e]
      refine ⟨by omega, i2, ?_⟩
      intro j h1 h2
      by_cases hj : j = n
      · rw [hj]; exact e
      · exact i3 j h1 (by omega)
    · rw [if_neg e]
      refine ⟨Nat.le_refl _, Or.inr ?_, fun j h1 h2 => by omega⟩
      show m (buf + (n + 1 - 1)) ≠ 32
      rw [Nat.add_sub_cancel]
      exact e

/-- The function `mb25_string_set_from_buf` is `mb25_string_assign` with the trimmed
length. -/
theorem set_from_buf_eq (st : State) (dst buf width : Nat) (h : ¬ (buf = 0 ∧ width > 0)) :
    mb25_string_set_from_buf st dst buf width =
      mb25_string_assign st dst buf (trim_len st.mem buf width) := by
  unfold mb25_string_set_from_buf
  by_cases hv : ¬ MB25_VALID_ID st dst = true
  · rw [if_pos hv]
    unfold mb25_string_assign
    rw [if_pos hv]
  · rw [if_neg hv, if_neg h]

/-! ## The loops of the shell sort reach their exit tests -/

/-- The shifting loop leaves by its exit test within `j` iterations: a larger budget gives the
same result. -/
theorem shift_loop_fuel (less : mb25_string_t → mb25_string_t → Bool) (gap : Nat)
    (temp : mb25_string_t) (hg : 0 < gap) :
    ∀ (b j extra : Nat) (arr : List mb25_string_t), j ≤ b →
      shift_loop less gap temp (b + extra) j arr = shift_loop less gap temp b j arr := by
  intro b
  induction b with
  | zero =>
    intro j extra arr hj
    have hj0 : j = 0 := by omega
    subst hj0
    cases extra with
    | zero => rfl
    | succ e =>
      rw [Nat.zero_add]
      unfold shift_loop
      rw [if_neg (by omega)]
  | succ b ih =>
    intro j extra arr hj
    have e : b + 1 + extra = (b + extra) + 1 := by omega
    rw [e]
    unfold shift_loop
    by_cases hc : gap ≤ j ∧ less temp (arr.getD (j - gap) zero_string) = true
    · rw [if_pos hc, if_pos hc]
      exact ih (j - gap) extra _ (by omega)
    · rw [if_neg hc, if_neg hc]

/-- The gap loop leaves by its exit test `gap > 0` within the budget: a larger budget gives
the same result. -/
theorem gap_loop_fuel (less : mb25_string_t → mb25_string_t → Bool) (n : Nat) :
    ∀ (b gap extra : Nat) (arr : List mb25_string_t), gap = 0 ∨ gap < b →
      gap_loop less n (b + extra) gap arr = gap_loop less n b gap arr := by
  intro b
  induction b with
  | zero =>
    intro gap extra arr hgap
    have hg0 : gap = 0 := by omega
    subst hg0
    cases extra with
    | zero => rfl
    | succ e =>
      rw [Nat.zero_add]
      unfold gap_loop
      rw [if_pos rfl]
  | succ b ih =>
    intro gap extra arr hgap
    have e : b + 1 + extra = (b + extra) + 1 := by omega
    rw [e]
    unfold gap_loop
    by_cases hc : gap = 0
    · rw [if_pos hc, if_pos hc]
    · rw [if_neg hc, if_neg hc]
      apply ih
      by_cases h2 : gap / 2 = 0
      · exact Or.inl h2
      · right
        have := Nat.div_lt_self (Nat.pos_of_ne_zero hc) (by decide : 1 < 2)
        omega

/-- The order `data_ptr_less` leaves between a descriptor and any later one of a sorted
array. -/
theorem data_ptr_order (a b : mb25_string_t) (h : data_ptr_less b a = false) :
    (a.data = 0 → b.data = 0) ∧
      (a.data ≠ 0 → a.is_const = true → b.data = 0 ∨ b.is_const = true) ∧
      (a.data ≠ 0 → a.is_const = false → b.data ≠ 0 → b.is_const = false →
        a.data < b.data ∨ (a.data = b.data ∧ b.len ≤ a.len)) := by
  unfold data_ptr_less at h
  refine ⟨?_, ?_, ?_⟩
  · intro ha
    by_contra hb
    rw [if_neg hb, if_pos ha] at h
    cases h
  · intro ha hc
    by_cases hb : b.data = 0
    · exact Or.inl hb
    · right
      rw [if_neg hb, if_neg ha] at h
      cases hbc : b.is_const
      · rw [hbc, hc] at h
        simp at h
      · rfl
  · intro ha hac hb hbc
    rw [if_neg hb, if_neg ha, hbc, hac] at h
    simp only [Bool.false_eq_true, if_false] at h
    split_ifs at h with h1 h2
    · omega
    · simp at h
      omega

/-! ## Validation errors leave the state as it was -/

theorem not_validation_success : ¬ validation_error MB25_SUCCESS := by
  intro h
  rcases h with h | h | h <;> cases h

theorem not_validation_oom : ¬ validation_error MB25_ERR_OUT_OF_MEMORY := by
  intro h
  rcases h with h | h | h <;> cases h

theorem alloc_atomic (st : State) (id size : Nat)
    (h : validation_error (mb25_string_alloc st id size).1) :
    (mb25_string_alloc st id size).2 = st := by
  unfold mb25_string_alloc at h ⊢
  by_cases hv : ¬ MB25_VALID_ID st id = true
  · rw [if_pos hv]
  · rw [if_neg hv] at h ⊢
    by_cases hl : size > MB25_MAX_STRING_LEN
    · rw [if_pos hl]
    · rw [if_neg hl] at h ⊢
      exfalso
      dsimp only at h
      split_ifs at h
      · exact not_validation_oom h
      · exact not_validation_success h
      · exact not_validation_success h

/-- The pattern `if (result != MB25_SUCCESS) return result;` after an allocation. -/
theorem atomic_pass_on (r : mb25_error_t × State) (x st : State)
    (hr : validation_error r.1 → r.2 = st)
    (h : validation_error (if r.1 ≠ MB25_SUCCESS then r else (MB25_SUCCESS, x)).1) :
    (if r.1 ≠ MB25_SUCCESS then r else (MB25_SUCCESS, x)).2 = st := by
  by_cases hc : r.1 ≠ MB25_SUCCESS
  · rw [if_pos hc] at h ⊢
    exact hr h
  · rw [if_neg hc] at h
    exact absurd h not_validation_success

theorem alloc_const_atomic (st : State) (id p : Nat)
    (h : validation_error (mb25_string_alloc_const st id p).1) :
    (mb25_string_alloc_const st id p).2 = st := by
  unfold mb25_string_alloc_const at h ⊢
  by_cases hv : ¬ MB25_VALID_ID st id = true
  · rw [if_pos hv]
  · rw [if_neg hv] at h ⊢
    by_cases hp : p = 0
    · rw [if_pos hp]
    · rw [if_neg hp] at h ⊢
      dsimp only at h ⊢
      by_cases hl : strlen st.mem p > MB25_MAX_STRING_LEN
      · rw [if_pos hl]
      · rw [if_neg hl] at h
        exact absurd h not_validation_success

theorem alloc_init_atomic (st : State) (id p : Nat)
    (h : validation_error (mb25_string_alloc_init st id p).1) :
    (mb25_string_alloc_init st id p).2 = st := by
  unfold mb25_string_alloc_init at h ⊢
  by_cases hp : p = 0
  · rw [if_pos hp]
  · rw [if_neg hp] at h ⊢
    dsimp only at h ⊢
    by_cases hl : strlen st.mem p > MB25_MAX_STRING_LEN
    · rw [if_pos hl]
    · rw [if_neg hl] at h ⊢
      exact atomic_pass_on _ _ st (alloc_atomic st id _) h

theorem copy_atomic (st : State) (d s : Nat)
    (h : validation_error (mb25_string_copy st d s).1) :
    (mb25_string_copy st d s).2 = st := by
  unfold mb25_string_copy at h ⊢
  by_cases hv : ¬ MB25_VALID_ID st d = true ∨ ¬ MB25_VALID_ID st s = true
  · rw [if_pos hv]
  · rw [if_neg hv] at h
    exfalso
    dsimp only at h
    split_ifs at h <;> exact not_validation_success h

theorem assign_atomic (st : State) (d p n : Nat)
    (h : validation_error (mb25_string_assign st d p n).1) :
    (mb25_string_assign st d p n).2 = st := by
  unfold mb25_string_assign at h ⊢
  by_cases hv : ¬ MB25_VALID_ID st d = true
  · rw [if_pos hv]
  · rw [if_neg hv] at h ⊢
    by_cases hp : p = 0 ∧ n > 0
    · rw [if_pos hp]
    · rw [if_neg hp] at h ⊢
      dsimp only at h ⊢
      by_cases hw : (str_at st d).writeable = true ∧ (str_at st d).data ≠ 0
      · rw [if_pos hw] at h
        exact absurd h not_validation_success
      · rw [if_neg hw] at h ⊢
        exact atomic_pass_on _ _ st (alloc_atomic st d _) h

theorem set_from_buf_atomic (st : State) (d p w : Nat)
    (h : validation_error (mb25_string_set_from_buf st d p w).1) :
    (mb25_string_set_from_buf st d p w).2 = st := by
  unfold mb25_string_set_from_buf at h ⊢
  by_cases hv : ¬ MB25_VALID_ID st d = true
  · rw [if_pos hv]
  · rw [if_neg hv] at h ⊢
    by_cases hp : p = 0 ∧ w > 0
    · rw [if_pos hp]
    · rw [if_neg hp] at h ⊢
      exact assign_atomic st d p _ h

theorem concat_atomic (st : State) (d a b : Nat)
    (h : validation_error (mb25_string_concat st d a b).1) :
    (mb25_string_concat st d a b).2 = st := by
  unfold mb25_string_concat at h ⊢
  by_cases hv : ¬ MB25_VALID_ID st d = true ∨ ¬ MB25_VALID_ID st a = true ∨
      ¬ MB25_VALID_ID st b = true
  · rw [if_pos hv]
  · rw [if_neg hv] at h ⊢
    dsimp only at h ⊢
    by_cases hl : ((str_at st a).len + (str_at st b).len) % 65536 > MB25_MAX_STRING_LEN
    · rw [if_pos hl]
    · rw [if_neg hl] at h ⊢
      exact atomic_pass_on _ _ st (alloc_atomic st d _) h

theorem dup_atomic (st : State) (d s : Nat)
    (h : validation_error (mb25_string_dup st d s).1) :
    (mb25_string_dup st d s).2 = st := by
  unfold mb25_string_dup at h ⊢
  by_cases hv : ¬ MB25_VALID_ID st d = true ∨ ¬ MB25_VALID_ID st s = true
  · rw [if_pos hv]
  · rw [if_neg hv] at h ⊢
    dsimp only at h ⊢
    exact atomic_pass_on _ _ st (alloc_atomic st d _) h

theorem left_atomic (st : State) (d s n : Nat)
    (h : validation_error (mb25_string_left st d s n).1) :
    (mb25_string_left st d s n).2 = st := by
  unfold mb25_string_left at h ⊢
  by_cases hv : ¬ MB25_VALID_ID st d = true ∨ ¬ MB25_VALID_ID st s = true
  · rw [if_pos hv]
  · rw [if_neg hv] at h
    exfalso
    dsimp only at h
    split_ifs at h <;> exact not_validation_success h

theorem right_atomic (st : State) (d s n : Nat)
    (h : validation_error (mb25_string_right st d s n).1) :
    (mb25_string_right st d s n).2 = st := by
  unfold mb25_string_right at h ⊢
  by_cases hv : ¬ MB25_VALID_ID st d = true ∨ ¬ MB25_VALID_ID st s = true
  · rw [if_pos hv]
  · rw [if_neg hv] at h
    exfalso
    dsimp only at h
    split_ifs at h <;> exact not_validation_success h

theorem mid_atomic (st : State) (d s a n : Nat)
    (h : validation_error (mb25_string_mid st d s a n).1) :
    (mb25_string_mid st d s a n).2 = st := by
  unfold mb25_string_mid at h ⊢
  by_cases hv : ¬ MB25_VALID_ID st d = true ∨ ¬ MB25_VALID_ID st s = true
  · rw [if_pos hv]
  · rw [if_neg hv] at h
    exfalso
    dsimp only at h
    split_ifs at h <;> exact not_validation_success h

theorem mid_assign_atomic (st : State) (d a p n : Nat)
    (h : validation_error (mb25_string_mid_assign st d a p n).1) :
    (mb25_string_mid_assign st d a p n).2 = st := by
  unfold mb25_string_mid_assign at h ⊢
  by_cases hv : ¬ MB25_VALID_ID st d = true
  · rw [if_pos hv]
  · rw [if_neg hv] at h ⊢
    by_cases hp : p = 0 ∧ n > 0
    · rw [if_pos hp]
    · rw [if_neg hp] at h ⊢
      dsimp only at h ⊢
      by_cases hs : (if a > 0 then a - 1 else a) ≥ (str_at st d).len
      · rw [if_pos hs]
      · rw [if_neg hs] at h ⊢
        by_cases hw : ¬ (str_at st d).writeable = true
        · rw [if_pos hw] at h ⊢
          exact atomic_pass_on _ _ st (alloc_atomic st d _) h
        · rw [if_neg hw] at h
          exact absurd h not_validation_success

/-! ## `left` as a case of `mid` -/

theorem left_as_mid (st : State) (d s n start : Nat) (hs : start ≤ 1) :
    mb25_string_left st d s n = mb25_string_mid st d s start n := by
  have e : (if start > 0 then start - 1 else start) = 0 := by
    split_ifs <;> omega
  unfold mb25_string_left mb25_string_mid
  by_cases hv : ¬ MB25_VALID_ID st d = true ∨ ¬ MB25_VALID_ID st s = true
  · rw [if_pos hv, if_pos hv]
  · rw [if_neg hv, if_neg hv]
    dsimp only
    rw [e]
    by_cases hc : (str_at st s).data = 0 ∨ (str_at st s).len = 0 ∨ n = 0
    · have hc2 : (str_at st s).data = 0 ∨ (str_at st s).len = 0 ∨ n = 0 ∨
          0 ≥ (str_at st s).len := by
        rcases hc with h | h | h
        · exact Or.inl h
        · exact Or.inr (Or.inl h)
        · exact Or.inr (Or.inr (Or.inl h))
      rw [if_pos hc, if_pos hc2]
    · have hc2 : ¬ ((str_at st s).data = 0 ∨ (str_at st s).len = 0 ∨ n = 0 ∨
          0 ≥ (str_at st s).len) := by
        intro h
        apply hc
        rcases h with h | h | h | h
        · exact Or.inl h
        · exact Or.inr (Or.inl h)
        · exact Or.inr (Or.inr h)
        · exact Or.inr (Or.inl (Nat.le_zero.mp h))
      rw [if_neg hc, if_neg hc2]
      simp only [Nat.zero_add, Nat.sub_zero, Nat.add_zero]

/-! ## Collection does not raise the cursor -/

theorem gc_cursor_le (st : State) (h : supported st) :
    (mb25_garbage_collect st).mb25_global.allocator ≤ st.mb25_global.allocator := by
  rw [gc_allocator st h]
  have hle := live_below_le st.mb25_global.pool st.mb25_global.pool_size st.mb25_strings
    (st.mb25_global.pool + st.mb25_global.allocator)
  have hmax : max (st.mb25_global.pool + st.mb25_global.allocator) st.mb25_global.pool =
      st.mb25_global.pool + st.mb25_global.allocator := by
    apply Nat.max_eq_left
    omega
  rw [hmax] at hle
  omega

/-! ## Null descriptors are empty -/

theorem null_set (W : List mb25_string_t) (i : Nat) (y : mb25_string_t) (h : null_ok W)
    (hy : y.data = 0 → y.len = 0 ∧ y.is_const = false ∧ y.writeable = false) :
    null_ok (W.set i y) := by
  intro d hd
  rcases List.mem_or_eq_of_mem_set hd with hm | rfl
  · exact h d hm
  · exact hy

theorem null_str_at (st : State) (i : Nat) (h : null_ok st.mb25_strings) :
    (str_at st i).data = 0 →
      (str_at st i).len = 0 ∧ (str_at st i).is_const = false ∧
        (str_at st i).writeable = false := by
  by_cases hi : i < st.mb25_strings.length
  · exact h _ (str_at_mem st i hi)
  · rw [str_at_default st i hi]
    intro _
    exact ⟨rfl, rfl, rfl⟩

/-- Storing a descriptor that is non-null, or empty with both flags clear, keeps null
descriptors empty. -/
theorem null_set_str (st : State) (i : Nat) (y : mb25_string_t) (h : null_ok st.mb25_strings)
    (hy : y.data ≠ 0 ∨ (y.len = 0 ∧ y.is_const = false ∧ y.writeable = false)) :
    null_ok (set_str st i y).mb25_strings := by
  apply null_set _ _ _ h
  intro e
  rcases hy with x | x
  · exact absurd e x
  · exact x

theorem null_set_len (st : State) (m : Nat → Nat) (i n : Nat) (h : null_ok st.mb25_strings)
    (hd : (str_at st i).data ≠ 0) :
    null_ok (set_str { st with mem := m } i
      { str_at { st with mem := m } i with len := n }).mb25_strings :=
  null_set_str { st with mem := m } i _ h (Or.inl hd)

theorem null_clear (st : State) (id : Nat) (h : null_ok st.mb25_strings) :
    null_ok (mb25_string_clear st id).mb25_strings := by
  unfold mb25_string_clear
  split_ifs
  · exact null_set_str st id _ h (Or.inr ⟨rfl, rfl, rfl⟩)
  · exact h

theorem null_free (st : State) (id : Nat) (h : null_ok st.mb25_strings) :
    null_ok (mb25_string_free st id).mb25_strings := by
  unfold mb25_string_free
  split_ifs
  · exact null_set_str st id _ h (Or.inr ⟨rfl, rfl, rfl⟩)
  · exact h

theorem null_mark_immutable (st : State) (id : Nat) (h : null_ok st.mb25_strings) :
    null_ok (mark_immutable st id).mb25_strings := by
  unfold mark_immutable
  split_ifs
  · apply null_set _ _ _ h
    intro e
    obtain ⟨a, b, _⟩ := null_str_at st id h e
    exact ⟨a, b, rfl⟩
  · exact h

/-- With a non-null pool pointer `compact_strings` gives a non-null descriptor a non-null
pointer. -/
theorem compact_step_nonnull (pool pool_size : Nat) (acc : compact_acc) (d : mb25_string_t)
    (hp : pool ≠ 0) (hacc : acc.last_old_start ≠ 0 → acc.last_new_start ≠ 0) :
    (d.data ≠ 0 → (compact_step pool pool_size acc d).2.data ≠ 0) ∧
      ((compact_step pool pool_size acc d).1.last_old_start ≠ 0 →
        (compact_step pool pool_size acc d).1.last_new_start ≠ 0) := by
  cases hin : in_pool pool pool_size d
  · rw [compact_step_skip pool pool_size acc d hin]
    exact ⟨fun h => h, hacc⟩
  · by_cases hc : acc.last_old_start ≠ 0 ∧ acc.last_old_end ≠ 0 ∧
        acc.last_old_start ≤ d.data ∧ d.data + d.len ≤ acc.last_old_end
    · rw [compact_step_child pool pool_size acc d hin hc]
      refine ⟨fun _ => ?_, hacc⟩
      have := hacc hc.1
      show acc.last_new_start + (d.data - acc.last_old_start) % 65536 ≠ 0
      omega
    · rw [compact_step_parent pool pool_size acc d hin hc]
      refine ⟨fun _ => ?_, fun _ => ?_⟩
      · show pool + acc.new_allocator ≠ 0
        omega
      · show pool + acc.new_allocator ≠ 0
        omega

theorem compact_loop_nonnull (pool pool_size : Nat) (hp : pool ≠ 0) (S : List mb25_string_t) :
    ∀ acc, (acc.last_old_start ≠ 0 → acc.last_new_start ≠ 0) →
      ∀ b ∈ (compact_loop pool pool_size acc S).2, ∃ a ∈ S,
        same_slot pool pool_size a b ∧ (a.data ≠ 0 → b.data ≠ 0) := by
  induction S with
  | nil => intro acc _ b hb; simp [compact_loop] at hb
  | cons d R ih =>
    intro acc hacc b hb
    simp only [compact_loop, List.mem_cons] at hb
    obtain ⟨n1, n2⟩ := compact_step_nonnull pool pool_size acc d hp hacc
    rcases hb with rfl | hb
    · exact ⟨d, List.mem_cons_self _ _, compact_step_same pool pool_size acc d, n1⟩
    · obtain ⟨a, ha, hs⟩ := ih _ n2 b hb
      exact ⟨a, List.mem_cons_of_mem _ ha, hs⟩

theorem null_gc (st : State) (hp : st.mb25_global.pool ≠ 0) (h : null_ok st.mb25_strings) :
    null_ok (mb25_garbage_collect st).mb25_strings := by
  intro b hb e
  rw [gc_strings_eq] at hb
  have hb' := (shell_sort_perm str_id_less _).mem_iff.mp hb
  obtain ⟨a, ha, ⟨_, k2, k3, k4, _⟩, hn⟩ :=
    compact_loop_nonnull _ _ hp _ (compact_start st.mem) (fun x => absurd rfl x) b hb'
  have ha' := (shell_sort_perm data_ptr_less st.mb25_strings).mem_iff.mp ha
  have ha0 : a.data = 0 := by
    by_contra hne
    exact hn hne e
  obtain ⟨x1, x2, x3⟩ := h a ha' ha0
  exact ⟨k2.trans x1, k3.trans x2, k4.trans x3⟩

theorem gc_length (st : State) :
    (mb25_garbage_collect st).mb25_strings.length = st.mb25_strings.length := by
  have h := congrArg List.length (compact_loop_ids st.mb25_global.pool st.mb25_global.pool_size
    (sort_by_data_ptr st.mb25_strings) (compact_start st.mem))
  simp only [List.length_map] at h
  have h1 := (shell_sort_perm str_id_less (compact_loop st.mb25_global.pool
    st.mb25_global.pool_size (compact_start st.mem) (sort_by_data_ptr st.mb25_strings)).2).length_eq
  have h2 := (shell_sort_perm data_ptr_less st.mb25_strings).length_eq
  rw [gc_strings_eq]
  exact (h1.trans h).trans h2

/-- What `mb25_string_alloc` keeps and gives: the pool pointer, null descriptors empty, and on
success a non-null data pointer in its slot. -/
theorem null_alloc (st : State) (id size : Nat) (hp : st.mb25_global.pool ≠ 0)
    (h : null_ok st.mb25_strings) :
    (mb25_string_alloc st id size).2.mb25_global.pool = st.mb25_global.pool ∧
      null_ok (mb25_string_alloc st id size).2.mb25_strings ∧
      ((mb25_string_alloc st id size).1 = MB25_SUCCESS →
        (str_at (mb25_string_alloc st id size).2 id).data ≠ 0) := by
  unfold mb25_string_alloc
  by_cases hv : MB25_VALID_ID st id = true
  · have hi := (valid_iff st id).mp hv
    rw [if_neg (by simp [hv])]
    by_cases hl : size > MB25_MAX_STRING_LEN
    · rw [if_pos hl]
      exact ⟨rfl, h, fun e => by cases e⟩
    · rw [if_neg hl]
      dsimp only
      by_cases hfit : (st.mb25_global.pool_size + 65536 - st.mb25_global.allocator) % 65536
          ≥ size
      · obtain ⟨hok, e1, _, _, _, e5⟩ := allocate_fits st id size hfit
        rw [if_neg (by rw [hok]; simp)]
        have hy : (fresh_string (str_at st id)
            (st.mb25_global.pool + st.mb25_global.allocator)).data ≠ 0 := by
          show st.mb25_global.pool + st.mb25_global.allocator ≠ 0
          omega
        refine ⟨e1, ?_, fun _ => ?_⟩
        · show null_ok (alloc_setup (allocate_from_pool st id size).2 id).mb25_strings
          rw [e5 hi]
          exact null_set _ _ _ h (fun e => absurd e hy)
        · show (str_at (alloc_setup (allocate_from_pool st id size).2 id) id).data ≠ 0
          unfold str_at
          rw [e5 hi, getD_set_self _ _ _ _ hi]
          exact hy
      · have hfail := allocate_fail st id size hfit
        rw [if_pos (by rw [hfail]; simp)]
        have hg := null_gc st hp h
        have hlen : id < (mb25_garbage_collect st).mb25_strings.length := by
          rw [gc_length]; exact hi
        by_cases hfit2 : ((mb25_garbage_collect st).mb25_global.pool_size + 65536 -
            (mb25_garbage_collect st).mb25_global.allocator) % 65536 ≥ size
        · obtain ⟨hok, e1, _, _, _, e5⟩ :=
            allocate_fits (mb25_garbage_collect st) id size hfit2
          rw [if_neg (by rw [hok]; simp)]
          have hy : (fresh_string (str_at (mb25_garbage_collect st) id)
              ((mb25_garbage_collect st).mb25_global.pool +
                (mb25_garbage_collect st).mb25_global.allocator)).data ≠ 0 := by
            show (mb25_garbage_collect st).mb25_global.pool +
              (mb25_garbage_collect st).mb25_global.allocator ≠ 0
            rw [gc_pool]
            omega
          refine ⟨e1.trans (gc_pool st), ?_, fun _ => ?_⟩
          · show null_ok (alloc_setup (allocate_from_pool (mb25_garbage_collect st) id
              size).2 id).mb25_strings
            rw [e5 hlen]
            exact null_set _ _ _ hg (fun e => absurd e hy)
          · show (str_at (alloc_setup (allocate_from_pool (mb25_garbage_collect st) id
              size).2 id) id).data ≠ 0
            unfold str_at
            rw [e5 hlen, getD_set_self _ _ _ _ hlen]
            exact hy
        · have hfail2 := allocate_fail (mb25_garbage_collect st) id size hfit2
          rw [if_pos (by rw [hfail2]; simp)]
          rw [hfail2]
          exact ⟨gc_pool st, hg, fun e => by cases e⟩
  · rw [if_pos (by simp [hv])]
    exact ⟨rfl, h, fun e => by cases e⟩


theorem null_alloc_const (st : State) (id p : Nat) (h : null_ok st.mb25_strings) :
    (mb25_string_alloc_const st id p).2.mb25_global.pool = st.mb25_global.pool ∧
      null_ok (mb25_string_alloc_const st id p).2.mb25_strings := by
  unfold mb25_string_alloc_const
  dsimp only
  split_ifs with h1 h2 h3 <;> try exact ⟨rfl, h⟩
  exact ⟨rfl, null_set_str st id _ h (Or.inl h2)⟩

theorem null_alloc_init (st : State) (id p : Nat) (hp : st.mb25_global.pool ≠ 0)
    (h : null_ok st.mb25_strings) :
    (mb25_string_alloc_init st id p).2.mb25_global.pool = st.mb25_global.pool ∧
      null_ok (mb25_string_alloc_init st id p).2.mb25_strings := by
  unfold mb25_string_alloc_init
  dsimp only
  obtain ⟨a1, a2, a3⟩ := null_alloc st id (strlen st.mem p) hp h
  split_ifs with h1 h2 h3 <;> try exact ⟨rfl, h⟩
  · exact ⟨a1, a2⟩
  · exact ⟨a1, null_set_len _ _ id _ a2 (a3 (not_not.mp h3))⟩

theorem null_from_c_string (st : State) (id p : Nat) (hp : st.mb25_global.pool ≠ 0)
    (h : null_ok st.mb25_strings) :
    (mb25_from_c_string st id p).2.mb25_global.pool = st.mb25_global.pool ∧
      null_ok (mb25_from_c_string st id p).2.mb25_strings := by
  unfold mb25_from_c_string
  split_ifs
  · exact ⟨congrArg mb25_globals_t.pool (global_clear st id), null_clear st id h⟩
  · exact null_alloc_init st id p hp h

theorem null_copy (st : State) (d s : Nat) (h : null_ok st.mb25_strings) :
    (mb25_string_copy st d s).2.mb25_global.pool = st.mb25_global.pool ∧
      null_ok (mb25_string_copy st d s).2.mb25_strings := by
  unfold mb25_string_copy
  dsimp only
  split_ifs with h1 h2 h3 h4 <;> try exact ⟨rfl, h⟩
  · exact ⟨congrArg mb25_globals_t.pool (global_clear st d), null_clear st d h⟩
  all_goals
    have hv : MB25_VALID_ID st d = true ∧ MB25_VALID_ID st s = true := by
      simpa [not_or] using h1
    have hs := (valid_iff st s).mp hv.2
    have hnz : (str_at st s).data ≠ 0 := fun e => h2 (Or.inl e)
  · exact ⟨rfl, null_set_str st d _ h (Or.inl hnz)⟩
  · exact ⟨rfl, null_set_len st _ d _ h h4.2⟩
  · refine ⟨congrArg mb25_globals_t.pool (global_mark_immutable st s), ?_⟩
    apply null_set_str _ d _ (null_mark_immutable st s h)
    left
    show (str_at (mark_immutable st s) s).data ≠ 0
    rw [(src_after_mark st s hs).2.2.1]
    exact hnz

theorem null_assign (st : State) (d p n : Nat) (hp : st.mb25_global.pool ≠ 0)
    (h : null_ok st.mb25_strings) :
    (mb25_string_assign st d p n).2.mb25_global.pool = st.mb25_global.pool ∧
      null_ok (mb25_string_assign st d p n).2.mb25_strings := by
  unfold mb25_string_assign
  dsimp only
  obtain ⟨a1, a2, a3⟩ := null_alloc st d n hp h
  split_ifs with h1 h2 h3 h4 <;> try exact ⟨rfl, h⟩
  · exact ⟨rfl, null_set_len st _ d _ h h3.2⟩
  · exact ⟨a1, a2⟩
  · exact ⟨a1, null_set_len _ _ d _ a2 (a3 (not_not.mp h4))⟩

theorem null_set_from_buf (st : State) (d p w : Nat) (hp : st.mb25_global.pool ≠ 0)
    (h : null_ok st.mb25_strings) :
    (mb25_string_set_from_buf st d p w).2.mb25_global.pool = st.mb25_global.pool ∧
      null_ok (mb25_string_set_from_buf st d p w).2.mb25_strings := by
  unfold mb25_string_set_from_buf
  split_ifs <;> try exact ⟨rfl, h⟩
  exact null_assign st d p _ hp h

theorem null_concat (st : State) (d a b : Nat) (hp : st.mb25_global.pool ≠ 0)
    (h : null_ok st.mb25_strings) :
    (mb25_string_concat st d a b).2.mb25_global.pool = st.mb25_global.pool ∧
      null_ok (mb25_string_concat st d a b).2.mb25_strings := by
  unfold mb25_string_concat
  dsimp only
  obtain ⟨a1, a2, a3⟩ :=
    null_alloc st d (((str_at st a).len + (str_at st b).len) % 65536) hp h
  split_ifs with h1 h2 h3 <;> try exact ⟨rfl, h⟩
  · exact ⟨a1, a2⟩
  · refine ⟨?_, ?_⟩
    · show (guarded_memcpy (guarded_memcpy _ _ _ _) _ _ _).mb25_global.pool = _
      rw [guarded_memcpy_global, guarded_memcpy_global]
      exact a1
    · apply null_set_str
      · rw [guarded_memcpy_strings, guarded_memcpy_strings]
        exact a2
      · left
        show (str_at (guarded_memcpy (guarded_memcpy _ _ _ _) _ _ _) d).data ≠ 0
        rw [str_at_guarded_memcpy, str_at_guarded_memcpy]
        exact a3 (not_not.mp h3)

theorem null_dup (st : State) (d s : Nat) (hp : st.mb25_global.pool ≠ 0)
    (h : null_ok st.mb25_strings) :
    (mb25_string_dup st d s).2.mb25_global.pool = st.mb25_global.pool ∧
      null_ok (mb25_string_dup st d s).2.mb25_strings := by
  unfold mb25_string_dup
  dsimp only
  obtain ⟨a1, a2, a3⟩ := null_alloc st d (str_at st s).len hp h
  split_ifs with h1 h2 <;> try exact ⟨rfl, h⟩
  · exact ⟨a1, a2⟩
  · refine ⟨?_, ?_⟩
    · show (guarded_memcpy _ _ _ _).mb25_global.pool = _
      rw [guarded_memcpy_global]
      exact a1
    · apply null_set_str
      · rw [guarded_memcpy_strings]
        exact a2
      · left
        show (str_at (guarded_memcpy _ _ _ _) d).data ≠ 0
        rw [str_at_guarded_memcpy]
        exact a3 (not_not.mp h2)

/-- The descriptor a view operation stores: a non-null pointer at or after the source's. -/
theorem null_view (st : State) (d s : Nat) (y : mb25_string_t) (h : null_ok st.mb25_strings)
    (hy : y.data ≠ 0) :
    (set_str (mark_immutable st s) d y).mb25_global.pool = st.mb25_global.pool ∧
      null_ok (set_str (mark_immutable st s) d y).mb25_strings :=
  ⟨congrArg mb25_globals_t.pool (global_mark_immutable st s),
    null_set_str _ d _ (null_mark_immutable st s h) (Or.inl hy)⟩

theorem null_left (st : State) (d s n : Nat) (h : null_ok st.mb25_strings) :
    (mb25_string_left st d s n).2.mb25_global.pool = st.mb25_global.pool ∧
      null_ok (mb25_string_left st d s n).2.mb25_strings := by
  unfold mb25_string_left
  dsimp only
  split_ifs with h1 h2 h3 <;> try exact ⟨rfl, h⟩
  · exact ⟨congrArg mb25_globals_t.pool (global_clear st d), null_clear st d h⟩
  all_goals
    have hv : MB25_VALID_ID st d = true ∧ MB25_VALID_ID st s = true := by
      simpa [not_or] using h1
    have hs := (valid_iff st s).mp hv.2
    have hnz : (str_at st s).data ≠ 0 := fun e => h2 (Or.inl e)
    apply null_view st d s _ h
    show (str_at (mark_immutable st s) s).data ≠ 0
    rw [(src_after_mark st s hs).2.2.1]
    exact hnz

theorem null_mid (st : State) (d s a n : Nat) (h : null_ok st.mb25_strings) :
    (mb25_string_mid st d s a n).2.mb25_global.pool = st.mb25_global.pool ∧
      null_ok (mb25_string_mid st d s a n).2.mb25_strings := by
  unfold mb25_string_mid
  dsimp only
  split_ifs with h1 h2 h3 h4 h5 <;> try exact ⟨rfl, h⟩
  all_goals first
    | exact ⟨congrArg mb25_globals_t.pool (global_clear st d), null_clear st d h⟩
    | (have hv : MB25_VALID_ID st d = true ∧ MB25_VALID_ID st s = true := by
        simpa [not_or] using h1
       have hs := (valid_iff st s).mp hv.2
       apply null_view st d s _ h
       have e := (src_after_mark st s hs).2.2.1
       have hnz : (str_at st s).data ≠ 0 := by
         intro e0
         first
           | exact h2 (Or.inl e0)
           | exact h3 (Or.inl e0)
           | exact h4 (Or.inl e0)
           | exact h5 (Or.inl e0)
       show (str_at (mark_immutable st s) s).data + _ ≠ 0
       rw [e]
       omega)

theorem null_right (st : State) (d s n : Nat) (h : null_ok st.mb25_strings) :
    (mb25_string_right st d s n).2.mb25_global.pool = st.mb25_global.pool ∧
      null_ok (mb25_string_right st d s n).2.mb25_strings := by
  unfold mb25_string_right
  dsimp only
  split_ifs with h1 h2 h3 <;> try exact ⟨rfl, h⟩
  · exact ⟨congrArg mb25_globals_t.pool (global_clear st d), null_clear st d h⟩
  all_goals
    have hv : MB25_VALID_ID st d = true ∧ MB25_VALID_ID st s = true := by
      simpa [not_or] using h1
    have hd := (valid_iff st d).mp hv.1
    have hs := (valid_iff st s).mp hv.2
    have hd1 : d < (mark_immutable st s).mb25_strings.length := by
      rw [length_mark_immutable]; exact hd
    have hnz : (str_at st s).data ≠ 0 := fun e => h2 (Or.inl e)
    have e := (src_after_mark st s hs).2.2.1
    rw [set_str_twice, str_at_set_str _ _ _ hd1]
    apply null_view st d s _ h
    dsimp only
    by_cases hds : d = s
    · subst hds
      rw [str_at_set_str _ _ _ hd1]
      dsimp only
      rw [e]
      omega
    · rw [str_at_set_str_ne _ _ _ _ hds, e]
      omega

theorem null_mid_assign (st : State) (d a p n : Nat) (hp : st.mb25_global.pool ≠ 0)
    (h : null_ok st.mb25_strings) :
    (mb25_string_mid_assign st d a p n).2.mb25_global.pool = st.mb25_global.pool ∧
      null_ok (mb25_string_mid_assign st d a p n).2.mb25_strings := by
  unfold mb25_string_mid_assign
  obtain ⟨a1, a2, a3⟩ := null_alloc st d (str_at st d).len hp h
  by_cases hv : ¬ MB25_VALID_ID st d = true
  · rw [if_pos hv]; exact ⟨rfl, h⟩
  · rw [if_neg hv]
    by_cases hp0 : p = 0 ∧ n > 0
    · rw [if_pos hp0]; exact ⟨rfl, h⟩
    · rw [if_neg hp0]
      dsimp only
      by_cases hs : (if a > 0 then a - 1 else a) ≥ (str_at st d).len
      · rw [if_pos hs]; exact ⟨rfl, h⟩
      · rw [if_neg hs]
        by_cases hw : ¬ (str_at st d).writeable = true
        · rw [if_pos hw]
          by_cases hc : (mb25_string_alloc st d (str_at st d).len).1 ≠ MB25_SUCCESS
          · rw [if_pos hc]; exact ⟨a1, a2⟩
          · rw [if_neg hc]
            exact ⟨a1, null_set_len _ _ d _ a2 (a3 (not_not.mp hc))⟩
        · rw [if_neg hw]; exact ⟨rfl, h⟩

theorem null_get_c_string_temp (st : State) (s t : Nat) (hp : st.mb25_global.pool ≠ 0)
    (h : null_ok st.mb25_strings) :
    (mb25_get_c_string_temp st s t).2.mb25_global.pool = st.mb25_global.pool ∧
      null_ok (mb25_get_c_string_temp st s t).2.mb25_strings := by
  unfold mb25_get_c_string_temp
  dsimp only
  obtain ⟨a1, a2, _⟩ := null_alloc st t 1 hp h
  obtain ⟨b1, b2, _⟩ := null_alloc st t (((str_at st s).len + 1) % 65536) hp h
  split_ifs <;> first
    | exact ⟨rfl, h⟩
    | exact ⟨a1, a2⟩
    | exact ⟨b1, b2⟩

theorem init_strings_null (k i : Nat) : null_ok (init_strings k i) := by
  induction k generalizing i with
  | zero => intro d hd; simp [init_strings] at hd
  | succ n ih =>
    intro d hd
    simp only [init_strings, List.mem_cons] at hd
    rcases hd with rfl | hd
    · intro _; exact ⟨rfl, rfl, rfl⟩
    · exact ih (i + 1) d hd

theorem null_init (st : State) (pool pool_size : Nat) (hp : st.mb25_global.pool ≠ 0)
    (h : null_ok st.mb25_strings) :
    (mb25_init st pool pool_size).2.mb25_global.pool ≠ 0 ∧
      null_ok (mb25_init st pool pool_size).2.mb25_strings := by
  unfold mb25_init
  by_cases hc : pool = 0 ∨ pool_size < 256
  · rw [if_pos hc]; exact ⟨hp, h⟩
  · rw [if_neg hc]
    exact ⟨fun e => hc (Or.inl e), init_strings_null _ _⟩

theorem null_reset (st : State) : null_ok (mb25_reset st).mb25_strings := by
  intro d hd _
  unfold mb25_reset at hd
  simp only [List.mem_map] at hd
  obtain ⟨a, _, rfl⟩ := hd
  exact ⟨rfl, rfl, rfl⟩

theorem null_run_op (st : State) (o : op) (hp : st.mb25_global.pool ≠ 0)
    (h : null_ok st.mb25_strings) :
    (run_op st o).mb25_global.pool ≠ 0 ∧ null_ok (run_op st o).mb25_strings := by
  have key : ∀ s1 : State, s1.mb25_global.pool = st.mb25_global.pool ∧ null_ok s1.mb25_strings →
      s1.mb25_global.pool ≠ 0 ∧ null_ok s1.mb25_strings :=
    fun s1 hs => ⟨by rw [hs.1]; exact hp, hs.2⟩
  cases o with
  | init pool pool_size => exact null_init st pool pool_size hp h
  | reset => exact ⟨hp, null_reset st⟩
  | alloc_const i p => exact key _ (null_alloc_const st i p h)
  | alloc i n => exact key _ ⟨(null_alloc st i n hp h).1, (null_alloc st i n hp h).2.1⟩
  | alloc_init i p => exact key _ (null_alloc_init st i p hp h)
  | free i =>
    refine ⟨?_, null_free st i h⟩
    show (mb25_string_free st i).mb25_global.pool ≠ 0
    unfold mb25_string_free
    split_ifs <;> exact hp
  | clear i =>
    refine ⟨?_, null_clear st i h⟩
    show (mb25_string_clear st i).mb25_global.pool ≠ 0
    rw [global_clear]; exact hp
  | from_c_string i p => exact key _ (null_from_c_string st i p hp h)
  | copy d s => exact key _ (null_copy st d s h)
  | assign d p n => exact key _ (null_assign st d p n hp h)
  | set_from_buf d p w => exact key _ (null_set_from_buf st d p w hp h)
  | concat d a b => exact key _ (null_concat st d a b hp h)
  | dup d s => exact key _ (null_dup st d s hp h)
  | left d s n => exact key _ (null_left st d s n h)
  | right d s n => exact key _ (null_right st d s n h)
  | mid d s a n => exact key _ (null_mid st d s a n h)
  | mid_assign d a p n => exact key _ (null_mid_assign st d a p n hp h)
  | garbage_collect => exact ⟨hp, null_gc st hp h⟩
  | get_c_string_temp s t => exact key _ (null_get_c_string_temp st s t hp h)

/-- In every state reachable by public operations the pool pointer is not null and null
descriptors are empty with both flags clear. -/
theorem reachable_null (st : State) (h : reachable st) :
    st.mb25_global.pool ≠ 0 ∧ null_ok st.mb25_strings := by
  induction h with
  | start st0 pool pool_size hok =>
    unfold mb25_init at hok ⊢
    by_cases hc : pool = 0 ∨ pool_size < 256
    · rw [if_pos hc] at hok; cases hok
    · rw [if_neg hc]
      exact ⟨fun e => hc (Or.inl e), init_strings_null _ _⟩
  | step st o _ ih => exact null_run_op st o ih.1 ih.2

/-! ## The caller's bytes across a call -/

/-- `mb25_string_alloc` keeps the pool pointer and the pool size. -/
theorem alloc_pool_kept (st : State) (id size : Nat) :
    (mb25_string_alloc st id size).2.mb25_global.pool = st.mb25_global.pool ∧
      (mb25_string_alloc st id size).2.mb25_global.pool_size = st.mb25_global.pool_size := by
  unfold mb25_string_alloc
  by_cases hv : MB25_VALID_ID st id = true
  · rw [if_neg (by simp [hv])]
    by_cases hl : size > MB25_MAX_STRING_LEN
    · rw [if_pos hl]; exact ⟨rfl, rfl⟩
    · rw [if_neg hl]
      dsimp only
      by_cases hfit : (st.mb25_global.pool_size + 65536 - st.mb25_global.allocator) % 65536
          ≥ size
      · obtain ⟨hok, e1, e2, _⟩ := allocate_fits st id size hfit
        rw [if_neg (by rw [hok]; simp)]
        exact ⟨e1, e2⟩
      · have hfail := allocate_fail st id size hfit
        rw [if_pos (by rw [hfail]; simp)]
        by_cases hfit2 : ((mb25_garbage_collect st).mb25_global.pool_size + 65536 -
            (mb25_garbage_collect st).mb25_global.allocator) % 65536 ≥ size
        · obtain ⟨hok, e1, e2, _⟩ := allocate_fits (mb25_garbage_collect st) id size hfit2
          rw [if_neg (by rw [hok]; simp)]
          exact ⟨e1.trans (gc_pool st), e2.trans (gc_pool_size st)⟩
        · have hfail2 := allocate_fail (mb25_garbage_collect st) id size hfit2
          rw [if_pos (by rw [hfail2]; simp)]
          rw [hfail2]
          exact ⟨gc_pool st, gc_pool_size st⟩
  · rw [if_pos (by simp [hv])]; exact ⟨rfl, rfl⟩

/-- A successful `mb25_string_alloc` was asked for at most 255 bytes. -/
theorem alloc_ok_size (st : State) (id size : Nat)
    (hok : (mb25_string_alloc st id size).1 = MB25_SUCCESS) : size ≤ 255 := by
  unfold mb25_string_alloc at hok
  by_cases hv : MB25_VALID_ID st id = true
  · rw [if_neg (by simp [hv])] at hok
    by_cases hl : size > MB25_MAX_STRING_LEN
    · rw [if_pos hl] at hok; cases hok
    · unfold MB25_MAX_STRING_LEN at hl; omega
  · rw [if_pos (by simp [hv])] at hok; cases hok

/-- A copy into the region reserved by a successful `mb25_string_alloc` leaves the bytes of a
`stable_source` as they were before the allocation. -/
theorem alloc_copy_source (st : State) (h : wf st) (id size src : Nat)
    (hsrc : stable_source st src size)
    (hok : (mb25_string_alloc st id size).1 = MB25_SUCCESS) :
    read_bytes
        (memcpy (mb25_string_alloc st id size).2.mem
          (str_at (mb25_string_alloc st id size).2 id).data src size)
        src size =
      read_bytes st.mem src size := by
  obtain ⟨hw1, hf⟩ := wf_alloc_c st h id size (stable_topology st src size hsrc)
  obtain ⟨hi, _, _, _, f4, f5, _⟩ := hf hok
  have hl := alloc_ok_size st id size hok
  obtain ⟨p1, p2⟩ := alloc_pool_kept st id size
  have hcur1 := hw1.cursor
  have hcur := h.cursor
  have hsz := h.size
  rcases hsrc with ⟨hfit, hap⟩ | ⟨hs, hout⟩
  · have hi0 : id < st.mb25_strings.length := by
      by_contra hc
      have := alloc_invalid st id size hc
      rw [this] at hok
      cases hok
    unfold mb25_get_free_space at hfit
    obtain ⟨_, a2, _, a4, _⟩ := alloc_fits_state st id size hi0 hl hsz (by omega)
    rw [a2, a4]
    apply read_bytes_memcpy_apart
    unfold regions_apart at hap
    dsimp only
    omega
  · rw [read_bytes_memcpy_apart _ _ _ _ _ _ (by
      have f4' : (str_at (mb25_string_alloc st id size).2 id).data + size =
          st.mb25_global.pool + (mb25_string_alloc st id size).2.mb25_global.allocator := by
        rw [f4, p1]
      have f5' : st.mb25_global.pool ≤ (str_at (mb25_string_alloc st id size).2 id).data := by
        rw [← p1]; exact f5
      rw [p2] at hcur1
      omega)]
    apply read_bytes_congr
    intro i hi'
    apply alloc_mem_outside st h hs
    omega

/-- The input bytes of a successful `mb25_string_assign` that do not overlap the bytes
written in place, or are a `stable_source` when the call allocates, are left as they were. -/
theorem assign_source_intact (st : State) (h : wf st) (dst data len : Nat)
    (hap : in_place st dst → regions_apart data len (str_at st dst).data len)
    (hsrc : ¬ in_place st dst → stable_source st data len)
    (hok : (mb25_string_assign st dst data len).1 = MB25_SUCCESS) :
    read_bytes (mb25_string_assign st dst data len).2.mem data len =
      read_bytes st.mem data len := by
  unfold mb25_string_assign at hok ⊢
  by_cases hv : MB25_VALID_ID st dst = true
  swap
  · rw [if_pos (by simp [hv])] at hok; cases hok
  rw [if_neg (by simp [hv])] at hok ⊢
  by_cases hin : data = 0 ∧ len > 0
  · rw [if_pos hin] at hok; cases hok
  rw [if_neg hin] at hok ⊢
  dsimp only at hok ⊢
  by_cases hip : (str_at st dst).writeable = true ∧ (str_at st dst).data ≠ 0
  · rw [if_pos hip]
    have := hap hip
    unfold regions_apart at this
    exact read_bytes_memcpy_apart st.mem _ data len data len (by omega)
  · rw [if_neg hip] at hok ⊢
    by_cases h3 : (mb25_string_alloc st dst len).1 ≠ MB25_SUCCESS
    · rw [if_pos h3] at hok; exact absurd hok h3
    rw [if_neg h3]
    exact alloc_copy_source st h dst len data (hsrc hip) (not_not.mp h3)

/-- The memory after `mb25_string_mid_assign` on a writable descriptor, start inside the
string: every byte of the replaced positions holds the input byte, every other byte is kept. -/
theorem mid_assign_in_place_mem (st : State) (d start data len : Nat)
    (hd : d < st.mb25_strings.length) (hw : (str_at st d).writeable = true)
    (hin : ¬ (data = 0 ∧ len > 0)) (hs : start0 start < (str_at st d).len) :
    (∀ k, k < min len ((str_at st d).len - start0 start) →
        (mb25_string_mid_assign st d start data len).2.mem
          ((str_at st d).data + start0 start + k) = st.mem (data + k)) ∧
      (∀ a, (a < (str_at st d).data + start0 start ∨
          (str_at st d).data + start0 start + min len ((str_at st d).len - start0 start) ≤ a) →
        (mb25_string_mid_assign st d start data len).2.mem a = st.mem a) := by
  have hm : (mb25_string_mid_assign st d start data len).2.mem =
      memcpy st.mem ((str_at st d).data + start0 start) data
        (replace_len (str_at st d).len start len) := by
    unfold mb25_string_mid_assign
    dsimp only
    rw [if_neg (by rw [not_not]; exact (valid_iff st d).mpr hd), if_neg hin]
    rw [if_neg (by unfold start0 at hs; omega)]
    rw [if_neg (by rw [hw]; simp)]
    rfl
  have hr : replace_len (str_at st d).len start len =
      min len ((str_at st d).len - start0 start) := by
    unfold replace_len
    split_ifs <;> omega
  rw [hm, hr]
  unfold memcpy memmove
  refine ⟨fun k hk => ?_, fun a ha => ?_⟩
  · rw [if_pos (by omega)]
    congr 1
    omega
  · rw [if_neg (by omega)]

/-! ## Collection on nested and on disjoint windows -/

/-- Nested windows are a topology `compact_strings` supports; an empty pool string is apart
from a window or inside it. -/
theorem nested_gc_safe (pool pool_size : Nat) (W : List mb25_string_t)
    (h : nested_windows pool pool_size W) : gc_safe pool pool_size W := by
  intro d hd e he hdin hein
  by_cases hd0 : d.len = 0
  · by_cases hx : d.data ≤ e.data ∨ e.data + e.len ≤ d.data
    · left
      rcases hx with hx | hx
      · left; omega
      · right; exact hx
    · right
      exact ⟨e, he, hein, by omega, by omega, Nat.le_refl _, Nat.le_refl _⟩
  · by_cases he0 : e.len = 0
    · by_cases hx : e.data ≤ d.data ∨ d.data + d.len ≤ e.data
      · left
        rcases hx with hx | hx
        · right; omega
        · left; exact hx
      · right
        exact ⟨d, hd, hdin, Nat.le_refl _, Nat.le_refl _, by omega, by omega⟩
    · rcases h d hd e he hdin hein (by omega) (by omega) with hx | hx | hx
      · exact Or.inl hx
      · exact Or.inr ⟨e, he, hein, hx.1, hx.2, Nat.le_refl _, Nat.le_refl _⟩
      · exact Or.inr ⟨d, hd, hdin, Nat.le_refl _, Nat.le_refl _, hx.1, hx.2⟩

/-- Any two descriptors of an array without sharing are the same descriptor or apart. -/
theorem disjoint_pairs (W : List mb25_string_t) (h : disjoint_windows W) :
    ∀ d ∈ W, ∀ e ∈ W, d = e ∨ (d.data ≠ 0 → d.is_const = false → 0 < d.len →
      e.data ≠ 0 → e.is_const = false → 0 < e.len → windows_apart d e) := by
  have hp : W.Pairwise (fun d e => d = e ∨ (d.data ≠ 0 → d.is_const = false → 0 < d.len →
      e.data ≠ 0 → e.is_const = false → 0 < e.len → windows_apart d e)) :=
    h.imp (fun hr => Or.inr hr)
  have hsymm : ∀ x y : mb25_string_t,
      (x = y ∨ (x.data ≠ 0 → x.is_const = false → 0 < x.len →
        y.data ≠ 0 → y.is_const = false → 0 < y.len → windows_apart x y)) →
      (y = x ∨ (y.data ≠ 0 → y.is_const = false → 0 < y.len →
        x.data ≠ 0 → x.is_const = false → 0 < x.len → windows_apart y x)) := by
    intro x y hxy
    rcases hxy with rfl | hxy
    · exact Or.inl rfl
    · right
      intro a1 a2 a3 a4 a5 a6
      rcases hxy a4 a5 a6 a1 a2 a3 with r | r
      · exact Or.inr r
      · exact Or.inl r
  intro d hd e he
  exact List.Pairwise.forall_of_forall (fun x y hxy => hsymm x y hxy)
    (fun x _ => Or.inl rfl) hp hd he

theorem disjoint_nested (pool pool_size : Nat) (W : List mb25_string_t)
    (h : disjoint_windows W) : nested_windows pool pool_size W := by
  intro d hd e he hdin hein hdl hel
  obtain ⟨d1, d2, _, _⟩ := (in_pool_iff _ _ _).mp hdin
  obtain ⟨e1, e2, _, _⟩ := (in_pool_iff _ _ _).mp hein
  rcases disjoint_pairs W h d hd e he with rfl | hx
  · exact Or.inr (Or.inl ⟨Nat.le_refl _, Nat.le_refl _⟩)
  · exact Or.inl (hx d1 d2 hdl e1 e2 hel)

/-- What `mb25_garbage_collect` does when every pool window lies in the pool buffer and the
windows have the supported topology: the descriptor array is mapped by `relocate` and the
cursor becomes the number of live bytes. -/
theorem gc_in_buffer (st : State) (hlen : st.mb25_strings.length < 65536)
    (hsize : st.mb25_global.pool_size < 65536)
    (hbuf : ∀ d ∈ st.mb25_strings,
      in_pool st.mb25_global.pool st.mb25_global.pool_size d = true →
      d.data + d.len ≤ st.mb25_global.pool + st.mb25_global.pool_size)
    (hsafe : gc_safe st.mb25_global.pool st.mb25_global.pool_size st.mb25_strings)
    (hids : st.mb25_strings.Pairwise (fun a b => a.str_id < b.str_id)) :
    (mb25_garbage_collect st).mb25_strings =
        st.mb25_strings.map
          (relocate st.mb25_global.pool st.mb25_global.pool_size st.mb25_strings) ∧
      (mb25_garbage_collect st).mb25_global.allocator =
        live_below st.mb25_global.pool st.mb25_global.pool_size st.mb25_strings
          (st.mb25_global.pool + st.mb25_global.pool_size) := by
  have hperm : (sort_by_data_ptr st.mb25_strings).Perm st.mb25_strings :=
    shell_sort_perm data_ptr_less st.mb25_strings
  have hsorted : sorted_by data_ptr_less (sort_by_data_ptr st.mb25_strings) :=
    shell_sort_sorted data_ptr_less data_ptr_less_weak_order st.mb25_strings hlen
  have hsafe' := gc_safe_perm _ _ _ _ hperm.symm hsafe
  have htop : ∀ q ∈ sort_by_data_ptr st.mb25_strings,
      in_pool st.mb25_global.pool st.mb25_global.pool_size q = true →
      q.data + q.len ≤ st.mb25_global.pool + st.mb25_global.pool_size := by
    intro q hq hin
    exact hbuf q (hperm.mem_iff.mp hq) hin
  obtain ⟨c1, c2, _, _, _⟩ := compact_loop_sorted st.mb25_global.pool
    st.mb25_global.pool_size (sort_by_data_ptr st.mb25_strings) st.mem
    (st.mb25_global.pool + st.mb25_global.pool_size) hsorted hsafe' htop (by omega)
  rw [relocate_perm _ _ _ _ hperm] at c1
  rw [live_below_perm _ _ _ _ hperm] at c2
  have hstr : (mb25_garbage_collect st).mb25_strings =
      sort_by_str_id (compact_loop st.mb25_global.pool st.mb25_global.pool_size
        (compact_start st.mem) (sort_by_data_ptr st.mb25_strings)).2 := rfl
  have hglob : (mb25_garbage_collect st).mb25_global.allocator =
      (compact_loop st.mb25_global.pool st.mb25_global.pool_size
        (compact_start st.mem) (sort_by_data_ptr st.mb25_strings)).1.new_allocator := rfl
  refine ⟨?_, ?_⟩
  · rw [hstr, c1]
    apply sort_by_str_id_restore
    · exact hperm.map _
    · exact hids.map _ (fun a b hab => by rw [relocate_str_id, relocate_str_id]; exact hab)
    · simpa using hlen
  · rw [hglob, c2]

theorem live_below_nil (pool pool_size a : Nat) : live_below pool pool_size [] a = 0 := by
  induction a with
  | zero => rfl
  | succ n ih => simp [live_below, ih, live]

theorem live_cons (pool pool_size : Nat) (d : mb25_string_t) (W : List mb25_string_t) (b : Nat) :
    live pool pool_size (d :: W) b =
      ((in_pool pool pool_size d && decide (d.data ≤ b) && decide (b < d.data + d.len)) ||
        live pool pool_size W b) := by
  simp [live]

/-- The live bytes below `a` of an array whose first window meets no other pool window: those
of the rest plus the part of the first window below `a`. -/
theorem live_below_cons (pool pool_size : Nat) (d : mb25_string_t) (W : List mb25_string_t)
    (hdis : ∀ b, in_pool pool pool_size d = true → d.data ≤ b → b < d.data + d.len →
      live pool pool_size W b = false) (a : Nat) :
    live_below pool pool_size (d :: W) a =
      live_below pool pool_size W a +
        (if in_pool pool pool_size d = true then min a (d.data + d.len) - min a d.data else 0) := by
  induction a with
  | zero => simp [live_below]
  | succ n ih =>
    simp only [live_below]
    rw [ih, live_cons]
    cases hin : in_pool pool pool_size d
    · simp
    · simp only [Bool.true_and, if_true]
      by_cases hc : d.data ≤ n ∧ n < d.data + d.len
      · have hl := hdis n hin hc.1 hc.2
        rw [hl]
        have e1 : decide (d.data ≤ n) = true := by simpa using hc.1
        have e2 : decide (n < d.data + d.len) = true := by simpa using hc.2
        rw [e1, e2]
        simp only [Bool.and_self, Bool.or_false, if_true, Bool.false_eq_true, if_false]
        omega
      · have e : (decide (d.data ≤ n) && decide (n < d.data + d.len)) = false := by
          rw [Bool.and_eq_false_iff]
          by_cases h1 : d.data ≤ n
          · right; simp; omega
          · left; simpa using h1
        rw [e]
        simp only [Bool.false_or]
        have : min (n + 1) (d.data + d.len) - min (n + 1) d.data =
            min n (d.data + d.len) - min n d.data := by omega
        rw [this]
        omega

/-- Without sharing the live bytes below `a` are, window by window, the parts of the pool
windows below `a`. -/
theorem live_below_sum (pool pool_size : Nat) (W : List mb25_string_t)
    (hdisj : disjoint_windows W) (a : Nat) :
    live_below pool pool_size W a =
      (W.map (fun d => if in_pool pool pool_size d = true
        then min a (d.data + d.len) - min a d.data else 0)).sum := by
  induction W with
  | nil => simp [live_below_nil]
  | cons d R ih =>
    unfold disjoint_windows at hdisj
    rw [List.pairwise_cons] at hdisj
    rw [live_below_cons pool pool_size d R _ a, ih hdisj.2]
    · simp only [List.map_cons, List.sum_cons]
      omega
    · intro b hin h1 h2
      by_contra hl
      have hl' : live pool pool_size R b = true := by
        cases hx : live pool pool_size R b
        · exact absurd hx hl
        · rfl
      obtain ⟨e, he, hein, e1, e2⟩ := (live_iff _ _ _ _).mp hl'
      obtain ⟨d1, d2, _, _⟩ := (in_pool_iff _ _ _).mp hin
      obtain ⟨x1, x2, _, _⟩ := (in_pool_iff _ _ _).mp hein
      rcases hdisj.1 e he d1 d2 (by omega) x1 x2 (by omega) with r | r
      · unfold windows_apart at *
        omega
      · unfold windows_apart at *
        omega


/-- Without sharing, and with every non-empty pool window ending at or below `a`, the live
bytes below `a` are the sum of the lengths of the non-null, non-constant descriptors. -/
theorem pool_bytes_live (pool pool_size : Nat) (W : List mb25_string_t)
    (hdisj : disjoint_windows W)
    (hwin : ∀ d ∈ W, d.data ≠ 0 → d.is_const = false → 0 < d.len →
      in_pool pool pool_size d = true)
    (a : Nat)
    (ha : ∀ d ∈ W, in_pool pool pool_size d = true → 0 < d.len → d.data + d.len ≤ a) :
    live_below pool pool_size W a = pool_bytes W := by
  rw [live_below_sum pool pool_size W hdisj a]
  unfold pool_bytes
  congr 1
  apply List.map_congr_left
  intro d hd
  cases hin : in_pool pool pool_size d
  · rw [if_neg (by simp)]
    by_cases hc : d.data ≠ 0 ∧ d.is_const = false
    · rw [if_pos hc]
      by_contra hne
      have := hwin d hd hc.1 hc.2 (by omega)
      rw [hin] at this
      exact Bool.noConfusion this
    · rw [if_neg hc]
  · obtain ⟨d1, d2, _, _⟩ := (in_pool_iff _ _ _).mp hin
    rw [if_pos rfl, if_pos ⟨d1, d2⟩]
    by_cases hl : d.len = 0
    · rw [hl]; omega
    · have := ha d hd hin (by omega)
      omega

/-- Without sharing, the live bytes below the start of a non-empty pool string are the sum of
the lengths of the non-null, non-constant descriptors that start below it. -/
theorem pool_bytes_below_live (pool pool_size : Nat) (W : List mb25_string_t)
    (hdisj : disjoint_windows W)
    (hwin : ∀ d ∈ W, d.data ≠ 0 → d.is_const = false → 0 < d.len →
      in_pool pool pool_size d = true)
    (x : mb25_string_t) (hx : x ∈ W) (x1 : x.data ≠ 0) (x2 : x.is_const = false)
    (x3 : 0 < x.len) :
    live_below pool pool_size W x.data = pool_bytes_below W x.data := by
  rw [live_below_sum pool pool_size W hdisj x.data]
  unfold pool_bytes_below
  congr 1
  apply List.map_congr_left
  intro d hd
  cases hin : in_pool pool pool_size d
  · rw [if_neg (by simp)]
    by_cases hc : d.data ≠ 0 ∧ d.is_const = false ∧ d.data < x.data
    · rw [if_pos hc]
      by_contra hne
      have := hwin d hd hc.1 hc.2.1 (by omega)
      rw [hin] at this
      exact Bool.noConfusion this
    · rw [if_neg hc]
  · obtain ⟨d1, d2, _, _⟩ := (in_pool_iff _ _ _).mp hin
    rw [if_pos rfl]
    by_cases hl : d.len = 0
    · rw [hl]
      split_ifs <;> omega
    · by_cases hlt : d.data < x.data
      · rw [if_pos ⟨d1, d2, hlt⟩]
        rcases disjoint_pairs W hdisj d hd x hx with e | e
        · rw [e] at hlt; omega
        · have := e d1 d2 (by omega) x1 x2 x3
          unfold windows_apart at this
          omega
      · rw [if_neg (by intro h; exact hlt h.2.2)]
        omega

theorem pairwise_set (R : mb25_string_t → mb25_string_t → Prop) (y : mb25_string_t)
    (h1 : ∀ e, R y e) (h2 : ∀ e, R e y) :
    ∀ (W : List mb25_string_t) (i : Nat), W.Pairwise R → (W.set i y).Pairwise R := by
  intro W
  induction W with
  | nil => intro i h; simpa using h
  | cons a t ih =>
    intro i h
    rw [List.pairwise_cons] at h
    cases i with
    | zero =>
      rw [List.set_cons_zero, List.pairwise_cons]
      exact ⟨fun e _ => h1 e, h.2⟩
    | succ k =>
      rw [List.set_cons_succ, List.pairwise_cons]
      refine ⟨?_, ih k h.2⟩
      intro e he
      rcases List.mem_or_eq_of_mem_set he with hm | rfl
      · exact h.1 e hm
      · exact h2 a

theorem pool_bytes_set (W : List mb25_string_t) (i : Nat) (y : mb25_string_t)
    (hi : i < W.length) (hy : y.data = 0) :
    pool_bytes (W.set i y) +
        (if (W.getD i zero_string).data ≠ 0 ∧ (W.getD i zero_string).is_const = false
          then (W.getD i zero_string).len else 0) =
      pool_bytes W := by
  unfold pool_bytes
  induction W generalizing i with
  | nil => simp at hi
  | cons a t ih =>
    cases i with
    | zero =>
      simp only [List.set_cons_zero, List.map_cons, List.sum_cons, List.getD_cons_zero]
      rw [if_neg (by intro h; exact h.1 hy)]
      omega
    | succ k =>
      simp only [List.set_cons_succ, List.map_cons, List.sum_cons, List.getD_cons_succ]
      have := ih k (Nat.lt_of_succ_lt_succ hi)
      omega

/-- Collection without sharing: the cursor becomes the sum of the lengths of the non-null,
non-constant descriptors, which is at most the old cursor, and every non-empty pool string
starts at the pool base plus the lengths of the pool strings that started below it. -/
theorem gc_disjoint (st : State) (hlen : st.mb25_strings.length < 65536)
    (hsize : st.mb25_global.pool_size < 65536)
    (hcur : st.mb25_global.allocator ≤ st.mb25_global.pool_size)
    (hids : st.mb25_strings.Pairwise (fun a b => a.str_id < b.str_id))
    (hwin : ∀ d ∈ st.mb25_strings, d.data ≠ 0 → d.is_const = false → 0 < d.len →
      st.mb25_global.pool ≤ d.data ∧
        d.data + d.len ≤ st.mb25_global.pool + st.mb25_global.allocator)
    (hdisj : disjoint_windows st.mb25_strings) :
    (mb25_garbage_collect st).mb25_global.allocator = pool_bytes st.mb25_strings ∧
      pool_bytes st.mb25_strings ≤ st.mb25_global.allocator ∧
      ∀ i, (str_at st i).data ≠ 0 → (str_at st i).is_const = false → 0 < (str_at st i).len →
        (str_at (mb25_garbage_collect st) i).data =
          st.mb25_global.pool + pool_bytes_below st.mb25_strings (str_at st i).data ∧
        (str_at (mb25_garbage_collect st) i).len = (str_at st i).len := by
  have hin : ∀ d ∈ st.mb25_strings, d.data ≠ 0 → d.is_const = false → 0 < d.len →
      in_pool st.mb25_global.pool st.mb25_global.pool_size d = true := by
    intro d hd d1 d2 d3
    have := hwin d hd d1 d2 d3
    rw [in_pool_iff]
    exact ⟨d1, d2, this.1, by omega⟩
  have hcont : ∀ d ∈ st.mb25_strings,
      in_pool st.mb25_global.pool st.mb25_global.pool_size d = true → 0 < d.len →
      d.data + d.len ≤ st.mb25_global.pool + st.mb25_global.allocator := by
    intro d hd hdin hl
    obtain ⟨d1, d2, _, _⟩ := (in_pool_iff _ _ _).mp hdin
    exact (hwin d hd d1 d2 hl).2
  have hbuf : ∀ d ∈ st.mb25_strings,
      in_pool st.mb25_global.pool st.mb25_global.pool_size d = true →
      d.data + d.len ≤ st.mb25_global.pool + st.mb25_global.pool_size := by
    intro d hd hdin
    obtain ⟨_, _, _, d4⟩ := (in_pool_iff _ _ _).mp hdin
    by_cases hl : d.len = 0
    · omega
    · have := hcont d hd hdin (by omega)
      omega
  obtain ⟨g1, g2⟩ := gc_in_buffer st hlen hsize hbuf
    (nested_gc_safe _ _ _ (disjoint_nested _ _ _ hdisj)) hids
  have hsum := pool_bytes_live st.mb25_global.pool st.mb25_global.pool_size st.mb25_strings
    hdisj hin
  refine ⟨?_, ?_, ?_⟩
  · rw [g2]
    exact hsum _ (fun d hd hdin hl => by have := hcont d hd hdin hl; omega)
  · rw [← hsum _ hcont]
    have hle := live_below_le st.mb25_global.pool st.mb25_global.pool_size st.mb25_strings
      (st.mb25_global.pool + st.mb25_global.allocator)
    have hmax : max (st.mb25_global.pool + st.mb25_global.allocator) st.mb25_global.pool =
        st.mb25_global.pool + st.mb25_global.allocator := by
      apply Nat.max_eq_left
      omega
    rw [hmax] at hle
    omega
  · intro i i1 i2 i3
    have hi : i < st.mb25_strings.length := by
      by_contra hn
      rw [str_at_default st i hn] at i1
      exact i1 rfl
    have hmem := str_at_mem st i hi
    have hr : str_at (mb25_garbage_collect st) i =
        relocate st.mb25_global.pool st.mb25_global.pool_size st.mb25_strings (str_at st i) := by
      unfold str_at
      rw [g1, getD_map_relocate]
    rw [hr, relocate_len, relocate_of_in_pool _ _ _ _ (hin _ hmem i1 i2 i3)]
    refine ⟨?_, rfl⟩
    show st.mb25_global.pool + live_below st.mb25_global.pool st.mb25_global.pool_size
      st.mb25_strings (str_at st i).data = _
    rw [pool_bytes_below_live _ _ _ hdisj hin (str_at st i) hmem i1 i2 i3]

/-- Freeing a pool string and collecting, without sharing: the cursor ends lower than a
collection alone would leave it by the length of the freed string, hence lower than the old
cursor by at least that length. -/
theorem gc_after_free (st : State) (hlen : st.mb25_strings.length < 65536)
    (hsize : st.mb25_global.pool_size < 65536)
    (hcur : st.mb25_global.allocator ≤ st.mb25_global.pool_size)
    (hids : st.mb25_strings.Pairwise (fun a b => a.str_id < b.str_id))
    (hwin : ∀ d ∈ st.mb25_strings, d.data ≠ 0 → d.is_const = false → 0 < d.len →
      st.mb25_global.pool ≤ d.data ∧
        d.data + d.len ≤ st.mb25_global.pool + st.mb25_global.allocator)
    (hdisj : disjoint_windows st.mb25_strings)
    (id : Nat) (hid : id < st.mb25_strings.length) (h1 : (str_at st id).data ≠ 0)
    (h2 : (str_at st id).is_const = false) :
    (mb25_garbage_collect (mb25_string_free st id)).mb25_global.allocator +
        (str_at st id).len = (mb25_garbage_collect st).mb25_global.allocator ∧
      (mb25_garbage_collect (mb25_string_free st id)).mb25_global.allocator +
        (str_at st id).len ≤ st.mb25_global.allocator := by
  obtain ⟨k1, k2, _⟩ := gc_disjoint st hlen hsize hcur hids hwin hdisj
  have hfree : mb25_string_free st id = set_str st id
      { str_at st id with is_const := false, writeable := false, len := 0, data := 0 } := by
    unfold mb25_string_free
    rw [if_pos ((valid_iff st id).mpr hid)]
  have hstr : (mb25_string_free st id).mb25_strings = st.mb25_strings.set id
      { str_at st id with is_const := false, writeable := false, len := 0, data := 0 } := by
    rw [hfree]; rfl
  have hglob : (mb25_string_free st id).mb25_global = st.mb25_global := by
    rw [hfree]; rfl
  have hmemb : ∀ d ∈ (mb25_string_free st id).mb25_strings,
      d ∈ st.mb25_strings ∨ d.data = 0 := by
    intro d hd
    rw [hstr] at hd
    rcases List.mem_or_eq_of_mem_set hd with hm | rfl
    · exact Or.inl hm
    · exact Or.inr rfl
  obtain ⟨f1, _, _⟩ := gc_disjoint (mb25_string_free st id)
    (by rw [hstr]; simp; exact hlen) (by rw [hglob]; exact hsize) (by rw [hglob]; exact hcur)
    (by rw [hstr]; exact ids_set _ hids id _ rfl)
    (by
      intro d hd d1 d2 d3
      rw [hglob]
      rcases hmemb d hd with hm | hz
      · exact hwin d hm d1 d2 d3
      · exact absurd hz d1)
    (by
      rw [hstr]
      unfold disjoint_windows at hdisj ⊢
      exact pairwise_set _ _ (fun e a1 => absurd rfl a1)
        (fun e _ _ _ a4 => absurd rfl a4) _ id hdisj)
  have hset0 := pool_bytes_set st.mb25_strings id
    { str_at st id with is_const := false, writeable := false, len := 0, data := 0 } hid rfl
  have hset : pool_bytes (mb25_string_free st id).mb25_strings + (str_at st id).len =
      pool_bytes st.mb25_strings := by
    rw [hstr]
    rw [if_pos (show (st.mb25_strings.getD id zero_string).data ≠ 0 ∧
      (st.mb25_strings.getD id zero_string).is_const = false from ⟨h1, h2⟩)] at hset0
    exact hset0
  rw [f1, k1]
  exact ⟨hset, by omega⟩

/-! ## Fragmentation -/

/-- When the lengths counted by `mb25_get_fragmentation` do not exceed the cursor, the result
is a percentage. -/
theorem fragmentation_bound (st : State) (hcur : st.mb25_global.allocator < 65536)
    (hu : actual_used st.mb25_global.pool st.mb25_global.pool_size st.mb25_strings 0 ≤
      st.mb25_global.allocator) :
    mb25_get_fragmentation st ≤ 100 := by
  unfold mb25_get_fragmentation
  dsimp only
  split_ifs with h1 h2
  · omega
  · omega
  · generalize actual_used st.mb25_global.pool st.mb25_global.pool_size st.mb25_strings 0 = u
      at hu
    generalize st.mb25_global.allocator = a at *
    have e1 : (a + 4294967296 - u) % 4294967296 = a - u := by omega
    rw [e1]
    have e2 : (a - u) * 100 % 4294967296 = (a - u) * 100 := by
      apply Nat.mod_eq_of_lt
      have : (a - u) * 100 ≤ 65535 * 100 := Nat.mul_le_mul_right 100 (by omega)
      omega
    rw [e2]
    have e3 : (a - u) * 100 / a ≤ 100 := by
      apply Nat.div_le_of_le_mul
      have : (a - u) * 100 ≤ a * 100 := Nat.mul_le_mul_right 100 (by omega)
      omega
    exact Nat.le_trans (Nat.mod_le _ _) e3


/-! ## Freshness of an allocated region -/

/-- An allocation that fits the free space of a state whose non-null, non-constant windows lie
in the allocated part of the pool, and whose constant windows lie outside the pool buffer:
the new region lies in the pool buffer, every window of another slot is apart from it, and the
containment holds again. -/
theorem alloc_fresh_region (st : State) (id size : Nat) (hi : id < st.mb25_strings.length)
    (hl : size ≤ 255) (hsz : st.mb25_global.pool_size < 65536)
    (hcur : st.mb25_global.allocator ≤ st.mb25_global.pool_size)
    (hwin : ∀ j, (str_at st j).data ≠ 0 → (str_at st j).is_const = false →
      st.mb25_global.pool ≤ (str_at st j).data ∧
        (str_at st j).data + (str_at st j).len ≤ st.mb25_global.pool + st.mb25_global.allocator)
    (hconst : ∀ j, (str_at st j).is_const = true →
      (str_at st j).data + (str_at st j).len ≤ st.mb25_global.pool ∨
        st.mb25_global.pool + st.mb25_global.pool_size ≤ (str_at st j).data)
    (hfit : size ≤ st.mb25_global.pool_size - st.mb25_global.allocator) :
    (mb25_string_alloc st id size).1 = MB25_SUCCESS ∧
      (mb25_string_alloc st id size).2.mb25_global.total_gcs = st.mb25_global.total_gcs ∧
      (mb25_string_alloc st id size).2.mb25_global.pool ≤
        (str_at (mb25_string_alloc st id size).2 id).data ∧
      (str_at (mb25_string_alloc st id size).2 id).data + size ≤
        (mb25_string_alloc st id size).2.mb25_global.pool +
          (mb25_string_alloc st id size).2.mb25_global.pool_size ∧
      (∀ j, j ≠ id → (str_at (mb25_string_alloc st id size).2 j).data ≠ 0 →
        (str_at (mb25_string_alloc st id size).2 j).data +
            (str_at (mb25_string_alloc st id size).2 j).len ≤
          (str_at (mb25_string_alloc st id size).2 id).data ∨
        (str_at (mb25_string_alloc st id size).2 id).data + size ≤
          (str_at (mb25_string_alloc st id size).2 j).data) ∧
      (mb25_string_alloc st id size).2.mb25_global.allocator ≤
        (mb25_string_alloc st id size).2.mb25_global.pool_size ∧
      (∀ j, (str_at (mb25_string_alloc st id size).2 j).data ≠ 0 →
        (str_at (mb25_string_alloc st id size).2 j).is_const = false →
        (mb25_string_alloc st id size).2.mb25_global.pool ≤
            (str_at (mb25_string_alloc st id size).2 j).data ∧
          (str_at (mb25_string_alloc st id size).2 j).data +
              (str_at (mb25_string_alloc st id size).2 j).len ≤
            (mb25_string_alloc st id size).2.mb25_global.pool +
              (mb25_string_alloc st id size).2.mb25_global.allocator) := by
  obtain ⟨a1, _, a3, a4, a5⟩ := alloc_fits_state st id size hi hl hsz (by omega)
  rw [a3, a4]
  dsimp only
  refine ⟨a1, rfl, Nat.le_add_right _ _, by omega, ?_, by omega, ?_⟩
  · intro j hj hnz
    rw [a5 j hj] at hnz ⊢
    cases hc : (str_at st j).is_const
    · left
      exact (hwin j hnz hc).2
    · rcases hconst j hc with r | r
      · left; omega
      · right; omega
  · intro j hnz hc
    by_cases hj : j = id
    · subst hj
      rw [a4]
      dsimp only
      omega
    · rw [a5 j hj] at hnz hc ⊢
      have := hwin j hnz hc
      omega

/-! ## The claims -/

set_option maxRecDepth 1000000

/-- C1, at a failing input: after `alloc_init(0, "AB"); alloc_init(1, "CD")` slots 0 and 1
read `AB` and `CD`.  The call `concat(0, 0, 1)`, whose destination is its first operand,
returns Success with length 4, and slot 0 then reads `CD` followed by two bytes the call did
not write (0 in this memory image), not `ABCD`: `mb25_string_alloc` has set `dest->len`, which
is `str1->len`, to 0 before the copy reads it.  In the same way `concat(1, 0, 1)`, whose
destination is its second operand, leaves slot 1 reading `AB` followed by two unwritten
bytes. -/
theorem concat_onto_operand :
    reach two_strings ∧
      bytes_of two_strings 0 = [65, 66] ∧ bytes_of two_strings 1 = [67, 68] ∧
      (mb25_string_concat two_strings 0 0 1).1 = MB25_SUCCESS ∧
      (str_at (mb25_string_concat two_strings 0 0 1).2 0).len = 4 ∧
      bytes_of (mb25_string_concat two_strings 0 0 1).2 0 = [67, 68, 0, 0] ∧
      (mb25_string_concat two_strings 1 0 1).1 = MB25_SUCCESS ∧
      (str_at (mb25_string_concat two_strings 1 0 1).2 1).len = 4 ∧
      bytes_of (mb25_string_concat two_strings 1 0 1).2 1 = [65, 66, 0, 0] :=
  have hr : reach two_strings :=
    reach.step _ (op.alloc_init 1 4)
      (reach.step _ (op.alloc_init 0 1)
        (reach.start (startup 10 demo_mem) 1000 256 (by decide) (by decide) (by decide))
        (by decide))
      (by decide)
  ⟨hr, by decide⟩

/-- C2, at a failing input: after `alloc_init(0, "ABCDEFGH")` the call `right(0, 0, 3)`, whose
destination is its source, returns Success and slot 0 reads the first three bytes `ABC`, not
the last three `FGH`: `dest->len = n` is stored before `src->len - n` is computed. -/
theorem right_onto_source :
    bytes_of one_string 0 = [65, 66, 67, 68, 69, 70, 71, 72] ∧
      (mb25_string_right one_string 0 0 3).1 = MB25_SUCCESS ∧
      bytes_of (mb25_string_right one_string 0 0 3).2 0 = [65, 66, 67] := by
  decide

/-- C3, at a failing input: `full_pool_view` is reached by `alloc(0, 2); free(0);
alloc_init(1, "ABCDEFGH"); alloc_init(4, "12345678"); alloc(5, 238); free(5); left(2, 1, 8)`.
It is a `supported` state (its only shared window is the view of slot 2 on slot 1), the pool
is full, and slot 2 is not writable and reads `ABCDEFGH`.  `mid_assign(2, 1, "Z", 1)` returns
Success and leaves slot 2 writable with its length 8, but reading `ZDEFGH12` instead of
`ZBCDEFGH`, while slot 1 still reads `ABCDEFGH`: the allocation of the private copy ran the
collector, which moved the bytes two places down, and the copy was then taken from
`orig_data`, the pointer saved before the allocation. -/
theorem mid_assign_copies_from_stale_pointer :
    reach full_pool_view ∧ supported full_pool_view ∧
      (str_at full_pool_view 2).writeable = false ∧
      bytes_of full_pool_view 2 = [65, 66, 67, 68, 69, 70, 71, 72] ∧
      (mb25_string_mid_assign full_pool_view 2 1 14 1).1 = MB25_SUCCESS ∧
      (str_at (mb25_string_mid_assign full_pool_view 2 1 14 1).2 2).writeable = true ∧
      (str_at (mb25_string_mid_assign full_pool_view 2 1 14 1).2 2).len = 8 ∧
      bytes_of (mb25_string_mid_assign full_pool_view 2 1 14 1).2 2 =
        [90, 68, 69, 70, 71, 72, 49, 50] ∧
      bytes_of (mb25_string_mid_assign full_pool_view 2 1 14 1).2 1 =
        [65, 66, 67, 68, 69, 70, 71, 72] :=
  have hr : reach full_pool_view :=
    reach.step _ (op.left 2 1 8)
      (reach.step _ (op.free 5)
        (reach.step _ (op.alloc 5 238)
          (reach.step _ (op.alloc_init 4 25)
            (reach.step _ (op.alloc_init 1 16)
              (reach.step _ (op.free 0)
                (reach.step _ (op.alloc 0 2)
                  (reach.start (startup 10 demo_mem) 1000 256 (by decide) (by decide)
                    (by decide))
                  (by decide))
                (by decide))
              (by decide))
            (by decide))
          (by decide))
        (by decide))
      (by decide)
  ⟨hr, by decide⟩

/-- C4, at a failing input: after `alloc_init(0, "A"); alloc_init(1, "B")` slot 0 is writable
with a pool buffer of one byte.  `assign(0, "XY", 2)` takes the in-place branch (the data
pointer and the cursor are unchanged) and writes two bytes, so slot 1 reads `Y` instead of
`B`. -/
theorem assign_in_place_overruns :
    (str_at two_letters 0).writeable = true ∧ (str_at two_letters 0).data ≠ 0 ∧
      bytes_of two_letters 1 = [66] ∧
      (mb25_string_assign two_letters 0 7 2).1 = MB25_SUCCESS ∧
      (str_at (mb25_string_assign two_letters 0 7 2).2 0).data = (str_at two_letters 0).data ∧
      (mb25_string_assign two_letters 0 7 2).2.mb25_global.allocator =
        two_letters.mb25_global.allocator ∧
      bytes_of (mb25_string_assign two_letters 0 7 2).2 1 = [89] := by
  decide

/-- C5, counterexample: in `overlap_state` slot 3 reads `WXYZ`; after `garbage_collect()` it
reads `EFGH`. -/
theorem gc_changes_bytes_after_overlap :
    bytes_of overlap_state 3 = [87, 88, 89, 90] ∧
      bytes_of (mb25_garbage_collect overlap_state) 3 = [69, 70, 71, 72] := by
  decide

/-- C5, amended (P4 on supported states): in every state that is `supported` and in which
the descriptors that are not pool strings stay `apart_from_pool`, every descriptor reads after
`garbage_collect()` the bytes it read before. -/
theorem gc_preserves_bytes (st : State) (h : supported st) (hout : apart_from_pool st)
    (id : Nat) : bytes_of (mb25_garbage_collect st) id = bytes_of st id :=
  gc_bytes_supported st h hout id

/-- C5, witness: the program of `test_sharing_gc.c`. -/
theorem gc_preserves_bytes_witness :
    supported sharing_state ∧ apart_from_pool sharing_state ∧
      bytes_of (mb25_garbage_collect sharing_state) 2 = bytes_of sharing_state 2 :=
  ⟨by decide, by decide, gc_preserves_bytes sharing_state (by decide) (by decide) 2⟩

/-- C6, counterexample: in `overlap_state` slot 2 starts 2 bytes into the window of slot 1
(`1002` in `[1000, 1006]`); after `garbage_collect()` it starts 6 bytes after it. -/
theorem gc_changes_offset_after_overlap :
    (str_at overlap_state 1).data = 1000 ∧ (str_at overlap_state 1).len = 6 ∧
      (str_at overlap_state 2).data = 1002 ∧
      (str_at (mb25_garbage_collect overlap_state) 1).data = 1000 ∧
      (str_at (mb25_garbage_collect overlap_state) 2).data = 1006 := by
  decide

/-- C6, amended (P3 on supported states): in every `supported` state, for pool strings
`parent` and `child` with `child.data` in `[parent.data, parent.data + parent.len]`, after
`garbage_collect()` the child still starts at or after the parent, at the same offset, with the
same length. -/
theorem gc_preserves_offsets (st : State) (h : supported st) (parent child : Nat)
    (hp : in_pool st.mb25_global.pool st.mb25_global.pool_size (str_at st parent) = true)
    (hc : in_pool st.mb25_global.pool st.mb25_global.pool_size (str_at st child) = true)
    (h1 : (str_at st parent).data ≤ (str_at st child).data)
    (h2 : (str_at st child).data ≤ (str_at st parent).data + (str_at st parent).len) :
    (str_at (mb25_garbage_collect st) parent).data ≤
        (str_at (mb25_garbage_collect st) child).data ∧
      (str_at (mb25_garbage_collect st) child).data -
          (str_at (mb25_garbage_collect st) parent).data =
        (str_at st child).data - (str_at st parent).data ∧
      (str_at (mb25_garbage_collect st) child).len = (str_at st child).len :=
  gc_offset_supported st h parent child hp hc h1 h2

/-- C6, witness: parent slot 0 and its `mid` view in slot 2 of `sharing_state`. -/
theorem gc_preserves_offsets_witness :
    supported sharing_state ∧
      (str_at (mb25_garbage_collect sharing_state) 2).data -
          (str_at (mb25_garbage_collect sharing_state) 0).data =
        (str_at sharing_state 2).data - (str_at sharing_state 0).data :=
  ⟨by decide,
    (gc_preserves_offsets sharing_state (by decide) 0 2 (by decide) (by decide) (by decide)
      (by decide)).2.1⟩

/-- C10, counterexample: in `three_views` the first `garbage_collect()` leaves the cursor at
759 and slot 3 at `pool + 506`; the second leaves the cursor at 506. -/
theorem gc_twice_differs :
    (mb25_garbage_collect three_views).mb25_global.allocator = 759 ∧
      (mb25_garbage_collect (mb25_garbage_collect three_views)).mb25_global.allocator = 506 := by
  decide

/-- C10, amended (L5 on supported states): in every `supported` state a second
`garbage_collect()` leaves every descriptor (data pointer and length included) and the cursor
as the first one left them. -/
theorem gc_idempotent (st : State) (h : supported st) :
    (mb25_garbage_collect (mb25_garbage_collect st)).mb25_strings =
        (mb25_garbage_collect st).mb25_strings ∧
      (mb25_garbage_collect (mb25_garbage_collect st)).mb25_global.allocator =
        (mb25_garbage_collect st).mb25_global.allocator :=
  gc_twice_supported st h

/-- C10, witness: `sharing_state`. -/
theorem gc_idempotent_witness :
    supported sharing_state ∧
      (mb25_garbage_collect (mb25_garbage_collect sharing_state)).mb25_global.allocator =
        (mb25_garbage_collect sharing_state).mb25_global.allocator :=
  ⟨by decide, (gc_idempotent sharing_state (by decide)).2⟩

/-- C11, counterexample: in `empty_in_pool`, where slot `i` has id `i`, slot 1 is empty
(`len = 0`, `mb25_is_empty` is true) with data pointer `pool + 2`; after `garbage_collect()`
its data pointer is `pool`: the collector relocates every non-constant descriptor whose pointer
lies in the pool buffer, empty ones included. -/
theorem gc_moves_empty_descriptor :
    empty_in_pool.mb25_strings.map (fun d => d.str_id) = List.range 10 ∧
      (str_at empty_in_pool 1).len = 0 ∧ mb25_is_empty empty_in_pool 1 = true ∧
      (str_at empty_in_pool 1).is_const = false ∧
      (str_at empty_in_pool 1).data = 1002 ∧
      (str_at (mb25_garbage_collect empty_in_pool) 1).data = 1000 := by
  decide

/-- C11, amended (P5, descriptor identity across a collection): from any state with at most
16384 descriptors (`str_id` is a 14-bit field) in which slot `i` has id `i`, after
`garbage_collect()` the array has the same length, slot `i` again has id `i` and the same
`len`, `is_const` and `writeable`; a descriptor that is not a pool string (null, constant, or
pointing outside the pool buffer) keeps its data pointer; and the collection counter, a
`uint32_t`, is the old one plus 1 modulo `2^32`. -/
theorem gc_descriptor_identity (st : State) (hlen : st.mb25_strings.length ≤ 16384)
    (hid : ∀ i, i < st.mb25_strings.length → (str_at st i).str_id = i) :
    (mb25_garbage_collect st).mb25_strings.length = st.mb25_strings.length ∧
      (∀ i, i < st.mb25_strings.length →
        (str_at (mb25_garbage_collect st) i).str_id = i ∧
        (str_at (mb25_garbage_collect st) i).len = (str_at st i).len ∧
        (str_at (mb25_garbage_collect st) i).is_const = (str_at st i).is_const ∧
        (str_at (mb25_garbage_collect st) i).writeable = (str_at st i).writeable ∧
        (in_pool st.mb25_global.pool st.mb25_global.pool_size (str_at st i) = false →
          (str_at (mb25_garbage_collect st) i).data = (str_at st i).data)) ∧
      (mb25_garbage_collect st).mb25_global.total_gcs =
        (st.mb25_global.total_gcs + 1) % 4294967296 := by
  obtain ⟨h1, h2⟩ := gc_same_slots st hlen hid
  refine ⟨h1, ?_, rfl⟩
  intro i hi
  obtain ⟨k1, _, k3, k4, k5, k6⟩ := h2 i hi
  exact ⟨k1, k3, k4, k5, k6⟩

/-- C11, witness: `sharing_state`, the program of `test_sharing_gc.c`, at slot 2. -/
theorem gc_descriptor_identity_witness :
    sharing_state.mb25_strings.length ≤ 16384 ∧
      (str_at (mb25_garbage_collect sharing_state) 2).str_id = 2 ∧
      (str_at (mb25_garbage_collect sharing_state) 2).len = (str_at sharing_state 2).len ∧
      (mb25_garbage_collect sharing_state).mb25_global.total_gcs =
        (sharing_state.mb25_global.total_gcs + 1) % 4294967296 :=
  have hw := gc_descriptor_identity sharing_state (by decide) (by decide)
  ⟨by decide, (hw.2.1 2 (by decide)).1, (hw.2.1 2 (by decide)).2.1, hw.2.2⟩

/-- C12, counterexample: `alloc_init(0, "ABCDEFGH")` followed by `get_c_string_temp(0, 1)`
returns the pool address `1008` of a NUL-terminated copy of `ABCDEFGH`.  After
`alloc_init(2, x^239); free(0)` the pool is full and the state `temp_then_long` is `supported`;
the address `1008` still holds `ABCDEFGH` and its NUL.  `alloc_init(3, 1008)` returns Success,
and slot 3 reads `xxxxxxxx`: the allocation ran the collector, which moved the long string
over the bytes at `1008` before they were copied. -/
theorem alloc_init_from_pool_pointer :
    (mb25_get_c_string_temp (mb25_string_alloc_init demo_init 0 16).2 0 1).1 = 1008 ∧
      reach temp_then_long ∧ supported temp_then_long ∧
      read_bytes temp_then_long.mem 1008 8 = [65, 66, 67, 68, 69, 70, 71, 72] ∧
      temp_then_long.mem 1016 = 0 ∧
      (mb25_string_alloc_init temp_then_long 3 1008).1 = MB25_SUCCESS ∧
      bytes_of (mb25_string_alloc_init temp_then_long 3 1008).2 3 =
        [120, 120, 120, 120, 120, 120, 120, 120] :=
  have hr : reach temp_then_long :=
    reach.step _ (op.free 0)
      (reach.step _ (op.alloc_init 2 116)
        (reach.step _ (op.get_c_string_temp 0 1)
          (reach.step _ (op.alloc_init 0 16)
            (reach.start (startup 10 demo_mem) 1000 256 (by decide) (by decide) (by decide))
            (by decide))
          (by decide))
        (by decide))
      (by decide)
  ⟨by decide, hr, by decide, by decide, by decide, by decide, by decide⟩

/-- C12, amended (L1, round trip, for a string that stays in place): in every state that
satisfies the pointer-level invariant `wf`, for a byte string `s` without NUL of length at
most 255 stored NUL-terminated at `p`, where `p` is a `stable_source` (the allocation fits the
free space and the bytes are apart from the region at the cursor; or the pool windows have
the supported topology and the bytes lie outside the pool buffer): if `alloc_init(id, s)`
returns Success then slot `id` reads exactly `s`, has `len = |s|`, is writable and is not
constant. -/
theorem alloc_init_round_trip (st : State) (h : wf st)
    (id p : Nat) (s : List Nat) (hlen : s.length ≤ 255) (hnz : ∀ b ∈ s, b ≠ 0)
    (hs1 : read_bytes st.mem p s.length = s) (hs2 : st.mem (p + s.length) = 0)
    (hsrc : stable_source st p s.length)
    (hok : (mb25_string_alloc_init st id p).1 = MB25_SUCCESS) :
    bytes_of (mb25_string_alloc_init st id p).2 id = s ∧
      (str_at (mb25_string_alloc_init st id p).2 id).len = s.length ∧
      (str_at (mb25_string_alloc_init st id p).2 id).writeable = true ∧
      (str_at (mb25_string_alloc_init st id p).2 id).is_const = false :=
  alloc_init_reads st h id p s hlen hnz hs1 hs2 hsrc hok

/-- C12, witness: `alloc_init(3, "ABCDEFGH")` with the literal at address 16, in the full pool
of `word_then_long`: the call collects and slot 3 reads `ABCDEFGH`. -/
theorem alloc_init_round_trip_witness :
    word_then_long.mb25_global.allocator = word_then_long.mb25_global.pool_size ∧
      (mb25_string_alloc_init word_then_long 3 16).1 = MB25_SUCCESS ∧
      bytes_of (mb25_string_alloc_init word_then_long 3 16).2 3 =
        [65, 66, 67, 68, 69, 70, 71, 72] :=
  have hr : reach word_then_long :=
    reach.step _ (op.alloc_init 2 115)
      (reach.step _ (op.alloc_init 0 16)
        (reach.step _ (op.free 4)
          (reach.step _ (op.alloc 4 8)
            (reach.start (startup 10 demo_mem) 1000 256 (by decide) (by decide) (by decide))
            (by decide))
          (by decide))
        (by decide))
      (by decide)
  ⟨by decide, by decide,
    (alloc_init_round_trip word_then_long (reach_wf word_then_long hr) 3 16
      [65, 66, 67, 68, 69, 70, 71, 72]
      (by decide) (by decide) (by decide) (by decide) (by decide) (by decide)).1⟩

/-- C13 (L3): for valid ids `r` and `s` and every `n`, `left(r, s, n)` returns Success; when
`s` was empty (null data or `len = 0`) or `n = 0` slot `r` is empty afterwards, otherwise it
reads the first `min(n, s.len)` bytes that `s` read before the call. -/
theorem left_reads_first_bytes (st : State) (r s n : Nat) (hr : r < st.mb25_strings.length)
    (hs : s < st.mb25_strings.length) :
    (mb25_string_left st r s n).1 = MB25_SUCCESS ∧
      (((str_at st s).data = 0 ∨ (str_at st s).len = 0 ∨ n = 0) →
        bytes_of (mb25_string_left st r s n).2 r = [] ∧
        (str_at (mb25_string_left st r s n).2 r).len = 0 ∧
        (str_at (mb25_string_left st r s n).2 r).data = 0) ∧
      (¬ ((str_at st s).data = 0 ∨ (str_at st s).len = 0 ∨ n = 0) →
        bytes_of (mb25_string_left st r s n).2 r = (bytes_of st s).take n ∧
        (str_at (mb25_string_left st r s n).2 r).len = min n (str_at st s).len) :=
  left_reads st r s n hr hs

/-- C13, witness: `left(1, 0, 3)` after `alloc_init(0, "ABCDEFGH")` reads `ABC`. -/
theorem left_reads_first_bytes_witness :
    1 < one_string.mb25_strings.length ∧
      bytes_of (mb25_string_left one_string 1 0 3).2 1 = [65, 66, 67] :=
  ⟨by decide,
    ((left_reads_first_bytes one_string 1 0 3 (by decide) (by decide)).2.2 (by decide)).1.trans
      (by decide)⟩

/-- C14: for valid ids `d`, `s` and all `start`, `length`, with `start0 start` the 0-based
start (`start - 1` for `start > 0`, `0` for `start = 0`): `mid(d, s, start, length)` returns
Success; `d` is empty afterwards if `s` was empty, `length = 0` or `start0 ≥ s.len`; otherwise
`d` reads the bytes `s[start0 .. start0 + min(length, s.len - start0))` of the `s` before the
call; and `start = 0` gives the same result as `start = 1`. -/
theorem mid_reads_window (st : State) (d s start length : Nat)
    (hd : d < st.mb25_strings.length) (hs : s < st.mb25_strings.length) :
    (mb25_string_mid st d s start length).1 = MB25_SUCCESS ∧
      (((str_at st s).data = 0 ∨ (str_at st s).len = 0 ∨ length = 0 ∨
          start0 start ≥ (str_at st s).len) →
        bytes_of (mb25_string_mid st d s start length).2 d = [] ∧
        (str_at (mb25_string_mid st d s start length).2 d).len = 0 ∧
        (str_at (mb25_string_mid st d s start length).2 d).data = 0) ∧
      (¬ ((str_at st s).data = 0 ∨ (str_at st s).len = 0 ∨ length = 0 ∨
          start0 start ≥ (str_at st s).len) →
        bytes_of (mb25_string_mid st d s start length).2 d =
          ((bytes_of st s).drop (start0 start)).take
            (min length ((str_at st s).len - start0 start)) ∧
        (str_at (mb25_string_mid st d s start length).2 d).len =
          min length ((str_at st s).len - start0 start)) ∧
      mb25_string_mid st d s 0 length = mb25_string_mid st d s 1 length := by
  obtain ⟨k1, k2, k3⟩ := mid_reads st d s start length hd hs
  exact ⟨k1, k2, k3, rfl⟩

/-- C14, witness: `mid(1, 0, 3, 4)` after `alloc_init(0, "ABCDEFGH")` reads `CDEF`. -/
theorem mid_reads_window_witness :
    1 < one_string.mb25_strings.length ∧
      bytes_of (mb25_string_mid one_string 1 0 3 4).2 1 = [67, 68, 69, 70] :=
  ⟨by decide,
    ((mid_reads_window one_string 1 0 3 4 (by decide) (by decide)).2.2.1 (by decide)).1.trans
      (by decide)⟩

/-- C15 (view semantics): for valid ids `d` and `s`, whenever `left`, `right` or `mid` leaves
a non-empty result in `d`, the result is a view (`view_of`): memory and the global record
(cursor included) are unchanged, the window of `d` lies inside the window `s` had before the
call, neither `s` nor `d` is writable afterwards, and `d.is_const` is the `is_const` of
`s`. -/
theorem substring_is_view (st : State) (d s : Nat) (hd : d < st.mb25_strings.length)
    (hs : s < st.mb25_strings.length) :
    (∀ n, 0 < (str_at (mb25_string_left st d s n).2 d).len →
        view_of st (mb25_string_left st d s n).2 d s) ∧
      (∀ n, 0 < (str_at (mb25_string_right st d s n).2 d).len →
        view_of st (mb25_string_right st d s n).2 d s) ∧
      (∀ start length, 0 < (str_at (mb25_string_mid st d s start length).2 d).len →
        view_of st (mb25_string_mid st d s start length).2 d s) :=
  ⟨fun n h => left_is_view st d s n hd hs h, fun n h => right_is_view st d s n hd hs h,
    fun start length h => mid_is_view st d s start length hd hs h⟩

/-- C15, witness: `right(1, 0, 3)` after `alloc_init(0, "ABCDEFGH")`. -/
theorem substring_is_view_witness :
    1 < one_string.mb25_strings.length ∧
      view_of one_string (mb25_string_right one_string 1 0 3).2 1 0 :=
  ⟨by decide, (substring_is_view one_string 1 0 (by decide) (by decide)).2.1 3 (by decide)⟩

/-- C16: for a valid id `d` and input that is not (NULL with `len > 0`), with `s0` the 0-based
start, `L = d.len` and `r = min(len, L - s0)`: if `d` is writable, `s0 < L`, and the input
bytes `[bytes, bytes + r)` do not overlap the positions `[d.data + s0, d.data + s0 + r)`
written (what the C library asks of `memcpy`), then `mid_assign(d, start, bytes, len)`
returns Success, leaves the descriptor array (data pointers, lengths, flags) and the global
record (cursor) unchanged, stores `bytes[k]` at `d.data + s0 + k` for every `k < r`, leaves
every other byte of memory as it was (so the input bytes too), and `d` reads its old bytes
with the positions `[s0, s0 + r)` replaced by `bytes[0 .. r)`; if `s0 ≥ L` (writable or not)
the call returns Success and the state is unchanged. -/
theorem mid_assign_writable_in_place (st : State) (d start data len : Nat)
    (hd : d < st.mb25_strings.length) (hin : ¬ (data = 0 ∧ len > 0)) :
    ((str_at st d).writeable = true → start0 start < (str_at st d).len →
      regions_apart data (min len ((str_at st d).len - start0 start))
        ((str_at st d).data + start0 start) (min len ((str_at st d).len - start0 start)) →
        (mb25_string_mid_assign st d start data len).1 = MB25_SUCCESS ∧
        (mb25_string_mid_assign st d start data len).2.mb25_strings = st.mb25_strings ∧
        (mb25_string_mid_assign st d start data len).2.mb25_global = st.mb25_global ∧
        (∀ k, k < min len ((str_at st d).len - start0 start) →
          (mb25_string_mid_assign st d start data len).2.mem
            ((str_at st d).data + start0 start + k) = st.mem (data + k)) ∧
        (∀ a, (a < (str_at st d).data + start0 start ∨
            (str_at st d).data + start0 start +
              min len ((str_at st d).len - start0 start) ≤ a) →
          (mb25_string_mid_assign st d start data len).2.mem a = st.mem a) ∧
        read_bytes (mb25_string_mid_assign st d start data len).2.mem data
            (min len ((str_at st d).len - start0 start)) =
          read_bytes st.mem data (min len ((str_at st d).len - start0 start)) ∧
        bytes_of (mb25_string_mid_assign st d start data len).2 d =
          (bytes_of st d).take (start0 start) ++
            read_bytes st.mem data (min len ((str_at st d).len - start0 start)) ++
            (bytes_of st d).drop
              (start0 start + min len ((str_at st d).len - start0 start))) ∧
      ((str_at st d).len ≤ start0 start →
        mb25_string_mid_assign st d start data len = (MB25_SUCCESS, st)) := by
  refine ⟨fun hw hs hap => ?_, fun hs => mid_assign_past_end st d start data len hd hin hs⟩
  obtain ⟨k1, k2, k3, k4⟩ := mid_assign_in_place st d start data len hd hw hin hs
  obtain ⟨m1, m2⟩ := mid_assign_in_place_mem st d start data len hd hw hin hs
  have hr : replace_len (str_at st d).len start len =
      min len ((str_at st d).len - start0 start) := by
    unfold replace_len
    split_ifs <;> omega
  rw [hr] at k4
  refine ⟨k1, k2, k3, m1, m2, ?_, k4⟩
  apply read_bytes_congr
  intro i hi
  apply m2
  unfold regions_apart at hap
  omega

/-- C16, witness: Test 1 of `test_mid_assign.c` with `XY`: `mid_assign(0, 4, "XY", 2)` on the
writable `ABCDEFGH` gives `ABCXYFGH`; the literal `XY` lies outside the pool. -/
theorem mid_assign_writable_in_place_witness :
    0 < one_string.mb25_strings.length ∧ (str_at one_string 0).writeable = true ∧
      bytes_of (mb25_string_mid_assign one_string 0 4 7 2).2 0 =
        [65, 66, 67, 88, 89, 70, 71, 72] :=
  ⟨by decide, by decide,
    ((mid_assign_writable_in_place one_string 0 4 7 2 (by decide) (by decide)).1 (by decide)
      (by decide) (by decide)).2.2.2.2.2.2.trans (by decide)⟩

/-- C17, at a failing input: in `letter_then_word` slot 0 is the writable one-byte string `A`
at `pool` and slot 1 the pool string `ABCDEFGH` at `pool + 1`.  `copy(0, 1)` returns Success
through the in-place branch, which copies 8 bytes to `pool`, over the source: slot 0 reads
`ABCDEFGH`, but slot 1 then reads `BCDEFGHH`. -/
theorem copy_in_place_overwrites_source :
    reach letter_then_word ∧
      bytes_of letter_then_word 1 = [65, 66, 67, 68, 69, 70, 71, 72] ∧
      (mb25_string_copy letter_then_word 0 1).1 = MB25_SUCCESS ∧
      bytes_of (mb25_string_copy letter_then_word 0 1).2 0 = [65, 66, 67, 68, 69, 70, 71, 72] ∧
      bytes_of (mb25_string_copy letter_then_word 0 1).2 1 =
        [66, 67, 68, 69, 70, 71, 72, 72] :=
  have hr : reach letter_then_word :=
    reach.step _ (op.alloc_init 1 16)
      (reach.step _ (op.alloc_init 0 10)
        (reach.start (startup 10 demo_mem) 1000 256 (by decide) (by decide) (by decide))
        (by decide))
      (by decide)
  ⟨hr, by decide, by decide, by decide, by decide⟩

/-- C18 (sharing outcome of copy): for valid `dst`, `src` with `src` non-empty (non-null data
and `len > 0`) and not both constant and writable (invariant 3 of the data model, which
`reach_wf` gives in every reachable state): if `src` is constant, or `dst` is not writable or
has no buffer, then `copy(dst, src)` returns Success, `dst.data = src.data`,
`dst.len = src.len`, both descriptors are not writable, `dst.is_const = src.is_const`, and
memory and the global record (cursor) are unchanged. -/
theorem copy_shares_storage (st : State) (dst src : Nat) (hd : dst < st.mb25_strings.length)
    (hs : src < st.mb25_strings.length)
    (hne : (str_at st src).data ≠ 0 ∧ (str_at st src).len ≠ 0)
    (hc : (str_at st src).is_const = true ∨
      ¬ ((str_at st dst).writeable = true ∧ (str_at st dst).data ≠ 0))
    (hinv : (str_at st src).is_const = true → (str_at st src).writeable = false) :
    (mb25_string_copy st dst src).1 = MB25_SUCCESS ∧
      (str_at (mb25_string_copy st dst src).2 dst).data = (str_at st src).data ∧
      (str_at (mb25_string_copy st dst src).2 dst).len = (str_at st src).len ∧
      (str_at (mb25_string_copy st dst src).2 dst).writeable = false ∧
      (str_at (mb25_string_copy st dst src).2 src).writeable = false ∧
      (str_at (mb25_string_copy st dst src).2 dst).is_const = (str_at st src).is_const ∧
      (mb25_string_copy st dst src).2.mem = st.mem ∧
      (mb25_string_copy st dst src).2.mb25_global = st.mb25_global :=
  copy_shares st dst src hd hs hne hc hinv

/-- C18, witness: `copy(1, 0)` after `alloc_init(0, "ABCDEFGH")`, slot 1 being empty. -/
theorem copy_shares_storage_witness :
    1 < one_string.mb25_strings.length ∧
      (str_at (mb25_string_copy one_string 1 0).2 1).data = (str_at one_string 0).data ∧
      (str_at (mb25_string_copy one_string 1 0).2 0).writeable = false :=
  have hw := copy_shares_storage one_string 1 0 (by decide) (by decide) (by decide)
    (by decide) (by decide)
  ⟨by decide, hw.2.1, hw.2.2.2.2.1⟩

/-- C19, counterexample: `word_then_long` is reached by `alloc(4, 8); free(4);
alloc_init(0, "ABCDEFGH"); alloc_init(2, x^240)`; it is `supported`, its pool is full, and
`get_data(0) = 1008` is the address of the bytes `ABCDEFGH` of slot 0.
`assign(3, get_data(0), 8)` returns Success and slot 3 reads `xxxxxxxx`: the allocation ran
the collector, which moved the long string over the bytes at `1008` before they were
copied. -/
theorem assign_from_pool_pointer :
    reach word_then_long ∧ supported word_then_long ∧
      mb25_get_data word_then_long 0 = 1008 ∧
      read_bytes word_then_long.mem 1008 8 = [65, 66, 67, 68, 69, 70, 71, 72] ∧
      (mb25_string_assign word_then_long 3 (mb25_get_data word_then_long 0) 8).1 =
        MB25_SUCCESS ∧
      bytes_of (mb25_string_assign word_then_long 3 (mb25_get_data word_then_long 0) 8).2 3 =
        [120, 120, 120, 120, 120, 120, 120, 120] :=
  have hr : reach word_then_long :=
    reach.step _ (op.alloc_init 2 115)
      (reach.step _ (op.alloc_init 0 16)
        (reach.step _ (op.free 4)
          (reach.step _ (op.alloc 4 8)
            (reach.start (startup 10 demo_mem) 1000 256 (by decide) (by decide) (by decide))
            (by decide))
          (by decide))
        (by decide))
      (by decide)
  ⟨hr, by decide, by decide, by decide, by decide, by decide⟩

/-- C19, amended (input bytes that stay in place): in every state that satisfies the
pointer-level invariant `wf`, for input bytes that do not overlap the `len` bytes written at
`dst.data` when `dst` is writable with a non-null buffer, and that are a `stable_source`
otherwise (the allocation fits the free space and the bytes are apart from the region at the
cursor; or the pool windows have the supported topology and the bytes lie outside the pool
buffer): if `assign(dst, bytes, len)` returns Success then `dst` reads `bytes[0..len)`,
`dst.len = len`, `dst` is writable and not constant, and the input bytes are as they were; if
`dst` was writable with a non-null buffer its data pointer and the global record (cursor) are
unchanged; otherwise `dst.data` is a newly reserved region of `len` bytes: it ends at the new
cursor, lies within the pool, and the window of every other non-empty descriptor is apart
from it. -/
theorem assign_stores_bytes (st : State) (h : wf st) (dst data len : Nat)
    (hap : in_place st dst → regions_apart data len (str_at st dst).data len)
    (hsrc : ¬ in_place st dst → stable_source st data len)
    (hok : (mb25_string_assign st dst data len).1 = MB25_SUCCESS) :
    bytes_of (mb25_string_assign st dst data len).2 dst = read_bytes st.mem data len ∧
      (str_at (mb25_string_assign st dst data len).2 dst).len = len ∧
      (str_at (mb25_string_assign st dst data len).2 dst).writeable = true ∧
      (str_at (mb25_string_assign st dst data len).2 dst).is_const = false ∧
      read_bytes (mb25_string_assign st dst data len).2.mem data len =
        read_bytes st.mem data len ∧
      ((str_at st dst).writeable = true ∧ (str_at st dst).data ≠ 0 →
        (str_at (mb25_string_assign st dst data len).2 dst).data = (str_at st dst).data ∧
        (mb25_string_assign st dst data len).2.mb25_global = st.mb25_global) ∧
      (¬ ((str_at st dst).writeable = true ∧ (str_at st dst).data ≠ 0) →
        (str_at (mb25_string_assign st dst data len).2 dst).data + len =
          (mb25_string_assign st dst data len).2.mb25_global.pool +
            (mb25_string_assign st dst data len).2.mb25_global.allocator ∧
        (mb25_string_assign st dst data len).2.mb25_global.pool ≤
          (str_at (mb25_string_assign st dst data len).2 dst).data ∧
        (mb25_string_assign st dst data len).2.mb25_global.allocator ≤
          (mb25_string_assign st dst data len).2.mb25_global.pool_size ∧
        ∀ j, j ≠ dst → 0 < (str_at (mb25_string_assign st dst data len).2 j).len →
          (str_at (mb25_string_assign st dst data len).2 j).data +
              (str_at (mb25_string_assign st dst data len).2 j).len ≤
            (str_at (mb25_string_assign st dst data len).2 dst).data ∨
          (str_at (mb25_string_assign st dst data len).2 dst).data + len ≤
            (str_at (mb25_string_assign st dst data len).2 j).data) := by
  obtain ⟨k1, k2, k3, k4, k5, k6⟩ := assign_reads st h dst data len hsrc hok
  exact ⟨k1, k2, k3, k4, assign_source_intact st h dst data len hap hsrc hok, k5, k6⟩

/-- C19, witness: the idiom of `test_writeable_optimization`: after `alloc(0, 100)` the call
`assign(0, "XY", 2)` writes in place; slot 0 reads `XY` and keeps its data pointer. -/
theorem assign_stores_bytes_witness :
    in_place reserved_region 0 ∧
      (mb25_string_assign reserved_region 0 7 2).1 = MB25_SUCCESS ∧
      bytes_of (mb25_string_assign reserved_region 0 7 2).2 0 = [88, 89] ∧
      (str_at (mb25_string_assign reserved_region 0 7 2).2 0).data =
        (str_at reserved_region 0).data :=
  have hr : reach reserved_region :=
    reach.step _ (op.alloc 0 100)
      (reach.start (startup 10 demo_mem) 1000 256 (by decide) (by decide) (by decide))
      (by decide)
  have hw := assign_stores_bytes reserved_region (reach_wf reserved_region hr) 0 7 2
    (by decide) (by decide) (by decide)
  ⟨by decide, by decide, hw.1.trans (by decide), (hw.2.2.2.2.2.1 (by decide)).1⟩

/-- C20: for a valid id, `size ≤ 255`, a `uint16_t` capacity and `cursor + size ≤ capacity`:
`alloc(id, size)` returns Success without collecting (memory and the collection counter are
unchanged), sets `d.data` to the pool base plus the cursor before the call, advances the
cursor by exactly `size`, sets `is_const = 0`, `writeable = 1`, `len = 0`, increments the
`uint32_t` allocation counter by 1, and leaves every other descriptor unchanged. -/
theorem alloc_without_collection (st : State) (id size : Nat)
    (hi : id < st.mb25_strings.length) (hl : size ≤ 255)
    (hsz : st.mb25_global.pool_size < 65536)
    (hfit : st.mb25_global.allocator + size ≤ st.mb25_global.pool_size) :
    (mb25_string_alloc st id size).1 = MB25_SUCCESS ∧
      (mb25_string_alloc st id size).2.mem = st.mem ∧
      (mb25_string_alloc st id size).2.mb25_global =
        { st.mb25_global with
          allocator := st.mb25_global.allocator + size
          total_allocs := (st.mb25_global.total_allocs + 1) % 4294967296
          max_used := if st.mb25_global.allocator + size > st.mb25_global.max_used
            then st.mb25_global.allocator + size else st.mb25_global.max_used } ∧
      str_at (mb25_string_alloc st id size).2 id =
        { str_at st id with
          is_const := false, writeable := true, len := 0,
          data := st.mb25_global.pool + st.mb25_global.allocator } ∧
      ∀ j, j ≠ id → str_at (mb25_string_alloc st id size).2 j = str_at st j :=
  alloc_fits_state st id size hi hl hsz hfit

/-- C20, witness: `alloc(1, 5)` after `alloc_init(0, "ABCDEFGH")`: the cursor goes from 8 to
13 and slot 1 points at `pool + 8`. -/
theorem alloc_without_collection_witness :
    1 < one_string.mb25_strings.length ∧
      (mb25_string_alloc one_string 1 5).1 = MB25_SUCCESS ∧
      (str_at (mb25_string_alloc one_string 1 5).2 1).data = 1008 ∧
      (mb25_string_alloc one_string 1 5).2.mb25_global.allocator = 13 :=
  have hw := alloc_without_collection one_string 1 5 (by decide) (by decide) (by decide)
    (by decide)
  ⟨by decide, hw.1, (congrArg mb25_string_t.data hw.2.2.2.1).trans (by decide),
    (congrArg mb25_globals_t.allocator hw.2.2.1).trans (by decide)⟩

/-- C21, counterexample: in `three_views` (three views of 253 bytes at offsets 0, 1 and 2 of a
freed 255-byte string; cursor 255 of 256) one byte is free, and the collection moves the cursor
to 759, past the capacity, so `capacity - cursor < 10` holds before and after the collection;
yet `alloc(5, 10)` returns Success, with ten bytes at `pool + 759`, beyond the pool buffer: the
`uint16_t` difference `pool_size - allocator` wraps to 65033. -/
theorem alloc_succeeds_past_capacity :
    5 < three_views.mb25_strings.length ∧
      three_views.mb25_global.pool_size = 256 ∧
      three_views.mb25_global.allocator = 255 ∧
      (mb25_garbage_collect three_views).mb25_global.pool_size = 256 ∧
      (mb25_garbage_collect three_views).mb25_global.allocator = 759 ∧
      mb25_get_free_space (mb25_garbage_collect three_views) = 65033 ∧
      (mb25_string_alloc three_views 5 10).1 = MB25_SUCCESS ∧
      (str_at (mb25_string_alloc three_views 5 10).2 5).data = 1000 + 759 := by
  decide

/-- C21: for a valid id, `size ≤ 255`, a `uint16_t` capacity, and the cursor within the
capacity both at the call and after one `mb25_garbage_collect()` on the call's state:
`alloc(id, size)` returns OutOfMemory if and only if `capacity - cursor < size` holds both in
the initial state and after that collection, and returns Success in every other case (so it
succeeds when the collection leaves at least `size` bytes free). -/
theorem alloc_retries_after_collection (st : State) (id size : Nat)
    (hi : id < st.mb25_strings.length) (hl : size ≤ 255)
    (hsz : st.mb25_global.pool_size < 65536)
    (hc : st.mb25_global.allocator ≤ st.mb25_global.pool_size)
    (hg : (mb25_garbage_collect st).mb25_global.allocator ≤ st.mb25_global.pool_size) :
    ((mb25_string_alloc st id size).1 = MB25_ERR_OUT_OF_MEMORY ↔
        st.mb25_global.pool_size - st.mb25_global.allocator < size ∧
          st.mb25_global.pool_size - (mb25_garbage_collect st).mb25_global.allocator < size) ∧
      ((mb25_string_alloc st id size).1 = MB25_SUCCESS ↔
        ¬ (st.mb25_global.pool_size - st.mb25_global.allocator < size ∧
          st.mb25_global.pool_size - (mb25_garbage_collect st).mb25_global.allocator < size)) := by
  have h := alloc_result st id size hi hl
  have e1 : mb25_get_free_space st = st.mb25_global.pool_size - st.mb25_global.allocator := by
    unfold mb25_get_free_space; omega
  have e2 : mb25_get_free_space (mb25_garbage_collect st) =
      st.mb25_global.pool_size - (mb25_garbage_collect st).mb25_global.allocator := by
    unfold mb25_get_free_space; rw [gc_pool_size]; omega
  rw [e1, e2] at h
  exact h

/-- C21, witness: in `full_pool_view` the pool is full (cursor 256 of 256) and a collection
brings the cursor back to 16, so `alloc(5, 100)` succeeds after collecting. -/
theorem alloc_retries_after_collection_witness :
    supported full_pool_view ∧
      full_pool_view.mb25_global.pool_size - full_pool_view.mb25_global.allocator < 100 ∧
      (mb25_string_alloc full_pool_view 5 100).1 = MB25_SUCCESS :=
  ⟨by decide, by decide,
    (alloc_retries_after_collection full_pool_view 5 100 (by decide) (by decide) (by decide)
      (by decide) (by decide)).2.mpr (by decide)⟩

/-- C22, counterexample: `alloc_init(999, NULL)` with ten descriptors returns NullPointer, not
InvalidId: `mb25_string_alloc_init` tests the pointer (and the length) before the id reaches
`mb25_string_alloc`. -/
theorem alloc_init_null_before_id :
    ¬ 999 < demo_init.mb25_strings.length ∧
      (mb25_string_alloc_init demo_init 999 0).1 = MB25_ERR_NULL_POINTER := by
  decide

/-- C22: with an id `i ≥ N` among its id arguments, whatever the other arguments, each of
`alloc_const`, `alloc`, `copy`, `assign`, `set_from_buf`, `concat`, `left`, `right`, `mid`,
`mid_assign` returns InvalidId and leaves the state unchanged; `alloc_init` leaves the state
unchanged and returns NullPointer for a null pointer, StringTooLong for a string of more than
255 bytes, and InvalidId otherwise. -/
theorem invalid_id_rejected (st : State) (i : Nat) (hi : st.mb25_strings.length ≤ i)
    (j k p n n2 : Nat) :
    mb25_string_alloc_const st i p = (MB25_ERR_INVALID_STR_ID, st) ∧
      mb25_string_alloc st i n = (MB25_ERR_INVALID_STR_ID, st) ∧
      mb25_string_alloc_init st i p =
        (if p = 0 then MB25_ERR_NULL_POINTER
          else if strlen st.mem p > 255 then MB25_ERR_STRING_TOO_LONG
          else MB25_ERR_INVALID_STR_ID, st) ∧
      mb25_string_copy st i j = (MB25_ERR_INVALID_STR_ID, st) ∧
      mb25_string_copy st j i = (MB25_ERR_INVALID_STR_ID, st) ∧
      mb25_string_assign st i p n = (MB25_ERR_INVALID_STR_ID, st) ∧
      mb25_string_set_from_buf st i p n = (MB25_ERR_INVALID_STR_ID, st) ∧
      mb25_string_concat st i j k = (MB25_ERR_INVALID_STR_ID, st) ∧
      mb25_string_concat st j i k = (MB25_ERR_INVALID_STR_ID, st) ∧
      mb25_string_concat st j k i = (MB25_ERR_INVALID_STR_ID, st) ∧
      mb25_string_left st i j n = (MB25_ERR_INVALID_STR_ID, st) ∧
      mb25_string_left st j i n = (MB25_ERR_INVALID_STR_ID, st) ∧
      mb25_string_right st i j n = (MB25_ERR_INVALID_STR_ID, st) ∧
      mb25_string_right st j i n = (MB25_ERR_INVALID_STR_ID, st) ∧
      mb25_string_mid st i j n n2 = (MB25_ERR_INVALID_STR_ID, st) ∧
      mb25_string_mid st j i n n2 = (MB25_ERR_INVALID_STR_ID, st) ∧
      mb25_string_mid_assign st i n p n2 = (MB25_ERR_INVALID_STR_ID, st) := by
  have h : ¬ i < st.mb25_strings.length := by omega
  exact ⟨alloc_const_invalid st i p h, alloc_invalid st i n h, alloc_init_invalid st i p h,
    copy_invalid st i j (Or.inl h), copy_invalid st j i (Or.inr h), assign_invalid st i p n h,
    set_from_buf_invalid st i p n h, concat_invalid st i j k (Or.inl h),
    concat_invalid st j i k (Or.inr (Or.inl h)), concat_invalid st j k i (Or.inr (Or.inr h)),
    left_invalid st i j n (Or.inl h), left_invalid st j i n (Or.inr h),
    right_invalid st i j n (Or.inl h), right_invalid st j i n (Or.inr h),
    mid_invalid st i j n n2 (Or.inl h), mid_invalid st j i n n2 (Or.inr h),
    mid_assign_invalid st i n p n2 h⟩

/-- C22, witness: id 999 with ten descriptors, as in `test_error_conditions`; `alloc(999, 10)`
returns InvalidId and `alloc_init(999, "AB")` returns InvalidId. -/
theorem invalid_id_rejected_witness :
    demo_init.mb25_strings.length ≤ 999 ∧
      (mb25_string_alloc demo_init 999 10).1 = MB25_ERR_INVALID_STR_ID ∧
      (mb25_string_alloc_init demo_init 999 1).1 = MB25_ERR_INVALID_STR_ID :=
  have hw := invalid_id_rejected demo_init 999 (by decide) 0 1 1 10 0
  ⟨by decide, congrArg Prod.fst hw.2.1, (congrArg Prod.fst hw.2.2.1).trans (by decide)⟩

/-- C23: for valid ids `dst`, `a`, `b` (and `uint8_t` lengths), `concat(dst, a, b)` returns
StringTooLong if and only if `a.len + b.len > 255`. -/
theorem concat_too_long_iff (st : State) (dst a b : Nat) (hd : dst < st.mb25_strings.length)
    (ha : a < st.mb25_strings.length) (hb : b < st.mb25_strings.length)
    (la : (str_at st a).len ≤ 255) (lb : (str_at st b).len ≤ 255) :
    (mb25_string_concat st dst a b).1 = MB25_ERR_STRING_TOO_LONG ↔
      (str_at st a).len + (str_at st b).len > 255 :=
  concat_too_long st dst a b hd ha hb la lb

/-- C23, witness: in `three_views` slots 1 and 2 hold 253 bytes each, and `concat(4, 1, 2)`
returns StringTooLong. -/
theorem concat_too_long_iff_witness :
    (str_at three_views 1).len + (str_at three_views 2).len = 506 ∧
      (mb25_string_concat three_views 4 1 2).1 = MB25_ERR_STRING_TOO_LONG :=
  ⟨by decide,
    (concat_too_long_iff three_views 4 1 2 (by decide) (by decide) (by decide) (by decide)
      (by decide)).mpr (by decide)⟩

/-- C24: with any `memcmp` that conforms to the C standard, for valid ids `a`, `b` (a null
data pointer only with length 0): `compare(a, b)` is negative iff the bytes of `a` strictly
precede the bytes of `b` in the lexicographic order on unsigned bytes, zero iff `a` and `b`
read equal byte sequences, and positive iff the bytes of `b` strictly precede those of `a`;
in that order a proper prefix (the empty string in particular) precedes every longer string. -/
theorem compare_is_lexicographic (memcmp : (Nat → Nat) → Nat → Nat → Nat → Int)
    (hc : memcmp_conforms memcmp) (st : State) (a b : Nat)
    (ha : a < st.mb25_strings.length) (hb : b < st.mb25_strings.length)
    (na : (str_at st a).data = 0 → (str_at st a).len = 0)
    (nb : (str_at st b).data = 0 → (str_at st b).len = 0) :
    (mb25_string_compare memcmp st a b < 0 ↔
        lex_less (bytes_of st a) (bytes_of st b) = true) ∧
      (mb25_string_compare memcmp st a b = 0 ↔ bytes_of st a = bytes_of st b) ∧
      (0 < mb25_string_compare memcmp st a b ↔
        lex_less (bytes_of st b) (bytes_of st a) = true) ∧
      (∀ x y : List Nat, y ≠ [] → lex_less x (x ++ y) = true) ∧
      (∀ x y : List Nat, lex_less x y = true ↔ List.Lex (fun u v => u < v) x y) := by
  have hcases := compare_cases memcmp hc st a b ha hb na nb
  generalize mb25_string_compare memcmp st a b = c at hcases
  generalize bytes_of st a = x at hcases
  generalize bytes_of st b = y at hcases
  refine ⟨⟨?_, ?_⟩, ⟨?_, ?_⟩, ⟨?_, ?_⟩, lex_append, lex_less_iff⟩
  · intro h
    rcases hcases with ⟨_, h2⟩ | ⟨h1, _⟩ | ⟨h1, _⟩
    · exact h2
    · omega
    · omega
  · intro h
    rcases hcases with ⟨h1, _⟩ | ⟨_, h2⟩ | ⟨_, h2⟩
    · exact h1
    · rw [h2, lex_irrefl] at h; cases h
    · rw [lex_asymm y x h2] at h; cases h
  · intro h
    rcases hcases with ⟨h1, _⟩ | ⟨_, h2⟩ | ⟨h1, _⟩
    · omega
    · exact h2
    · omega
  · intro h
    rcases hcases with ⟨_, h2⟩ | ⟨h1, _⟩ | ⟨_, h2⟩
    · exact absurd h (lex_ne x y h2)
    · exact h1
    · exact absurd h.symm (lex_ne y x h2)
  · intro h
    rcases hcases with ⟨h1, _⟩ | ⟨h1, _⟩ | ⟨_, h2⟩
    · omega
    · omega
    · exact h2
  · intro h
    rcases hcases with ⟨_, h2⟩ | ⟨_, h2⟩ | ⟨h1, _⟩
    · rw [lex_asymm x y h2] at h; cases h
    · rw [h2, lex_irrefl] at h; cases h
    · exact h1

/-- C24, witness: with the byte-difference `memcmp`, `AB` compares below `CD`. -/
theorem compare_is_lexicographic_witness :
    bytes_of two_strings 0 = [65, 66] ∧ bytes_of two_strings 1 = [67, 68] ∧
      mb25_string_compare memcmp_diff two_strings 0 1 < 0 :=
  ⟨by decide, by decide,
    (compare_is_lexicographic memcmp_diff memcmp_diff_conforms two_strings 0 1 (by decide)
      (by decide) (by decide) (by decide)).1.mpr (by decide)⟩

/-- C25: `memcmp_diff` (the difference of the first differing bytes) conforms to the C
standard, and with it `compare(0, 1)` on `AB`, `CD` returns -2, which is none of -1, 0, +1:
the value of `memcmp` is returned as it is. -/
theorem compare_returns_memcmp_value :
    memcmp_conforms memcmp_diff ∧
      bytes_of two_strings 0 = [65, 66] ∧ bytes_of two_strings 1 = [67, 68] ∧
      mb25_string_compare memcmp_diff two_strings 0 1 = -2 :=
  ⟨memcmp_diff_conforms, by decide, by decide, by decide⟩

/-- C26: in every state reachable from a successful `mb25_init` by public operations, called
with any arguments, no descriptor has both `is_const` and `writeable` set. -/
theorem const_never_writable (st : State) (h : reachable st) :
    ∀ d ∈ st.mb25_strings, ¬ (d.is_const = true ∧ d.writeable = true) := by
  intro d hd hcw
  have hf := reachable_flags st h d hd hcw.1
  rw [hcw.2] at hf
  cases hf

/-- C26, witness: after `alloc_const(0, "AB"); alloc_init(0, "CD")` slot 0 was constant and
is writable now. -/
theorem const_never_writable_witness :
    reachable (mb25_string_alloc_init (mb25_string_alloc_const demo_init 0 1).2 0 4).2 ∧
      (str_at (mb25_string_alloc_const demo_init 0 1).2 0).is_const = true ∧
      (str_at (mb25_string_alloc_init (mb25_string_alloc_const demo_init 0 1).2 0 4).2
        0).writeable = true ∧
      ∀ d ∈ (mb25_string_alloc_init (mb25_string_alloc_const demo_init 0 1).2 0
          4).2.mb25_strings, ¬ (d.is_const = true ∧ d.writeable = true) :=
  have hr : reachable (mb25_string_alloc_init (mb25_string_alloc_const demo_init 0 1).2 0 4).2 :=
    reachable.step _ (op.alloc_init 0 4)
      (reachable.step _ (op.alloc_const 0 1)
        (reachable.start (startup 10 demo_mem) 1000 256 (by decide)))
  ⟨hr, by decide, by decide, const_never_writable _ hr⟩

/-- C27: for a valid id and a non-null C string `s` (bytes without NUL at `p`, NUL-terminated
when `|s| ≤ 255`): `alloc_const(id, p)` returns StringTooLong iff `|s| > 255`, and then
changes nothing; otherwise it returns Success, sets `is_const = 1`, `writeable = 0`,
`len = |s|` and `data = p` (the caller's bytes, no copy) in descriptor `id`, and leaves the
memory, the cursor and the counters, and every other descriptor unchanged. -/
theorem alloc_const_points_at_literal (st : State) (id p : Nat) (s : List Nat)
    (hi : id < st.mb25_strings.length) (hp : p ≠ 0) (hnz : ∀ b ∈ s, b ≠ 0)
    (hs1 : read_bytes st.mem p s.length = s)
    (hs2 : s.length ≤ 255 → st.mem (p + s.length) = 0) :
    ((mb25_string_alloc_const st id p).1 = MB25_ERR_STRING_TOO_LONG ↔ s.length > 255) ∧
      (s.length > 255 → (mb25_string_alloc_const st id p).2 = st) ∧
      (s.length ≤ 255 →
        (mb25_string_alloc_const st id p).1 = MB25_SUCCESS ∧
        str_at (mb25_string_alloc_const st id p).2 id =
          { str_at st id with is_const := true, writeable := false, len := s.length, data := p } ∧
        (∀ j, j ≠ id → str_at (mb25_string_alloc_const st id p).2 j = str_at st j) ∧
        (mb25_string_alloc_const st id p).2.mem = st.mem ∧
        (mb25_string_alloc_const st id p).2.mb25_global = st.mb25_global) :=
  alloc_const_spec st id p s hi hp hnz hs1 hs2

/-- C27, witness: `alloc_const(0, "XY")` after `alloc_init(0, "ABCDEFGH")`: Success, slot 0
points at the literal at address 7 with length 2, and the cursor stays at 8. -/
theorem alloc_const_points_at_literal_witness :
    read_bytes one_string.mem 7 2 = [88, 89] ∧
      (mb25_string_alloc_const one_string 0 7).1 = MB25_SUCCESS ∧
      (str_at (mb25_string_alloc_const one_string 0 7).2 0).data = 7 ∧
      (mb25_string_alloc_const one_string 0 7).2.mb25_global.allocator = 8 :=
  have hw := (alloc_const_points_at_literal one_string 0 7 [88, 89] (by decide) (by decide)
    (by decide) (by decide) (by decide)).2.2 (by decide)
  ⟨by decide, hw.1, (congrArg mb25_string_t.data hw.2.1).trans rfl,
    (congrArg mb25_globals_t.allocator hw.2.2.2.2).trans (by decide)⟩

/-- C28: `clear(id)` does what `free(id)` does; on a valid id `free(id)` leaves descriptor
`id` empty (`data = NULL`, `len = 0`, `is_const = 0`, `writeable = 0`) with its `str_id` kept,
and leaves every other descriptor, the number of descriptors, the memory, the cursor and the
counters unchanged; on an invalid id it changes nothing. -/
theorem free_empties_one_slot (st : State) (id : Nat) :
    mb25_string_clear st id = mb25_string_free st id ∧
      (id < st.mb25_strings.length →
        str_at (mb25_string_free st id) id =
          { str_at st id with is_const := false, writeable := false, len := 0, data := 0 } ∧
        (∀ j, j ≠ id → str_at (mb25_string_free st id) j = str_at st j) ∧
        (mb25_string_free st id).mb25_strings.length = st.mb25_strings.length ∧
        (mb25_string_free st id).mem = st.mem ∧
        (mb25_string_free st id).mb25_global = st.mb25_global) ∧
      (¬ id < st.mb25_strings.length → mb25_string_free st id = st) :=
  ⟨rfl, free_spec st id, fun h => (free_invalid st id h).1⟩

/-- C28, witness: `free(0)` after `alloc_init(0, "AB"); alloc_init(1, "CD")`: slot 0 is
empty, slot 1 still reads `CD`, the cursor stays at 4. -/
theorem free_empties_one_slot_witness :
    bytes_of two_strings 0 = [65, 66] ∧
      (str_at (mb25_string_free two_strings 0) 0).data = 0 ∧
      (str_at (mb25_string_free two_strings 0) 0).len = 0 ∧
      bytes_of (mb25_string_free two_strings 0) 1 = [67, 68] ∧
      (mb25_string_free two_strings 0).mb25_global.allocator = 4 :=
  have hw := (free_empties_one_slot two_strings 0).2.1 (by decide)
  ⟨by decide, (congrArg mb25_string_t.data hw.1).trans rfl,
    (congrArg mb25_string_t.len hw.1).trans rfl, by decide,
    (congrArg mb25_globals_t.allocator hw.2.2.2.2).trans (by decide)⟩

/-- C29: `mb25_init(pool, pool_size)` returns OutOfMemory if and only if `pool` is null or
`pool_size < 256`, and then leaves the state unchanged; otherwise it returns Success with
`pool` and `pool_size` stored, cursor 0 and all counters 0, the memory untouched, and (for a
table of at most 16384 descriptors, the range of the 14-bit `str_id`) every descriptor `i`
empty with `str_id = i`. -/
theorem init_binds_pool (st : State) (pool pool_size : Nat) :
    ((mb25_init st pool pool_size).1 = MB25_ERR_OUT_OF_MEMORY ↔ pool = 0 ∨ pool_size < 256) ∧
      (pool = 0 ∨ pool_size < 256 → (mb25_init st pool pool_size).2 = st) ∧
      (¬ (pool = 0 ∨ pool_size < 256) →
        (mb25_init st pool pool_size).1 = MB25_SUCCESS ∧
        (mb25_init st pool pool_size).2.mb25_global =
          { pool := pool, pool_size := pool_size, allocator := 0, total_allocs := 0,
            total_gcs := 0, max_used := 0 } ∧
        (mb25_init st pool pool_size).2.mem = st.mem ∧
        (mb25_init st pool pool_size).2.mb25_strings.length = st.mb25_strings.length ∧
        (st.mb25_strings.length ≤ 16384 → ∀ i, i < st.mb25_strings.length →
          str_at (mb25_init st pool pool_size).2 i =
            { str_id := i, is_const := false, writeable := false, len := 0, data := 0 })) :=
  init_spec st pool pool_size

/-- C29, witness: `mb25_init(1000, 256)` on `two_strings` succeeds, resets the cursor from 4
to 0 and empties slot 1; `mb25_init(1000, 255)` returns OutOfMemory. -/
theorem init_binds_pool_witness :
    two_strings.mb25_global.allocator = 4 ∧
      (mb25_init two_strings 1000 256).1 = MB25_SUCCESS ∧
      (mb25_init two_strings 1000 256).2.mb25_global.allocator = 0 ∧
      (str_at (mb25_init two_strings 1000 256).2 1).data = 0 ∧
      (mb25_init two_strings 1000 255).1 = MB25_ERR_OUT_OF_MEMORY :=
  have hw := (init_binds_pool two_strings 1000 256).2.2 (by decide)
  ⟨by decide, hw.1, (congrArg mb25_globals_t.allocator hw.2.1).trans rfl,
    (congrArg mb25_string_t.data (hw.2.2.2.2 (by decide) 1 (by decide))).trans rfl,
    (init_binds_pool two_strings 1000 255).1.mpr (by decide)⟩

/-- C30: for a buffer that is not null unless `width = 0`, there is exactly one `k ≤ width`
that is the largest index with `k = 0` or `buf[k - 1] ≠ 0x20`, and
`set_from_buf(dst, buf, width)` returns the result and the state of `assign(dst, buf, k)`;
in particular an all-space or zero-width buffer is assigned with `k = 0`. -/
theorem set_from_buf_trims_trailing_spaces (st : State) (dst buf width : Nat)
    (h : ¬ (buf = 0 ∧ width > 0)) :
    (∃ k, k ≤ width ∧ (k = 0 ∨ st.mem (buf + (k - 1)) ≠ 32) ∧
        ∀ j, j ≤ width → (j = 0 ∨ st.mem (buf + (j - 1)) ≠ 32) → j ≤ k) ∧
      (∀ k, k ≤ width → (k = 0 ∨ st.mem (buf + (k - 1)) ≠ 32) →
        (∀ j, j ≤ width → (j = 0 ∨ st.mem (buf + (j - 1)) ≠ 32) → j ≤ k) →
        mb25_string_set_from_buf st dst buf width = mb25_string_assign st dst buf k) ∧
      ((∀ j, j < width → st.mem (buf + j) = 32) →
        mb25_string_set_from_buf st dst buf width = mb25_string_assign st dst buf 0) := by
  obtain ⟨t1, t2, t3⟩ := trim_len_spec st.mem buf width
  have hmax : ∀ j, j ≤ width → (j = 0 ∨ st.mem (buf + (j - 1)) ≠ 32) →
      j ≤ trim_len st.mem buf width := by
    intro j hj hp
    by_contra hlt
    rcases hp with hp | hp
    · omega
    · exact hp (t3 (j - 1) (by omega) (by omega))
  refine ⟨⟨_, t1, t2, hmax⟩, ?_, ?_⟩
  · intro k hk hp hm
    have e : k = trim_len st.mem buf width :=
      Nat.le_antisymm (hmax k hk hp) (hm _ t1 t2)
    rw [e]
    exact set_from_buf_eq st dst buf width h
  · intro hall
    have e : trim_len st.mem buf width = 0 := by
      rcases t2 with t2 | t2
      · exact t2
      · by_contra hne
        exact t2 (hall _ (by omega))
    rw [set_from_buf_eq st dst buf width h, e]

/-- C30, witness: the five-byte field `"A B  "` at address 70 is assigned as the three bytes
`"A B"`: the trailing spaces go, the interior space stays. -/
theorem set_from_buf_trims_trailing_spaces_witness :
    read_bytes padded_field.mem 70 5 = [65, 32, 66, 32, 32] ∧
      mb25_string_set_from_buf padded_field 0 70 5 = mb25_string_assign padded_field 0 70 3 ∧
      bytes_of (mb25_string_set_from_buf padded_field 0 70 5).2 0 = [65, 32, 66] :=
  have hw := (set_from_buf_trims_trailing_spaces padded_field 0 70 5 (by decide)).2.1 3
    (by decide) (by decide) (by decide)
  ⟨by decide, hw, by decide⟩

/-- C31: after `alloc_init(0, "ABCDEFGH"); left(1, 0, 8)` (a state reachable from `init`) the
cursor is 8 and the two descriptors share the same 8 bytes; `mb25_get_fragmentation()` adds
both lengths, computes `8 - 16` in a `uint32_t` and returns 156, which is no percentage, and
`mb25_gc_needed()` answers true although nothing is garbage. -/
theorem fragmentation_above_hundred :
    reachable shared_view ∧
      shared_view.mb25_global.allocator = 8 ∧
      (str_at shared_view 0).data = (str_at shared_view 1).data ∧
      actual_used shared_view.mb25_global.pool shared_view.mb25_global.pool_size
        shared_view.mb25_strings 0 = 16 ∧
      mb25_get_fragmentation shared_view = 156 ∧
      mb25_gc_needed shared_view = true :=
  ⟨reachable.step _ (op.left 1 0 8)
      (reachable.step _ (op.alloc_init 0 16)
        (reachable.start (startup 10 demo_mem) 1000 256 (by decide))),
    by decide, by decide, by decide, by decide, by decide⟩

/-- C32: after `alloc_init(0, x^255); alloc_const(1, "AB")`, the call
`mb25_get_c_string_temp(0, 1)` asks `mb25_string_alloc(1, 256)`, which fails with
StringTooLong; the result is ignored, and the pointer returned is the old data pointer of
slot 1, the caller's literal at address 1 outside the pool, over which the 255 bytes of slot 0
and the terminator have been copied. -/
theorem c_string_temp_returns_old_pointer :
    (str_at long_and_literal 0).len = 255 ∧
      (str_at long_and_literal 1).data = 1 ∧
      (str_at long_and_literal 1).is_const = true ∧
      (mb25_string_alloc long_and_literal 1 256).1 = MB25_ERR_STRING_TOO_LONG ∧
      (mb25_get_c_string_temp long_and_literal 0 1).1 = 1 ∧
      1 < long_and_literal.mb25_global.pool ∧
      read_bytes long_and_literal.mem 1 2 = [65, 66] ∧
      read_bytes (mb25_get_c_string_temp long_and_literal 0 1).2.mem 1 2 = [120, 120] := by
  decide

/-- C33: in every state (the table and the pool size within their `uint16_t` fields, a
non-null pool pointer, the cursor within the capacity, descriptor `i` stored in `str_id`
order, the descriptors that are no pool strings outside the allocated part of the pool) in
which all pool windows lie within `[pool, pool + cursor)` and any two non-empty pool windows
are apart or one contains the other: after `garbage_collect()` every descriptor reads the
bytes it read before, and for non-empty pool strings `p`, `c` with the window of `c` inside
the window of `p` the offset `c.data - p.data` and the lengths are unchanged. -/
theorem gc_preserves_nested_sharing (st : State)
    (hlen : st.mb25_strings.length < 65536) (hsize : st.mb25_global.pool_size < 65536)
    (hpool : st.mb25_global.pool ≠ 0)
    (hcur : st.mb25_global.allocator ≤ st.mb25_global.pool_size)
    (hids : st.mb25_strings.Pairwise (fun a b => a.str_id < b.str_id))
    (hout : apart_from_pool st)
    (hwin : ∀ d ∈ st.mb25_strings,
      in_pool st.mb25_global.pool st.mb25_global.pool_size d = true →
      d.data + d.len ≤ st.mb25_global.pool + st.mb25_global.allocator)
    (hnest : nested_windows st.mb25_global.pool st.mb25_global.pool_size st.mb25_strings) :
    (∀ id, bytes_of (mb25_garbage_collect st) id = bytes_of st id) ∧
      ∀ p c, in_pool st.mb25_global.pool st.mb25_global.pool_size (str_at st p) = true →
        in_pool st.mb25_global.pool st.mb25_global.pool_size (str_at st c) = true →
        0 < (str_at st p).len → 0 < (str_at st c).len →
        window_inside (str_at st c) (str_at st p) →
        (str_at (mb25_garbage_collect st) p).data ≤ (str_at (mb25_garbage_collect st) c).data ∧
          (str_at (mb25_garbage_collect st) c).data - (str_at (mb25_garbage_collect st) p).data =
            (str_at st c).data - (str_at st p).data ∧
          (str_at (mb25_garbage_collect st) c).len = (str_at st c).len ∧
          (str_at (mb25_garbage_collect st) p).len = (str_at st p).len := by
  have hsup : supported st :=
    ⟨hlen, hsize, hpool, hcur, hwin, nested_gc_safe _ _ _ hnest, hids⟩
  refine ⟨fun id => gc_bytes_supported st hsup hout id, ?_⟩
  intro p c hp hc _ _ hin
  obtain ⟨o1, o2, o3⟩ := gc_offset_supported st hsup p c hp hc hin.1
    (by have := hin.2; omega)
  refine ⟨o1, o2, o3, ?_⟩
  rw [str_at_gc st hsup, relocate_len]

/-- C33, witness: the program of `test_sharing_gc.c` (scenario 4 of the specification); the
`mid` view in slot 2 stays 4 bytes into the string of slot 0. -/
theorem gc_preserves_nested_sharing_witness :
    nested_windows sharing_state.mb25_global.pool sharing_state.mb25_global.pool_size
        sharing_state.mb25_strings ∧
      (str_at sharing_state 2).data - (str_at sharing_state 0).data = 4 ∧
      (str_at (mb25_garbage_collect sharing_state) 2).data -
        (str_at (mb25_garbage_collect sharing_state) 0).data = 4 ∧
      bytes_of (mb25_garbage_collect sharing_state) 2 = bytes_of sharing_state 2 :=
  have hw := gc_preserves_nested_sharing sharing_state (by decide) (by decide) (by decide)
    (by decide) (by decide) (by decide) (by decide) (by decide)
  ⟨by decide, by decide,
    ((hw.2 0 2 (by decide) (by decide) (by decide) (by decide) (by decide)).2.1).trans
      (by decide),
    hw.1 2⟩

/-- C34: in every state (the table and the pool size within their `uint16_t` fields, the
cursor within the capacity, descriptors stored in `str_id` order) in which the non-empty
windows of the non-null, non-constant descriptors lie within `[pool, pool + cursor)` and are
pairwise apart: after `garbage_collect()` the cursor is the sum of the lengths of the
non-null, non-constant descriptors, at most the old cursor; every such non-empty descriptor
keeps its length and starts at the pool base plus the lengths of those that started below it
(so they fill `[pool, pool + cursor)` without gaps in their old address order); and freeing a
pool string and collecting leaves the cursor lower than the old cursor by at least the length
of that string. -/
theorem gc_reclaims_all_garbage (st : State)
    (hlen : st.mb25_strings.length < 65536) (hsize : st.mb25_global.pool_size < 65536)
    (hcur : st.mb25_global.allocator ≤ st.mb25_global.pool_size)
    (hids : st.mb25_strings.Pairwise (fun a b => a.str_id < b.str_id))
    (hwin : ∀ d ∈ st.mb25_strings, d.data ≠ 0 → d.is_const = false → 0 < d.len →
      st.mb25_global.pool ≤ d.data ∧
        d.data + d.len ≤ st.mb25_global.pool + st.mb25_global.allocator)
    (hdisj : disjoint_windows st.mb25_strings) :
    (mb25_garbage_collect st).mb25_global.allocator = pool_bytes st.mb25_strings ∧
      (mb25_garbage_collect st).mb25_global.allocator ≤ st.mb25_global.allocator ∧
      (∀ i, (str_at st i).data ≠ 0 → (str_at st i).is_const = false → 0 < (str_at st i).len →
        (str_at (mb25_garbage_collect st) i).data =
          st.mb25_global.pool + pool_bytes_below st.mb25_strings (str_at st i).data ∧
        (str_at (mb25_garbage_collect st) i).len = (str_at st i).len) ∧
      (∀ id, id < st.mb25_strings.length → (str_at st id).data ≠ 0 →
        (str_at st id).is_const = false →
        (mb25_garbage_collect (mb25_string_free st id)).mb25_global.allocator +
          (str_at st id).len ≤ st.mb25_global.allocator) := by
  obtain ⟨k1, k2, k3⟩ := gc_disjoint st hlen hsize hcur hids hwin hdisj
  refine ⟨k1, by rw [k1]; exact k2, k3, ?_⟩
  intro id hid h1 h2
  exact (gc_after_free st hlen hsize hcur hids hwin hdisj id hid h1 h2).2

/-- C34, witness: after `alloc_init(0, "AB"); alloc_init(1, "CD")` the cursor is 4;
`free(0); garbage_collect()` leaves it at most 2. -/
theorem gc_reclaims_all_garbage_witness :
    disjoint_windows two_strings.mb25_strings ∧
      two_strings.mb25_global.allocator = 4 ∧ (str_at two_strings 0).len = 2 ∧
      (mb25_garbage_collect (mb25_string_free two_strings 0)).mb25_global.allocator + 2 ≤ 4 :=
  ⟨by decide, by decide, by decide,
    (gc_reclaims_all_garbage two_strings (by decide) (by decide) (by decide) (by decide)
      (by decide) (by decide)).2.2.2 0 (by decide) (by decide) (by decide)⟩

/-- C35: for every descriptor array (of fewer than 65536 entries, the range of the `uint16_t`
loop counters) `sort_by_data_ptr` leaves a permutation of the array in which no descriptor is
`data_ptr_less` than an earlier one: after a null descriptor come only null ones, after a
constant one only constant or null ones, and of two non-null, non-constant ones the earlier
has the lower data address or, at the same address, a length at least as large.  Both loops
of the sort leave by their exit tests: a larger iteration budget gives the same result. -/
theorem address_sort_correct (arr : List mb25_string_t) (hlen : arr.length < 65536) :
    (sort_by_data_ptr arr).Perm arr ∧
      sorted_by data_ptr_less (sort_by_data_ptr arr) ∧
      (sort_by_data_ptr arr).Pairwise (fun a b =>
        (a.data = 0 → b.data = 0) ∧
        (a.data ≠ 0 → a.is_const = true → b.data = 0 ∨ b.is_const = true) ∧
        (a.data ≠ 0 → a.is_const = false → b.data ≠ 0 → b.is_const = false →
          a.data < b.data ∨ (a.data = b.data ∧ b.len ≤ a.len))) ∧
      (∀ extra, gap_loop data_ptr_less arr.length (arr.length + extra) (arr.length / 2) arr =
        sort_by_data_ptr arr) ∧
      (∀ gap temp i extra a, 0 < gap →
        shift_loop data_ptr_less gap temp (i + extra) i a =
          shift_loop data_ptr_less gap temp i i a) := by
  have hs := shell_sort_sorted data_ptr_less data_ptr_less_weak_order arr hlen
  refine ⟨shell_sort_perm data_ptr_less arr, hs, ?_, ?_, ?_⟩
  · unfold sorted_by at hs
    exact hs.imp (fun h => data_ptr_order _ _ h)
  · intro extra
    unfold sort_by_data_ptr shell_sort
    dsimp only
    rw [Nat.mod_eq_of_lt hlen]
    apply gap_loop_fuel
    by_cases h0 : arr.length = 0
    · left; rw [h0]
    · right; exact Nat.div_lt_self (Nat.pos_of_ne_zero h0) (by decide)
  · intro gap temp i extra a hg
    exact shift_loop_fuel data_ptr_less gap temp hg i i extra a (Nat.le_refl _)

/-- C35, witness: the ten descriptors of `sharing_state`: the string of slot 0 and its views
first (slot 0 before slot 1 at the same address), the other pool strings next, the empty
slots last. -/
theorem address_sort_correct_witness :
    sharing_state.mb25_strings.length = 10 ∧
      (sort_by_data_ptr sharing_state.mb25_strings).map (fun d => d.str_id) =
        [0, 1, 2, 3, 4, 6, 5, 7, 8, 9] ∧
      (sort_by_data_ptr sharing_state.mb25_strings).Perm sharing_state.mb25_strings :=
  ⟨by decide, by decide, (address_sort_correct sharing_state.mb25_strings (by decide)).1⟩

/-- C36: in a state with the cursor within a `uint16_t` capacity, every non-null,
non-constant window within `[pool, pool + cursor)` and every constant window outside the pool
buffer, `alloc(id, size)` with a valid id, `size ≤ 255` and `size` bytes free succeeds without
collecting; the region `[d.data, d.data + size)` lies in the pool buffer, the window of every
other non-null descriptor is apart from it, the cursor stays within the capacity and every
non-null, non-constant window lies within `[pool, pool + cursor)` again. -/
theorem alloc_region_is_fresh (st : State) (id size : Nat) (hi : id < st.mb25_strings.length)
    (hl : size ≤ 255) (hsz : st.mb25_global.pool_size < 65536)
    (hcur : st.mb25_global.allocator ≤ st.mb25_global.pool_size)
    (hwin : ∀ d ∈ st.mb25_strings, d.data ≠ 0 → d.is_const = false →
      st.mb25_global.pool ≤ d.data ∧
        d.data + d.len ≤ st.mb25_global.pool + st.mb25_global.allocator)
    (hconst : ∀ d ∈ st.mb25_strings, d.is_const = true →
      d.data + d.len ≤ st.mb25_global.pool ∨
        st.mb25_global.pool + st.mb25_global.pool_size ≤ d.data)
    (hfit : size ≤ st.mb25_global.pool_size - st.mb25_global.allocator) :
    (mb25_string_alloc st id size).1 = MB25_SUCCESS ∧
      (mb25_string_alloc st id size).2.mb25_global.total_gcs = st.mb25_global.total_gcs ∧
      (mb25_string_alloc st id size).2.mb25_global.pool ≤
        (str_at (mb25_string_alloc st id size).2 id).data ∧
      (str_at (mb25_string_alloc st id size).2 id).data + size ≤
        (mb25_string_alloc st id size).2.mb25_global.pool +
          (mb25_string_alloc st id size).2.mb25_global.pool_size ∧
      (∀ j, j ≠ id → (str_at (mb25_string_alloc st id size).2 j).data ≠ 0 →
        (str_at (mb25_string_alloc st id size).2 j).data +
            (str_at (mb25_string_alloc st id size).2 j).len ≤
          (str_at (mb25_string_alloc st id size).2 id).data ∨
        (str_at (mb25_string_alloc st id size).2 id).data + size ≤
          (str_at (mb25_string_alloc st id size).2 j).data) ∧
      (mb25_string_alloc st id size).2.mb25_global.allocator ≤
        (mb25_string_alloc st id size).2.mb25_global.pool_size ∧
      (∀ j, (str_at (mb25_string_alloc st id size).2 j).data ≠ 0 →
        (str_at (mb25_string_alloc st id size).2 j).is_const = false →
        (mb25_string_alloc st id size).2.mb25_global.pool ≤
            (str_at (mb25_string_alloc st id size).2 j).data ∧
          (str_at (mb25_string_alloc st id size).2 j).data +
              (str_at (mb25_string_alloc st id size).2 j).len ≤
            (mb25_string_alloc st id size).2.mb25_global.pool +
              (mb25_string_alloc st id size).2.mb25_global.allocator) := by
  apply alloc_fresh_region st id size hi hl hsz hcur _ _ hfit
  · intro j hnz hc
    by_cases hj : j < st.mb25_strings.length
    · exact hwin _ (str_at_mem st j hj) hnz hc
    · rw [str_at_default st j hj] at hnz
      exact absurd rfl hnz
  · intro j hc
    by_cases hj : j < st.mb25_strings.length
    · exact hconst _ (str_at_mem st j hj) hc
    · rw [str_at_default st j hj] at hc
      cases hc

/-- C36, witness: `alloc(2, 5)` after `alloc_init(0, "AB"); alloc_init(1, "CD")`: the region
starts at `pool + 4`, where the window of slot 1 ends. -/
theorem alloc_region_is_fresh_witness :
    (str_at two_strings 1).data + (str_at two_strings 1).len = 1004 ∧
      (mb25_string_alloc two_strings 2 5).1 = MB25_SUCCESS ∧
      (str_at (mb25_string_alloc two_strings 2 5).2 2).data = 1004 ∧
      ((str_at (mb25_string_alloc two_strings 2 5).2 1).data +
          (str_at (mb25_string_alloc two_strings 2 5).2 1).len ≤
        (str_at (mb25_string_alloc two_strings 2 5).2 2).data ∨
      (str_at (mb25_string_alloc two_strings 2 5).2 2).data + 5 ≤
        (str_at (mb25_string_alloc two_strings 2 5).2 1).data) :=
  have hw := alloc_region_is_fresh two_strings 2 5 (by decide) (by decide) (by decide)
    (by decide) (by decide) (by decide) (by decide)
  ⟨by decide, hw.1, by decide, hw.2.2.2.2.1 1 (by decide) (by decide)⟩

/-- C37, counterexample, at two inputs.  `three_views` is reachable from `init`
(`alloc_init(0, x^255)`, `left(1, 0, 253)`, `mid(2, 0, 2, 253)`, `right(3, 0, 253)`,
`free(0)`); its cursor is 255 and `garbage_collect()` raises it to 759.  `grown_past_cursor`
is reachable by `alloc_init(0, "A"); assign(0, "ABCDEFGH", 8)`: the window of slot 0 ends
after the cursor, which is 1, and `garbage_collect()` raises it to 8. -/
theorem gc_raises_cursor :
    reachable three_views ∧ three_views.mb25_global.allocator = 255 ∧
      (mb25_garbage_collect three_views).mb25_global.allocator = 759 ∧
      reachable grown_past_cursor ∧ grown_past_cursor.mb25_global.allocator = 1 ∧
      (mb25_garbage_collect grown_past_cursor).mb25_global.allocator = 8 :=
  ⟨reachable.step _ (op.free 0)
      (reachable.step _ (op.right 3 0 253)
        (reachable.step _ (op.mid 2 0 2 253)
          (reachable.step _ (op.left 1 0 253)
            (reachable.step _ (op.alloc_init 0 100)
              (reachable.start (startup 10 demo_mem) 1000 256 (by decide)))))),
    by decide, by decide,
    reachable.step _ (op.assign 0 16 8)
      (reachable.step _ (op.alloc_init 0 10)
        (reachable.start (startup 10 demo_mem) 1000 256 (by decide))),
    by decide, by decide⟩

/-- C37, amended (compaction never grows the pool, on supported states): in every `supported`
state (sizes within their `uint16_t` fields, cursor within the capacity, every pool string
inside the allocated part of the pool, pool windows in the supported topology, descriptors in
`str_id` order) the cursor after `garbage_collect()` is at most the cursor before it. -/
theorem gc_never_raises_cursor (st : State) (h : supported st) :
    (mb25_garbage_collect st).mb25_global.allocator ≤ st.mb25_global.allocator :=
  gc_cursor_le st h

/-- C37, witness: after `alloc_init(0, "AB"); alloc_init(1, ""); free(0)` the cursor is 2 and
a collection brings it to 0. -/
theorem gc_never_raises_cursor_witness :
    supported empty_in_pool ∧ empty_in_pool.mb25_global.allocator = 2 ∧
      (mb25_garbage_collect empty_in_pool).mb25_global.allocator ≤ 2 :=
  ⟨by decide, by decide, gc_never_raises_cursor empty_in_pool (by decide)⟩

/-- C38: whenever one of `alloc_const`, `alloc`, `alloc_init`, `copy`, `assign`,
`set_from_buf`, `concat`, `left`, `right`, `mid`, `mid_assign`, `dup` returns InvalidId,
NullPointer or StringTooLong, the state it leaves (descriptor array, global record with cursor
and counters, memory) is the state before the call. -/
theorem validation_errors_atomic (st : State) :
    (∀ i p, validation_error (mb25_string_alloc_const st i p).1 →
        (mb25_string_alloc_const st i p).2 = st) ∧
      (∀ i n, validation_error (mb25_string_alloc st i n).1 →
        (mb25_string_alloc st i n).2 = st) ∧
      (∀ i p, validation_error (mb25_string_alloc_init st i p).1 →
        (mb25_string_alloc_init st i p).2 = st) ∧
      (∀ d s, validation_error (mb25_string_copy st d s).1 →
        (mb25_string_copy st d s).2 = st) ∧
      (∀ d p n, validation_error (mb25_string_assign st d p n).1 →
        (mb25_string_assign st d p n).2 = st) ∧
      (∀ d p w, validation_error (mb25_string_set_from_buf st d p w).1 →
        (mb25_string_set_from_buf st d p w).2 = st) ∧
      (∀ d a b, validation_error (mb25_string_concat st d a b).1 →
        (mb25_string_concat st d a b).2 = st) ∧
      (∀ d s n, validation_error (mb25_string_left st d s n).1 →
        (mb25_string_left st d s n).2 = st) ∧
      (∀ d s n, validation_error (mb25_string_right st d s n).1 →
        (mb25_string_right st d s n).2 = st) ∧
      (∀ d s a n, validation_error (mb25_string_mid st d s a n).1 →
        (mb25_string_mid st d s a n).2 = st) ∧
      (∀ d a p n, validation_error (mb25_string_mid_assign st d a p n).1 →
        (mb25_string_mid_assign st d a p n).2 = st) ∧
      (∀ d s, validation_error (mb25_string_dup st d s).1 →
        (mb25_string_dup st d s).2 = st) :=
  ⟨alloc_const_atomic st, alloc_atomic st, alloc_init_atomic st, copy_atomic st,
    assign_atomic st, set_from_buf_atomic st, concat_atomic st, left_atomic st,
    right_atomic st, mid_atomic st, mid_assign_atomic st, dup_atomic st⟩

/-- C38, witness: `concat(2, 1, 1)` on two views of 253 bytes returns StringTooLong and
leaves `three_views` as it was. -/
theorem validation_errors_atomic_witness :
    (mb25_string_concat three_views 2 1 1).1 = MB25_ERR_STRING_TOO_LONG ∧
      (mb25_string_concat three_views 2 1 1).2 = three_views :=
  ⟨by decide,
    (validation_errors_atomic three_views).2.2.2.2.2.2.1 2 1 1
      (Or.inr (Or.inr (by decide)))⟩

/-- C39: for every state, all ids `d`, `s` and every `n`, `left(d, s, n)` returns the result
code and the state of `mid(d, s, 1, n)`, and of `mid(d, s, 0, n)`. -/
theorem left_is_mid_from_start (st : State) (d s n : Nat) :
    mb25_string_left st d s n = mb25_string_mid st d s 1 n ∧
      mb25_string_left st d s n = mb25_string_mid st d s 0 n :=
  ⟨left_as_mid st d s n 1 (Nat.le_refl _), left_as_mid st d s n 0 (Nat.zero_le _)⟩

/-- C40: in every state reachable from a successful `init` by public operations, called with
any arguments, a descriptor with a null data pointer has `len = 0` and both flags clear;
equivalently a descriptor with `len > 0`, `is_const` set or `writeable` set has a non-null
data pointer. -/
theorem null_descriptor_is_empty (st : State) (h : reachable st) :
    (∀ d ∈ st.mb25_strings, d.data = 0 →
        d.len = 0 ∧ d.is_const = false ∧ d.writeable = false) ∧
      (∀ d ∈ st.mb25_strings, 0 < d.len ∨ d.is_const = true ∨ d.writeable = true →
        d.data ≠ 0) := by
  have hn := (reachable_null st h).2
  refine ⟨hn, ?_⟩
  intro d hd hc e
  obtain ⟨x1, x2, x3⟩ := hn d hd e
  rcases hc with c | c | c
  · omega
  · rw [x2] at c; cases c
  · rw [x3] at c; cases c

/-- C40, witness: after `alloc_init(0, "ABCDEFGH"); free(0)` slot 0 is null and empty. -/
theorem null_descriptor_is_empty_witness :
    reachable (mb25_string_free one_string 0) ∧
      (str_at (mb25_string_free one_string 0) 0).data = 0 ∧
      ∀ d ∈ (mb25_string_free one_string 0).mb25_strings, d.data = 0 →
        d.len = 0 ∧ d.is_const = false ∧ d.writeable = false :=
  have hr : reachable (mb25_string_free one_string 0) :=
    reachable.step _ (op.free 0)
      (reachable.step _ (op.alloc_init 0 16)
        (reachable.start (startup 10 demo_mem) 1000 256 (by decide)))
  ⟨hr, by decide, (null_descriptor_is_empty _ hr).1⟩

end MB25
